import Mathlib

/-!
# Craft chunk manager: a shallow embedding of `src/main.c`

The embedding follows `main.c` function by function.  Conventions:

* C `int` values are mathematical integers (`Int`), or `Nat` where the source
  value is non-negative by construction (`ABS`, counters, array indices).
* A C `float` value is the rational it denotes (`ℚ`); `roundf` rounds half
  away from zero and `floorf` is the mathematical floor, both exact on `float`
  values.  The conversion of an `int` to `float` (`int_to_float`) and the `float`
  arithmetic of `chunk_visible` and `collide` (`fmul`, `fadd`, `fsub`) round to
  binary32 (`f32`).  The stepping `x += vx / m` of `_hit_test` and the sums of
  `occlusion` are kept exact: the theorems about them are stated for inputs
  at which the rounding changes none of the cells or decisions they speak of.
* The array `g->chunks` with its counter `g->chunk_count` is the pair
  `chunks` (slots `0 .. chunk_count-1`, in array order) and `stale` (the slots
  from `chunk_count` upward that still hold old bytes; every slot beyond them
  holds the all-zero bytes of the static `model`).  `chunk_count` is
  `chunks.length`.
* Collaborators that live outside `main.c` (terrain generator, persistence,
  renderer, matrix helpers, configuration constants) are fields of `Env`; the
  theorems hold for every `Env`.
* A worker thread is one atomic step (`worker_run_step`) interleaved with the
  operations of the render thread.
-/

namespace Craft

/-! ## Constants of `main.c` -/

def MAX_CHUNKS : Nat := 8192
def WORKERS : Nat := 4
def WORKER_IDLE : Nat := 0
def WORKER_BUSY : Nat := 1
def WORKER_DONE : Nat := 2

/-- Modelled from the spec: `CHUNK_SIZE` is defined in `config.h`, which is not
part of the sources; the spec fixes `CHUNK_SIZE=32`. -/
def CHUNK_SIZE : Int := 32

/-! ## Data model -/

/-- Modelled from the spec: the Voxel Map of `map.h` (not part of the sources),
a sparse store of populated cells `(x, y, z, w)` with the allocation
parameters `dx dy dz mask` that `map_alloc` receives. -/
structure Map where
  dx : Int
  dy : Int
  dz : Int
  mask : Nat
  cells : List (Int × Int × Int × Int)
deriving DecidableEq, Repr

/-- The `size` field of a `Map`: the number of populated cells. -/
def Map.size (m : Map) : Nat := m.cells.length

/-- The call `map_alloc(map, dx, dy, dz, mask)`: an empty map. -/
def map_alloc (dx dy dz : Int) (mask : Nat) : Map :=
  { dx := dx, dy := dy, dz := dz, mask := mask, cells := [] }

/-- Modelled from the spec: an entry of the sign list of `sign.h` (not part of
the sources), "position + face + text". -/
structure Sign where
  x : Int
  y : Int
  z : Int
  face : Int
  text : String
deriving DecidableEq, Repr

/-- Modelled from the spec: the `SignList` of `sign.h` (not part of the sources),
the signs of one chunk in order. -/
abbrev SignList := List Sign

/-- A geometry buffer (`float *`). -/
abbrev Geometry := List ℚ

/-- The struct `Chunk`. -/
structure Chunk where
  map : Map
  lights : Map
  signs : SignList
  p : Int
  q : Int
  faces : Int
  sign_faces : Int
  dirty : Int
  miny : Int
  maxy : Int
  buffer : Nat
  sign_buffer : Nat
deriving DecidableEq, Repr

/-- The struct `WorkerItem`; the `3×3` pointer tables are lists of nine
optional maps, entry `[a][b]` at position `3 * a + b`, `none` for a null
pointer. -/
structure WorkerItem where
  p : Int
  q : Int
  load : Int
  block_maps : List (Option Map)
  light_maps : List (Option Map)
  miny : Int
  maxy : Int
  faces : Int
  data : Geometry
deriving DecidableEq, Repr

/-- The struct `Worker` without its thread, mutex and condition variable. -/
structure Worker where
  index : Nat
  state : Nat
  item : WorkerItem
deriving DecidableEq, Repr

/-- Modelled from the spec: the observer's `State`, whose declaration is in a
header that is not part of the sources; the fields are the members `main.c`
reads when it manages chunks (position `x y z`, view angles `rx ry`). -/
structure State where
  x : ℚ
  y : ℚ
  z : ℚ
  rx : ℚ
  ry : ℚ
deriving DecidableEq, Repr

/-- Modelled from the spec: the struct `Player` (declared in a header that is not
part of the sources), reduced to the `state` member the chunk manager reads. -/
structure Player where
  state : State
deriving DecidableEq, Repr

/-- The part of the struct `Model` that the chunk manager reads or writes. -/
structure Model where
  workers : List Worker
  chunks : List Chunk
  stale : List Chunk
  create_radius : Int
  delete_radius : Int
  players : List Player
  observe1 : Nat
  observe2 : Nat
  width : Int
  height : Int
  ortho : Int
  fov : ℚ
deriving DecidableEq, Repr

/-- The field `chunk_count`. -/
def Model.chunk_count (g : Model) : Nat := g.chunks.length

/-- Collaborators and configuration outside `main.c`. -/
structure Env where
  /-- The constant `SHOW_LIGHTS` of `config.h`. -/
  SHOW_LIGHTS : Bool
  /-- The constant `MAX_BLOCK_HEIGHT` of `config.h`. -/
  MAX_BLOCK_HEIGHT : Int
  /-- The call `create_world(p, q, map_set_func, map)`: the terrain written into `map`. -/
  create_world : Int → Int → Map → Map
  /-- The call `db_load_blocks(map, p, q)`. -/
  db_load_blocks : Map → Int → Int → Map
  /-- The call `db_load_lights(map, p, q)`. -/
  db_load_lights : Map → Int → Int → Map
  /-- The call `db_load_signs(signs, p, q)`. -/
  db_load_signs : SignList → Int → Int → SignList
  /-- The call `renderer_gen_faces(components, faces, data)`: the new buffer handle. -/
  renderer_gen_faces : Nat → Int → Geometry → Nat
  /-- The face count and data that `gen_sign_buffer` computes from a sign list. -/
  sign_mesh : SignList → Int × Geometry
  /-- The call `is_transparent(w)` of `item.h`. -/
  is_transparent : Int → Bool
  /-- The call `is_plant(w)` of `item.h`. -/
  is_plant : Int → Bool
  /-- The call `simplex2(x, y, octaves, persistence, lacunarity)` of `noise.h`. -/
  simplex2 : ℚ → ℚ → Int → ℚ → ℚ → ℚ
  /-- The floats that `make_cube(data, ao, light, left, right, top, bottom, front,
  back, x, y, z, n, w)` of `cube.h` writes at `data`. -/
  make_cube : List (List ℚ) → List (List ℚ) → List Int → Int → Int → Int → ℚ → Int → List ℚ
  /-- The floats that `make_plant(data, ao, light, px, py, pz, n, w, rotation)` of
  `cube.h` writes at `data`. -/
  make_plant : ℚ → ℚ → Int → Int → Int → ℚ → Int → ℚ → List ℚ
  /-- The call `is_obstacle(w)` of `item.h`. -/
  is_obstacle : Int → Bool
  /-- The call `cosf(x)` of the C library. -/
  cosf : ℚ → ℚ
  /-- The call `sinf(x)` of the C library. -/
  sinf : ℚ → ℚ
  /-- The macro `RADIANS(degrees)` of `util.h`. -/
  RADIANS : ℚ → ℚ
  /-- The planes `frustum_planes` derives from the matrix `set_matrix_3d` builds
  from `width height x y z rx ry fov ortho`; `planes i j` is `planes[i][j]`. -/
  frustum_planes : Int → Int → State → ℚ → Int → Nat → Nat → ℚ

/-- The all-zero `Map` of the zero-initialised static `model`. -/
def zeroMap : Map := { dx := 0, dy := 0, dz := 0, mask := 0, cells := [] }

/-- The all-zero `Chunk` of the zero-initialised static `model`. -/
def zeroChunk : Chunk :=
  { map := zeroMap, lights := zeroMap, signs := [], p := 0, q := 0, faces := 0,
    sign_faces := 0, dirty := 0, miny := 0, maxy := 0, buffer := 0, sign_buffer := 0 }

/-- The all-zero `Player` of the zero-initialised static `model`. -/
def zeroPlayer : Player := { state := { x := 0, y := 0, z := 0, rx := 0, ry := 0 } }

/-- The pointer `g->players + i`. -/
def Model.player (g : Model) (i : Nat) : Player := g.players.getD i zeroPlayer

/-- Apply `f` to slot `i` of an array prefix (no effect when `i` is out of range). -/
def modifyAt {α : Type} (f : α → α) (i : Nat) (l : List α) : List α :=
  match l[i]? with
  | some a => l.set i (f a)
  | none => l

/-- The loop bounds `for (d = lo; d <= hi; d++)`. -/
def irange (lo hi : Int) : List Int :=
  (List.range (hi - lo + 1).toNat).map (fun (k : Nat) => lo + (k : Int))

/-- The nested loops `for (dp = -r; dp <= r; dp++) for (dq = -r; dq <= r; dq++)`,
as the list of `(dp, dq)` in scan order. -/
def offsets (r : Int) : List (Int × Int) :=
  (irange (-r) r).flatMap (fun dp => (irange (-r) r).map (fun dq => (dp, dq)))

/-! ## Binary32 arithmetic

A `float` value is the rational it denotes.  An operation whose result is
stored in a `float` rounds to the nearest binary32 number, ties to the even
significand (`f32`); overflow to infinity does not occur at the magnitudes of
`main.c` and is not modelled. -/

/-- The floor of the binary logarithm of `n` by repeated halving, with a
counter; `0` for `n < 2`. -/
def log2_fuel : Nat → Nat → Nat
  | 0, _ => 0
  | f + 1, n => if n < 2 then 0 else log2_fuel f (n / 2) + 1

/-- The floor of the binary logarithm of `n` (`0` for `n = 0`); the counter `n`
is never exhausted. -/
def ilog2 (n : Nat) : Nat := log2_fuel n n

/-- The power `2 ^ e` for an integer exponent. -/
def pow2 (e : Int) : ℚ :=
  if 0 ≤ e then ((2 ^ e.toNat : Nat) : ℚ) else 1 / ((2 ^ (-e).toNat : Nat) : ℚ)

/-- The exponent `e` of the binary32 grid at `q`: the binary32 numbers with
magnitude from `2 ^ (e + 23)` to `2 ^ (e + 24)` are the multiples of `2 ^ e`
(`24` significant bits), and `e = -149` in the subnormal range.  The floor of
the binary logarithm of `|q|` is found from those of numerator and denominator. -/
def float_exp (q : ℚ) : Int :=
  let k : Int := (ilog2 q.num.natAbs : Int) - (ilog2 q.den : Int)
  let fl : Int := if pow2 k ≤ |q| then k else k - 1
  max (fl - 23) (-149)

/-- Rounding to the nearest integer, ties to the even one. -/
def round_even (x : ℚ) : Int :=
  if x - (⌊x⌋ : ℚ) < 1 / 2 then ⌊x⌋
  else if 1 / 2 < x - (⌊x⌋ : ℚ) then ⌊x⌋ + 1
  else if ⌊x⌋ % 2 = 0 then ⌊x⌋ else ⌊x⌋ + 1

/-- The multiple of the grid step `2 ^ float_exp q` nearest to `q`, ties to the
even multiple. -/
def f32_round (q : ℚ) : ℚ := (round_even (q / pow2 (float_exp q)) : ℚ) * pow2 (float_exp q)

/-- The binary32 number nearest to `q`, ties to even: the value that a store of
`q` into a `float` leaves.  An integer of magnitude at most `2 ^ 24` is a
binary32 number and is returned as it is; this is what `f32_round` gives for
it as well (`f32_eq_round`). -/
def f32 (q : ℚ) : ℚ := if q.den = 1 ∧ q.num.natAbs ≤ 2 ^ 24 then q else f32_round q

/-- The conversion of an `int` to `float`, exact up to magnitude `2 ^ 24`. -/
def int_to_float (n : Int) : ℚ := f32 (n : ℚ)

/-- The `float` product `a * b`. -/
def fmul (a b : ℚ) : ℚ := f32 (a * b)

/-- The `float` sum `a + b`. -/
def fadd (a b : ℚ) : ℚ := f32 (a + b)

/-- The `float` difference `a - b`. -/
def fsub (a b : ℚ) : ℚ := f32 (a - b)

/-- The rational `x` is a binary32 number: `m * 2 ^ k` with at most `24`
significant bits and `k >= -149`. -/
def is_float (x : ℚ) : Prop :=
  ∃ m k : Int, |m| ≤ 2 ^ 24 ∧ -149 ≤ k ∧ x = (m : ℚ) * (2 : ℚ) ^ k

/-! ## `chunked`, `find_chunk`, `chunk_distance` -/

/-- The function `roundf`: round to nearest, halves away from zero.  For `x = n / d` in
lowest terms the value `⌊|x| + 1/2⌋` is `(2 |n| + d) / (2 d)` in integer floor
division (`roundf_eq_floor` states the agreement). -/
def roundf (x : ℚ) : Int :=
  if 0 ≤ x.num then (2 * x.num + (x.den : Int)) / (2 * (x.den : Int))
  else - ((2 * (- x.num) + (x.den : Int)) / (2 * (x.den : Int)))

/-- The function `chunked(x) = floorf(roundf(x) / CHUNK_SIZE)`: the floor of an integer
divided by the positive `CHUNK_SIZE` is integer floor division
(`chunked_eq_floor` states the agreement). -/
def chunked (x : ℚ) : Int := roundf x / CHUNK_SIZE

/-- The function `find_chunk(p, q)` over the resident slots: the index of the first slot
whose coordinates are `(p, q)`, `none` for the null pointer. -/
def find_chunk (cs : List Chunk) (p q : Int) : Option Nat :=
  cs.findIdx? (fun c => decide (c.p = p) && decide (c.q = q))

/-- The coordinates `(p, q)` of the resident slots, in array order. -/
def coords (cs : List Chunk) : List (Int × Int) := cs.map (fun c => (c.p, c.q))

/-- The function `chunk_distance(chunk, p, q)`. -/
def chunk_distance (chunk : Chunk) (p q : Int) : Int :=
  let dp := |chunk.p - p|
  let dq := |chunk.q - q|
  max dp dq

/-! ## `delete_chunks` -/

/-- The inner loop of `delete_chunks` over the three observer states: the value
of `delete` for one chunk. -/
def delete_flag (states : List State) (delete_radius : Int) (chunk : Chunk) : Bool :=
  !(states.any (fun s =>
      decide (chunk_distance chunk (chunked s.x) (chunked s.z) < delete_radius)))

/-- The outer loop of `delete_chunks` from index `i` on; `cs` holds the slots
`0 .. count-1` and `stale` the slots from `count` upward.  A deleted slot is
overwritten with the last counted slot (`memcpy(chunk, other, ...)` with
`other = g->chunks + (--count)`), and the loop moves on to `i + 1`. -/
def delete_loop (states : List State) (delete_radius : Int) :
    Nat → Nat → List Chunk → List Chunk → List Chunk × List Chunk
  | 0, _, cs, stale => (cs, stale)
  | fuel + 1, i, cs, stale =>
    match cs[i]? with
    | none => (cs, stale)
    | some chunk =>
      if delete_flag states delete_radius chunk then
        let other := cs.getLastD chunk
        delete_loop states delete_radius fuel (i + 1) (cs.dropLast.set i other) (other :: stale)
      else
        delete_loop states delete_radius fuel (i + 1) cs stale

/-- The array `states` of `delete_chunks`: the states of `players[0]`,
`players[observe1]` and `players[observe2]`. -/
def observer_states (g : Model) : List State :=
  [(g.player 0).state, (g.player g.observe1).state, (g.player g.observe2).state]

/-- The function `delete_chunks()`: the loop runs from `i = 0` and makes at most
`chunk_count` passes, since `i` grows by one per pass and `count` never grows. -/
def delete_chunks (g : Model) : Model :=
  let r := delete_loop (observer_states g) g.delete_radius g.chunks.length 0 g.chunks g.stale
  { g with chunks := r.1, stale := r.2 }

/-! ## `chunk_visible` -/

/-- The variable `d` of `chunk_visible` for plane `i` and the corner `pt`:
`planes[i][0] * points[j][0] + planes[i][1] * points[j][1] +
planes[i][2] * points[j][2] + planes[i][3]` in `float` arithmetic, the `int`
corner coordinates converted as the initialiser of `points` does. -/
def plane_distance (planes : Nat → Nat → ℚ) (i : Nat) (pt : Int × Int × Int) : ℚ :=
  fadd
    (fadd
      (fadd (fmul (planes i 0) (int_to_float pt.1)) (fmul (planes i 1) (int_to_float pt.2.1)))
      (fmul (planes i 2) (int_to_float pt.2.2)))
    (planes i 3)

/-- The test `d < 0` of `chunk_visible` for plane `i` and the corner `pt`. -/
def plane_neg (planes : Nat → Nat → ℚ) (i : Nat) (pt : Int × Int × Int) : Bool :=
  decide (plane_distance planes i pt < 0)

/-- The inner loop of `chunk_visible` for plane `i`: the counters `(in, out)`
when the loop ends, either after the last point or at the `break` taken as
soon as both counters are non-zero. -/
def plane_count (planes : Nat → Nat → ℚ) (i : Nat) :
    List (Int × Int × Int) → Nat → Nat → Nat × Nat
  | [], inn, out => (inn, out)
  | pt :: rest, inn, out =>
    let inn1 := if plane_neg planes i pt then inn else inn + 1
    let out1 := if plane_neg planes i pt then out + 1 else out
    if inn1 ≠ 0 ∧ out1 ≠ 0 then (inn1, out1) else plane_count planes i rest inn1 out1

/-- The array `points` of `chunk_visible`: the eight corners of the chunk's box. -/
def chunk_points (p q miny maxy : Int) : List (Int × Int × Int) :=
  let x : Int := p * CHUNK_SIZE - 1
  let z : Int := q * CHUNK_SIZE - 1
  let d : Int := CHUNK_SIZE + 1
  [ (x + 0, miny, z + 0), (x + d, miny, z + 0), (x + 0, miny, z + d), (x + d, miny, z + d),
    (x + 0, maxy, z + 0), (x + d, maxy, z + 0), (x + 0, maxy, z + d), (x + d, maxy, z + d) ]

/-- The function `chunk_visible(planes, p, q, miny, maxy)` with `g->ortho` passed in. -/
def chunk_visible (ortho : Int) (planes : Nat → Nat → ℚ) (p q miny maxy : Int) : Int :=
  let n : Nat := if ortho ≠ 0 then 4 else 6
  if (List.range n).any
      (fun i => decide ((plane_count planes i (chunk_points p q miny maxy) 0 0).1 = 0))
  then 0 else 1

/-! ## Dirty propagation -/

/-- The pointer `other` of the `3×3` neighbourhood loops: the chunk itself for
`dp = dq = 0`, the result of `find_chunk` otherwise. -/
def neighbor (cs : List Chunk) (chunk : Chunk) (i : Nat) (d : Int × Int) : Option Nat :=
  if d.1 ≠ 0 ∨ d.2 ≠ 0 then find_chunk cs (chunk.p + d.1) (chunk.q + d.2) else some i

/-- The function `has_lights(chunk)` for the chunk in slot `i`. -/
def has_lights (env : Env) (cs : List Chunk) (i : Nat) : Bool :=
  if !env.SHOW_LIGHTS then false
  else
    match cs[i]? with
    | none => false
    | some chunk =>
      (offsets 1).any (fun d =>
        match (neighbor cs chunk i d).bind (fun j => cs[j]?) with
        | none => false
        | some other => decide (other.lights.size ≠ 0))

/-- The assignment `chunk->dirty = v`. -/
def set_dirty (v : Int) (c : Chunk) : Chunk := { c with dirty := v }

/-- The function `dirty_chunk(chunk)` for the chunk in slot `i`. -/
def dirty_chunk (env : Env) (cs : List Chunk) (i : Nat) : List Chunk :=
  let cs1 := modifyAt (set_dirty 1) i cs
  if !has_lights env cs1 i then cs1
  else
    match cs1[i]? with
    | none => cs1
    | some chunk =>
      (offsets 1).foldl (fun acc d =>
        match find_chunk acc (chunk.p + d.1) (chunk.q + d.2) with
        | some j => modifyAt (set_dirty 1) j acc
        | none => acc) cs1

/-! ## Editing blocks: `set_block` -/

/-- Modelled from the spec: the test that a populated cell of a Voxel Map has
the key `(x, y, z)`. -/
def cell_at (x y z : Int) (c : Int × Int × Int × Int) : Bool :=
  decide (c.1 = x) && decide (c.2.1 = y) && decide (c.2.2.1 = z)

/-- Modelled from the spec: the call `map_get(map, x, y, z)` of `map.h` (not part
of the sources), "`get(x,y,z)->value`": the value stored for the key, `0` for a
key that is not populated. -/
def map_get (m : Map) (x y z : Int) : Int :=
  match m.cells.find? (cell_at x y z) with
  | some c => c.2.2.2
  | none => 0

/-- Modelled from the spec: the store of `w` for the key `(x, y, z)`, replacing
the value of a populated cell and adding a cell otherwise. -/
def map_put (x y z w : Int) : List (Int × Int × Int × Int) → List (Int × Int × Int × Int)
  | [] => [(x, y, z, w)]
  | c :: t => if cell_at x y z c then (x, y, z, w) :: t else c :: map_put x y z w t

/-- Modelled from the spec: the call `map_set(map, x, y, z, w)` of `map.h` (not
part of the sources), "`set(x,y,z,value)->changed:bool`": the map after the
call and the flag it returns, which reports whether the stored value changed. -/
def map_set (m : Map) (x y z w : Int) : Map × Bool :=
  if map_get m x y z = w then (m, false)
  else ({ m with cells := map_put x y z w m.cells }, true)

/-- Modelled from the spec: the call `sign_list_remove_all(list, x, y, z)` of
`sign.h` (not part of the sources): the list without the signs at `(x, y, z)`
and the number of signs removed. -/
def sign_list_remove_all (signs : SignList) (x y z : Int) : SignList × Nat :=
  (signs.filter (fun s => !(decide (s.x = x) && decide (s.y = y) && decide (s.z = z))),
   signs.countP (fun s => decide (s.x = x) && decide (s.y = y) && decide (s.z = z)))

/-- The body of `unset_sign` on the chunk found. -/
def unset_sign_slot (x y z : Int) (c : Chunk) : Chunk :=
  let r := sign_list_remove_all c.signs x y z
  if r.2 ≠ 0 then { c with signs := r.1, dirty := 1 } else { c with signs := r.1 }

/-- The function `unset_sign(x, y, z)`; the calls `db_delete_signs` do not touch
the chunk array. -/
def unset_sign (cs : List Chunk) (x y z : Int) : List Chunk :=
  match find_chunk cs (chunked (int_to_float x)) (chunked (int_to_float z)) with
  | some i => modifyAt (unset_sign_slot x y z) i cs
  | none => cs

/-- The assignment of the map that `map_set(&chunk->lights, ...)` leaves. -/
def put_light (x y z w : Int) (c : Chunk) : Chunk :=
  { c with lights := (map_set c.lights x y z w).1 }

/-- The function `set_light(p, q, x, y, z, w)`; the calls `db_insert_light` do
not touch the chunk array. -/
def set_light (env : Env) (cs : List Chunk) (p q x y z w : Int) : List Chunk :=
  match find_chunk cs p q with
  | some i =>
    match cs[i]? with
    | none => cs
    | some chunk =>
      if (map_set chunk.lights x y z w).2 then
        dirty_chunk env (modifyAt (put_light x y z w) i cs) i
      else modifyAt (put_light x y z w) i cs
  | none => cs

/-- The assignment of the map that `map_set(&chunk->map, ...)` leaves. -/
def put_block (x y z w : Int) (c : Chunk) : Chunk :=
  { c with map := (map_set c.map x y z w).1 }

/-- The first statement of `_set_block`: the write into the chunk found at
`(p, q)`; the calls `db_insert_block` do not touch the chunk array. -/
def write_block (env : Env) (cs : List Chunk) (p q x y z w dirty : Int) : List Chunk :=
  match find_chunk cs p q with
  | some i =>
    match cs[i]? with
    | none => cs
    | some chunk =>
      if (map_set chunk.map x y z w).2 then
        if dirty ≠ 0 then dirty_chunk env (modifyAt (put_block x y z w) i cs) i
        else modifyAt (put_block x y z w) i cs
      else modifyAt (put_block x y z w) i cs
  | none => cs

/-- The function `_set_block(p, q, x, y, z, w, dirty)`. -/
def _set_block (env : Env) (cs : List Chunk) (p q x y z w dirty : Int) : List Chunk :=
  let cs1 := write_block env cs p q x y z w dirty
  if w = 0 ∧ chunked (int_to_float x) = p ∧ chunked (int_to_float z) = q then
    set_light env (unset_sign cs1 x y z) p q x y z 0
  else cs1

/-- The test of the loop of `set_block` that the offset `(dx, dz)` reaches the
call of `_set_block`: none of the three `continue` statements is taken. -/
def shadow_offset (x z : Int) (d : Int × Int) : Bool :=
  if d.1 = 0 ∧ d.2 = 0 then false
  else if d.1 ≠ 0 ∧ chunked (int_to_float (x + d.1)) = chunked (int_to_float x) then false
  else if d.2 ≠ 0 ∧ chunked (int_to_float (z + d.2)) = chunked (int_to_float z) then false
  else true

/-- The body of the loop of `set_block` for the offset `(dx, dz)`. -/
def set_block_step (env : Env) (x y z w : Int) (cs : List Chunk) (d : Int × Int) :
    List Chunk :=
  if shadow_offset x z d then
    _set_block env cs (chunked (int_to_float x) + d.1) (chunked (int_to_float z) + d.2) x y z (-w) 1
  else cs

/-- The function `set_block(x, y, z, w)`; the call `client_block` does not touch
the chunk array. -/
def set_block (env : Env) (cs : List Chunk) (x y z w : Int) : List Chunk :=
  (offsets 1).foldl (set_block_step env x y z w)
    (_set_block env cs (chunked (int_to_float x)) (chunked (int_to_float z)) x y z w 1)

/-- The chunks that receive the call `_set_block(p + dx, q + dz, x, y, z, -w, 1)`
of `set_block`, in loop order. -/
def shadow_targets (x z : Int) : List (Int × Int) :=
  ((offsets 1).filter (shadow_offset x z)).map
    (fun d => (chunked (int_to_float x) + d.1, chunked (int_to_float z) + d.2))

/-- The step across the chunk boundary that the coordinate lies on: `-1` on the
first row or column of its chunk, `1` on the last, `0` inside. -/
def boundary_step (x : Int) : Int :=
  if x % CHUNK_SIZE = 0 then -1 else if x % CHUNK_SIZE = CHUNK_SIZE - 1 then 1 else 0

/-- The chunks around `(p, q)` at the offsets other than the centre that step
along the first axis by `0` or `bx` and along the second by `0` or `bz`, in loop
order. -/
def shadow_list (p q bx bz : Int) : List (Int × Int) :=
  ((offsets 1).filter (fun d =>
    decide (d ≠ (0, 0) ∧ (d.1 = 0 ∨ d.1 = bx) ∧ (d.2 = 0 ∨ d.2 = bz)))).map
    (fun d => (p + d.1, q + d.2))

/-- The `int` coordinates next to a power of two from `2 ^ 24` to `2 ^ 30`, where
`x - 1`, `x` and `x + 1` do not share one step of the binary32 grid. -/
def side_bounds : List Int :=
  [16777215, 16777216, -16777216, -16777215,
   33554431, 33554432, -33554432, -33554431,
   67108863, 67108864, -67108864, -67108863,
   134217727, 134217728, -134217728, -134217727,
   268435455, 268435456, -268435456, -268435455,
   536870911, 536870912, -536870912, -536870911,
   1073741823, 1073741824, -1073741824, -1073741823]

/-! ## The mesh compiler: `compute_chunk` -/

/-- The macro `XZ_SIZE`. -/
def XZ_SIZE : Int := CHUNK_SIZE * 3 + 2

/-- The macro `XZ_LO`. -/
def XZ_LO : Int := CHUNK_SIZE

/-- The macro `XZ_HI`. -/
def XZ_HI : Int := CHUNK_SIZE * 2 + 1

/-- The macro `Y_SIZE`. -/
def Y_SIZE (env : Env) : Int := env.MAX_BLOCK_HEIGHT + 2

/-- The macro `XYZ(x, y, z)`. -/
def XYZ (x y z : Int) : Int := y * XZ_SIZE * XZ_SIZE + x * XZ_SIZE + z

/-- The macro `XZ(x, z)`. -/
def XZ (x z : Int) : Int := x * XZ_SIZE + z

/-- An `int8_t` array as the function from the flat index to the stored value.
An index outside the allocation (undefined in C) reads what the function
holds there. -/
abbrev Grid := Int → Int

/-- A `calloc`ed array: every entry is zero. -/
def grid_zero : Grid := fun _ => 0

/-- The store `g[i] = v`. -/
def grid_set (g : Grid) (i v : Int) : Grid := fun j => if j = i then v else g j

/-- The conversion of an `int` to `int8_t` on a store: wrap into `-128 .. 127`. -/
def int8 (v : Int) : Int := (v + 128) % 256 - 128

/-- An entry `(ex, ey, ez, ew)` delivered by `MAP_FOR_EACH`. -/
abbrev Cell := Int × Int × Int × Int

/-- The nine pointers `table[a][b]`, `a, b < 3`, in loop order. -/
def table9 (t : List (Option Map)) : List (Option Map) :=
  (List.range 9).map (fun (k : Nat) => t.getD k none)

/-- The flag `has_light` of `compute_chunk`. -/
def has_light_flag (env : Env) (light_maps : List (Option Map)) : Bool :=
  env.SHOW_LIGHTS &&
    (table9 light_maps).any (fun om =>
      match om with
      | some m => decide (m.size ≠ 0)
      | none => false)

/-- The body of the loop that populates the opaque array, for one map entry;
the state is `(opaque, highest)`. -/
def populate_cell (env : Env) (ox oz : Int) (st : Grid × Grid) (c : Cell) : Grid × Grid :=
  let x := c.1 - ox
  let y := c.2.1 - (-1)
  let z := c.2.2.1 - oz
  let w := c.2.2.2
  if x < 0 ∨ y < 0 ∨ z < 0 then st
  else if x ≥ XZ_SIZE ∨ y ≥ Y_SIZE env ∨ z ≥ XZ_SIZE then st
  else
    let o : Int := if env.is_transparent w then 0 else 1
    let opaq := grid_set st.1 (XYZ x y z) o
    let highest :=
      if o ≠ 0 then grid_set st.2 (XZ x z) (int8 (max (st.2 (XZ x z)) y)) else st.2
    (opaq, highest)

/-- The loop over one block map (skipped for a null pointer). -/
def populate_map (env : Env) (ox oz : Int) (st : Grid × Grid) (om : Option Map) :
    Grid × Grid :=
  match om with
  | none => st
  | some m => m.cells.foldl (populate_cell env ox oz) st

/-- The arrays `(opaque, highest)` after the populate loops. -/
def populate (env : Env) (ox oz : Int) (block_maps : List (Option Map)) : Grid × Grid :=
  (table9 block_maps).foldl (populate_map env ox oz) (grid_zero, grid_zero)

/-- The function `light_fill(opaque, light, x, y, z, w, force)`; `ysize` is
`Y_SIZE`.  The recursion is on a counter: every call below the first has `w`
one less, and the first two tests return as soon as `w < -16`, so a counter of
`w + 18` is never exhausted. -/
def light_fill (opaq : Grid) (ysize : Int) :
    Nat → Grid → Int → Int → Int → Int → Int → Grid
  | 0, light, _, _, _, _, _ => light
  | fuel + 1, light, x, y, z, w, force =>
    if x + w < XZ_LO ∨ z + w < XZ_LO then light
    else if x - w > XZ_HI ∨ z - w > XZ_HI then light
    else if y < 0 ∨ y ≥ ysize then light
    else if light (XYZ x y z) ≥ w then light
    else if force = 0 ∧ opaq (XYZ x y z) ≠ 0 then light
    else
      let l0 := grid_set light (XYZ x y z) (int8 w)
      let l1 := light_fill opaq ysize fuel l0 (x - 1) y z (w - 1) 0
      let l2 := light_fill opaq ysize fuel l1 (x + 1) y z (w - 1) 0
      let l3 := light_fill opaq ysize fuel l2 x (y - 1) z (w - 1) 0
      let l4 := light_fill opaq ysize fuel l3 x (y + 1) z (w - 1) 0
      let l5 := light_fill opaq ysize fuel l4 x y (z - 1) (w - 1) 0
      light_fill opaq ysize fuel l5 x y (z + 1) (w - 1) 0

/-- The counter that `light_fill` needs for intensity `w`. -/
def fill_fuel (w : Int) : Nat := (w + 18).toNat

/-- The flood-fill loop over one light map (skipped for a null pointer). -/
def flood_map (env : Env) (opaq : Grid) (ox oz : Int) (light : Grid) (om : Option Map) :
    Grid :=
  match om with
  | none => light
  | some m =>
    m.cells.foldl (fun l c =>
      light_fill opaq (Y_SIZE env) (fill_fuel c.2.2.2) l
        (c.1 - ox) (c.2.1 - (-1)) (c.2.2.1 - oz) c.2.2.2 1) light

/-- The array `light` after the flood-fill loops (all zero without `has_light`). -/
def flood (env : Env) (opaq : Grid) (ox oz : Int) (light_maps : List (Option Map)) : Grid :=
  if has_light_flag env light_maps then
    (table9 light_maps).foldl (flood_map env opaq ox oz) grid_zero
  else grid_zero

/-- The C value of a condition: `1` when it holds, `0` otherwise. -/
def cbool (b : Bool) : Int := if b then 1 else 0

/-- The flags `[f1, f2, f3, f4, f5, f6]` of a cell at grid position `(x, y, z)`
and world height `ey`. -/
def face_flags (opaq : Grid) (x y z ey : Int) : List Int :=
  [ cbool (decide (opaq (XYZ (x - 1) y z) = 0)),
    cbool (decide (opaq (XYZ (x + 1) y z) = 0)),
    cbool (decide (opaq (XYZ x (y + 1) z) = 0)),
    cbool (decide (opaq (XYZ x (y - 1) z) = 0) && decide (ey > 0)),
    cbool (decide (opaq (XYZ x y (z - 1)) = 0)),
    cbool (decide (opaq (XYZ x y (z + 1)) = 0)) ]

/-- The value `total = f1 + f2 + f3 + f4 + f5 + f6` for a map entry. -/
def cell_total (opaq : Grid) (ox oz : Int) (c : Cell) : Int :=
  (face_flags opaq (c.1 - ox) (c.2.1 - (-1)) (c.2.2.1 - oz) c.2.1).sum

/-- The variables `miny`, `maxy`, `faces` of the count pass. -/
structure CountState where
  miny : Int
  maxy : Int
  faces : Int
deriving DecidableEq, Repr

/-- The number of faces that the count pass adds for one map entry: nothing for
`ew <= 0` or `total == 0`, else `4` for a plant and `total` otherwise. -/
def cell_faces (env : Env) (opaq : Grid) (ox oz : Int) (c : Cell) : Int :=
  if c.2.2.2 ≤ 0 then 0
  else if cell_total opaq ox oz c = 0 then 0
  else if env.is_plant c.2.2.2 then 4
  else cell_total opaq ox oz c

/-- The body of the count pass for one map entry. -/
def count_cell (env : Env) (opaq : Grid) (ox oz : Int) (st : CountState) (c : Cell) :
    CountState :=
  if c.2.2.2 ≤ 0 then st
  else
    let total := cell_total opaq ox oz c
    if total = 0 then st
    else
      let total := if env.is_plant c.2.2.2 then 4 else total
      { miny := min st.miny c.2.1, maxy := max st.maxy c.2.1, faces := st.faces + total }

/-- The `27` offsets `(dx, dy, dz)` of the neighbourhood loops, `dx` outermost. -/
def offsets3 : List (Int × Int × Int) :=
  (irange (-1) 1).flatMap (fun dx =>
    (irange (-1) 1).flatMap (fun dy => (irange (-1) 1).map (fun dz => (dx, dy, dz))))

/-- The value `shades[index]` for the grid cell `(x, y, z)`: `0` above the
highest opaque cell of the column, else `1 - oy * 0.125` for the first
`oy < 8` with an opaque cell `oy` above, `0` when there is none. -/
def shade_at (opaq highest : Grid) (x y z : Int) : ℚ :=
  if y ≤ highest (XZ x z) then
    match (List.range 8).find? (fun (oy : Nat) => decide (opaq (XYZ x (y + (oy : Int)) z) ≠ 0)) with
    | some oy => 1 - (oy : ℚ) * (1 / 8)
    | none => 0
  else 0

/-- The table `lookup3` of `occlusion`. -/
def lookup3 : List (List (List Nat)) :=
  [ [[0, 1, 3], [2, 1, 5], [6, 3, 7], [8, 5, 7]],
    [[18, 19, 21], [20, 19, 23], [24, 21, 25], [26, 23, 25]],
    [[6, 7, 15], [8, 7, 17], [24, 15, 25], [26, 17, 25]],
    [[0, 1, 9], [2, 1, 11], [18, 9, 19], [20, 11, 19]],
    [[0, 3, 9], [6, 3, 15], [18, 9, 21], [24, 15, 21]],
    [[2, 5, 11], [8, 5, 17], [20, 11, 23], [26, 17, 23]] ]

/-- The table `lookup4` of `occlusion`. -/
def lookup4 : List (List (List Nat)) :=
  [ [[0, 1, 3, 4], [1, 2, 4, 5], [3, 4, 6, 7], [4, 5, 7, 8]],
    [[18, 19, 21, 22], [19, 20, 22, 23], [21, 22, 24, 25], [22, 23, 25, 26]],
    [[6, 7, 15, 16], [7, 8, 16, 17], [15, 16, 24, 25], [16, 17, 25, 26]],
    [[0, 1, 9, 10], [1, 2, 10, 11], [9, 10, 18, 19], [10, 11, 19, 20]],
    [[0, 3, 9, 12], [3, 6, 12, 15], [9, 12, 18, 21], [12, 15, 21, 24]],
    [[2, 5, 11, 14], [5, 8, 14, 17], [11, 14, 20, 23], [14, 17, 23, 26]] ]

/-- The table `curve` of `occlusion`. -/
def curve : List ℚ := [0, 1 / 4, 1 / 2, 3 / 4]

/-- The value `ao[i][j]` that `occlusion` computes from the index triple
`l3 = lookup3[i][j]` and the index quadruple `l4 = lookup4[i][j]`. -/
def occlusion_ao (neighbors : List Int) (shades : List ℚ) (l3 l4 : List Nat) : ℚ :=
  let corner := neighbors.getD (l3.getD 0 0) 0
  let side1 := neighbors.getD (l3.getD 1 0) 0
  let side2 := neighbors.getD (l3.getD 2 0) 0
  let value : Int := if side1 ≠ 0 ∧ side2 ≠ 0 then 3 else corner + side1 + side2
  let shade_sum : ℚ := (l4.map (fun k => shades.getD k 0)).sum
  let total : ℚ := curve.getD value.toNat 0 + shade_sum / 4
  min total 1

/-- The value `light[i][j]` that `occlusion` computes from the index quadruple
`l4 = lookup4[i][j]`. -/
def occlusion_light (lights : List Int) (l4 : List Nat) : ℚ :=
  let is_light := decide (lights.getD 13 0 = 15)
  let light_sum : ℚ := ((l4.map (fun k => lights.getD k 0)).sum : Int)
  let light_sum : ℚ := if is_light then 15 * 4 * 10 else light_sum
  light_sum / 15 / 4

/-- The function `occlusion(neighbors, lights, shades, ao, light)`: the pair of
`6 × 4` tables `(ao, light)`. -/
def occlusion (neighbors lights : List Int) (shades : List ℚ) :
    List (List ℚ) × List (List ℚ) :=
  ( (List.range 6).map (fun (i : Nat) => (List.range 4).map (fun (j : Nat) =>
      occlusion_ao neighbors shades ((lookup3.getD i []).getD j [])
        ((lookup4.getD i []).getD j []))),
    (List.range 6).map (fun (i : Nat) => (List.range 4).map (fun (j : Nat) =>
      occlusion_light lights ((lookup4.getD i []).getD j []))) )

/-- The variables of the geometry pass: the running `offset` and the blocks of
floats written so far, each with the offset it was written at. -/
structure GeomState where
  offset : Int
  writes : List (Int × List ℚ)

/-- The arguments `(ao, light)` that the geometry pass computes for the cell at
grid position `(x, y, z)`. -/
def cell_occlusion (opaq light highest : Grid) (x y z : Int) :
    List (List ℚ) × List (List ℚ) :=
  occlusion
    (offsets3.map (fun d => opaq (XYZ (x + d.1) (y + d.2.1) (z + d.2.2))))
    (offsets3.map (fun d => light (XYZ (x + d.1) (y + d.2.1) (z + d.2.2))))
    (offsets3.map (fun d => shade_at opaq highest (x + d.1) (y + d.2.1) (z + d.2.2)))

/-- The floats that the geometry pass writes for a contributing map entry. -/
def cell_geometry (env : Env) (opaq light highest : Grid) (ox oz : Int) (c : Cell) :
    List ℚ :=
  let x := c.1 - ox
  let y := c.2.1 - (-1)
  let z := c.2.2.1 - oz
  let r := cell_occlusion opaq light highest x y z
  if env.is_plant c.2.2.2 then
    let min_ao := (r.1.flatten).foldl min 1
    let max_light := (r.2.flatten).foldl max 0
    let rotation := env.simplex2 (c.1 : ℚ) (c.2.2.1 : ℚ) 4 (1 / 2) 2 * 360
    env.make_plant min_ao max_light c.1 c.2.1 c.2.2.1 (1 / 2) c.2.2.2 rotation
  else
    env.make_cube r.1 r.2 (face_flags opaq x y z c.2.1) c.1 c.2.1 c.2.2.1 (1 / 2) c.2.2.2

/-- The body of the geometry pass for one map entry. -/
def geom_cell (env : Env) (opaq light highest : Grid) (ox oz : Int) (st : GeomState)
    (c : Cell) : GeomState :=
  let total := cell_total opaq ox oz c
  if c.2.2.2 ≤ 0 then st
  else if total = 0 then st
  else
    let total := if env.is_plant c.2.2.2 then 4 else total
    { offset := st.offset + total * 60,
      writes := st.writes ++ [(st.offset, cell_geometry env opaq light highest ox oz c)] }

/-- The store of a block of floats at `data + offset`; a write past the end of
the buffer (undefined in C) extends it. -/
def write_at (buf : List ℚ) (offset : Int) (block : List ℚ) : List ℚ :=
  buf.take offset.toNat ++ block ++ buf.drop (offset.toNat + block.length)

/-- The buffer of `malloc_faces(10, faces)` after the writes of the geometry
pass; the floats never written (unspecified in C) are zero. -/
def assemble (faces : Int) (writes : List (Int × List ℚ)) : Geometry :=
  writes.foldl (fun buf w => write_at buf w.1 w.2) (List.replicate (6 * 10 * faces).toNat 0)

/-- The entries of `item->block_maps[1][1]`.  The C code dereferences the
pointer without a test, so a null pointer is outside its defined behaviour:
`gen_item` always passes the chunk's own map, `worker_run_step` has no step for
a null pointer, and the empty list returned here for `none` stands for no run
of the program. -/
def centre_cells (item_maps : List (Option Map)) : List Cell :=
  match item_maps.getD 4 none with
  | some m => m.cells
  | none => []

/-- The function `compute_chunk(item)`: reads `p q block_maps light_maps`, writes
`miny maxy faces data`. -/
def compute_chunk (env : Env) (item : WorkerItem) : WorkerItem :=
  let ox := item.p * CHUNK_SIZE - CHUNK_SIZE - 1
  let oz := item.q * CHUNK_SIZE - CHUNK_SIZE - 1
  let grids := populate env ox oz item.block_maps
  let light := flood env grids.1 ox oz item.light_maps
  let cells := centre_cells item.block_maps
  let cnt := cells.foldl (count_cell env grids.1 ox oz)
    { miny := env.MAX_BLOCK_HEIGHT, maxy := 0, faces := 0 }
  let geo := cells.foldl (geom_cell env grids.1 light grids.2 ox oz) { offset := 0, writes := [] }
  { item with miny := cnt.miny, maxy := cnt.maxy, faces := cnt.faces,
              data := assemble cnt.faces geo.writes }

/-! ## Meshing a chunk on the render thread -/

/-- The function `gen_sign_buffer(chunk)`. -/
def gen_sign_buffer (env : Env) (chunk : Chunk) : Chunk :=
  let r := env.sign_mesh chunk.signs
  { chunk with sign_buffer := env.renderer_gen_faces 5 r.1 r.2, sign_faces := r.1 }

/-- The function `generate_chunk(chunk, item)`. -/
def generate_chunk (env : Env) (chunk : Chunk) (item : WorkerItem) : Chunk :=
  gen_sign_buffer env
    { chunk with miny := item.miny, maxy := item.maxy, faces := item.faces,
                 buffer := env.renderer_gen_faces 10 item.faces item.data }

/-- The `3×3` table of map pointers built around `chunk` (slot `i`): entry
`[dp + 1][dq + 1]` is the selected map of `other`, or null. -/
def neighbor_maps (cs : List Chunk) (chunk : Chunk) (i : Nat) (sel : Chunk → Map) :
    List (Option Map) :=
  (offsets 1).map (fun d => ((neighbor cs chunk i d).bind (fun j => cs[j]?)).map sel)

/-- The local item of `gen_chunk_buffer(chunk)` after `compute_chunk`.  The
fields that the function leaves unset (`load` and the outputs before
`compute_chunk`) are never read; they are zero here. -/
def gen_item (env : Env) (cs : List Chunk) (chunk : Chunk) (i : Nat) : WorkerItem :=
  compute_chunk env
    { p := chunk.p, q := chunk.q, load := 0,
      block_maps := neighbor_maps cs chunk i Chunk.map,
      light_maps := neighbor_maps cs chunk i Chunk.lights,
      miny := 0, maxy := 0, faces := 0, data := [] }

/-- The writes of `gen_chunk_buffer` to its chunk: `generate_chunk(chunk, item)`
and `chunk->dirty = 0`. -/
def gen_slot (env : Env) (item : WorkerItem) (c : Chunk) : Chunk :=
  set_dirty 0 (generate_chunk env c item)

/-- The function `gen_chunk_buffer(chunk)` for the chunk in slot `i`. -/
def gen_chunk_buffer (env : Env) (cs : List Chunk) (i : Nat) : List Chunk :=
  match cs[i]? with
  | none => cs
  | some chunk => modifyAt (gen_slot env (gen_item env cs chunk i)) i cs

/-! ## Creating chunks -/

/-- The function `load_chunk(item)`: terrain and stored blocks go into `block_maps[1][1]`,
stored lights into `light_maps[1][1]`.  Both pointers are used without a null
test; `worker_run_step`, the only caller, has no step when one of them is null,
so the `none` case of `Option.map` is never reached. -/
def load_chunk (env : Env) (item : WorkerItem) : WorkerItem :=
  let p := item.p
  let q := item.q
  { item with
    block_maps := modifyAt
      (Option.map (fun m => env.db_load_blocks (env.create_world p q m) p q)) 4 item.block_maps,
    light_maps := modifyAt
      (Option.map (fun m => env.db_load_lights m p q)) 4 item.light_maps }

/-- The header writes of `init_chunk` that come before `dirty_chunk`. -/
def init_header (p q : Int) (c : Chunk) : Chunk :=
  { c with p := p, q := q, faces := 0, sign_faces := 0, buffer := 0, sign_buffer := 0 }

/-- The allocations of `init_chunk` that come after `dirty_chunk`:
`sign_list_alloc`, `db_load_signs`, and the two `map_alloc` calls. -/
def init_maps (env : Env) (p q : Int) (c : Chunk) : Chunk :=
  { c with signs := env.db_load_signs [] p q,
           map := map_alloc (p * CHUNK_SIZE - 1) 0 (q * CHUNK_SIZE - 1) 0x7fff,
           lights := map_alloc (p * CHUNK_SIZE - 1) 0 (q * CHUNK_SIZE - 1) 0xf }

/-- The function `init_chunk(chunk, p, q)` for the chunk in slot `i`. -/
def init_chunk (env : Env) (cs : List Chunk) (i : Nat) (p q : Int) : List Chunk :=
  let cs1 := modifyAt (init_header p q) i cs
  let cs2 := dirty_chunk env cs1 i
  modifyAt (init_maps env p q) i cs2

/-- The function `load_chunk(item)` for the item of `create_chunk`, whose `p`, `q` and centre
map pointers are those of the chunk itself: the maps of the chunk are filled
in place. -/
def load_chunk_live (env : Env) (c : Chunk) : Chunk :=
  { c with map := env.db_load_blocks (env.create_world c.p c.q c.map) c.p c.q,
           lights := env.db_load_lights c.lights c.p c.q }

/-- The function `create_chunk(chunk, p, q)` for the chunk in slot `i`: `init_chunk`, then
`load_chunk` on the chunk's own maps (`request_chunk` only sends a network
message). -/
def create_chunk (env : Env) (cs : List Chunk) (i : Nat) (p q : Int) : List Chunk :=
  modifyAt (load_chunk_live env) i (init_chunk env cs i p q)

/-- The expression `g->chunks + g->chunk_count++`: the next array slot joins
the counted slots with whatever bytes it holds. -/
def take_slot (g : Model) : Model :=
  { g with chunks := g.chunks ++ [g.stale.headD zeroChunk], stale := g.stale.tail }

/-- The body of the nested loops of `force_chunks` for the offsets `d = (dp, dq)`
around `(p, q)`. -/
def force_chunks_step (env : Env) (p q : Int) (g : Model) (d : Int × Int) : Model :=
  let a := p + d.1
  let b := q + d.2
  match find_chunk g.chunks a b with
  | some i =>
    if (g.chunks.getD i zeroChunk).dirty ≠ 0 then
      { g with chunks := gen_chunk_buffer env g.chunks i }
    else g
  | none =>
    if g.chunk_count < MAX_CHUNKS then
      let i := g.chunk_count
      let g1 := take_slot g
      let cs := create_chunk env g1.chunks i a b
      { g1 with chunks := gen_chunk_buffer env cs i }
    else g

/-- The function `force_chunks(player)`. -/
def force_chunks (env : Env) (g : Model) (player : Player) : Model :=
  let s := player.state
  let p := chunked s.x
  let q := chunked s.z
  (offsets 1).foldl (force_chunks_step env p q) g

/-! ## The scheduler: `ensure_chunks_worker` -/

/-- The constant `start` of `ensure_chunks_worker`. -/
def start : Nat := 0x0fffffff

/-- The expression `(ABS(a) ^ ABS(b)) % WORKERS`. -/
def partition_index (a b : Int) : Nat := (a.natAbs ^^^ b.natAbs) % WORKERS

/-- The chunk that `find_chunk(a, b)` points to, if any. -/
def chunk_at (cs : List Chunk) (a b : Int) : Option Chunk :=
  (find_chunk cs a b).bind (fun j => cs[j]?)

/-- The filter of the scan: the cell `(p + dp, q + dq)` is in the partition of
the worker and its chunk is missing or dirty (neither `continue` is taken). -/
def is_candidate (cs : List Chunk) (windex : Nat) (p q : Int) (d : Int × Int) : Bool :=
  decide (partition_index (p + d.1) (q + d.2) = windex) &&
    (match chunk_at cs (p + d.1) (q + d.2) with
     | some c => decide (c.dirty ≠ 0)
     | none => true)

/-- The value `distance = MAX(ABS(dp), ABS(dq))`. -/
def scan_distance (d : Int × Int) : Nat := max d.1.natAbs d.2.natAbs

/-- The value `invisible = !chunk_visible(planes, a, b, 0, MAX_BLOCK_HEIGHT)`. -/
def scan_invisible (env : Env) (ortho : Int) (planes : Nat → Nat → ℚ) (a b : Int) : Nat :=
  if chunk_visible ortho planes a b 0 env.MAX_BLOCK_HEIGHT = 0 then 1 else 0

/-- The value `priority`: `chunk->buffer && chunk->dirty` for a resident chunk,
`0` for a missing one. -/
def scan_priority (cs : List Chunk) (a b : Int) : Nat :=
  match chunk_at cs a b with
  | some c => if c.buffer ≠ 0 ∧ c.dirty ≠ 0 then 1 else 0
  | none => 0

/-- The value `score = (invisible << 24) | (priority << 16) | distance` of the
cell at offsets `d` from `(p, q)`. -/
def scan_score (env : Env) (g : Model) (planes : Nat → Nat → ℚ) (p q : Int)
    (d : Int × Int) : Nat :=
  (scan_invisible env g.ortho planes (p + d.1) (q + d.2) <<< 24) |||
    (scan_priority g.chunks (p + d.1) (q + d.2) <<< 16) ||| scan_distance d

/-- The body of the scan loops: `best = (best_score, best_a, best_b)`. -/
def scan_step (env : Env) (g : Model) (planes : Nat → Nat → ℚ) (windex : Nat) (p q : Int)
    (best : Nat × Int × Int) (d : Int × Int) : Nat × Int × Int :=
  if is_candidate g.chunks windex p q d then
    let score := scan_score env g planes p q d
    if score < best.1 then (score, p + d.1, q + d.2) else best
  else best

/-- The planes that `ensure_chunks_worker` computes for `player`. -/
def worker_planes (env : Env) (g : Model) (player : Player) : Nat → Nat → ℚ :=
  env.frustum_planes g.width g.height player.state g.fov g.ortho

/-- The first block of `ensure_chunks_worker`: the scan of the square of radius
`create_radius`, returning `(best_score, best_a, best_b)`. -/
def worker_scan (env : Env) (g : Model) (player : Player) (windex : Nat) : Nat × Int × Int :=
  let s := player.state
  let planes := worker_planes env g player
  let p := chunked s.x
  let q := chunked s.z
  let r := g.create_radius
  (offsets r).foldl (scan_step env g planes windex p q) (start, 0, 0)

/-- The last block of `ensure_chunks_worker`: fill the item of worker `k` for the
chunk in slot `i`, clear the chunk's dirty flag and set the worker `BUSY`. -/
def assign_item (g : Model) (k i : Nat) (load : Int) : Model :=
  match g.chunks[i]? with
  | none => g
  | some chunk =>
    let block_maps := neighbor_maps g.chunks chunk i Chunk.map
    let light_maps := neighbor_maps g.chunks chunk i Chunk.lights
    { g with
      chunks := modifyAt (set_dirty 0) i g.chunks,
      workers := modifyAt (fun w =>
        { w with
          item := { w.item with p := chunk.p, q := chunk.q, load := load,
                                block_maps := block_maps, light_maps := light_maps },
          state := WORKER_BUSY }) k g.workers }

/-- The function `ensure_chunks_worker(player, worker)` for the worker in slot `k`. -/
def ensure_chunks_worker (env : Env) (g : Model) (player : Player) (k : Nat) : Model :=
  match g.workers[k]? with
  | none => g
  | some worker =>
    let best := worker_scan env g player worker.index
    if best.1 = start then g
    else
      let a := best.2.1
      let b := best.2.2
      match find_chunk g.chunks a b with
      | some i => assign_item g k i 0
      | none =>
        if g.chunk_count < MAX_CHUNKS then
          let i := g.chunk_count
          let g1 := take_slot g
          assign_item { g1 with chunks := init_chunk env g1.chunks i a b } k i 1
        else g

/-! ## Merging results: `check_workers` -/

/-- The merge of a finished item into its chunk: for a load job the chunk's maps
are replaced by copies of the item's centre maps, then `generate_chunk`. -/
def merge_item (env : Env) (item : WorkerItem) (chunk : Chunk) : Chunk :=
  let chunk1 :=
    if item.load ≠ 0 then
      { chunk with map := ((item.block_maps.getD 4 none).getD chunk.map),
                   lights := ((item.light_maps.getD 4 none).getD chunk.lights) }
    else chunk
  generate_chunk env chunk1 item

/-- The body of the loop of `check_workers` for the worker in slot `i`. -/
def check_worker (env : Env) (g : Model) (i : Nat) : Model :=
  match g.workers[i]? with
  | none => g
  | some worker =>
    if worker.state = WORKER_DONE then
      let item := worker.item
      let cs :=
        match find_chunk g.chunks item.p item.q with
        | some j => modifyAt (merge_item env item) j g.chunks
        | none => g.chunks
      { g with chunks := cs,
               workers := modifyAt (fun w => { w with state := WORKER_IDLE }) i g.workers }
    else g

/-- The function `check_workers()`. -/
def check_workers (env : Env) (g : Model) : Model :=
  (List.range WORKERS).foldl (check_worker env) g

/-! ## `ensure_chunks` and the worker thread -/

/-- The body of the loop of `ensure_chunks` for the worker in slot `i`. -/
def ensure_chunks_step (env : Env) (player : Player) (g : Model) (i : Nat) : Model :=
  match g.workers[i]? with
  | none => g
  | some worker =>
    if worker.state = WORKER_IDLE then ensure_chunks_worker env g player i else g

/-- The loop of `ensure_chunks` over the worker table. -/
def schedule_workers (env : Env) (player : Player) (g : Model) : Model :=
  (List.range WORKERS).foldl (ensure_chunks_step env player) g

/-- The function `ensure_chunks(player)`. -/
def ensure_chunks (env : Env) (g : Model) (player : Player) : Model :=
  let g1 := check_workers env g
  let g2 := force_chunks env g1 player
  schedule_workers env player g2

/-- One pass of the loop of `worker_run` for the worker in slot `k`: it proceeds
only from `WORKER_BUSY` (otherwise the thread is blocked in `cnd_wait`, `none`),
runs `load_chunk` for a load job, then `compute_chunk`, and sets `WORKER_DONE`.
Both functions dereference `item->block_maps[1][1]`, and `load_chunk` hands
`item->light_maps[1][1]` to `db_load_lights`: with a null pointer there the
pass has no defined behaviour and there is no step (`none`). -/
def worker_run_step (env : Env) (g : Model) (k : Nat) : Option Model :=
  match g.workers[k]? with
  | none => none
  | some worker =>
    if worker.state ≠ WORKER_BUSY then none
    else if worker.item.block_maps.getD 4 none = none then none
    else if worker.item.load ≠ 0 ∧ worker.item.light_maps.getD 4 none = none then none
    else
      let item := if worker.item.load ≠ 0 then load_chunk env worker.item else worker.item
      let item := compute_chunk env item
      some { g with workers := g.workers.set k { worker with item := item, state := WORKER_DONE } }

/-- A `WorkerItem` of the zero-initialised static `model`. -/
def zeroItem : WorkerItem :=
  { p := 0, q := 0, load := 0, block_maps := List.replicate 9 none,
    light_maps := List.replicate 9 none, miny := 0, maxy := 0, faces := 0, data := [] }

/-- Worker `i` after the start-up loop in `main.c`: `index = i`,
`state = WORKER_IDLE`, item fields zero. -/
def init_worker (i : Nat) : Worker := { index := i, state := WORKER_IDLE, item := zeroItem }

/-- The worker table after the start-up loop in `main.c`. -/
def init_workers : List Worker := (List.range WORKERS).map init_worker

/-! ## Ray casting: `_hit_test`, `hit_test` -/

/-- The function `get_sight_vector(rx, ry, &vx, &vy, &vz)`: the triple
`(vx, vy, vz)`. -/
def get_sight_vector (env : Env) (rx ry : ℚ) : ℚ × ℚ × ℚ :=
  let m := env.cosf ry
  (env.cosf (rx - env.RADIANS 90) * m, env.sinf ry, env.sinf (rx - env.RADIANS 90) * m)

/-- The number of passes of `for (i = 0; i < max_distance * m; i++)` with
`m = 32`: the number of naturals below `max_distance * 32`, which for
`max_distance = n / d` is the integer ceiling of `32 * n / d`. -/
def hit_steps (max_distance : ℚ) : Nat :=
  (-((-(32 * max_distance.num)) / (max_distance.den : Int))).toNat

/-- The loop of `_hit_test` with `n` passes left, at the position `(x, y, z)`,
with the cell `p = (px, py, pz)` and the output cell `h = (*hx, *hy, *hz)`:
the return value and the output cell, which a miss leaves as it was. -/
def hit_loop (map : Map) (previous : Int) (vx vy vz : ℚ) :
    Nat → ℚ → ℚ → ℚ → Int × Int × Int → Int × Int × Int → Int × (Int × Int × Int)
  | 0, _, _, _, _, h => (0, h)
  | n + 1, x, y, z, p, h =>
    let nx := roundf x
    let ny := roundf y
    let nz := roundf z
    if nx ≠ p.1 ∨ ny ≠ p.2.1 ∨ nz ≠ p.2.2 then
      let hw := map_get map nx ny nz
      if hw > 0 then
        if previous ≠ 0 then (hw, p) else (hw, (nx, ny, nz))
      else hit_loop map previous vx vy vz n (x + vx / 32) (y + vy / 32) (z + vz / 32)
        (nx, ny, nz) h
    else hit_loop map previous vx vy vz n (x + vx / 32) (y + vy / 32) (z + vz / 32) p h

/-- The function `_hit_test(map, max_distance, previous, x, y, z, vx, vy, vz,
&hx, &hy, &hz)`: the return value and the output cell. -/
def _hit_test (map : Map) (max_distance : ℚ) (previous : Int) (x y z vx vy vz : ℚ)
    (h : Int × Int × Int) : Int × (Int × Int × Int) :=
  hit_loop map previous vx vy vz (hit_steps max_distance) x y z (0, 0, 0) h

/-- The variables `result`, `best` and `(*bx, *by, *bz)` of `hit_test`.  The
field `best` holds the square of the C variable: `d = sqrtf(s)` is compared
through `s`, as `sqrtf(s) == 0` exactly when `s == 0` and `sqrtf` is
increasing. -/
structure HitState where
  result : Int
  best : ℚ
  b : Int × Int × Int
deriving DecidableEq

/-- The body of the loop of `hit_test` for one chunk; the locals `hx, hy, hz`
are uninitialised before the call of `_hit_test` and read only after a hit. -/
def hit_test_step (previous : Int) (x y z vx vy vz : ℚ) (p q : Int) (st : HitState)
    (chunk : Chunk) : HitState :=
  if chunk_distance chunk p q > 1 then st
  else
    let r := _hit_test chunk.map 8 previous x y z vx vy vz (0, 0, 0)
    if r.1 > 0 then
      let d := ((r.2.1 : ℚ) - x) ^ 2 + ((r.2.2.1 : ℚ) - y) ^ 2 + ((r.2.2.2 : ℚ) - z) ^ 2
      if st.best = 0 ∨ d < st.best then { result := r.1, best := d, b := r.2 }
      else st
    else st

/-- The function `hit_test(previous, x, y, z, rx, ry, &bx, &by, &bz)`: the
return value and the output cell `b`, which is `b0` when nothing was hit. -/
def hit_test (env : Env) (cs : List Chunk) (previous : Int) (x y z rx ry : ℚ)
    (b0 : Int × Int × Int) : Int × (Int × Int × Int) :=
  let v := get_sight_vector env rx ry
  let st := cs.foldl
    (hit_test_step previous x y z v.1 v.2.1 v.2.2 (chunked x) (chunked z))
    { result := 0, best := 0, b := b0 }
  (st.result, st.b)

/-! ## Collision: `collide` -/

/-- The variables `result`, `*x`, `*y`, `*z` of `collide`. -/
structure CollideState where
  result : Int
  x : ℚ
  y : ℚ
  z : ℚ
deriving DecidableEq

/-- A statement `if (c) { ... }` of the loop of `collide`: the assignments `f`
are made when `c` holds. -/
def clamp_if (c : Prop) [Decidable c] (f : CollideState → CollideState)
    (st : CollideState) : CollideState :=
  if c then f st else st

/-- The body of the loop of `collide` for one `dy`: its six `if` statements in
order.  The stores `*x = nx - pad` and `*x = nx + pad` convert `nx` to `float`
and round the result to binary32. -/
def collide_step (env : Env) (map : Map) (nx ny nz : Int) (px py pz : ℚ)
    (st : CollideState) (dy : Int) : CollideState :=
  let pad : ℚ := 1 / 4
  let s1 := clamp_if (px < -pad ∧ env.is_obstacle (map_get map (nx - 1) (ny - dy) nz) = true)
    (fun s => { s with x := fsub (int_to_float nx) pad }) st
  let s2 := clamp_if (px > pad ∧ env.is_obstacle (map_get map (nx + 1) (ny - dy) nz) = true)
    (fun s => { s with x := fadd (int_to_float nx) pad }) s1
  let s3 := clamp_if (py < -pad ∧ env.is_obstacle (map_get map nx (ny - dy - 1) nz) = true)
    (fun s => { s with y := fsub (int_to_float ny) pad, result := 1 }) s2
  let s4 := clamp_if (py > pad ∧ env.is_obstacle (map_get map nx (ny - dy + 1) nz) = true)
    (fun s => { s with y := fadd (int_to_float ny) pad, result := 1 }) s3
  let s5 := clamp_if (pz < -pad ∧ env.is_obstacle (map_get map nx (ny - dy) (nz - 1)) = true)
    (fun s => { s with z := fsub (int_to_float nz) pad }) s4
  clamp_if (pz > pad ∧ env.is_obstacle (map_get map nx (ny - dy) (nz + 1)) = true)
    (fun s => { s with z := fadd (int_to_float nz) pad }) s5

/-- The function `collide(height, &x, &y, &z)`: the return value and the position
it leaves.  The offsets `px = *x - nx` are `float` differences. -/
def collide (env : Env) (cs : List Chunk) (height : Int) (x y z : ℚ) : CollideState :=
  match (find_chunk cs (chunked x) (chunked z)).bind (fun i => cs[i]?) with
  | none => { result := 0, x := x, y := y, z := z }
  | some chunk =>
    let nx := roundf x
    let ny := roundf y
    let nz := roundf z
    ((irange 0 (height - 1)).foldl
      (collide_step env chunk.map nx ny nz (fsub x (int_to_float nx))
        (fsub y (int_to_float ny)) (fsub z (int_to_float nz)))
      { result := 0, x := x, y := y, z := z })

/-! ## Concrete inputs used by the evaluation theorems -/

/-- A chunk with coordinates `(p, q)` and every other field zero. -/
def chunk_pq (p q : Int) : Chunk := { zeroChunk with p := p, q := q }

/-- A model with the given resident chunks, the start-up worker table, radii
`10` and `14`, and no player record (every observer is the zero player). -/
def model_of (cs : List Chunk) : Model :=
  { workers := init_workers, chunks := cs, stale := [], create_radius := 10,
    delete_radius := 14, players := [], observe1 := 0, observe2 := 0,
    width := 0, height := 0, ortho := 0, fov := 65 }

/-- The start-up model with scan radius `2`. -/
def small_model : Model := { model_of [] with create_radius := 2 }

/-- A collaborator set whose loaders add nothing and whose renderer hands out
the handle `1`. -/
def env0 : Env :=
  { SHOW_LIGHTS := true, MAX_BLOCK_HEIGHT := 256,
    create_world := fun _ _ m => m,
    db_load_blocks := fun m _ _ => m,
    db_load_lights := fun m _ _ => m,
    db_load_signs := fun s _ _ => s,
    renderer_gen_faces := fun _ _ _ => 1,
    sign_mesh := fun _ => (0, []),
    is_transparent := fun w => decide (w ≤ 0),
    is_plant := fun _ => false,
    simplex2 := fun _ _ _ _ _ => 0,
    make_cube := fun _ _ _ _ _ _ _ _ => [],
    make_plant := fun _ _ _ _ _ _ _ _ => [],
    is_obstacle := fun w => decide (0 < w),
    cosf := fun _ => 0,
    sinf := fun _ => -1,
    RADIANS := fun _ => 0,
    frustum_planes := fun _ _ _ _ _ _ _ => 0 }

/-! ## Coordinate view of chunk creation (used to state and prove the theorems) -/

/-- The effect of one pass of the loops of `force_chunks` on the list of resident
coordinates: a missing coordinate is appended when the table has room. -/
def force_coords_step (p q : Int) (L : List (Int × Int)) (d : Int × Int) : List (Int × Int) :=
  if (p + d.1, q + d.2) ∈ L then L
  else if L.length < MAX_CHUNKS then L ++ [(p + d.1, q + d.2)]
  else L

/-- The number of cells of the radius-1 ring around `(p, q)` that have no
resident chunk. -/
def missing_ring (cs : List Chunk) (p q : Int) : Nat :=
  ((offsets 1).filter (fun d => (find_chunk cs (p + d.1) (q + d.2)).isNone)).length

/-- Two resident chunks, both far from every observer (all observers sit at the
origin, `delete_radius = 14`). -/
def two_far_chunks : Model := model_of [chunk_pq 100 0, chunk_pq 200 0]

/-- One resident chunk at Chebyshev distance exactly `delete_radius = 14` from
every observer. -/
def chunk_on_radius : Model := model_of [chunk_pq 14 0]

/-- One resident chunk at distance `3` from the observers. -/
def chunk_nearby : Model := model_of [chunk_pq 3 0]

/-- Two resident chunks with distinct coordinates. -/
def two_chunks : Model := model_of [chunk_pq 0 0, chunk_pq 5 5]

/-- As many as `MAX_CHUNKS` chunks at the coordinates `(1000 + i, 1000)`. -/
@[irreducible] def full_chunks : List Chunk :=
  (List.range MAX_CHUNKS).map (fun (i : Nat) => chunk_pq (1000 + (i : Int)) 1000)

/-- A full table: the resident chunks are `full_chunks` and the scan radius is
`0`, so that the only cell worker `0` scans is the missing cell `(0, 0)`. -/
def full_table : Model := { model_of full_chunks with create_radius := 0 }

/-! ## Predicates used to state the meshing theorem -/

/-- The resident chunk at every listed cell around `(p, q)` has its dirty flag
clear. -/
def ring_clean (cs : List Chunk) (p q : Int) (cells : List (Int × Int)) : Prop :=
  ∀ d ∈ cells, ∀ c, chunk_at cs (p + d.1) (q + d.2) = some c → c.dirty = 0

/-- Every cell of the radius-1 ring around `(p, q)` is resident. -/
def ring_resident (g : Model) (p q : Int) : Prop :=
  ∀ d ∈ offsets 1, (p + d.1, q + d.2) ∈ coords g.chunks

/-- The missing cells among the listed cells around `(p, q)` can be created
without `dirty_chunk` finding a light: for every listed cell with no resident
chunk, the resident chunks within Chebyshev distance `1` of it (the chunks
`has_lights` of a chunk created there can reach) have an empty light map and
persistence loads no light for it; and the array slots the new chunks reuse,
as many as listed cells are missing, hold an empty light map. -/
def quiet_cells (env : Env) (g : Model) (p q : Int) (l : List (Int × Int)) : Prop :=
  (∀ d ∈ l, find_chunk g.chunks (p + d.1) (q + d.2) = none →
    (∀ c ∈ g.chunks, chunk_distance c (p + d.1) (q + d.2) ≤ 1 → c.lights.size = 0) ∧
    (env.db_load_lights
      (map_alloc ((p + d.1) * CHUNK_SIZE - 1) 0 ((q + d.2) * CHUNK_SIZE - 1) 0xf)
      (p + d.1) (q + d.2)).size = 0) ∧
  (∀ c ∈ g.stale.take
      (l.filter (fun d => (find_chunk g.chunks (p + d.1) (q + d.2)).isNone)).length,
    c.lights.size = 0)

/-- The condition under which `force_chunks` never re-dirties a meshed chunk:
lighting is disabled, or no ring chunk is missing, or the missing ring chunks
are created out of reach of every populated light map. -/
def calm (env : Env) (g : Model) (p q : Int) : Prop :=
  env.SHOW_LIGHTS = false ∨ ring_resident g p q ∨ quiet_cells env g p q (offsets 1)

/-- A light map with one emitter. -/
def lit_map : Map := { zeroMap with cells := [(0, 0, 0, 15)] }

/-- One resident, meshed chunk at `(-1, -1)` holding a light emitter; the other
eight chunks around the observer's chunk `(0, 0)` are missing. -/
def lit_corner : Model := model_of [{ chunk_pq (-1) (-1) with lights := lit_map }]

/-- One resident chunk at `(100, 100)` holding a light emitter, far from the
ring around the observer's chunk `(0, 0)`, whose nine chunks are missing. -/
def far_lit : Model := model_of [{ chunk_pq 100 100 with lights := lit_map }]

/-! ## The candidates of the scheduler scan (used to state the theorems) -/

/-- The candidate cells of worker index `windex`, as offsets from `(p, q)`, in
scan order: the cells of the scan that pass both `continue` tests. -/
def candidates (g : Model) (windex : Nat) (p q : Int) : List (Int × Int) :=
  (offsets g.create_radius).filter (is_candidate g.chunks windex p q)

/-- The candidates of the scan that `ensure_chunks_worker` runs for `player` and
worker index `windex`, as offsets from the player's chunk. -/
def scan_cands (g : Model) (player : Player) (windex : Nat) : List (Int × Int) :=
  candidates g windex (chunked player.state.x) (chunked player.state.z)

/-- The key `score` that this scan computes for the cell at offsets `d`. -/
def scan_key (env : Env) (g : Model) (player : Player) (d : Int × Int) : Nat :=
  scan_score env g (worker_planes env g player) (chunked player.state.x)
    (chunked player.state.z) d

/-- The flag `invisible` of this scan for the cell at offsets `d`. -/
def key_invisible (env : Env) (g : Model) (player : Player) (d : Int × Int) : Nat :=
  scan_invisible env g.ortho (worker_planes env g player)
    (chunked player.state.x + d.1) (chunked player.state.z + d.2)

/-- The flag `priority` (stale geometry) of this scan for the cell at offsets `d`. -/
def key_priority (g : Model) (player : Player) (d : Int × Int) : Nat :=
  scan_priority g.chunks (chunked player.state.x + d.1) (chunked player.state.z + d.2)

/-- The target cell of offsets `d` from the player's chunk. -/
def target_cell (player : Player) (d : Int × Int) : Int × Int :=
  (chunked player.state.x + d.1, chunked player.state.z + d.2)

/-- The scan order of the nested loops: `dp` ascending, then `dq` ascending. -/
def scan_before (d d2 : Int × Int) : Prop :=
  d.1 < d2.1 ∨ (d.1 = d2.1 ∧ d.2 < d2.2)

/-! ## Reachable states of the worker table (used to state the theorems) -/

/-- The states the program can reach as far as the worker table is concerned:
a table as the start-up loop leaves it, every record with `index = i` and
`state = WORKER_IDLE` (`init`), a call of `ensure_chunks` (`ensure`), one pass
of a worker thread (`run`), and any other operation of the program, none of
which writes a worker record (`other`; this covers `force_chunks`,
`delete_chunks`, `reset_model` and the block edits). -/
inductive Reachable : Model → Prop
  | init (g : Model)
      (h : ∀ (j : Nat) (w : Worker), g.workers[j]? = some w →
        w.index = j ∧ w.state = WORKER_IDLE) : Reachable g
  | ensure (env : Env) (g : Model) (player : Player) (h : Reachable g) :
      Reachable (ensure_chunks env g player)
  | run (env : Env) (g g2 : Model) (k : Nat) (h : Reachable g)
      (hstep : worker_run_step env g k = some g2) : Reachable g2
  | other (g g2 : Model) (h : Reachable g) (hw : g2.workers = g.workers) : Reachable g2

/-- The invariant of the worker table: the record in slot `j` has `index = j`,
and a worker that is `BUSY` or `DONE` holds an item whose coordinates lie in
its own partition. -/
def worker_inv (g : Model) : Prop :=
  ∀ (j : Nat) (w : Worker), g.workers[j]? = some w →
    w.index = j ∧
    ((w.state = WORKER_BUSY ∨ w.state = WORKER_DONE) →
      partition_index w.item.p w.item.q = w.index)

/-! ## The effect of a merge on a worker record (used to state the theorems) -/

/-- What the loop of `check_workers` does to a worker record: a `DONE` worker
becomes `IDLE`, any other record is left as it is; the item is never written. -/
def merge_state (w : Worker) : Worker :=
  if w.state = WORKER_DONE then { w with state := WORKER_IDLE } else w

/-- The model in which worker `i` is `IDLE` instead of what it is in `g`. -/
def with_idle (g : Model) (i : Nat) : Model :=
  { g with workers := modifyAt (fun w => { w with state := WORKER_IDLE }) i g.workers }

/-- An item for the cell `(p, q)` with no maps and zero outputs. -/
def item_pq (p q : Int) : WorkerItem := { zeroItem with p := p, q := q }

/-- Both centre pointers of the item, `block_maps[1][1]` and `light_maps[1][1]`,
are non-null. -/
def item_ready (item : WorkerItem) : Prop :=
  item.block_maps.getD 4 none ≠ none ∧ item.light_maps.getD 4 none ≠ none

/-- An item for the cell `(p, q)` whose two centre pointers hold empty maps and
whose other sixteen pointers are null, as `ensure_chunks_worker` builds it for
a chunk without resident neighbours. -/
def centre_item (p q : Int) : WorkerItem :=
  { zeroItem with
    p := p, q := q,
    block_maps := [none, none, none, none, some zeroMap, none, none, none, none],
    light_maps := [none, none, none, none, some zeroMap, none, none, none, none] }

/-- One resident chunk at `(0, 0)`; worker `0` is `DONE` with an item for the
non-resident cell `(7, 7)`, worker `1` is `BUSY` with an item for `(1, 0)`, and
workers `2` and `3` are `IDLE`. -/
def stale_model : Model :=
  { model_of [chunk_pq 0 0] with
    workers := [{ index := 0, state := WORKER_DONE, item := item_pq 7 7 },
                { index := 1, state := WORKER_BUSY, item := centre_item 1 0 },
                init_worker 2, init_worker 3] }

/-- One resident chunk at `(1, 0)` with `faces = 99`; worker `0` is `DONE` with an
item for the non-resident cell `(7, 7)`, worker `1` is `DONE` with an item for
the resident cell `(1, 0)` whose result has `faces = 5`, and workers `2` and
`3` are `IDLE`. -/
def two_done : Model :=
  { model_of [{ chunk_pq 1 0 with faces := 99 }] with
    workers := [{ index := 0, state := WORKER_DONE, item := item_pq 7 7 },
                { index := 1, state := WORKER_DONE, item := { centre_item 1 0 with faces := 5 } },
                init_worker 2, init_worker 3] }

/-- The chunk table after the loop pass of `check_workers` for a worker record
(`none` when the slot does not exist). -/
def merged_chunks (env : Env) (cs : List Chunk) (ow : Option Worker) : List Chunk :=
  match ow with
  | none => cs
  | some w =>
    if w.state = WORKER_DONE then
      match find_chunk cs w.item.p w.item.q with
      | some j => modifyAt (merge_item env w.item) j cs
      | none => cs
    else cs

/-! ## Concrete inputs for the block edits -/

/-- A chunk at `(0, 0)` holding a light emitter. -/
def lit_chunk : Chunk := { chunk_pq 0 0 with lights := lit_map }

/-- Three resident chunks: the lit chunk at `(0, 0)`, its neighbour `(1, 0)` and
the distant chunk `(5, 5)`, all with the dirty flag clear. -/
def lit_row : List Chunk := [lit_chunk, chunk_pq 1 0, chunk_pq 5 5]

/-- Two resident chunks far from the origin: `(524289, 0)`, whose first column
is `x = 16777248`, and its neighbour `(524288, 0)`. -/
def far_row : List Chunk := [chunk_pq 524289 0, chunk_pq 524288 0]

/-! ## The effect of a block edit on one chunk (used to state the theorems) -/

/-- A chunk whose dirty flag is set when `b` holds and that is left as it is
otherwise. -/
def mark (b : Bool) (c : Chunk) : Chunk := if b then set_dirty 1 c else c

/-- What `_set_block(p, q, x, y, z, w, dirty)` does to the maps and the sign
list of the chunk it finds at `(p, q)`, the dirty flag of `dirty_chunk` apart:
the block write, and for `w = 0` in the owning chunk the removal of the signs
and of the light at the cell. -/
def block_edit (p q x y z w : Int) (c : Chunk) : Chunk :=
  if w = 0 ∧ chunked (int_to_float x) = p ∧ chunked (int_to_float z) = q then
    put_light x y z 0 (unset_sign_slot x y z (put_block x y z w c))
  else put_block x y z w c

/-- Four resident chunks around the world origin: the owner `(0, 0)` of the cell
`(0, y, 0)` and the chunks `(-1, 0)`, `(0, -1)` and `(-1, -1)`, all empty. -/
def four_chunks : List Chunk :=
  [chunk_pq 0 0, chunk_pq (-1) 0, chunk_pq 0 (-1), chunk_pq (-1) (-1)]

/-- A chunk at `(0, 0)` with a block, a light and a sign at the cell `(0, 0, 0)`. -/
def decorated_chunk : Chunk :=
  { chunk_pq 0 0 with
    map := { zeroMap with cells := [(0, 0, 0, 1)] },
    lights := lit_map,
    signs := [{ x := 0, y := 0, z := 0, face := 0, text := "" }] }

/-- The decorated chunk and its neighbour `(-1, 0)`, which carries a sign and a
light of its own. -/
def decorated_row : List Chunk :=
  [decorated_chunk,
   { chunk_pq (-1) 0 with
     lights := lit_map,
     signs := [{ x := 0, y := 0, z := 0, face := 1, text := "" }] }]

/-! ## Predicates and inputs for the mesh compiler theorems -/

/-- The grid positions of the six axis neighbours of `(x, y, z)`, in the order
of the flags `f1 .. f6`. -/
def axis_neighbours (x y z : Int) : List (Int × Int × Int) :=
  [(x - 1, y, z), (x + 1, y, z), (x, y + 1, z), (x, y - 1, z), (x, y, z - 1), (x, y, z + 1)]

/-- All six axis neighbours of the grid position are opaque. -/
def enclosed (opaq : Grid) (x y z : Int) : Prop :=
  ∀ n ∈ axis_neighbours x y z, opaq (XYZ n.1 n.2.1 n.2.2) ≠ 0

/-- None of the six axis neighbours of the grid position is opaque. -/
def exposed (opaq : Grid) (x y z : Int) : Prop :=
  ∀ n ∈ axis_neighbours x y z, opaq (XYZ n.1 n.2.1 n.2.2) = 0

instance (opaq : Grid) (x y z : Int) : Decidable (enclosed opaq x y z) := by
  unfold enclosed
  infer_instance

instance (opaq : Grid) (x y z : Int) : Decidable (exposed opaq x y z) := by
  unfold exposed
  infer_instance

/-- The value of `ox` (and, with `q`, of `oz`) in `compute_chunk`. -/
def grid_origin (p : Int) : Int := p * CHUNK_SIZE - CHUNK_SIZE - 1

/-- The array `opaque` that `compute_chunk` builds for the item. -/
def item_opacity (env : Env) (item : WorkerItem) : Grid :=
  (populate env (grid_origin item.p) (grid_origin item.q) item.block_maps).1

/-- An item for chunk `(0, 0)` whose centre block map holds the given cells and
whose other seventeen pointers are null. -/
def item_of (cells : List Cell) : WorkerItem :=
  { zeroItem with
    block_maps := [none, none, none, none, some { zeroMap with cells := cells },
                   none, none, none, none],
    light_maps := [none, none, none, none, none, none, none, none, none] }

/-- The cell `(1, 5, 1)` with block type `w` and a block of type `1` at each of
its six axis neighbours. -/
def enclosed_cells (w : Int) : List Cell :=
  [(1, 5, 1, w), (0, 5, 1, 1), (2, 5, 1, 1), (1, 6, 1, 1), (1, 4, 1, 1), (1, 5, 0, 1),
   (1, 5, 2, 1)]

/-- A collaborator set in which block type `17` is a plant, transparent as the
plants of `item.h` are. -/
def env_plant : Env :=
  { env0 with
    is_plant := fun w => decide (w = 17),
    is_transparent := fun w => decide (w ≤ 0) || decide (w = 17) }

/-- The entries that the loops of `compute_chunk` visit for a map pointer: the
populated cells of the map, and none for a null pointer. -/
def cells_of (om : Option Map) : List Cell :=
  match om with
  | some m => m.cells
  | none => []

/-- A block map with one cube at `(0, 5, 0)`. -/
def cube_map : Map := { zeroMap with cells := [(0, 5, 0, 1)] }

/-- An item for chunk `(0, 0)` with the cube map at the centre and at the
position `[0][1]`, and the lit map at the centre of the light table. -/
def border_item : WorkerItem :=
  { zeroItem with
    block_maps := [none, some cube_map, none, none, some cube_map, none, none, none, none],
    light_maps := [none, none, none, none, some lit_map, none, none, none, none] }

/-! ## The inner loop of `chunk_visible` without the early exit (used to state the theorems) -/

/-- The inner loop of `chunk_visible` for plane `i` with the statement
`if (in && out) break;` removed: the counters `(in, out)` after all points. -/
def plane_count_all (planes : Nat → Nat → ℚ) (i : Nat) :
    List (Int × Int × Int) → Nat → Nat → Nat × Nat
  | [], inn, out => (inn, out)
  | pt :: rest, inn, out =>
    let inn1 := if plane_neg planes i pt then inn else inn + 1
    let out1 := if plane_neg planes i pt then out + 1 else out
    plane_count_all planes i rest inn1 out1

/-- A family of planes whose first plane `y < -1` has the whole box of a chunk
with `miny = maxy = 0` on its positive side and whose other planes are zero. -/
def planes_below : Nat → Nat → ℚ :=
  fun i k => if i = 0 ∧ k = 1 then -1 else if i = 0 ∧ k = 3 then -1 else 0

/-- A family of planes whose first plane is `0.1f * x - c` with `0.1f` the
binary32 number nearest to `1/10` and `c` the `float` product `0.1f * 96`, and
whose other planes are zero. -/
def planes_tenth : Nat → Nat → ℚ :=
  fun i k =>
    if i = 0 ∧ k = 0 then f32 (1 / 10)
    else if i = 0 ∧ k = 3 then -(fmul (f32 (1 / 10)) 96)
    else 0

/-! ## The geometry pass of `compute_chunk` (used to state the theorems) -/

/-- The array `light` that `compute_chunk` builds for the item. -/
def item_light (env : Env) (item : WorkerItem) : Grid :=
  flood env (item_opacity env item) (grid_origin item.p) (grid_origin item.q) item.light_maps

/-- The array `highest` that `compute_chunk` builds for the item. -/
def item_highest (env : Env) (item : WorkerItem) : Grid :=
  (populate env (grid_origin item.p) (grid_origin item.q) item.block_maps).2

/-- The variables `offset` and the blocks written when the geometry pass of
`compute_chunk` ends. -/
def item_geometry (env : Env) (item : WorkerItem) : GeomState :=
  (centre_cells item.block_maps).foldl
    (geom_cell env (item_opacity env item) (item_light env item) (item_highest env item)
      (grid_origin item.p) (grid_origin item.q))
    { offset := 0, writes := [] }

/-- A collaborator set whose `make_cube` writes `60` floats for each set face
flag and whose `make_plant` writes `4 * 60` floats, as those of `cube.h` do. -/
def env_cube : Env :=
  { env_plant with
    make_cube := fun _ _ flags _ _ _ _ _ => List.replicate (60 * flags.sum).toNat 0,
    make_plant := fun _ _ _ _ _ _ _ _ => List.replicate 240 0 }

/-! ## The array accesses of `light_fill` (used to state the theorems) -/

/-- The function `light_fill` together with the list of the positions
`(x, y, z)` whose element `XYZ(x, y, z)` it reads or writes, in the order of
the accesses: a call that passes the three range tests reads
`light[XYZ(x, y, z)]`, then `opaque[XYZ(x, y, z)]`, and then writes
`light[XYZ(x, y, z)]`; a call that fails one of them touches no array. -/
def light_fill_log (opaq : Grid) (ysize : Int) :
    Nat → Grid × List (Int × Int × Int) → Int → Int → Int → Int → Int →
      Grid × List (Int × Int × Int)
  | 0, st, _, _, _, _, _ => st
  | fuel + 1, st, x, y, z, w, force =>
    if x + w < XZ_LO ∨ z + w < XZ_LO then st
    else if x - w > XZ_HI ∨ z - w > XZ_HI then st
    else if y < 0 ∨ y ≥ ysize then st
    else if st.1 (XYZ x y z) ≥ w then (st.1, st.2 ++ [(x, y, z)])
    else if force = 0 ∧ opaq (XYZ x y z) ≠ 0 then (st.1, st.2 ++ [(x, y, z)])
    else
      let s0 := (grid_set st.1 (XYZ x y z) (int8 w), st.2 ++ [(x, y, z)])
      let s1 := light_fill_log opaq ysize fuel s0 (x - 1) y z (w - 1) 0
      let s2 := light_fill_log opaq ysize fuel s1 (x + 1) y z (w - 1) 0
      let s3 := light_fill_log opaq ysize fuel s2 x (y - 1) z (w - 1) 0
      let s4 := light_fill_log opaq ysize fuel s3 x (y + 1) z (w - 1) 0
      let s5 := light_fill_log opaq ysize fuel s4 x y (z - 1) (w - 1) 0
      light_fill_log opaq ysize fuel s5 x y (z + 1) (w - 1) 0

/-- The position lies inside the padded grid: `0 <= x, z < XZ_SIZE` and
`0 <= y < ysize`. -/
def in_grid (ysize : Int) (c : Int × Int × Int) : Prop :=
  (0 ≤ c.1 ∧ c.1 < XZ_SIZE) ∧ (0 ≤ c.2.1 ∧ c.2.1 < ysize) ∧ (0 ≤ c.2.2 ∧ c.2.2 < XZ_SIZE)

instance (ysize : Int) (c : Int × Int × Int) : Decidable (in_grid ysize c) := by
  unfold in_grid
  infer_instance

/-- An opacity grid with the single opaque cell `(40, 5, 41)`. -/
def wall_grid : Grid := grid_set grid_zero (XYZ 40 5 41) 1

/-! ## Predicates and inputs for the collision theorem -/

/-- For some capsule cell `dy` of the loop `for (dy = 0; dy < height; dy++)` the
cell `(cx, cy - dy, cz)` of the map is an obstacle. -/
def blocked (env : Env) (map : Map) (height : Int) (cx cy cz : Int) : Prop :=
  ∃ dy ∈ irange 0 (height - 1), env.is_obstacle (map_get map cx (cy - dy) cz) = true

instance (env : Env) (map : Map) (height : Int) (cx cy cz : Int) :
    Decidable (blocked env map height cx cy cz) := by
  unfold blocked
  infer_instance

/-- A block map with an obstacle at `(-1, 0, 0)`, west of the cell `(0, 0, 0)`. -/
def west_wall : List Chunk :=
  [{ chunk_pq 0 0 with map := { zeroMap with cells := [(-1, 0, 0, 1)] } }]

/-- A block map with an obstacle at `(4194304, 0, 0)`, the first cell of chunk
`(131072, 0)`, west of the cell `(4194305, 0, 0)`. -/
def far_wall : List Chunk :=
  [{ chunk_pq 131072 0 with map := { zeroMap with cells := [(4194304, 0, 0, 1)] } }]

/-! ## The samples of a ray (used to state the theorems) -/

/-- The cell `(nx, ny, nz)` of pass `i` of the loop of `_hit_test`: the rounded
position after `i` additions of `(vx / m, vy / m, vz / m)` (in exact
arithmetic). -/
def ray_cell (x y z vx vy vz : ℚ) (i : Nat) : Int × Int × Int :=
  (roundf (x + (i : ℚ) * (vx / 32)), roundf (y + (i : ℚ) * (vy / 32)),
   roundf (z + (i : ℚ) * (vz / 32)))

/-- A block map with the single block `w` at `(0, 0, 0)`. -/
def single_block (w : Int) : Map := { zeroMap with cells := [(0, 0, 0, w)] }

/-- One resident chunk `(0, 0)` whose block map has the single block `w` at
`(0, 0, 0)`. -/
def one_block (w : Int) : List Chunk := [{ chunk_pq 0 0 with map := single_block w }]

/-- A block map with the block `1` at `(5, 5, 5)`. -/
def solid_origin : Map := { zeroMap with cells := [(5, 5, 5, 1)] }

/-- A block map with the block `1` at `(0, 0, 0)` and the block `2` above it at
`(0, 1, 0)`. -/
def two_stacked : Map := { zeroMap with cells := [(0, 0, 0, 1), (0, 1, 0, 2)] }

/-- A collaborator set whose `cosf` is never zero: the sight vector is
`(2^-48, -1, 2^-24)` for every heading, as close to straight down as a `float`
pitch gets. -/
def env_steep : Env :=
  { env0 with cosf := fun _ => -(1 / 16777216), sinf := fun _ => -1 }

/-- A collaborator set whose sight vector is `(1, 0, 0)` for every heading. -/
def env_east : Env := { env0 with cosf := fun _ => 1, sinf := fun _ => 0 }

/-- The chunk `(0, 0)` with the single block `1` at `(31, 5, 0)`, in its last
column. -/
def west_chunk : Chunk :=
  { chunk_pq 0 0 with map := { zeroMap with cells := [(31, 5, 0, 1)] } }

/-- The chunk `(1, 0)` with the shadow `-1` of that block and a block `2` of its
own at `(33, 5, 0)`. -/
def east_chunk : Chunk :=
  { chunk_pq 1 0 with map := { zeroMap with cells := [(31, 5, 0, -1), (33, 5, 0, 2)] } }

/-! ## Predicates for the flood-fill theorems -/

/-- The value of the light array at the cell `c`. -/
def at_cell (g : Grid) (c : Int × Int × Int) : Int := g (XYZ c.1 c.2.1 c.2.2)

/-- The call `light_fill(opaque, light, x, y, z, u, force)` passes its first two
tests, the ones that compare `x` and `z` with `XZ_LO` and `XZ_HI`. -/
def not_pruned (x z u : Int) : Prop :=
  ¬ (x + u < XZ_LO ∨ z + u < XZ_LO) ∧ ¬ (x - u > XZ_HI ∨ z - u > XZ_HI)

/-- Light may enter the cell: it lies inside the `y` range of the grid and is
not opaque. -/
def open_cell (opaq : Grid) (ysize : Int) (c : Int × Int × Int) : Prop :=
  (0 ≤ c.2.1 ∧ c.2.1 < ysize) ∧ opaq (XYZ c.1 c.2.1 c.2.2) = 0

/-- The cell lies inside the `x`/`z` range of the padded grid, where `XYZ`
names each cell by an index of its own. -/
def in_xz (c : Int × Int × Int) : Prop :=
  (0 ≤ c.1 ∧ c.1 < XZ_SIZE) ∧ (0 ≤ c.2.2 ∧ c.2.2 < XZ_SIZE)

/-- The light at the cell `a` has been passed on: every axis neighbour that
light may enter, and for which the call with one less than the light of `a`
passes the `x`/`z` tests, holds at least one less than `a`. -/
def closed_at (opaq : Grid) (ysize : Int) (light : Grid) (a : Int × Int × Int) : Prop :=
  ∀ n ∈ axis_neighbours a.1 a.2.1 a.2.2, open_cell opaq ysize n →
    not_pruned n.1 n.2.2 (at_cell light a - 1) → at_cell light a - 1 ≤ at_cell light n

/-- The relation between the light array before and after a call of
`light_fill`: no element decreases, and the light of every cell whose element
changed has been passed on. -/
def light_step (opaq : Grid) (ysize : Int) (g g2 : Grid) : Prop :=
  (∀ i : Int, g i ≤ g2 i) ∧
  (∀ a : Int × Int × Int, in_xz a → at_cell g2 a ≠ at_cell g a → closed_at opaq ysize g2 a)

/-- A 6-connected path of `k` steps from the origin `o` to the cell, every cell
after the origin inside the `y` range of the grid and not opaque. -/
inductive LightPath (opaq : Grid) (ysize : Int) (o : Int × Int × Int) :
    Int × Int × Int → Nat → Prop
  | origin : LightPath opaq ysize o o 0
  | step (c n : Int × Int × Int) (k : Nat) (h : LightPath opaq ysize o c k)
      (hadj : n ∈ axis_neighbours c.1 c.2.1 c.2.2) (hopen : open_cell opaq ysize n) :
      LightPath opaq ysize o n (k + 1)

/-! ## Predicates and inputs for the emitter theorem -/

/-- The average of the light of the four cells with the indices `l4`, divided
by `15`: the value `light_sum / 15.0 / 4.0` without the override. -/
def light_average (lights : List Int) (l4 : List Nat) : ℚ :=
  (((l4.map (fun k => lights.getD k 0)).sum : Int) : ℚ) / 15 / 4

/-- The table `light[6][4]` of `occlusion` without the override: every entry
the average of the four touching cells of the grid cell `(x, y, z)`. -/
def average_table (light : Grid) (x y z : Int) : List (List ℚ) :=
  (List.range 6).map (fun (i : Nat) => (List.range 4).map (fun (j : Nat) =>
    light_average (offsets3.map (fun d => light (XYZ (x + d.1) (y + d.2.1) (z + d.2.2))))
      ((lookup4.getD i []).getD j [])))

/-- The entries of the nine light maps in the order in which the flood-fill
loops visit them. -/
def emitters (light_maps : List (Option Map)) : List Cell :=
  ((table9 light_maps).map cells_of).flatten

/-- An item for chunk `(0, 0)` whose centre block map holds a cube at `(0, 5, 0)`
and whose centre light map holds an emitter of intensity `w` at the same cell. -/
def emitter_item (w : Int) : WorkerItem :=
  { zeroItem with
    block_maps := [none, none, none, none, some cube_map, none, none, none, none],
    light_maps := [none, none, none, none, some { zeroMap with cells := [(0, 5, 0, w)] },
                   none, none, none, none] }

/-- The element `light[XYZ(x, y, z)]` that the geometry pass reads as
`lights[13]` for the map entry `c`. -/
def cell_light (env : Env) (item : WorkerItem) (c : Cell) : Int :=
  item_light env item
    (XYZ (c.1 - grid_origin item.p) (c.2.1 - (-1)) (c.2.2.1 - grid_origin item.q))

/-- The table `light[6][4]` that the geometry pass computes for the map entry
`c`. -/
def cell_light_table (env : Env) (item : WorkerItem) (c : Cell) : List (List ℚ) :=
  (cell_occlusion (item_opacity env item) (item_light env item) (item_highest env item)
    (c.1 - grid_origin item.p) (c.2.1 - (-1)) (c.2.2.1 - grid_origin item.q)).2

/-- The table of averages for the map entry `c`. -/
def cell_average_table (env : Env) (item : WorkerItem) (c : Cell) : List (List ℚ) :=
  average_table (item_light env item)
    (c.1 - grid_origin item.p) (c.2.1 - (-1)) (c.2.2.1 - grid_origin item.q)

/-- Every `BUSY` worker holds an item whose two centre pointers are non-null. -/
def worker_ready (g : Model) : Prop :=
  ∀ (j : Nat) (w : Worker), g.workers[j]? = some w → w.state = WORKER_BUSY → item_ready w.item

/-! # Lemmas and theorems -/

/-! ## Agreement of the integer formulas with the rational expressions -/

theorem floor_add_half (x : ℚ) :
    Int.floor (x + 1 / 2) = (2 * x.num + (x.den : Int)) / (2 * (x.den : Int)) := by
  have hd : (0 : ℚ) < x.den := by exact_mod_cast x.pos
  have h : x + 1 / 2 = ((2 * x.num + (x.den : Int) : Int) : ℚ) / ((2 * x.den : Nat) : ℚ) := by
    push_cast
    have hx : (x.num : ℚ) / (x.den : ℚ) = x := Rat.num_div_den x
    have hx2 : x + 1 / 2 = (x.num : ℚ) / (x.den : ℚ) + 1 / 2 := by rw [hx]
    rw [hx2]
    field_simp
    ring
  rw [h, Rat.floor_intCast_div_natCast]
  push_cast
  rfl

/-- The function `roundf` is rounding to nearest with halves away from zero. -/
theorem roundf_eq_floor (x : ℚ) :
    roundf x = if 0 ≤ x then Int.floor (x + 1 / 2) else - Int.floor (-x + 1 / 2) := by
  unfold roundf
  by_cases h : 0 ≤ x
  · rw [if_pos h, if_pos (Rat.num_nonneg.mpr h), floor_add_half]
  · have hn : ¬ 0 ≤ x.num := fun hc => h (Rat.num_nonneg.mp hc)
    rw [if_neg h, if_neg hn, floor_add_half (-x)]
    simp

/-- The function `chunked(x)` is `floorf(roundf(x) / CHUNK_SIZE)`. -/
theorem chunked_eq_floor (x : ℚ) :
    chunked x = Int.floor ((roundf x : ℚ) / (CHUNK_SIZE : ℚ)) := by
  unfold chunked CHUNK_SIZE
  have h := Rat.floor_intCast_div_natCast (roundf x) 32
  push_cast at h ⊢
  exact h.symm

/-- The test of `plane_neg` is the test `d < 0` on the variable `d`. -/
theorem plane_neg_iff (planes : Nat → Nat → ℚ) (i : Nat) (pt : Int × Int × Int) :
    plane_neg planes i pt = true ↔ plane_distance planes i pt < 0 := by
  unfold plane_neg
  exact decide_eq_true_iff

/-! ## Binary32 rounding: lemmas -/

theorem log2_fuel_spec (f n : Nat) (hf : n ≤ f) (hn : 1 ≤ n) :
    2 ^ log2_fuel f n ≤ n ∧ n < 2 ^ (log2_fuel f n + 1) := by
  induction f generalizing n with
  | zero => omega
  | succ f ih =>
    unfold log2_fuel
    by_cases h2 : n < 2
    · rw [if_pos h2]
      simp only [pow_zero, zero_add, pow_one]
      omega
    · rw [if_neg h2]
      have h := ih (n / 2) (by omega) (by omega)
      rw [pow_succ, pow_succ]
      omega

theorem ilog2_spec (n : Nat) (hn : 1 ≤ n) : 2 ^ ilog2 n ≤ n ∧ n < 2 ^ (ilog2 n + 1) :=
  log2_fuel_spec n n (le_refl n) hn

theorem pow2_eq (e : Int) : pow2 e = (2 : ℚ) ^ e := by
  unfold pow2
  by_cases h : 0 ≤ e
  · rw [if_pos h]
    obtain ⟨n, rfl⟩ := Int.eq_ofNat_of_zero_le h
    simp
  · rw [if_neg h]
    obtain ⟨n, hn⟩ := Int.exists_eq_neg_ofNat (le_of_lt (not_le.1 h))
    subst hn
    simp

theorem float_exp_ge (q : ℚ) : -149 ≤ float_exp q := by
  unfold float_exp
  exact le_max_right _ _

theorem float_exp_spec (q : ℚ) (hq : q ≠ 0) :
    (2 : ℚ) ^ (float_exp q + 23) ≤ |q| ∨ float_exp q = -149 := by
  have hnum : 1 ≤ q.num.natAbs := by
    have : q.num ≠ 0 := Rat.num_ne_zero.2 hq
    omega
  have hden : 1 ≤ q.den := q.den_pos
  have ha := ilog2_spec q.num.natAbs hnum
  have hd := ilog2_spec q.den hden
  have habs : |q| = (q.num.natAbs : ℚ) / (q.den : ℚ) := by
    conv_lhs => rw [← Rat.num_div_den q]
    rw [abs_div, Nat.abs_cast, Nat.cast_natAbs, Int.cast_abs]
  have hlow : (2 : ℚ) ^ ((ilog2 q.num.natAbs : Int) - (ilog2 q.den : Int) - 1) ≤ |q| := by
    rw [habs, le_div_iff₀ (by exact_mod_cast hden)]
    have h1 : ((2 : ℚ) ^ (ilog2 q.num.natAbs)) ≤ (q.num.natAbs : ℚ) := by exact_mod_cast ha.1
    have h2 : (q.den : ℚ) ≤ (2 : ℚ) ^ (ilog2 q.den + 1) := by exact_mod_cast le_of_lt hd.2
    have h3 : (2 : ℚ) ^ ((ilog2 q.num.natAbs : Int) - (ilog2 q.den : Int) - 1) *
        (2 : ℚ) ^ (ilog2 q.den + 1) = (2 : ℚ) ^ (ilog2 q.num.natAbs) := by
      rw [← zpow_natCast, ← zpow_natCast, ← zpow_add₀ (by norm_num)]
      congr 1
      push_cast
      ring
    calc (2 : ℚ) ^ ((ilog2 q.num.natAbs : Int) - (ilog2 q.den : Int) - 1) * (q.den : ℚ)
        ≤ (2 : ℚ) ^ ((ilog2 q.num.natAbs : Int) - (ilog2 q.den : Int) - 1) *
          (2 : ℚ) ^ (ilog2 q.den + 1) := by
          apply mul_le_mul_of_nonneg_left h2
          positivity
      _ = (2 : ℚ) ^ (ilog2 q.num.natAbs) := h3
      _ ≤ (q.num.natAbs : ℚ) := h1
  unfold float_exp
  simp only
  by_cases hk : pow2 ((ilog2 q.num.natAbs : Int) - (ilog2 q.den : Int)) ≤ |q|
  · rw [if_pos hk]
    rw [pow2_eq] at hk
    rcases le_total (-149 : Int) ((ilog2 q.num.natAbs : Int) - (ilog2 q.den : Int) - 23) with h | h
    · left
      rw [max_eq_left h]
      rw [show (ilog2 q.num.natAbs : Int) - (ilog2 q.den : Int) - 23 + 23 =
        (ilog2 q.num.natAbs : Int) - (ilog2 q.den : Int) by ring]
      exact hk
    · right
      exact max_eq_right h
  · rw [if_neg hk]
    rcases le_total (-149 : Int) ((ilog2 q.num.natAbs : Int) - (ilog2 q.den : Int) - 1 - 23) with h | h
    · left
      rw [max_eq_left h]
      rw [show (ilog2 q.num.natAbs : Int) - (ilog2 q.den : Int) - 1 - 23 + 23 =
        (ilog2 q.num.natAbs : Int) - (ilog2 q.den : Int) - 1 by ring]
      exact hlow
    · right
      exact max_eq_right h

theorem round_even_int (j : Int) : round_even (j : ℚ) = j := by
  unfold round_even
  simp

/-- The rounding formula leaves a binary32 number as it is: `m * 2 ^ k` with
`|m| <= 2 ^ 24` and `k >= -149`. -/
theorem f32_round_exact (m k : Int) (hm : |m| ≤ 2 ^ 24) (hk : -149 ≤ k) :
    f32_round ((m : ℚ) * (2 : ℚ) ^ k) = (m : ℚ) * (2 : ℚ) ^ k := by
  by_cases hm0 : m = 0
  · subst hm0
    simp only [Int.cast_zero, zero_mul]
    unfold f32_round
    simp [round_even]
  have hq : (m : ℚ) * (2 : ℚ) ^ k ≠ 0 := by
    apply mul_ne_zero
    · exact_mod_cast hm0
    · positivity
  obtain ⟨j, hj⟩ : ∃ j : Int, (m : ℚ) * (2 : ℚ) ^ k / (2 : ℚ) ^ (float_exp ((m : ℚ) * (2 : ℚ) ^ k)) = j := by
    have hge := float_exp_ge ((m : ℚ) * (2 : ℚ) ^ k)
    have hsp := float_exp_spec _ hq
    generalize float_exp ((m : ℚ) * (2 : ℚ) ^ k) = e at *
    have h2 : (2 : ℚ) ≠ 0 := by norm_num
    rcases le_or_lt e k with hek | hek
    · refine ⟨m * 2 ^ (k - e).toNat, ?_⟩
      rw [mul_div_assoc, ← zpow_sub₀ h2]
      push_cast
      rw [← zpow_natCast, Int.toNat_of_nonneg (by omega)]
    · have hmabs : |(m : ℚ)| ≤ 2 ^ 24 := by exact_mod_cast hm
      have hx : |(m : ℚ) * (2 : ℚ) ^ k| = |(m : ℚ)| * (2 : ℚ) ^ k := by
        rw [abs_mul, abs_of_pos (a := (2 : ℚ) ^ k) (by positivity)]
      rcases hsp with hsp | hsp
      · rw [hx] at hsp
        have hle : (2 : ℚ) ^ (e + 23) ≤ (2 : ℚ) ^ (24 + k) := by
          refine le_trans hsp ?_
          rw [zpow_add₀ h2]
          norm_num
          exact mul_le_mul_of_nonneg_right hmabs (by positivity)
        have hexp : e + 23 ≤ 24 + k := (zpow_le_zpow_iff_right₀ (by norm_num)).1 hle
        have he : e = k + 1 := by omega
        subst he
        have hm24 : (2 : ℚ) ^ 24 ≤ |(m : ℚ)| := by
          have h3 : (2 : ℚ) ^ (k + 1 + 23) = (2 : ℚ) ^ 24 * (2 : ℚ) ^ k := by
            rw [show k + 1 + 23 = 24 + k by ring, zpow_add₀ h2]
            norm_num
          rw [h3] at hsp
          exact le_of_mul_le_mul_right hsp (by positivity)
        have hmeq : |m| = 2 ^ 24 := le_antisymm hm (by exact_mod_cast hm24)
        rcases abs_eq (by norm_num : (0 : Int) ≤ 2 ^ 24) |>.1 hmeq with h | h
        · refine ⟨2 ^ 23, ?_⟩
          rw [h, zpow_add₀ h2]
          field_simp
          norm_num
          ring
        · refine ⟨-2 ^ 23, ?_⟩
          rw [h, zpow_add₀ h2]
          field_simp
          norm_num
          ring
      · omega
  unfold f32_round
  rw [pow2_eq, hj, round_even_int, ← hj]
  field_simp

/-- The value of `f32` is that of the rounding formula for every argument. -/
theorem f32_eq_round (q : ℚ) : f32 q = f32_round q := by
  unfold f32
  split
  · rename_i h
    have hq : q = ((q.num : ℚ)) * (2 : ℚ) ^ (0 : Int) := by
      rw [zpow_zero, mul_one]
      have := Rat.num_div_den q
      rw [h.1, Nat.cast_one, div_one] at this
      exact this.symm
    have hm : |q.num| ≤ 2 ^ 24 := by
      rw [Int.abs_eq_natAbs]
      exact_mod_cast h.2
    have := f32_round_exact q.num 0 hm (by norm_num)
    rw [← hq] at this
    exact this.symm
  · rfl

/-- A binary32 number is its own rounding: `m * 2 ^ k` with `|m| <= 2 ^ 24` and
`k >= -149`. -/
theorem f32_exact (m k : Int) (hm : |m| ≤ 2 ^ 24) (hk : -149 ≤ k) :
    f32 ((m : ℚ) * (2 : ℚ) ^ k) = (m : ℚ) * (2 : ℚ) ^ k := by
  rw [f32_eq_round]
  exact f32_round_exact m k hm hk

theorem int_to_float_small (n : Int) (h : |n| ≤ 2 ^ 24) : int_to_float n = (n : ℚ) := by
  unfold int_to_float
  have := f32_exact n 0 h (by norm_num)
  simpa using this

/-! ## `chunk_visible`: lemmas -/

theorem plane_count_in_zero (planes : Nat → Nat → ℚ) (i : Nat) (pts : List (Int × Int × Int))
    (inn out : Nat) :
    (plane_count planes i pts inn out).1 = 0 ↔
      inn = 0 ∧ ∀ pt ∈ pts, plane_neg planes i pt = true := by
  induction pts generalizing inn out with
  | nil => simp [plane_count]
  | cons pt rest ih =>
    unfold plane_count
    simp only [List.mem_cons, forall_eq_or_imp]
    cases hn : plane_neg planes i pt
    · simp only [Bool.false_eq_true, if_false, false_and, and_false, iff_false]
      split
      · simp
      · rw [ih]
        omega
    · simp only [if_true, true_and]
      split
      · rename_i h
        constructor
        · intro hc
          exact absurd hc h.1
        · intro hc
          exact absurd hc.1 h.1
      · rw [ih]

theorem plane_count_all_in_zero (planes : Nat → Nat → ℚ) (i : Nat)
    (pts : List (Int × Int × Int)) (inn out : Nat) :
    (plane_count_all planes i pts inn out).1 = 0 ↔
      inn = 0 ∧ ∀ pt ∈ pts, plane_neg planes i pt = true := by
  induction pts generalizing inn out with
  | nil => simp [plane_count_all]
  | cons pt rest ih =>
    unfold plane_count_all
    simp only [List.mem_cons, forall_eq_or_imp]
    rw [ih]
    cases hn : plane_neg planes i pt
    · simp
    · simp

/-- The function `chunk_visible` returns `0` exactly when one of the first `n`
planes has the variable `d` negative at all eight corners. -/
theorem chunk_visible_zero_iff (ortho : Int) (planes : Nat → Nat → ℚ) (p q miny maxy : Int) :
    chunk_visible ortho planes p q miny maxy = 0 ↔
      ∃ i : Nat, i < (if ortho ≠ 0 then 4 else 6) ∧
        ∀ pt ∈ chunk_points p q miny maxy, plane_distance planes i pt < 0 := by
  unfold chunk_visible
  simp only
  generalize (if ortho ≠ 0 then 4 else 6 : Nat) = n
  by_cases hany : ((List.range n).any
      (fun i => decide ((plane_count planes i (chunk_points p q miny maxy) 0 0).1 = 0))) = true
  · rw [if_pos hany]
    simp only [true_iff]
    obtain ⟨i, hi, hz⟩ := List.any_eq_true.1 hany
    refine ⟨i, List.mem_range.1 hi, fun pt hpt => ?_⟩
    have h := (plane_count_in_zero planes i _ 0 0).1 (by simpa using hz)
    exact (plane_neg_iff planes i pt).1 (h.2 pt hpt)
  · rw [if_neg hany]
    simp only [one_ne_zero, false_iff]
    rintro ⟨i, hi, hall⟩
    apply hany
    refine List.any_eq_true.2 ⟨i, List.mem_range.2 hi, ?_⟩
    simp only [decide_eq_true_eq]
    exact (plane_count_in_zero planes i _ 0 0).2
      ⟨rfl, fun pt hpt => (plane_neg_iff planes i pt).2 (hall pt hpt)⟩

theorem chunk_visible_values (ortho : Int) (planes : Nat → Nat → ℚ) (p q miny maxy : Int) :
    chunk_visible ortho planes p q miny maxy = 0 ∨
    chunk_visible ortho planes p q miny maxy = 1 := by
  unfold chunk_visible
  simp only
  generalize (if ortho ≠ 0 then 4 else 6 : Nat) = n
  by_cases hany : ((List.range n).any
      (fun i => decide ((plane_count planes i (chunk_points p q miny maxy) 0 0).1 = 0))) = true
  · rw [if_pos hany]
    exact Or.inl rfl
  · rw [if_neg hany]
    exact Or.inr rfl

/-! ## `compute_chunk` writes only the output fields: lemmas -/

theorem compute_chunk_p (env : Env) (item : WorkerItem) :
    (compute_chunk env item).p = item.p := rfl

theorem compute_chunk_q (env : Env) (item : WorkerItem) :
    (compute_chunk env item).q = item.q := rfl

theorem compute_chunk_load (env : Env) (item : WorkerItem) :
    (compute_chunk env item).load = item.load := rfl

theorem compute_chunk_maps (env : Env) (item : WorkerItem) :
    (compute_chunk env item).block_maps = item.block_maps ∧
    (compute_chunk env item).light_maps = item.light_maps := ⟨rfl, rfl⟩

/-! ## `delete_chunks`: lemmas -/

theorem set_perm_cons_eraseIdx {α : Type} (l : List α) (i : Nat) (a : α) (h : i < l.length) :
    (l.set i a).Perm (a :: l.eraseIdx i) := by
  induction l generalizing i with
  | nil => simp at h
  | cons x xs ih =>
    cases i with
    | zero => simp
    | succ j =>
      simp only [List.set_cons_succ, List.eraseIdx_cons_succ]
      have hj : j < xs.length := by simpa using h
      exact ((ih j hj).cons x).trans (List.Perm.swap a x _)

theorem perm_cons_eraseIdx {α : Type} (l : List α) (i : Nat) (a : α) (h : l[i]? = some a) :
    l.Perm (a :: l.eraseIdx i) := by
  induction l generalizing i with
  | nil => simp at h
  | cons x xs ih =>
    cases i with
    | zero =>
      simp at h
      subst h
      simp
    | succ j =>
      simp only [List.eraseIdx_cons_succ]
      have hj : xs[j]? = some a := by simpa using h
      exact ((ih j hj).cons x).trans (List.Perm.swap a x _)

/-- Overwriting slot `i` with the last slot and dropping the last slot removes
exactly the old content of slot `i`. -/
theorem swap_remove_perm {α : Type} (cs : List α) (i : Nat) (c : α) (h : cs[i]? = some c) :
    (c :: (cs.dropLast.set i (cs.getLastD c))).Perm cs := by
  rcases List.eq_nil_or_concat cs with rfl | ⟨ini, last, rfl⟩
  · simp at h
  · simp only [List.concat_eq_append] at h ⊢
    rw [List.dropLast_concat]
    have hlast : (ini ++ [last]).getLastD c = last := by simp [List.getLastD_eq_getLast?]
    rw [hlast]
    by_cases hi : i < ini.length
    · have hc : ini[i]? = some c := by
        rw [List.getElem?_append_left hi] at h
        exact h
      have h1 := set_perm_cons_eraseIdx ini i last hi
      have h2 := perm_cons_eraseIdx ini i c hc
      have h3 : (c :: ini.set i last).Perm (last :: ini) :=
        ((h1.cons c).trans (List.Perm.swap last c _)).trans (h2.symm.cons last)
      exact h3.trans (List.perm_append_singleton last ini).symm
    · have hi2 : ini.length ≤ i := Nat.le_of_not_lt hi
      rw [List.set_eq_of_length_le hi2]
      have hc : c = last := by
        rw [List.getElem?_append_right hi2] at h
        have hlt : i - ini.length < 1 := by
          by_contra hcon
          rw [List.getElem?_eq_none (by simpa using Nat.le_of_not_lt hcon)] at h
          simp at h
        have h0 : i - ini.length = 0 := by omega
        rw [h0] at h
        simpa using h.symm
      subst hc
      exact (List.perm_append_singleton c ini).symm

/-- The loop of `delete_chunks` only removes chunks whose `delete` flag is set:
the kept slots together with the removed chunks are a rearrangement of the
slots the loop started from. -/
theorem delete_loop_perm (states : List State) (r : Int) (fuel i : Nat)
    (cs stale : List Chunk) :
    ∃ deleted : List Chunk,
      (deleted ++ (delete_loop states r fuel i cs stale).1).Perm cs ∧
      ∀ d ∈ deleted, delete_flag states r d = true := by
  induction fuel generalizing i cs stale with
  | zero => exact ⟨[], by simp [delete_loop]⟩
  | succ n ih =>
    unfold delete_loop
    cases hci : cs[i]? with
    | none => exact ⟨[], by simp⟩
    | some chunk =>
      simp only
      by_cases hd : delete_flag states r chunk = true
      · simp only [hd, if_true]
        obtain ⟨del, hperm, hall⟩ :=
          ih (i + 1) (cs.dropLast.set i (cs.getLastD chunk)) (cs.getLastD chunk :: stale)
        refine ⟨chunk :: del, ?_, ?_⟩
        · exact (hperm.cons chunk).trans (swap_remove_perm cs i chunk hci)
        · intro d hdm
          rcases List.mem_cons.mp hdm with rfl | hdm
          · exact hd
          · exact hall d hdm
      · simp only [hd]
        exact ih (i + 1) cs stale

/-- More fuel than the number of remaining slots does not change the result of
the loop of `delete_chunks`. -/
theorem delete_loop_fuel (states : List State) (r : Int) (fuel fuel2 i : Nat)
    (cs stale : List Chunk) (h1 : cs.length ≤ i + fuel) (h2 : cs.length ≤ i + fuel2) :
    delete_loop states r fuel i cs stale = delete_loop states r fuel2 i cs stale := by
  induction fuel generalizing fuel2 i cs stale with
  | zero =>
    have hnone : cs[i]? = none := List.getElem?_eq_none (by omega)
    cases fuel2 with
    | zero => rfl
    | succ m => simp [delete_loop, hnone]
  | succ n ih =>
    cases fuel2 with
    | zero =>
      have hnone : cs[i]? = none := List.getElem?_eq_none (by omega)
      simp [delete_loop, hnone]
    | succ m =>
      unfold delete_loop
      cases hci : cs[i]? with
      | none => rfl
      | some chunk =>
        simp only
        have hlen : (cs.dropLast.set i (cs.getLastD chunk)).length ≤ cs.length := by simp
        split
        · exact ih m (i + 1) _ _ (by omega) (by omega)
        · exact ih m (i + 1) _ _ (by omega) (by omega)

/-! ## Slot updates and chunk coordinates: lemmas -/

theorem getElem?_modifyAt {α : Type} (f : α → α) (i j : Nat) (l : List α) :
    (modifyAt f i l)[j]? = if j = i then (l[j]?).map f else l[j]? := by
  unfold modifyAt
  cases h : l[i]? with
  | none =>
    by_cases hji : j = i
    · subst hji
      simp [h]
    · simp [hji]
  | some a =>
    by_cases hji : j = i
    · subst hji
      have hlt : j < l.length := by
        by_contra hcon
        rw [List.getElem?_eq_none (Nat.le_of_not_lt hcon)] at h
        exact Option.noConfusion h
      simp [h, hlt]
    · have hij : i ≠ j := fun e => hji e.symm
      simp [hji, List.getElem?_set_ne hij]

theorem length_modifyAt {α : Type} (f : α → α) (i : Nat) (l : List α) :
    (modifyAt f i l).length = l.length := by
  unfold modifyAt
  cases l[i]? <;> simp

theorem map_modifyAt {α β : Type} (g : α → β) (f : α → α) (i : Nat) (l : List α)
    (h : ∀ a, g (f a) = g a) : (modifyAt f i l).map g = l.map g := by
  apply List.ext_getElem?
  intro j
  rw [List.getElem?_map, List.getElem?_map, getElem?_modifyAt]
  by_cases hji : j = i
  · simp only [hji, if_true]
    cases l[i]? <;> simp [h]
  · simp [hji]

theorem coords_modifyAt (f : Chunk → Chunk) (i : Nat) (cs : List Chunk)
    (h : ∀ c, ((f c).p, (f c).q) = (c.p, c.q)) : coords (modifyAt f i cs) = coords cs :=
  map_modifyAt (fun c : Chunk => (c.p, c.q)) f i cs h

theorem find_chunk_eq_none (cs : List Chunk) (a b : Int) :
    find_chunk cs a b = none ↔ (a, b) ∉ coords cs := by
  unfold find_chunk coords
  rw [List.findIdx?_eq_none_iff]
  constructor
  · intro h hmem
    obtain ⟨c, hc, heq⟩ := List.mem_map.mp hmem
    have := h c hc
    simp only [Prod.mk.injEq] at heq
    simp [heq.1, heq.2] at this
  · intro h c hc
    by_contra hcon
    apply h
    simp only [Bool.not_eq_false, Bool.and_eq_true, decide_eq_true_eq] at hcon
    exact List.mem_map.mpr ⟨c, hc, by simp [hcon.1, hcon.2]⟩

/-- A successful `find_chunk(a, b)` points to a slot with coordinates `(a, b)`. -/
theorem find_chunk_some (cs : List Chunk) (a b : Int) (i : Nat)
    (h : find_chunk cs a b = some i) : ∃ c, cs[i]? = some c ∧ c.p = a ∧ c.q = b := by
  unfold find_chunk at h
  rw [List.findIdx?_eq_some_iff_getElem] at h
  obtain ⟨hlt, hp, _⟩ := h
  refine ⟨cs[i], by simp [hlt], ?_⟩
  simpa using hp

/-- The result of `find_chunk` depends only on the coordinates of the slots. -/
theorem find_chunk_congr (cs cs2 : List Chunk) (h : coords cs2 = coords cs) (a b : Int) :
    find_chunk cs2 a b = find_chunk cs a b := by
  unfold find_chunk
  have key : ∀ l : List Chunk,
      l.findIdx? (fun c => decide (c.p = a) && decide (c.q = b)) =
        (coords l).findIdx? (fun x => decide (x.1 = a) && decide (x.2 = b)) := by
    intro l
    induction l with
    | nil => rfl
    | cons x xs ih => simp [coords, List.findIdx?_cons, ih] at *
  rw [key, key, h]

theorem modifyAt_append_last {α : Type} (f : α → α) (l : List α) (x : α) :
    modifyAt f l.length (l ++ [x]) = l ++ [f x] := by
  apply List.ext_getElem?
  intro j
  rw [getElem?_modifyAt]
  by_cases hj : j = l.length
  · subst hj
    simp
  · simp only [hj, if_false]
    by_cases hlt : j < l.length
    · rw [List.getElem?_append_left hlt, List.getElem?_append_left hlt]
    · have hge : l.length ≤ j := Nat.le_of_not_lt hlt
      rw [List.getElem?_append_right hge, List.getElem?_append_right hge]
      have : j - l.length ≠ 0 := by omega
      cases hk : j - l.length with
      | zero => exact absurd hk this
      | succ k => simp

theorem coords_append (cs ds : List Chunk) : coords (cs ++ ds) = coords cs ++ coords ds := by
  simp [coords]

theorem coords_length (cs : List Chunk) : (coords cs).length = cs.length := by
  simp [coords]

theorem coords_dirty_fold (pq : Int × Int) (l : List (Int × Int)) (cs : List Chunk) :
    coords (l.foldl (fun acc d =>
        match find_chunk acc (pq.1 + d.1) (pq.2 + d.2) with
        | some j => modifyAt (set_dirty 1) j acc
        | none => acc) cs) = coords cs := by
  induction l generalizing cs with
  | nil => rfl
  | cons d ds ih =>
    simp only [List.foldl_cons]
    rw [ih]
    cases find_chunk cs (pq.1 + d.1) (pq.2 + d.2) with
    | none => rfl
    | some j => exact coords_modifyAt (set_dirty 1) _ _ (fun c => rfl)

theorem coords_dirty_chunk (env : Env) (cs : List Chunk) (i : Nat) :
    coords (dirty_chunk env cs i) = coords cs := by
  unfold dirty_chunk
  have h1 : coords (modifyAt (set_dirty 1) i cs) = coords cs :=
    coords_modifyAt (set_dirty 1) _ _ (fun c => rfl)
  simp only
  split
  · exact h1
  · split
    · exact h1
    · rename_i chunk _
      rw [coords_dirty_fold (chunk.p, chunk.q)]
      exact h1

theorem coords_gen_chunk_buffer (env : Env) (cs : List Chunk) (i : Nat) :
    coords (gen_chunk_buffer env cs i) = coords cs := by
  unfold gen_chunk_buffer
  split
  · rfl
  · exact coords_modifyAt (gen_slot env _) _ _ (fun c => rfl)

theorem coords_init_chunk (env : Env) (cs : List Chunk) (i : Nat) (p q : Int) :
    coords (init_chunk env cs i p q) = coords (modifyAt (init_header p q) i cs) := by
  unfold init_chunk
  simp only
  rw [coords_modifyAt (init_maps env p q) _ _ (fun c => rfl), coords_dirty_chunk]

theorem coords_create_chunk (env : Env) (cs : List Chunk) (i : Nat) (p q : Int) :
    coords (create_chunk env cs i p q) = coords (modifyAt (init_header p q) i cs) := by
  unfold create_chunk
  exact (coords_modifyAt (load_chunk_live env) _ _ (fun c => rfl)).trans
    (coords_init_chunk env cs i p q)

/-- Initialising the slot taken by `g->chunk_count++` appends `(p, q)` to the
resident coordinates. -/
theorem coords_init_header_take_slot (g : Model) (p q : Int) :
    coords (modifyAt (init_header p q) g.chunk_count (take_slot g).chunks) =
      coords g.chunks ++ [(p, q)] := by
  unfold take_slot Model.chunk_count
  simp only
  rw [modifyAt_append_last, coords_append]
  rfl

theorem coords_force_chunks_step (env : Env) (p q : Int) (g : Model) (d : Int × Int) :
    coords (force_chunks_step env p q g d).chunks = force_coords_step p q (coords g.chunks) d := by
  unfold force_chunks_step force_coords_step
  simp only
  cases hf : find_chunk g.chunks (p + d.1) (q + d.2) with
  | some i =>
    have hmem : (p + d.1, q + d.2) ∈ coords g.chunks := by
      by_contra hcon
      rw [(find_chunk_eq_none _ _ _).mpr hcon] at hf
      exact Option.noConfusion hf
    simp only [hmem, if_true]
    split
    · exact coords_gen_chunk_buffer _ _ _
    · rfl
  | none =>
    have hmem : (p + d.1, q + d.2) ∉ coords g.chunks := (find_chunk_eq_none _ _ _).mp hf
    simp only [hmem, if_false, coords_length]
    unfold Model.chunk_count
    split
    · simp only
      rw [coords_gen_chunk_buffer, coords_create_chunk]
      exact coords_init_header_take_slot g _ _
    · rfl

theorem coords_force_fold (env : Env) (p q : Int) (l : List (Int × Int)) (g : Model) :
    coords (l.foldl (force_chunks_step env p q) g).chunks =
      l.foldl (force_coords_step p q) (coords g.chunks) := by
  induction l generalizing g with
  | nil => rfl
  | cons d ds ih =>
    simp only [List.foldl_cons]
    rw [ih, coords_force_chunks_step]

theorem coords_force_chunks (env : Env) (g : Model) (player : Player) :
    coords (force_chunks env g player).chunks =
      (offsets 1).foldl (force_coords_step (chunked player.state.x) (chunked player.state.z))
        (coords g.chunks) :=
  coords_force_fold env _ _ _ g

/-! ## C1, C2: eviction -/

/-- C1 (the code at the failing input): with two resident chunks that are both
farther than `delete_radius` from every tracked observer, `delete_chunks` frees
the first, copies the second into its slot and never examines that slot again,
so the second chunk is still resident afterwards although its Chebyshev
distance to every observer exceeds the retain radius. -/
theorem delete_chunks_skips_moved_chunk :
    (delete_chunks two_far_chunks).chunks = [chunk_pq 200 0] ∧
    ∀ s ∈ observer_states two_far_chunks,
      two_far_chunks.delete_radius <
        chunk_distance (chunk_pq 200 0) (chunked s.x) (chunked s.z) := by
  decide

/-- C2 (counterexample): a resident chunk whose Chebyshev distance to an
observer equals `delete_radius` (so it is `≤ delete_radius`) is no longer
resident after `delete_chunks`. -/
theorem delete_chunks_drops_chunk_on_radius :
    chunk_pq 14 0 ∈ chunk_on_radius.chunks ∧
    (∃ s ∈ observer_states chunk_on_radius,
      chunk_distance (chunk_pq 14 0) (chunked s.x) (chunked s.z) ≤
        chunk_on_radius.delete_radius) ∧
    chunk_pq 14 0 ∉ (delete_chunks chunk_on_radius).chunks := by
  decide

/-- C2 (amended): every resident chunk whose Chebyshev distance to at least one
tracked observer is strictly less than `delete_radius` is still resident after
`delete_chunks`, as the same record (coordinates, maps, flags) and as many
times as before; `delete_chunks` makes no chunk resident that was not resident
before; and a chunk that is resident before and not after has Chebyshev
distance at least `delete_radius` to every tracked observer. -/
theorem delete_chunks_keeps_near (g : Model) (c : Chunk) (hc : c ∈ g.chunks)
    (hnear : ∃ s ∈ observer_states g,
      chunk_distance c (chunked s.x) (chunked s.z) < g.delete_radius) :
    c ∈ (delete_chunks g).chunks ∧
    (delete_chunks g).chunks.count c = g.chunks.count c ∧
    (∀ c2 ∈ (delete_chunks g).chunks, c2 ∈ g.chunks) ∧
    (∀ c2 ∈ g.chunks, c2 ∉ (delete_chunks g).chunks →
      ∀ s ∈ observer_states g,
        g.delete_radius ≤ chunk_distance c2 (chunked s.x) (chunked s.z)) := by
  obtain ⟨del, hperm, hall⟩ :=
    delete_loop_perm (observer_states g) g.delete_radius g.chunks.length 0 g.chunks g.stale
  have hflag : delete_flag (observer_states g) g.delete_radius c = false := by
    unfold delete_flag
    simp only [Bool.not_eq_false', List.any_eq_true, decide_eq_true_eq]
    exact hnear
  have hnot : c ∉ del := by
    intro hmem
    have := hall c hmem
    rw [hflag] at this
    exact Bool.noConfusion this
  have hres : (delete_chunks g).chunks =
      (delete_loop (observer_states g) g.delete_radius g.chunks.length 0 g.chunks g.stale).1 := rfl
  rw [hres]
  refine ⟨?_, ?_, ?_, ?_⟩
  · have hmem : c ∈ del ++ _ := hperm.symm.subset hc
    rcases List.mem_append.mp hmem with h | h
    · exact absurd h hnot
    · exact h
  · have hcount := hperm.count_eq c
    rw [List.count_append, List.count_eq_zero_of_not_mem hnot, Nat.zero_add] at hcount
    exact hcount
  · intro c2 h2
    exact hperm.subset (List.mem_append_right _ h2)
  · intro c2 h2 hout s hs
    have hmem : c2 ∈ del ++ _ := hperm.symm.subset h2
    rcases List.mem_append.mp hmem with h | h
    · have hf := hall c2 h
      unfold delete_flag at hf
      simp only [Bool.not_eq_true', List.any_eq_false, decide_eq_true_eq, not_lt] at hf
      exact hf s hs
    · exact absurd h hout

/-- C2 (amended), applied to a chunk at distance `3 < 14`. -/
theorem delete_chunks_keeps_near_witness :
    chunk_pq 3 0 ∈ (delete_chunks chunk_nearby).chunks ∧
    (delete_chunks chunk_nearby).chunks.count (chunk_pq 3 0) =
      chunk_nearby.chunks.count (chunk_pq 3 0) ∧
    (∀ c2 ∈ (delete_chunks chunk_nearby).chunks, c2 ∈ chunk_nearby.chunks) ∧
    (∀ c2 ∈ chunk_nearby.chunks, c2 ∉ (delete_chunks chunk_nearby).chunks →
      ∀ s ∈ observer_states chunk_nearby,
        chunk_nearby.delete_radius ≤ chunk_distance c2 (chunked s.x) (chunked s.z)) :=
  delete_chunks_keeps_near chunk_nearby (chunk_pq 3 0) (by decide) (by decide)

/-! ## Coordinate view of `force_chunks`: lemmas -/

theorem force_coords_step_subset (p q : Int) (L : List (Int × Int)) (d : Int × Int) :
    L ⊆ force_coords_step p q L d := by
  unfold force_coords_step
  split
  · exact fun _ h => h
  · split
    · exact List.subset_append_left _ _
    · exact fun _ h => h

theorem force_coords_fold_subset (p q : Int) (l : List (Int × Int)) (L : List (Int × Int)) :
    L ⊆ l.foldl (force_coords_step p q) L := by
  induction l generalizing L with
  | nil => exact fun _ h => h
  | cons d ds ih =>
    simp only [List.foldl_cons]
    exact fun x hx => ih _ (force_coords_step_subset p q L d hx)

theorem force_coords_step_nodup (p q : Int) (L : List (Int × Int)) (d : Int × Int)
    (h : L.Nodup) : (force_coords_step p q L d).Nodup := by
  unfold force_coords_step
  split
  · exact h
  · rename_i hmem
    split
    · rw [List.nodup_append]
      refine ⟨h, List.nodup_singleton _, ?_⟩
      intro x hx hx2
      rw [List.mem_singleton] at hx2
      subst hx2
      exact hmem hx
    · exact h

theorem force_coords_fold_nodup (p q : Int) (l : List (Int × Int)) (L : List (Int × Int))
    (h : L.Nodup) : (l.foldl (force_coords_step p q) L).Nodup := by
  induction l generalizing L with
  | nil => exact h
  | cons d ds ih =>
    simp only [List.foldl_cons]
    exact ih _ (force_coords_step_nodup p q L d h)

theorem force_coords_step_length_le (p q : Int) (L : List (Int × Int)) (d : Int × Int)
    (h : L.length ≤ MAX_CHUNKS) : (force_coords_step p q L d).length ≤ MAX_CHUNKS := by
  unfold force_coords_step
  split
  · exact h
  · split
    · rename_i hlt
      simp only [List.length_append, List.length_singleton]
      omega
    · exact h

theorem force_coords_fold_length_le (p q : Int) (l : List (Int × Int)) (L : List (Int × Int))
    (h : L.length ≤ MAX_CHUNKS) : (l.foldl (force_coords_step p q) L).length ≤ MAX_CHUNKS := by
  induction l generalizing L with
  | nil => exact h
  | cons d ds ih =>
    simp only [List.foldl_cons]
    exact ih _ (force_coords_step_length_le p q L d h)

theorem force_coords_step_full (p q : Int) (L : List (Int × Int)) (d : Int × Int)
    (h : MAX_CHUNKS ≤ L.length) : force_coords_step p q L d = L := by
  unfold force_coords_step
  split
  · rfl
  · split
    · omega
    · rfl

theorem force_coords_fold_full (p q : Int) (l : List (Int × Int)) (L : List (Int × Int))
    (h : MAX_CHUNKS ≤ L.length) : l.foldl (force_coords_step p q) L = L := by
  induction l with
  | nil => rfl
  | cons d ds ih =>
    simp only [List.foldl_cons]
    rw [force_coords_step_full p q L d h]
    exact ih

/-- With room for every missing cell of `l`, the fold makes every cell of `l`
resident. -/
theorem force_coords_fold_mem (p q : Int) (l : List (Int × Int)) (L : List (Int × Int))
    (h : L.length + (l.filter (fun d => decide ((p + d.1, q + d.2) ∉ L))).length ≤ MAX_CHUNKS) :
    ∀ d ∈ l, (p + d.1, q + d.2) ∈ l.foldl (force_coords_step p q) L := by
  induction l generalizing L with
  | nil => intro d hd; cases hd
  | cons e es ih =>
    have hmono : ∀ L2 : List (Int × Int), L ⊆ L2 →
        (es.filter (fun d => decide ((p + d.1, q + d.2) ∉ L2))).length ≤
          (es.filter (fun d => decide ((p + d.1, q + d.2) ∉ L))).length := by
      intro L2 hsub
      apply List.Sublist.length_le
      apply List.monotone_filter_right
      intro d hd
      simp only [decide_eq_true_eq] at hd ⊢
      exact fun hm => hd (hsub hm)
    have hstep : (force_coords_step p q L e).length +
        (es.filter (fun d => decide ((p + d.1, q + d.2) ∉ force_coords_step p q L e))).length
          ≤ MAX_CHUNKS := by
      have hm := hmono _ (force_coords_step_subset p q L e)
      by_cases he : (p + e.1, q + e.2) ∈ L
      · have hL : force_coords_step p q L e = L := by simp [force_coords_step, he]
        rw [hL]
        simp only [List.filter_cons, he, not_true_eq_false, decide_False] at h
        simpa using h
      · simp only [List.filter_cons, he, not_false_eq_true, decide_True, if_true,
          List.length_cons] at h
        have hlt : L.length < MAX_CHUNKS := by omega
        have hL : (force_coords_step p q L e).length = L.length + 1 := by
          simp [force_coords_step, he, hlt]
        omega
    have hhead : (p + e.1, q + e.2) ∈ force_coords_step p q L e := by
      by_cases he : (p + e.1, q + e.2) ∈ L
      · exact force_coords_step_subset p q L e he
      · simp only [List.filter_cons, he, not_false_eq_true, decide_True, if_true,
          List.length_cons] at h
        have hlt : L.length < MAX_CHUNKS := by omega
        simp [force_coords_step, he, hlt]
    intro d hd
    simp only [List.foldl_cons]
    rcases List.mem_cons.mp hd with rfl | hd
    · exact force_coords_fold_subset p q es _ hhead
    · exact ih _ hstep d hd

theorem missing_ring_eq (cs : List Chunk) (p q : Int) :
    missing_ring cs p q =
      ((offsets 1).filter (fun d => decide ((p + d.1, q + d.2) ∉ coords cs))).length := by
  unfold missing_ring
  congr 1
  apply List.filter_congr
  intro d _
  cases hf : find_chunk cs (p + d.1) (q + d.2) with
  | none => simp [(find_chunk_eq_none _ _ _).mp hf]
  | some i =>
    have hmem : (p + d.1, q + d.2) ∈ coords cs := by
      by_contra hcon
      rw [(find_chunk_eq_none _ _ _).mpr hcon] at hf
      exact Option.noConfusion hf
    simp [hmem]

theorem mem_offsets_one (dp dq : Int) (h1 : -1 ≤ dp) (h2 : dp ≤ 1) (h3 : -1 ≤ dq)
    (h4 : dq ≤ 1) : (dp, dq) ∈ offsets 1 := by
  have hp : dp = -1 ∨ dp = 0 ∨ dp = 1 := by omega
  have hq : dq = -1 ∨ dq = 0 ∨ dq = 1 := by omega
  rcases hp with rfl | rfl | rfl <;> rcases hq with rfl | rfl | rfl <;> decide

/-! ## C4: the ring around the observer becomes resident -/

/-- C4: when the table has room for the missing ring chunks
(`chunk_count + missing ≤ MAX_CHUNKS`), after `force_chunks` every coordinate
`(p + dp, q + dq)` with `dp, dq ∈ {-1, 0, 1}` around the observer's chunk
`(p, q) = (chunked(x), chunked(z))` is resident; and an observer at world
`(0, 0, 0)` with an empty resident set ends with exactly the nine chunks
`{-1, 0, 1} × {-1, 0, 1}`. -/
theorem force_chunks_ring_resident (env : Env) (g : Model) (player : Player)
    (hroom : g.chunk_count +
      missing_ring g.chunks (chunked player.state.x) (chunked player.state.z) ≤ MAX_CHUNKS) :
    (∀ dp dq : Int, -1 ≤ dp → dp ≤ 1 → -1 ≤ dq → dq ≤ 1 →
      (find_chunk (force_chunks env g player).chunks
        (chunked player.state.x + dp) (chunked player.state.z + dq)).isSome = true) ∧
    (g.chunks = [] → player.state.x = 0 → player.state.z = 0 →
      coords (force_chunks env g player).chunks =
        [(-1, -1), (-1, 0), (-1, 1), (0, -1), (0, 0), (0, 1), (1, -1), (1, 0), (1, 1)]) := by
  constructor
  · intro dp dq h1 h2 h3 h4
    have hmem := force_coords_fold_mem (chunked player.state.x) (chunked player.state.z)
      (offsets 1) (coords g.chunks)
      (by rw [coords_length, ← missing_ring_eq]; exact hroom)
      (dp, dq) (mem_offsets_one dp dq h1 h2 h3 h4)
    rw [← coords_force_chunks env g player] at hmem
    cases hf : find_chunk (force_chunks env g player).chunks
        (chunked player.state.x + dp) (chunked player.state.z + dq) with
    | some i => rfl
    | none => exact absurd hmem ((find_chunk_eq_none _ _ _).mp hf)
  · intro hnil hx hz
    rw [coords_force_chunks, hnil, hx, hz]
    decide

/-- C4, applied to the empty resident set and an observer at the origin. -/
theorem force_chunks_ring_resident_witness :
    (model_of []).chunk_count +
      missing_ring (model_of []).chunks (chunked zeroPlayer.state.x)
        (chunked zeroPlayer.state.z) ≤ MAX_CHUNKS ∧
    ((∀ dp dq : Int, -1 ≤ dp → dp ≤ 1 → -1 ≤ dq → dq ≤ 1 →
      (find_chunk (force_chunks env0 (model_of []) zeroPlayer).chunks
        (chunked zeroPlayer.state.x + dp) (chunked zeroPlayer.state.z + dq)).isSome = true) ∧
    ((model_of []).chunks = [] → zeroPlayer.state.x = 0 → zeroPlayer.state.z = 0 →
      coords (force_chunks env0 (model_of []) zeroPlayer).chunks =
        [(-1, -1), (-1, 0), (-1, 1), (0, -1), (0, 0), (0, 1), (1, -1), (1, 0), (1, 1)])) :=
  ⟨by decide, force_chunks_ring_resident env0 (model_of []) zeroPlayer (by decide)⟩

/-! ## Coordinates under the scheduler, the merge and the eviction: lemmas -/

theorem coords_assign_item (g : Model) (k i : Nat) (load : Int) :
    coords (assign_item g k i load).chunks = coords g.chunks := by
  unfold assign_item
  split
  · rfl
  · exact coords_modifyAt (set_dirty 0) _ _ (fun c => rfl)

/-- The function `ensure_chunks_worker` leaves the resident coordinates as they are or
appends one coordinate that was missing, the latter only with room in the
table. -/
theorem coords_ensure_chunks_worker (env : Env) (g : Model) (player : Player) (k : Nat) :
    coords (ensure_chunks_worker env g player k).chunks = coords g.chunks ∨
    ∃ ab : Int × Int, ab ∉ coords g.chunks ∧ g.chunk_count < MAX_CHUNKS ∧
      coords (ensure_chunks_worker env g player k).chunks = coords g.chunks ++ [ab] := by
  unfold ensure_chunks_worker
  split
  · exact Or.inl rfl
  · rename_i worker _
    simp only
    split
    · exact Or.inl rfl
    · split
      · exact Or.inl (coords_assign_item _ _ _ _)
      · rename_i hf
        split
        · rename_i hlt
          refine Or.inr ⟨_, (find_chunk_eq_none _ _ _).mp hf, hlt, ?_⟩
          rw [coords_assign_item]
          simp only
          rw [coords_init_chunk]
          exact coords_init_header_take_slot g _ _
        · exact Or.inl rfl

theorem merge_item_pq (env : Env) (item : WorkerItem) (c : Chunk) :
    ((merge_item env item c).p, (merge_item env item c).q) = (c.p, c.q) := by
  unfold merge_item
  simp only
  split <;> rfl

theorem coords_check_worker (env : Env) (g : Model) (i : Nat) :
    coords (check_worker env g i).chunks = coords g.chunks := by
  unfold check_worker
  split
  · rfl
  · split
    · simp only
      split
      · exact coords_modifyAt _ _ _ (merge_item_pq env _)
      · rfl
    · rfl

theorem coords_check_fold (env : Env) (l : List Nat) (g : Model) :
    coords (l.foldl (check_worker env) g).chunks = coords g.chunks := by
  induction l generalizing g with
  | nil => rfl
  | cons i is ih =>
    simp only [List.foldl_cons]
    rw [ih, coords_check_worker]

theorem coords_check_workers (env : Env) (g : Model) :
    coords (check_workers env g).chunks = coords g.chunks :=
  coords_check_fold env _ g

theorem coords_delete_chunks_nodup (g : Model) (h : (coords g.chunks).Nodup) :
    (coords (delete_chunks g).chunks).Nodup := by
  obtain ⟨del, hperm, _⟩ :=
    delete_loop_perm (observer_states g) g.delete_radius g.chunks.length 0 g.chunks g.stale
  have hres : (delete_chunks g).chunks =
      (delete_loop (observer_states g) g.delete_radius g.chunks.length 0 g.chunks g.stale).1 := rfl
  rw [hres]
  have h1 : (coords (del ++
      (delete_loop (observer_states g) g.delete_radius g.chunks.length 0 g.chunks g.stale).1)).Nodup :=
    ((hperm.map (fun c : Chunk => (c.p, c.q))).nodup_iff).mpr h
  rw [coords_append] at h1
  exact (List.nodup_append.mp h1).2.1

/-! ## C3: residency uniqueness -/

/-- C3: if no two resident chunks share the same `(p, q)`, then after each of
`force_chunks`, `ensure_chunks_worker`, `check_workers` and `delete_chunks`
there are still no two resident chunks with the same `(p, q)`. -/
theorem residency_unique (env : Env) (g : Model) (player : Player) (k : Nat)
    (h : (coords g.chunks).Nodup) :
    (coords (force_chunks env g player).chunks).Nodup ∧
    (coords (ensure_chunks_worker env g player k).chunks).Nodup ∧
    (coords (check_workers env g).chunks).Nodup ∧
    (coords (delete_chunks g).chunks).Nodup := by
  refine ⟨?_, ?_, ?_, coords_delete_chunks_nodup g h⟩
  · rw [coords_force_chunks]
    exact force_coords_fold_nodup _ _ _ _ h
  · rcases coords_ensure_chunks_worker env g player k with he | ⟨ab, hab, _, he⟩
    · rw [he]; exact h
    · rw [he, List.nodup_append]
      refine ⟨h, List.nodup_singleton _, ?_⟩
      intro x hx hx2
      rw [List.mem_singleton] at hx2
      subst hx2
      exact hab hx
  · rw [coords_check_workers]; exact h

/-- C3, applied to two chunks at `(0, 0)` and `(5, 5)`. -/
theorem residency_unique_witness :
    (coords two_chunks.chunks).Nodup ∧
    ((coords (force_chunks env0 two_chunks zeroPlayer).chunks).Nodup ∧
     (coords (ensure_chunks_worker env0 two_chunks zeroPlayer 0).chunks).Nodup ∧
     (coords (check_workers env0 two_chunks).chunks).Nodup ∧
     (coords (delete_chunks two_chunks).chunks).Nodup) :=
  ⟨by decide, residency_unique env0 two_chunks zeroPlayer 0 (by decide)⟩

/-! ## C8: capacity exhaustion -/

/-- C8: `chunk_count ≤ MAX_CHUNKS` is preserved by `force_chunks` and by
`ensure_chunks_worker`; when `chunk_count = MAX_CHUNKS` neither adds a chunk
(the resident coordinates, hence the count, are unchanged); and in
`ensure_chunks_worker`, when the chosen target `(best_a, best_b)` is missing
and the table is full, the whole model is left unchanged: the worker keeps its
state (it stays `IDLE`) and its item, and every chunk is untouched. -/
theorem capacity_exhaustion (env : Env) (g : Model) (player : Player) (k : Nat) :
    (g.chunk_count ≤ MAX_CHUNKS →
      (force_chunks env g player).chunk_count ≤ MAX_CHUNKS ∧
      (ensure_chunks_worker env g player k).chunk_count ≤ MAX_CHUNKS) ∧
    (g.chunk_count = MAX_CHUNKS →
      coords (force_chunks env g player).chunks = coords g.chunks ∧
      (force_chunks env g player).chunk_count = MAX_CHUNKS ∧
      coords (ensure_chunks_worker env g player k).chunks = coords g.chunks ∧
      (ensure_chunks_worker env g player k).chunk_count = MAX_CHUNKS) ∧
    (∀ worker : Worker, g.workers[k]? = some worker →
      find_chunk g.chunks (worker_scan env g player worker.index).2.1
        (worker_scan env g player worker.index).2.2 = none →
      g.chunk_count = MAX_CHUNKS →
      ensure_chunks_worker env g player k = g) := by
  have hlenF : (force_chunks env g player).chunk_count =
      (coords (force_chunks env g player).chunks).length := (coords_length _).symm
  have hlenE : (ensure_chunks_worker env g player k).chunk_count =
      (coords (ensure_chunks_worker env g player k).chunks).length := (coords_length _).symm
  have hlen : g.chunk_count = (coords g.chunks).length := (coords_length _).symm
  refine ⟨?_, ?_, ?_⟩
  · intro hle
    constructor
    · rw [hlenF, coords_force_chunks]
      exact force_coords_fold_length_le _ _ _ _ (by rw [← hlen]; exact hle)
    · rw [hlenE]
      rcases coords_ensure_chunks_worker env g player k with he | ⟨ab, _, hlt, he⟩
      · rw [he, ← hlen]; exact hle
      · rw [he, List.length_append, List.length_singleton, ← hlen]
        exact hlt
  · intro hfull
    have hF : coords (force_chunks env g player).chunks = coords g.chunks := by
      rw [coords_force_chunks]
      exact force_coords_fold_full _ _ _ _ (by rw [← hlen, hfull])
    have hE : coords (ensure_chunks_worker env g player k).chunks = coords g.chunks := by
      rcases coords_ensure_chunks_worker env g player k with he | ⟨ab, _, hlt, he⟩
      · exact he
      · omega
    refine ⟨hF, ?_, hE, ?_⟩
    · rw [hlenF, hF, ← hlen, hfull]
    · rw [hlenE, hE, ← hlen, hfull]
  · intro worker hw hmiss hfull
    unfold ensure_chunks_worker
    simp only [hw, hmiss]
    split
    · rfl
    · have : ¬ g.chunk_count < MAX_CHUNKS := by omega
      simp only [this, if_false]

theorem find_chunk_far (cs : List Chunk) (a b : Int) (h : ∀ c ∈ cs, c.p ≠ a) :
    find_chunk cs a b = none := by
  rw [find_chunk_eq_none]
  intro hmem
  obtain ⟨c, hc, heq⟩ := List.mem_map.mp hmem
  simp only [Prod.mk.injEq] at heq
  exact h c hc heq.1

theorem full_table_chunks : full_table.chunks = full_chunks := rfl

theorem full_chunks_far : ∀ c ∈ full_chunks, c.p ≠ 0 := by
  intro c hc
  unfold full_chunks at hc
  obtain ⟨i, _, rfl⟩ := List.mem_map.mp hc
  intro h0
  have h1 : (1000 : Int) + (i : Int) = 0 := h0
  omega

theorem full_table_scan (env : Env) :
    (worker_scan env full_table zeroPlayer 0).1 ≠ start ∧
    (worker_scan env full_table zeroPlayer 0).2 = (0, 0) := by
  have hr : full_table.create_radius = 0 := rfl
  have hoff : offsets 0 = [(0, 0)] := by decide
  have hchunked : chunked zeroPlayer.state.x = 0 ∧ chunked zeroPlayer.state.z = 0 := by decide
  have hnone : chunk_at full_chunks ((0 : Int) + 0) ((0 : Int) + 0) = none := by
    unfold chunk_at
    rw [find_chunk_far full_chunks ((0 : Int) + 0) ((0 : Int) + 0)
      (by simpa using full_chunks_far)]
    rfl
  have hcand : is_candidate full_chunks 0 0 0 (0, 0) = true := by
    unfold is_candidate
    rw [hnone]
    decide
  have hprio : scan_priority full_chunks ((0 : Int) + 0) ((0 : Int) + 0) = 0 := by
    unfold scan_priority
    rw [hnone]
  unfold worker_scan
  simp only [hr, hoff, hchunked.1, hchunked.2, List.foldl_cons, List.foldl_nil]
  unfold scan_step
  rw [full_table_chunks, if_pos hcand]
  unfold scan_score
  rw [full_table_chunks]
  simp only [hprio]
  unfold scan_invisible
  split <;> decide

/-- C8, applied to a full table whose scan picks the missing cell `(0, 0)` for
worker `0` (the last conjunct records that a target was chosen). -/
theorem capacity_exhaustion_witness :
    full_table.chunk_count = MAX_CHUNKS ∧
    full_table.workers[0]? = some (init_worker 0) ∧
    ensure_chunks_worker env0 full_table zeroPlayer 0 = full_table ∧
    (force_chunks env0 full_table zeroPlayer).chunk_count ≤ MAX_CHUNKS ∧
    (worker_scan env0 full_table zeroPlayer 0).1 ≠ start := by
  have hcount : full_table.chunk_count = MAX_CHUNKS := by
    unfold Model.chunk_count
    rw [full_table_chunks]
    unfold full_chunks
    rw [List.length_map, List.length_range]
  have hw : full_table.workers[0]? = some (init_worker 0) := rfl
  have hscan := full_table_scan env0
  have hmiss : find_chunk full_table.chunks
      (worker_scan env0 full_table zeroPlayer (init_worker 0).index).2.1
      (worker_scan env0 full_table zeroPlayer (init_worker 0).index).2.2 = none :=
    find_chunk_far _ _ _ (by
      have h0 : (init_worker 0).index = 0 := rfl
      rw [h0, hscan.2, full_table_chunks]
      exact full_chunks_far)
  have hthm := capacity_exhaustion env0 full_table zeroPlayer 0
  exact ⟨hcount, hw, hthm.2.2 _ hw hmiss hcount, (hthm.1 (le_of_eq hcount)).1, hscan.1⟩

/-! ## Dirty flags under `force_chunks`: lemmas -/

theorem has_lights_off (env : Env) (cs : List Chunk) (i : Nat)
    (h : env.SHOW_LIGHTS = false) : has_lights env cs i = false := by
  unfold has_lights
  simp [h]

theorem dirty_chunk_quiet (env : Env) (cs : List Chunk) (i : Nat)
    (h : has_lights env (modifyAt (set_dirty 1) i cs) i = false) :
    dirty_chunk env cs i = modifyAt (set_dirty 1) i cs := by
  unfold dirty_chunk
  simp [h]

/-- The function `gen_chunk_buffer` rewrites slot `i` only; the new content has the dirty
flag clear and the old coordinates and light map. -/
theorem gen_chunk_buffer_eq (env : Env) (cs : List Chunk) (i : Nat) :
    ∃ F : Chunk → Chunk,
      (∀ c, (F c).dirty = 0 ∧ (F c).p = c.p ∧ (F c).q = c.q ∧ (F c).lights = c.lights) ∧
      gen_chunk_buffer env cs i = modifyAt F i cs := by
  unfold gen_chunk_buffer
  cases h : cs[i]? with
  | none =>
    refine ⟨set_dirty 0, fun c => ⟨rfl, rfl, rfl, rfl⟩, ?_⟩
    simp [modifyAt, h]
  | some chunk =>
    exact ⟨gen_slot env (gen_item env cs chunk i), fun c => ⟨rfl, rfl, rfl, rfl⟩, rfl⟩

/-- Creating and meshing a chunk in the slot after `cs`, when `dirty_chunk` finds
no light: the counted slots are `cs` followed by one meshed chunk at `(a, b)`
whose light map is what persistence loads into a fresh map. -/
theorem create_gen_quiet (env : Env) (cs : List Chunk) (slot : Chunk) (a b : Int)
    (h : has_lights env (modifyAt (set_dirty 1) cs.length
        (modifyAt (init_header a b) cs.length (cs ++ [slot]))) cs.length = false) :
    ∃ final : Chunk, final.dirty = 0 ∧ final.p = a ∧ final.q = b ∧
      final.lights =
        env.db_load_lights (map_alloc (a * CHUNK_SIZE - 1) 0 (b * CHUNK_SIZE - 1) 0xf) a b ∧
      gen_chunk_buffer env (create_chunk env (cs ++ [slot]) cs.length a b) cs.length =
        cs ++ [final] := by
  obtain ⟨F, hF, hgen⟩ :=
    gen_chunk_buffer_eq env (create_chunk env (cs ++ [slot]) cs.length a b) cs.length
  have hcreate : create_chunk env (cs ++ [slot]) cs.length a b =
      cs ++ [load_chunk_live env (init_maps env a b (set_dirty 1 (init_header a b slot)))] := by
    unfold create_chunk init_chunk
    simp only
    rw [dirty_chunk_quiet env _ _ h, modifyAt_append_last, modifyAt_append_last,
      modifyAt_append_last, modifyAt_append_last]
  rw [hgen, hcreate, modifyAt_append_last]
  refine ⟨_, (hF _).1, ?_, ?_, ?_, rfl⟩
  · rw [(hF _).2.1]; rfl
  · rw [(hF _).2.2.1]; rfl
  · rw [(hF _).2.2.2]; rfl

theorem chunk_at_modifyAt (F : Chunk → Chunk) (i : Nat) (cs : List Chunk) (a b : Int)
    (hF : ∀ c, ((F c).p, (F c).q) = (c.p, c.q)) :
    chunk_at (modifyAt F i cs) a b =
      (chunk_at cs a b).map (fun c => if find_chunk cs a b = some i then F c else c) := by
  unfold chunk_at
  rw [find_chunk_congr cs (modifyAt F i cs) (coords_modifyAt F i cs hF)]
  cases hf : find_chunk cs a b with
  | none => rfl
  | some j =>
    simp only [Option.some_bind, getElem?_modifyAt]
    by_cases hji : j = i
    · subst hji
      simp
    · have : ¬ (some j = some i) := fun h => hji (Option.some.inj h)
      simp [hji]

theorem chunk_at_append_found (cs : List Chunk) (x : Chunk) (a b : Int) (j : Nat)
    (h : find_chunk cs a b = some j) : chunk_at (cs ++ [x]) a b = chunk_at cs a b := by
  obtain ⟨c, hc, _⟩ := find_chunk_some cs a b j h
  have hlt : j < cs.length := by
    by_contra hcon
    rw [List.getElem?_eq_none (Nat.le_of_not_lt hcon)] at hc
    exact Option.noConfusion hc
  have hfa : find_chunk (cs ++ [x]) a b = some j := by
    unfold find_chunk at h ⊢
    rw [List.findIdx?_append, h]
    rfl
  unfold chunk_at
  rw [hfa, h]
  simp only [Option.some_bind]
  exact List.getElem?_append_left hlt

theorem chunk_at_append_missing (cs : List Chunk) (x : Chunk) (a b : Int)
    (h : find_chunk cs a b = none) :
    chunk_at (cs ++ [x]) a b = if x.p = a ∧ x.q = b then some x else none := by
  unfold chunk_at
  by_cases hx : x.p = a ∧ x.q = b
  · have hfa : find_chunk (cs ++ [x]) a b = some cs.length := by
      unfold find_chunk at h ⊢
      rw [List.findIdx?_append, h]
      simp [List.findIdx?_cons, hx.1, hx.2]
    rw [hfa]
    simp [hx]
  · have hfa : find_chunk (cs ++ [x]) a b = none := by
      unfold find_chunk at h ⊢
      rw [List.findIdx?_append, h]
      have : (decide (x.p = a) && decide (x.q = b)) = false := by
        by_contra hcon
        simp only [Bool.not_eq_false, Bool.and_eq_true, decide_eq_true_eq] at hcon
        exact hx hcon
      simp [List.findIdx?_cons, this]
    rw [hfa]
    simp [hx]

theorem mem_modifyAt {α : Type} (f : α → α) (i : Nat) (l : List α) (x : α)
    (h : x ∈ modifyAt f i l) : x ∈ l ∨ ∃ y ∈ l, x = f y := by
  obtain ⟨j, hj⟩ := List.mem_iff_getElem?.mp h
  rw [getElem?_modifyAt] at hj
  by_cases hji : j = i
  · simp only [hji, if_true] at hj
    cases hl : l[i]? with
    | none => rw [hl] at hj; exact Option.noConfusion hj
    | some y =>
      rw [hl] at hj
      right
      exact ⟨y, List.getElem?_mem hl, (Option.some.inj hj).symm⟩
  · simp only [hji, if_false] at hj
    exact Or.inl (List.getElem?_mem hj)

theorem offsets_one_eq :
    offsets 1 = [(-1, -1), (-1, 0), (-1, 1), (0, -1), (0, 0), (0, 1), (1, -1), (1, 0), (1, 1)] := by
  decide

theorem offsets_one_bound (d : Int × Int) (hd : d ∈ offsets 1) : |d.1| ≤ 1 ∧ |d.2| ≤ 1 := by
  rw [offsets_one_eq] at hd
  simp only [List.mem_cons, List.mem_singleton, List.not_mem_nil, or_false] at hd
  rcases hd with rfl | rfl | rfl | rfl | rfl | rfl | rfl | rfl | rfl <;> decide

/-- The scan of `has_lights` reaches only chunks within Chebyshev distance `1`
of the chunk in slot `i`. -/
theorem has_lights_near (env : Env) (cs : List Chunk) (i : Nat)
    (h : ∀ chunk, cs[i]? = some chunk →
      ∀ c ∈ cs, chunk_distance c chunk.p chunk.q ≤ 1 → c.lights.size = 0) :
    has_lights env cs i = false := by
  unfold has_lights
  split
  · rfl
  · split
    · rfl
    · rename_i chunk hchunk
      rw [List.any_eq_false]
      intro d hd
      cases hb : (neighbor cs chunk i d).bind (fun j => cs[j]?) with
      | none => simp
      | some other =>
        have hmem : other ∈ cs ∧ chunk_distance other chunk.p chunk.q ≤ 1 := by
          cases hn : neighbor cs chunk i d with
          | none => rw [hn] at hb; exact Option.noConfusion hb
          | some j =>
            rw [hn] at hb
            refine ⟨List.getElem?_mem hb, ?_⟩
            have hb2 : cs[j]? = some other := hb
            obtain ⟨h1, h2⟩ := offsets_one_bound d hd
            unfold neighbor at hn
            split at hn
            · obtain ⟨c, hc, hp, hq⟩ := find_chunk_some _ _ _ _ hn
              rw [hb2] at hc
              have hco : other = c := Option.some.inj hc
              unfold chunk_distance
              simp only
              rw [hco, hp, hq]
              have e1 : chunk.p + d.1 - chunk.p = d.1 := by ring
              have e2 : chunk.q + d.2 - chunk.q = d.2 := by ring
              rw [e1, e2]
              exact max_le h1 h2
            · have hji : i = j := Option.some.inj hn
              rw [← hji, hchunk] at hb2
              have hco : chunk = other := Option.some.inj hb2
              rw [← hco]
              unfold chunk_distance
              simp
        simp [h chunk hchunk other hmem.1 hmem.2]

/-- In the creation branch of `force_chunks`, `dirty_chunk` finds no light when
lighting is off or when no light map the new slot can reach is populated. -/
theorem creation_quiet (env : Env) (cs : List Chunk) (slot : Chunk) (a b : Int)
    (h : env.SHOW_LIGHTS = false ∨
      ((∀ c ∈ cs, chunk_distance c a b ≤ 1 → c.lights.size = 0) ∧ slot.lights.size = 0)) :
    has_lights env (modifyAt (set_dirty 1) cs.length
        (modifyAt (init_header a b) cs.length (cs ++ [slot]))) cs.length = false := by
  rcases h with h | ⟨hcs, hslot⟩
  · exact has_lights_off env _ _ h
  · apply has_lights_near
    rw [modifyAt_append_last, modifyAt_append_last]
    intro chunk hchunk c hc hdist
    have hch : chunk = set_dirty 1 (init_header a b slot) := by
      rw [List.getElem?_append_right (le_refl _)] at hchunk
      simp at hchunk
      exact hchunk.symm
    have hp : chunk.p = a := by rw [hch]; rfl
    have hq : chunk.q = b := by rw [hch]; rfl
    rw [hp, hq] at hdist
    rcases List.mem_append.mp hc with hc | hc
    · exact hcs c hc hdist
    · rw [List.mem_singleton] at hc
      subst hc
      exact hslot

theorem take_dark_mono (st : List Chunk) (m n : Nat) (hmn : m ≤ n)
    (h : ∀ c ∈ st.take n, c.lights.size = 0) : ∀ c ∈ st.take m, c.lights.size = 0 := by
  intro c hc
  apply h c
  have hsub : st.take m = (st.take n).take m := by
    rw [List.take_take, min_eq_left hmn]
  rw [hsub] at hc
  exact List.mem_of_mem_take hc

theorem tail_take_dark (st : List Chunk) (n : Nat)
    (h : ∀ c ∈ st.take (n + 1), c.lights.size = 0) :
    (st.headD zeroChunk).lights.size = 0 ∧ ∀ c ∈ st.tail.take n, c.lights.size = 0 := by
  cases st with
  | nil => exact ⟨rfl, fun c hc => by simp at hc⟩
  | cons x xs =>
    simp only [List.take_succ_cons, List.mem_cons, forall_eq_or_imp] at h
    exact ⟨h.1, fun c hc => h.2 c hc⟩

/-- The number of listed cells around `(p, q)` without a resident chunk. -/
theorem missing_count_mono (cs cs2 : List Chunk) (p q : Int) (l l2 : List (Int × Int))
    (hl : l.Sublist l2)
    (h : ∀ d ∈ l, find_chunk cs2 (p + d.1) (q + d.2) = none →
      find_chunk cs (p + d.1) (q + d.2) = none) :
    (l.filter (fun d => (find_chunk cs2 (p + d.1) (q + d.2)).isNone)).length ≤
      (l2.filter (fun d => (find_chunk cs (p + d.1) (q + d.2)).isNone)).length := by
  rw [← List.countP_eq_length_filter, ← List.countP_eq_length_filter]
  refine le_trans (List.countP_mono_left ?_) (List.Sublist.countP_le _ hl)
  intro d hd hn
  rw [Option.isNone_iff_eq_none] at hn ⊢
  exact h d hd hn

/-- The condition `quiet_cells` for the remaining cells survives one pass of
the loops of `force_chunks`. -/
theorem quiet_step (env : Env) (p q : Int) (g : Model) (e : Int × Int)
    (es : List (Int × Int)) (hq : quiet_cells env g p q (e :: es)) :
    quiet_cells env (force_chunks_step env p q g e) p q es := by
  obtain ⟨hA, hB⟩ := hq
  have hsame : quiet_cells env g p q es :=
    ⟨fun d hd => hA d (List.mem_cons_of_mem e hd),
      take_dark_mono g.stale _ _
        (missing_count_mono g.chunks g.chunks p q es (e :: es) (List.sublist_cons_self e es)
          (fun _ _ h => h)) hB⟩
  unfold force_chunks_step
  simp only
  cases hf : find_chunk g.chunks (p + e.1) (q + e.2) with
  | some i =>
    simp only
    split
    · obtain ⟨F, hF, hgen⟩ := gen_chunk_buffer_eq env g.chunks i
      have hco : coords (gen_chunk_buffer env g.chunks i) = coords g.chunks := by
        rw [hgen]
        exact coords_modifyAt F i g.chunks (fun c => by rw [(hF c).2.1, (hF c).2.2.1])
      have hfind : ∀ a b, find_chunk (gen_chunk_buffer env g.chunks i) a b =
          find_chunk g.chunks a b := find_chunk_congr g.chunks _ hco
      refine ⟨?_, ?_⟩
      · intro d hd hn
        simp only at hn ⊢
        rw [hfind] at hn
        refine ⟨?_, (hsame.1 d hd hn).2⟩
        intro c hcm hdist
        have hcm2 : c ∈ modifyAt F i g.chunks := by rw [← hgen]; exact hcm
        rcases mem_modifyAt F i g.chunks c hcm2 with hm | ⟨y, hy, rfl⟩
        · exact (hsame.1 d hd hn).1 c hm hdist
        · rw [(hF y).2.2.2]
          apply (hsame.1 d hd hn).1 y hy
          unfold chunk_distance at hdist ⊢
          rw [(hF y).2.1, (hF y).2.2.1] at hdist
          exact hdist
      · simp only
        have heq : (fun d : Int × Int =>
            (find_chunk (gen_chunk_buffer env g.chunks i) (p + d.1) (q + d.2)).isNone) =
            (fun d : Int × Int => (find_chunk g.chunks (p + d.1) (q + d.2)).isNone) := by
          funext d
          rw [hfind]
        rw [heq]
        exact hsame.2
    · exact hsame
  | none =>
    simp only
    split
    · have hcount : ((e :: es).filter
          (fun d => (find_chunk g.chunks (p + d.1) (q + d.2)).isNone)).length =
          (es.filter (fun d => (find_chunk g.chunks (p + d.1) (q + d.2)).isNone)).length + 1 := by
        rw [List.filter_cons_of_pos (by rw [hf]; rfl), List.length_cons]
      rw [hcount] at hB
      obtain ⟨hhead, htail⟩ := tail_take_dark g.stale _ hB
      have hAe := hA e (List.mem_cons_self e es) hf
      have hquiet := creation_quiet env g.chunks (g.stale.headD zeroChunk) (p + e.1)
        (q + e.2) (Or.inr ⟨hAe.1, hhead⟩)
      obtain ⟨final, _, hfp, hfq, hfl, hres⟩ :=
        create_gen_quiet env g.chunks (g.stale.headD zeroChunk) (p + e.1) (q + e.2) hquiet
      have hchunks : gen_chunk_buffer env
          (create_chunk env (take_slot g).chunks g.chunk_count (p + e.1) (q + e.2))
          g.chunk_count = g.chunks ++ [final] := hres
      have hfind : ∀ a b, find_chunk (g.chunks ++ [final]) a b = none →
          find_chunk g.chunks a b = none := by
        intro a b hn
        rw [find_chunk_eq_none] at hn ⊢
        intro hmem
        apply hn
        rw [coords_append]
        exact List.mem_append_left _ hmem
      refine ⟨?_, ?_⟩
      · intro d hd hn
        simp only at hn ⊢
        rw [hchunks] at hn ⊢
        have hn2 := hfind _ _ hn
        refine ⟨?_, (hsame.1 d hd hn2).2⟩
        intro c hcm hdist
        rcases List.mem_append.mp hcm with hm | hm
        · exact (hsame.1 d hd hn2).1 c hm hdist
        · rw [List.mem_singleton] at hm
          subst hm
          rw [hfl]
          exact hAe.2
      · simp only
        rw [hchunks]
        have hst : (take_slot g).stale = g.stale.tail := rfl
        rw [hst]
        exact take_dark_mono g.stale.tail _ _
          (missing_count_mono g.chunks (g.chunks ++ [final]) p q es es (List.Sublist.refl es)
            (fun d _ h => hfind _ _ h)) htail
    · exact hsame

/-- When no listed cell is missing, `quiet_cells` holds. -/
theorem quiet_of_resident (env : Env) (g : Model) (p q : Int) (l : List (Int × Int))
    (h : ∀ d ∈ l, (p + d.1, q + d.2) ∈ coords g.chunks) : quiet_cells env g p q l := by
  have hne : ∀ d ∈ l, find_chunk g.chunks (p + d.1) (q + d.2) ≠ none :=
    fun d hd hn => (find_chunk_eq_none _ _ _).mp hn (h d hd)
  refine ⟨fun d hd hn => absurd hn (hne d hd), ?_⟩
  have hnil : l.filter (fun d => (find_chunk g.chunks (p + d.1) (q + d.2)).isNone) = [] := by
    rw [List.filter_eq_nil_iff]
    intro d hd hn
    rw [Option.isNone_iff_eq_none] at hn
    exact hne d hd hn
  rw [hnil]
  intro c hc
  simp at hc

/-- One pass of the loops of `force_chunks` leaves the chunk at its own cell
meshed and keeps the chunks of the cells done before meshed, when creating a
chunk cannot re-dirty its neighbours. -/
theorem force_step_clean (env : Env) (p q : Int) (g : Model) (e : Int × Int)
    (done : List (Int × Int))
    (hc : env.SHOW_LIGHTS = false ∨
      ((∀ c ∈ g.chunks, chunk_distance c (p + e.1) (q + e.2) ≤ 1 → c.lights.size = 0) ∧
        (g.stale.headD zeroChunk).lights.size = 0) ∨
      (p + e.1, q + e.2) ∈ coords g.chunks)
    (hdone : ring_clean g.chunks p q done) :
    ring_clean (force_chunks_step env p q g e).chunks p q (e :: done) := by
  unfold force_chunks_step
  simp only
  cases hf : find_chunk g.chunks (p + e.1) (q + e.2) with
  | some i =>
    simp only
    obtain ⟨ci, hci, _, _⟩ := find_chunk_some _ _ _ _ hf
    by_cases hd : (g.chunks.getD i zeroChunk).dirty ≠ 0
    · rw [if_pos hd]
      obtain ⟨F, hF, hgen⟩ := gen_chunk_buffer_eq env g.chunks i
      rw [hgen]
      intro d hdm c2 hc2
      rw [chunk_at_modifyAt F i g.chunks _ _
        (fun c => by rw [(hF c).2.1, (hF c).2.2.1])] at hc2
      cases hat : chunk_at g.chunks (p + d.1) (q + d.2) with
      | none => rw [hat] at hc2; exact Option.noConfusion hc2
      | some c =>
        rw [hat] at hc2
        simp only [Option.map_some'] at hc2
        have hc2e := Option.some.inj hc2
        by_cases hfi : find_chunk g.chunks (p + d.1) (q + d.2) = some i
        · rw [if_pos hfi] at hc2e
          rw [← hc2e]
          exact (hF c).1
        · rw [if_neg hfi] at hc2e
          rw [← hc2e]
          rcases List.mem_cons.mp hdm with rfl | hdm
          · exact absurd hf hfi
          · exact hdone d hdm c hat
    · rw [if_neg hd]
      intro d hdm c2 hc2
      rcases List.mem_cons.mp hdm with rfl | hdm
      · unfold chunk_at at hc2
        rw [hf] at hc2
        simp only [Option.some_bind] at hc2
        have hget : g.chunks.getD i zeroChunk = c2 := by
          rw [List.getD_eq_getElem?_getD, hc2]
          rfl
        rw [hget] at hd
        exact not_not.mp hd
      · exact hdone d hdm c2 hc2
  | none =>
    simp only
    by_cases hroom : g.chunk_count < MAX_CHUNKS
    · rw [if_pos hroom]
      have hquiet := creation_quiet env g.chunks (g.stale.headD zeroChunk) (p + e.1) (q + e.2)
        (by
          rcases hc with h | h | h
          · exact Or.inl h
          · exact Or.inr h
          · exact absurd h ((find_chunk_eq_none _ _ _).mp hf))
      obtain ⟨final, hfd, hfp, hfq, _, hres⟩ :=
        create_gen_quiet env g.chunks (g.stale.headD zeroChunk) (p + e.1) (q + e.2) hquiet
      have hchunks : gen_chunk_buffer env
          (create_chunk env (take_slot g).chunks g.chunk_count (p + e.1) (q + e.2))
          g.chunk_count = g.chunks ++ [final] := hres
      rw [hchunks]
      intro d hdm c2 hc2
      cases hfd2 : find_chunk g.chunks (p + d.1) (q + d.2) with
      | some j =>
        rw [chunk_at_append_found _ _ _ _ j hfd2] at hc2
        rcases List.mem_cons.mp hdm with rfl | hdm
        · rw [hf] at hfd2; exact Option.noConfusion hfd2
        · exact hdone d hdm c2 hc2
      | none =>
        rw [chunk_at_append_missing _ _ _ _ hfd2] at hc2
        split at hc2
        · rw [← Option.some.inj hc2]; exact hfd
        · exact Option.noConfusion hc2
    · rw [if_neg hroom]
      intro d hdm c2 hc2
      rcases List.mem_cons.mp hdm with rfl | hdm
      · unfold chunk_at at hc2
        rw [hf] at hc2
        exact Option.noConfusion hc2
      · exact hdone d hdm c2 hc2

theorem quiet_cells_step_cond (env : Env) (p q : Int) (g : Model) (e : Int × Int)
    (es : List (Int × Int))
    (hc : env.SHOW_LIGHTS = false ∨ quiet_cells env g p q (e :: es)) :
    env.SHOW_LIGHTS = false ∨
      ((∀ c ∈ g.chunks, chunk_distance c (p + e.1) (q + e.2) ≤ 1 → c.lights.size = 0) ∧
        (g.stale.headD zeroChunk).lights.size = 0) ∨
      (p + e.1, q + e.2) ∈ coords g.chunks := by
  rcases hc with h | ⟨hA, hB⟩
  · exact Or.inl h
  · right
    cases hf : find_chunk g.chunks (p + e.1) (q + e.2) with
    | some i =>
      right
      by_contra hcon
      rw [(find_chunk_eq_none _ _ _).mpr hcon] at hf
      exact Option.noConfusion hf
    | none =>
      left
      have hcount : ((e :: es).filter
          (fun d => (find_chunk g.chunks (p + d.1) (q + d.2)).isNone)).length =
          (es.filter (fun d => (find_chunk g.chunks (p + d.1) (q + d.2)).isNone)).length + 1 := by
        rw [List.filter_cons_of_pos (by rw [hf]; rfl), List.length_cons]
      rw [hcount] at hB
      exact ⟨(hA e (List.mem_cons_self e es) hf).1, (tail_take_dark g.stale _ hB).1⟩

theorem force_fold_clean (env : Env) (p q : Int) (l : List (Int × Int)) (g : Model)
    (done : List (Int × Int))
    (hc : env.SHOW_LIGHTS = false ∨ quiet_cells env g p q l)
    (hdone : ring_clean g.chunks p q done) :
    ring_clean (l.foldl (force_chunks_step env p q) g).chunks p q (l ++ done) := by
  induction l generalizing g done with
  | nil => exact hdone
  | cons e es ih =>
    simp only [List.foldl_cons]
    have h1 := force_step_clean env p q g e done (quiet_cells_step_cond env p q g e es hc) hdone
    have h2 := ih (force_chunks_step env p q g e) (e :: done)
      (hc.imp (fun h => h) (quiet_step env p q g e es)) h1
    intro d hd
    apply h2 d
    rcases List.mem_append.mp hd with hd | hd
    · rcases List.mem_cons.mp hd with rfl | hd
      · exact List.mem_append_right _ (List.mem_cons_self _ _)
      · exact List.mem_append_left _ hd
    · exact List.mem_append_right _ (List.mem_cons_of_mem _ hd)

/-- The lit chunk of `far_lit` is out of reach of the nine missing ring cells. -/
theorem far_lit_quiet :
    quiet_cells env0 far_lit (chunked zeroPlayer.state.x) (chunked zeroPlayer.state.z)
      (offsets 1) := by
  have hp : chunked zeroPlayer.state.x = 0 := by decide!
  have hq : chunked zeroPlayer.state.z = 0 := by decide!
  rw [hp, hq]
  refine ⟨?_, ?_⟩
  · intro d hd _
    obtain ⟨h1, h2⟩ := offsets_one_bound d hd
    refine ⟨?_, rfl⟩
    intro c hc hdist
    have hc2 : c = { chunk_pq 100 100 with lights := lit_map } := by
      simpa [far_lit, model_of] using hc
    subst hc2
    exfalso
    unfold chunk_distance at hdist
    simp only [chunk_pq] at hdist
    have := abs_le.1 h1
    have := le_trans (le_max_left _ _) hdist
    have := abs_le.1 this
    omega
  · intro c hc
    have : far_lit.stale = [] := rfl
    rw [this] at hc
    simp at hc

/-! ## C5: meshing of the ring -/

/-- C5 (counterexample): the resident set holds one meshed chunk at `(-1, -1)`
with a light emitter; `force_chunks` for an observer in chunk `(0, 0)` creates
the missing ring chunks, and `dirty_chunk` of a new neighbour marks `(-1, -1)`
dirty again, so after `force_chunks` a resident ring chunk has its dirty flag
set. -/
theorem force_chunks_leaves_dirty_ring_chunk :
    ∃ c, chunk_at (force_chunks env0 lit_corner zeroPlayer).chunks
        (chunked zeroPlayer.state.x + (-1)) (chunked zeroPlayer.state.z + (-1)) = some c ∧
      c.dirty = 1 := by
  decide

/-- C5 (amended): when lighting is disabled, or all nine ring chunks are already
resident, or every missing ring chunk is created out of reach of a populated
light map (the resident chunks within distance `1` of a missing ring cell, the
array slots the new chunks reuse, and what persistence loads for the missing
cells hold no light), then after `force_chunks` the resident chunk at every
cell `(p + dp, q + dq)`, `dp, dq ∈ {-1, 0, 1}`, of the ring around the
observer's chunk has its dirty flag clear. -/
theorem force_chunks_ring_meshed (env : Env) (g : Model) (player : Player)
    (hc : calm env g (chunked player.state.x) (chunked player.state.z)) :
    ∀ dp dq : Int, -1 ≤ dp → dp ≤ 1 → -1 ≤ dq → dq ≤ 1 → ∀ c : Chunk,
      chunk_at (force_chunks env g player).chunks
        (chunked player.state.x + dp) (chunked player.state.z + dq) = some c →
      c.dirty = 0 := by
  intro dp dq h1 h2 h3 h4 c hcat
  have hq : env.SHOW_LIGHTS = false ∨
      quiet_cells env g (chunked player.state.x) (chunked player.state.z) (offsets 1) := by
    rcases hc with h | h | h
    · exact Or.inl h
    · exact Or.inr (quiet_of_resident env g _ _ _ h)
    · exact Or.inr h
  have hfold := force_fold_clean env (chunked player.state.x) (chunked player.state.z)
    (offsets 1) g [] hq (fun d hd => by cases hd)
  exact hfold (dp, dq) (List.mem_append_left _ (mem_offsets_one dp dq h1 h2 h3 h4)) c hcat

/-- C5 (amended), applied to a resident set whose only chunk, at `(100, 100)`,
holds a light emitter: the nine ring chunks are created out of its reach. -/
theorem force_chunks_ring_meshed_witness :
    calm env0 far_lit (chunked zeroPlayer.state.x) (chunked zeroPlayer.state.z) ∧
    ∀ dp dq : Int, -1 ≤ dp → dp ≤ 1 → -1 ≤ dq → dq ≤ 1 → ∀ c : Chunk,
      chunk_at (force_chunks env0 far_lit zeroPlayer).chunks
        (chunked zeroPlayer.state.x + dp) (chunked zeroPlayer.state.z + dq) = some c →
      c.dirty = 0 :=
  ⟨Or.inr (Or.inr far_lit_quiet),
    force_chunks_ring_meshed env0 far_lit zeroPlayer (Or.inr (Or.inr far_lit_quiet))⟩

/-! ## The scheduler scan: lemmas -/

theorem mem_irange (lo hi x : Int) : x ∈ irange lo hi ↔ lo ≤ x ∧ x ≤ hi := by
  unfold irange
  simp only [List.mem_map, List.mem_range]
  constructor
  · rintro ⟨k, hk, rfl⟩
    omega
  · intro h
    refine ⟨(x - lo).toNat, ?_, ?_⟩ <;> omega

theorem mem_offsets (r : Int) (d : Int × Int) :
    d ∈ offsets r ↔ (-r ≤ d.1 ∧ d.1 ≤ r) ∧ (-r ≤ d.2 ∧ d.2 ≤ r) := by
  unfold offsets
  simp only [List.mem_flatMap, List.mem_map, mem_irange]
  constructor
  · rintro ⟨dp, hdp, dq, hdq, rfl⟩
    exact ⟨hdp, hdq⟩
  · intro h
    exact ⟨d.1, h.1, d.2, h.2, rfl⟩

/-- The scan keeps the first candidate of minimal key among those whose key is
below the running best, or the initial best when there is none. -/
theorem scan_fold_spec (cand : Int × Int → Bool) (key : Int × Int → Nat)
    (cell : Int × Int → Int × Int) (l : List (Int × Int)) (b0 : Nat × Int × Int) :
    ((∀ d ∈ l, cand d = true → b0.1 ≤ key d) ∧
      l.foldl (fun best d =>
        if cand d then (if key d < best.1 then (key d, cell d) else best) else best) b0 = b0) ∨
    (∃ pre m post, l = pre ++ m :: post ∧ cand m = true ∧ key m < b0.1 ∧
      (∀ d ∈ pre, cand d = true → key m < key d) ∧
      (∀ d ∈ post, cand d = true → key m ≤ key d) ∧
      l.foldl (fun best d =>
        if cand d then (if key d < best.1 then (key d, cell d) else best) else best) b0 =
        (key m, cell m)) := by
  induction l generalizing b0 with
  | nil => exact Or.inl ⟨fun d hd => (by cases hd), rfl⟩
  | cons e es ih =>
    simp only [List.foldl_cons]
    by_cases hupd : cand e = true ∧ key e < b0.1
    · have hb1 : (if cand e = true then (if key e < b0.1 then (key e, cell e) else b0) else b0)
          = (key e, cell e) := by simp [hupd.1, hupd.2]
      rw [hb1]
      rcases ih (key e, cell e) with ⟨hall, hres⟩ | ⟨pre, m, post, hl, hcm, hlt, hpre, hpost, hres⟩
      · right
        exact ⟨[], e, es, rfl, hupd.1, hupd.2, fun d hd => (by cases hd), hall, hres⟩
      · right
        refine ⟨e :: pre, m, post, by rw [hl]; rfl, hcm, lt_trans hlt hupd.2, ?_, hpost, hres⟩
        intro d hd hcd
        rcases List.mem_cons.mp hd with rfl | hd
        · exact hlt
        · exact hpre d hd hcd
    · have hb1 : (if cand e = true then (if key e < b0.1 then (key e, cell e) else b0) else b0)
          = b0 := by
        by_cases hce : cand e = true
        · have : ¬ key e < b0.1 := fun h => hupd ⟨hce, h⟩
          simp [hce, this]
        · simp [hce]
      rw [hb1]
      have he : cand e = true → b0.1 ≤ key e := by
        intro hce
        exact Nat.le_of_not_lt (fun h => hupd ⟨hce, h⟩)
      rcases ih b0 with ⟨hall, hres⟩ | ⟨pre, m, post, hl, hcm, hlt, hpre, hpost, hres⟩
      · left
        refine ⟨?_, hres⟩
        intro d hd hcd
        rcases List.mem_cons.mp hd with rfl | hd
        · exact he hcd
        · exact hall d hd hcd
      · right
        refine ⟨e :: pre, m, post, by rw [hl]; rfl, hcm, hlt, ?_, hpost, hres⟩
        intro d hd hcd
        rcases List.mem_cons.mp hd with rfl | hd
        · exact lt_of_lt_of_le hlt (he hcd)
        · exact hpre d hd hcd

theorem scan_invisible_le (env : Env) (ortho : Int) (planes : Nat → Nat → ℚ) (a b : Int) :
    scan_invisible env ortho planes a b ≤ 1 := by
  unfold scan_invisible
  split <;> omega

theorem scan_priority_le (cs : List Chunk) (a b : Int) : scan_priority cs a b ≤ 1 := by
  unfold scan_priority
  split
  · split <;> omega
  · omega

/-- Below `2^16` the distance occupies bits the two flags do not touch, so the
bitwise key is the weighted sum. -/
theorem score_eq_sum (inv prio dist : Nat) (hi : inv ≤ 1) (hp : prio ≤ 1)
    (hd : dist < 65536) :
    (inv <<< 24) ||| (prio <<< 16) ||| dist = inv * 16777216 + prio * 65536 + dist := by
  have h16 : dist < 2 ^ 16 := by simpa using hd
  have hi2 : inv = 0 ∨ inv = 1 := by omega
  have hp2 : prio = 0 ∨ prio = 1 := by omega
  rcases hi2 with rfl | rfl <;> rcases hp2 with rfl | rfl
  · have := Nat.mul_add_lt_is_or h16 0
    simp
  · have := Nat.mul_add_lt_is_or h16 1
    simpa using this.symm
  · have := Nat.mul_add_lt_is_or h16 256
    have hc : (1 <<< 24 ||| 0 <<< 16) = 2 ^ 16 * 256 := by decide
    rw [hc, ← this]
  · have := Nat.mul_add_lt_is_or h16 257
    have hc : (1 <<< 24 ||| 1 <<< 16) = 2 ^ 16 * 257 := by decide
    rw [hc, ← this]

theorem scan_distance_le (r : Int) (d : Int × Int) (hd : d ∈ offsets r) :
    (scan_distance d : Int) ≤ r := by
  rw [mem_offsets] at hd
  unfold scan_distance
  rcases le_total d.1.natAbs d.2.natAbs with h | h
  · rw [max_eq_right h]; omega
  · rw [max_eq_left h]; omega

theorem modifyAt_eq_set {α : Type} (f : α → α) (i : Nat) (l : List α) (a : α)
    (h : l[i]? = some a) : modifyAt f i l = l.set i (f a) := by
  simp [modifyAt, h]

theorem getElem?_lt {α : Type} (l : List α) (i : Nat) (a : α) (h : l[i]? = some a) :
    i < l.length := by
  by_contra hcon
  rw [List.getElem?_eq_none (Nat.le_of_not_lt hcon)] at h
  exact Option.noConfusion h

/-- The slot that `init_chunk` fills right after `g->chunk_count++` holds the
coordinates it was given. -/
theorem init_chunk_take_slot_get (env : Env) (g : Model) (a b : Int) :
    ∃ c, (init_chunk env (take_slot g).chunks g.chunk_count a b)[g.chunk_count]? = some c ∧
      c.p = a ∧ c.q = b := by
  have hco : coords (init_chunk env (take_slot g).chunks g.chunk_count a b) =
      coords g.chunks ++ [(a, b)] := by
    rw [coords_init_chunk]
    exact coords_init_header_take_slot g a b
  have hget : (coords (init_chunk env (take_slot g).chunks g.chunk_count a b))[g.chunk_count]? =
      some (a, b) := by
    rw [hco]
    have hlen : g.chunk_count = (coords g.chunks).length := (coords_length _).symm
    rw [hlen, List.getElem?_append_right (Nat.le_refl _)]
    simp
  unfold coords at hget
  rw [List.getElem?_map] at hget
  cases hc : (init_chunk env (take_slot g).chunks g.chunk_count a b)[g.chunk_count]? with
  | none => rw [hc] at hget; exact Option.noConfusion hget
  | some c =>
    rw [hc] at hget
    simp only [Option.map_some', Option.some.injEq, Prod.mk.injEq] at hget
    exact ⟨c, rfl, hget.1, hget.2⟩

/-- The function `assign_item` for a valid slot `i`: worker `k` becomes `BUSY` with an item for
the coordinates of that slot; no other worker record changes. -/
theorem assign_item_workers (g : Model) (k i : Nat) (load : Int) (w : Worker) (c : Chunk)
    (hw : g.workers[k]? = some w) (hc : g.chunks[i]? = some c) :
    ∃ w2, (assign_item g k i load).workers = g.workers.set k w2 ∧
      w2.index = w.index ∧ w2.state = WORKER_BUSY ∧ w2.item.p = c.p ∧ w2.item.q = c.q ∧
      w2.item.load = load := by
  unfold assign_item
  simp only [hc]
  rw [modifyAt_eq_set _ _ _ w hw]
  exact ⟨_, rfl, rfl, rfl, rfl, rfl, rfl⟩

/-- The function `ensure_chunks_worker` either changes nothing, or hands worker `j` a job for
the cell `(best_a, best_b)` chosen by the scan and leaves the other worker
records alone. -/
theorem ensure_chunks_worker_cases (env : Env) (g : Model) (player : Player) (j : Nat)
    (w : Worker) (hw : g.workers[j]? = some w) :
    ensure_chunks_worker env g player j = g ∨
    ∃ w2, (worker_scan env g player w.index).1 ≠ start ∧
      (ensure_chunks_worker env g player j).workers = g.workers.set j w2 ∧
      w2.index = w.index ∧ w2.state = WORKER_BUSY ∧
      w2.item.p = (worker_scan env g player w.index).2.1 ∧
      w2.item.q = (worker_scan env g player w.index).2.2 := by
  unfold ensure_chunks_worker
  simp only [hw]
  by_cases hs : (worker_scan env g player w.index).1 = start
  · left; rw [if_pos hs]
  · rw [if_neg hs]
    cases hf : find_chunk g.chunks (worker_scan env g player w.index).2.1
        (worker_scan env g player w.index).2.2 with
    | some i =>
      simp only
      obtain ⟨c, hc, hp, hq⟩ := find_chunk_some _ _ _ _ hf
      obtain ⟨w2, h1, h2, h3, h4, h5, _⟩ := assign_item_workers g j i 0 w c hw hc
      exact Or.inr ⟨w2, hs, h1, h2, h3, by rw [h4, hp], by rw [h5, hq]⟩
    | none =>
      simp only
      by_cases hroom : g.chunk_count < MAX_CHUNKS
      · rw [if_pos hroom]
        obtain ⟨c, hc, hp, hq⟩ := init_chunk_take_slot_get env g
          (worker_scan env g player w.index).2.1 (worker_scan env g player w.index).2.2
        obtain ⟨w2, h1, h2, h3, h4, h5, _⟩ := assign_item_workers
          { take_slot g with chunks := (init_chunk env (take_slot g).chunks g.chunk_count
              (worker_scan env g player w.index).2.1 (worker_scan env g player w.index).2.2) }
          j g.chunk_count 1 w c hw hc
        exact Or.inr ⟨w2, hs, h1, h2, h3, by rw [h4, hp], by rw [h5, hq]⟩
      · left; rw [if_neg hroom]

/-- With the target resident or room in the table, a scan that found a target
makes the worker `BUSY` (the first alternative of `ensure_chunks_worker_cases`
is excluded). -/
theorem ensure_chunks_worker_busy (env : Env) (g : Model) (player : Player) (j : Nat)
    (w : Worker) (hw : g.workers[j]? = some w)
    (hs : (worker_scan env g player w.index).1 ≠ start)
    (hroom : find_chunk g.chunks (worker_scan env g player w.index).2.1
        (worker_scan env g player w.index).2.2 ≠ none ∨ g.chunk_count < MAX_CHUNKS) :
    ∃ w2, (ensure_chunks_worker env g player j).workers[j]? = some w2 ∧
      w2.state = WORKER_BUSY ∧
      w2.item.p = (worker_scan env g player w.index).2.1 ∧
      w2.item.q = (worker_scan env g player w.index).2.2 := by
  have hlt := getElem?_lt _ _ _ hw
  unfold ensure_chunks_worker
  simp only [hw]
  rw [if_neg hs]
  cases hf : find_chunk g.chunks (worker_scan env g player w.index).2.1
      (worker_scan env g player w.index).2.2 with
  | some i =>
    simp only
    obtain ⟨c, hc, hp, hq⟩ := find_chunk_some _ _ _ _ hf
    obtain ⟨w2, h1, _, h3, h4, h5, _⟩ := assign_item_workers g j i 0 w c hw hc
    refine ⟨w2, ?_, h3, by rw [h4, hp], by rw [h5, hq]⟩
    rw [h1]
    simp [hlt]
  | none =>
    simp only
    have hroom2 : g.chunk_count < MAX_CHUNKS := by
      rcases hroom with h | h
      · exact absurd hf h
      · exact h
    rw [if_pos hroom2]
    obtain ⟨c, hc, hp, hq⟩ := init_chunk_take_slot_get env g
      (worker_scan env g player w.index).2.1 (worker_scan env g player w.index).2.2
    obtain ⟨w2, h1, _, h3, h4, h5, _⟩ := assign_item_workers
      { take_slot g with chunks := (init_chunk env (take_slot g).chunks g.chunk_count
          (worker_scan env g player w.index).2.1 (worker_scan env g player w.index).2.2) }
      j g.chunk_count 1 w c hw hc
    refine ⟨w2, ?_, h3, by rw [h4, hp], by rw [h5, hq]⟩
    rw [h1]
    have hlt2 : j < (take_slot g).workers.length := hlt
    simp [hlt2]

theorem worker_scan_eq_fold (env : Env) (g : Model) (player : Player) (k : Nat) :
    worker_scan env g player k =
      (offsets g.create_radius).foldl (fun best d =>
        if is_candidate g.chunks k (chunked player.state.x) (chunked player.state.z) d
        then (if scan_key env g player d < best.1
              then (scan_key env g player d, target_cell player d) else best)
        else best) (start, 0, 0) := rfl

theorem mem_scan_cands (g : Model) (player : Player) (k : Nat) (d : Int × Int) :
    d ∈ scan_cands g player k ↔
      (|d.1| ≤ g.create_radius ∧ |d.2| ≤ g.create_radius ∧
       partition_index (target_cell player d).1 (target_cell player d).2 = k ∧
       ∀ c, chunk_at g.chunks (target_cell player d).1 (target_cell player d).2 = some c →
         c.dirty ≠ 0) := by
  unfold scan_cands candidates target_cell
  rw [List.mem_filter, mem_offsets, abs_le, abs_le]
  unfold is_candidate
  simp only [Bool.and_eq_true, decide_eq_true_eq]
  constructor
  · rintro ⟨⟨h1, h2⟩, h3, h4⟩
    refine ⟨h1, h2, h3, ?_⟩
    intro c hc
    rw [hc] at h4
    simpa using h4
  · rintro ⟨h1, h2, h3, h4⟩
    refine ⟨⟨h1, h2⟩, h3, ?_⟩
    cases hc : chunk_at g.chunks (chunked player.state.x + d.1)
        (chunked player.state.z + d.2) with
    | none => rfl
    | some c => simpa using h4 c hc

theorem scan_key_eq_sum (env : Env) (g : Model) (player : Player) (d : Int × Int)
    (hr : g.create_radius < 65536) (hd : d ∈ offsets g.create_radius) :
    scan_key env g player d =
      key_invisible env g player d * 16777216 + key_priority g player d * 65536 +
        scan_distance d := by
  have hdist := scan_distance_le g.create_radius d hd
  unfold scan_key scan_score key_invisible key_priority
  exact score_eq_sum _ _ _ (scan_invisible_le _ _ _ _ _) (scan_priority_le _ _ _) (by omega)

/-! ## The worker table: lemmas -/

/-- A scan that found a target found it in the partition of the worker. -/
theorem worker_scan_partition (env : Env) (g : Model) (player : Player) (k : Nat)
    (h : (worker_scan env g player k).1 ≠ start) :
    partition_index (worker_scan env g player k).2.1 (worker_scan env g player k).2.2 = k := by
  rcases scan_fold_spec
      (is_candidate g.chunks k (chunked player.state.x) (chunked player.state.z))
      (scan_key env g player) (target_cell player) (offsets g.create_radius) (start, 0, 0)
    with ⟨_, hres⟩ | ⟨pre, m, post, _, hcm, _, _, _, hres⟩
  · rw [worker_scan_eq_fold, hres] at h
    exact absurd rfl h
  · rw [worker_scan_eq_fold, hres]
    unfold is_candidate at hcm
    simp only [Bool.and_eq_true, decide_eq_true_eq] at hcm
    exact hcm.1

theorem init_workers_idle (j : Nat) (w : Worker) (hw : init_workers[j]? = some w) :
    w.index = j ∧ w.state = WORKER_IDLE := by
  unfold init_workers at hw
  rw [List.getElem?_map] at hw
  cases hr : (List.range WORKERS)[j]? with
  | none => rw [hr] at hw; exact Option.noConfusion hw
  | some i =>
    rw [hr] at hw
    have hij : i = j := by
      have hlt := getElem?_lt _ _ _ hr
      rw [List.getElem?_eq_getElem hlt] at hr
      simpa using (Option.some.inj hr).symm
    subst hij
    have hwe : w = init_worker i := (Option.some.inj hw).symm
    subst hwe
    exact ⟨rfl, rfl⟩

theorem worker_inv_init (g : Model)
    (h : ∀ (j : Nat) (w : Worker), g.workers[j]? = some w →
      w.index = j ∧ w.state = WORKER_IDLE) : worker_inv g := by
  intro j w hw
  refine ⟨(h j w hw).1, ?_⟩
  intro hst
  rw [(h j w hw).2] at hst
  rcases hst with hst | hst <;> exact absurd hst (by decide)

theorem worker_inv_of_workers_eq (g g2 : Model) (hw : g2.workers = g.workers)
    (h : worker_inv g) : worker_inv g2 := by
  intro j w hj
  rw [hw] at hj
  exact h j w hj

theorem check_worker_inv (env : Env) (g : Model) (i : Nat) (h : worker_inv g) :
    worker_inv (check_worker env g i) := by
  unfold check_worker
  split
  · exact h
  · split
    · intro j w hj
      simp only at hj
      rw [getElem?_modifyAt] at hj
      by_cases hji : j = i
      · simp only [hji, if_true] at hj
        cases hgi : g.workers[i]? with
        | none => rw [hgi] at hj; exact Option.noConfusion hj
        | some w0 =>
          rw [hgi] at hj
          have hwe := (Option.some.inj hj).symm
          subst hwe
          refine ⟨by rw [hji]; exact (h i w0 hgi).1, ?_⟩
          intro hst
          have hst2 : WORKER_IDLE = WORKER_BUSY ∨ WORKER_IDLE = WORKER_DONE := hst
          rcases hst2 with hst2 | hst2 <;> exact absurd hst2 (by decide)
      · simp only [hji, if_false] at hj
        exact h j w hj
    · exact h

theorem check_workers_inv (env : Env) (g : Model) (h : worker_inv g) :
    worker_inv (check_workers env g) := by
  unfold check_workers
  generalize List.range WORKERS = l
  induction l generalizing g with
  | nil => exact h
  | cons i is ih =>
    simp only [List.foldl_cons]
    exact ih _ (check_worker_inv env g i h)

theorem force_chunks_step_workers (env : Env) (p q : Int) (g : Model) (d : Int × Int) :
    (force_chunks_step env p q g d).workers = g.workers := by
  unfold force_chunks_step
  simp only
  split
  · split <;> rfl
  · split <;> rfl

theorem force_chunks_workers (env : Env) (g : Model) (player : Player) :
    (force_chunks env g player).workers = g.workers := by
  unfold force_chunks
  simp only
  generalize offsets 1 = l
  induction l generalizing g with
  | nil => rfl
  | cons d ds ih =>
    simp only [List.foldl_cons]
    rw [ih, force_chunks_step_workers]

theorem ensure_chunks_worker_inv (env : Env) (g : Model) (player : Player) (j : Nat)
    (h : worker_inv g) : worker_inv (ensure_chunks_worker env g player j) := by
  cases hw : g.workers[j]? with
  | none =>
    have : ensure_chunks_worker env g player j = g := by
      unfold ensure_chunks_worker
      simp only [hw]
    rw [this]; exact h
  | some w =>
    rcases ensure_chunks_worker_cases env g player j w hw with he | ⟨w2, hs, hws, hi, _, hp, hq⟩
    · rw [he]; exact h
    · intro j2 w3 hj2
      rw [hws] at hj2
      by_cases hjj : j2 = j
      · subst hjj
        have hlt := getElem?_lt _ _ _ hw
        rw [List.getElem?_set_self hlt] at hj2
        have hwe := (Option.some.inj hj2).symm
        subst hwe
        refine ⟨by rw [hi]; exact (h j2 w hw).1, fun _ => ?_⟩
        rw [hp, hq, hi]
        exact worker_scan_partition env g player w.index hs
      · rw [List.getElem?_set_ne (fun e => hjj e.symm)] at hj2
        exact h j2 w3 hj2

theorem ensure_chunks_step_inv (env : Env) (player : Player) (g : Model) (i : Nat)
    (h : worker_inv g) : worker_inv (ensure_chunks_step env player g i) := by
  unfold ensure_chunks_step
  split
  · exact h
  · split
    · exact ensure_chunks_worker_inv env g player i h
    · exact h

theorem ensure_chunks_inv (env : Env) (g : Model) (player : Player) (h : worker_inv g) :
    worker_inv (ensure_chunks env g player) := by
  unfold ensure_chunks schedule_workers
  simp only
  have h2 : worker_inv (force_chunks env (check_workers env g) player) :=
    worker_inv_of_workers_eq _ _ (force_chunks_workers env _ player) (check_workers_inv env g h)
  generalize force_chunks env (check_workers env g) player = g2 at h2
  generalize List.range WORKERS = l
  induction l generalizing g2 with
  | nil => exact h2
  | cons i is ih =>
    simp only [List.foldl_cons]
    exact ih _ (ensure_chunks_step_inv env player g2 i h2)

theorem load_chunk_pq (env : Env) (item : WorkerItem) :
    (load_chunk env item).p = item.p ∧ (load_chunk env item).q = item.q := ⟨rfl, rfl⟩

theorem worker_run_step_inv (env : Env) (g g2 : Model) (k : Nat) (h : worker_inv g)
    (hstep : worker_run_step env g k = some g2) : worker_inv g2 := by
  unfold worker_run_step at hstep
  cases hw : g.workers[k]? with
  | none => rw [hw] at hstep; exact Option.noConfusion hstep
  | some w =>
    rw [hw] at hstep
    simp only at hstep
    by_cases hb : w.state ≠ WORKER_BUSY
    · rw [if_pos hb] at hstep; exact Option.noConfusion hstep
    · rw [if_neg hb] at hstep
      have hb2 : w.state = WORKER_BUSY := not_not.mp hb
      split at hstep
      · exact Option.noConfusion hstep
      split at hstep
      · exact Option.noConfusion hstep
      have hg2 := (Option.some.inj hstep).symm
      subst hg2
      intro j w3 hj
      simp only at hj
      by_cases hjk : j = k
      · subst hjk
        have hlt := getElem?_lt _ _ _ hw
        rw [List.getElem?_set_self hlt] at hj
        have hwe := (Option.some.inj hj).symm
        subst hwe
        refine ⟨(h j w hw).1, fun _ => ?_⟩
        have hpart := (h j w hw).2 (Or.inl hb2)
        rw [compute_chunk_p, compute_chunk_q]
        split
        · exact hpart
        · exact hpart
      · rw [List.getElem?_set_ne (fun e => hjk e.symm)] at hj
        exact h j w3 hj

theorem reachable_inv (g : Model) (h : Reachable g) : worker_inv g := by
  induction h with
  | init g h => exact worker_inv_init g h
  | ensure env g player _ ih => exact ensure_chunks_inv env g player ih
  | run env g g2 k _ hstep ih => exact worker_run_step_inv env g g2 k ih hstep
  | other g g2 _ hw ih => exact worker_inv_of_workers_eq g g2 hw ih

/-! ## C7: the scheduler partition -/

/-- C7: the partition index `(|a| xor |b|) mod WORKERS` of every cell is one
index below `WORKERS`; whenever `ensure_chunks_worker` hands a job to the worker
in slot `j`, the worker is `BUSY` and the target of its item has the worker's
own partition index; hence in every reachable state two distinct workers that
are `BUSY` or `DONE` hold items for different chunk coordinates. -/
theorem scheduler_partition (g : Model) (hg : Reachable g) :
    (∀ a b : Int, partition_index a b < WORKERS) ∧
    (∀ (env : Env) (g1 : Model) (player : Player) (j : Nat) (w : Worker),
      g1.workers[j]? = some w → ensure_chunks_worker env g1 player j ≠ g1 →
      ∃ w2, (ensure_chunks_worker env g1 player j).workers[j]? = some w2 ∧
        w2.state = WORKER_BUSY ∧ partition_index w2.item.p w2.item.q = w.index) ∧
    (∀ (i j : Nat) (wi wj : Worker), i ≠ j →
      g.workers[i]? = some wi → g.workers[j]? = some wj →
      (wi.state = WORKER_BUSY ∨ wi.state = WORKER_DONE) →
      (wj.state = WORKER_BUSY ∨ wj.state = WORKER_DONE) →
      (wi.item.p, wi.item.q) ≠ (wj.item.p, wj.item.q)) := by
  refine ⟨?_, ?_, ?_⟩
  · intro a b
    unfold partition_index
    exact Nat.mod_lt _ (by decide)
  · intro env g1 player j w hw hne
    rcases ensure_chunks_worker_cases env g1 player j w hw with he | ⟨w2, hs, hws, _, hst, hp, hq⟩
    · exact absurd he hne
    · refine ⟨w2, ?_, hst, ?_⟩
      · rw [hws, List.getElem?_set_self (getElem?_lt _ _ _ hw)]
      · rw [hp, hq]
        exact worker_scan_partition env g1 player w.index hs
  · intro i j wi wj hij hi hj hsi hsj heq
    have hinv := reachable_inv g hg
    have h1 := hinv i wi hi
    have h2 := hinv j wj hj
    have hp1 := h1.2 hsi
    have hp2 := h2.2 hsj
    simp only [Prod.mk.injEq] at heq
    rw [heq.1, heq.2, hp2] at hp1
    apply hij
    rw [← h1.1, ← h2.1, hp1]

set_option maxRecDepth 100000 in
/-- C7, applied to the state after the first `ensure_chunks` call on the start-up
table with scan radius `2`, in which workers `0`, `2` and `3` are `BUSY`. -/
theorem scheduler_partition_witness :
    Reachable (ensure_chunks env0 small_model zeroPlayer) ∧
    ((ensure_chunks env0 small_model zeroPlayer).workers.map
        (fun w => (w.state, w.item.p, w.item.q)) =
      [(WORKER_BUSY, -2, -2), (WORKER_IDLE, 0, 0), (WORKER_BUSY, -2, 0),
       (WORKER_BUSY, -2, -1)]) ∧
    (∀ (i j : Nat) (wi wj : Worker), i ≠ j →
      (ensure_chunks env0 small_model zeroPlayer).workers[i]? = some wi →
      (ensure_chunks env0 small_model zeroPlayer).workers[j]? = some wj →
      (wi.state = WORKER_BUSY ∨ wi.state = WORKER_DONE) →
      (wj.state = WORKER_BUSY ∨ wj.state = WORKER_DONE) →
      (wi.item.p, wi.item.q) ≠ (wj.item.p, wj.item.q)) :=
  have hr : Reachable (ensure_chunks env0 small_model zeroPlayer) :=
    Reachable.ensure env0 small_model zeroPlayer (Reachable.init small_model init_workers_idle)
  ⟨hr, by decide!, (scheduler_partition _ hr).2.2⟩

/-! ## `check_workers`: lemmas -/

theorem check_worker_chunks (env : Env) (g : Model) (k : Nat) :
    (check_worker env g k).chunks = merged_chunks env g.chunks (g.workers[k]?) := by
  unfold check_worker merged_chunks
  cases g.workers[k]? with
  | none => rfl
  | some w =>
    simp only
    split <;> rfl

theorem merge_state_idem (w : Worker) : merge_state (merge_state w) = merge_state w := by
  unfold merge_state
  by_cases h : w.state = WORKER_DONE
  · have h2 : ¬ (WORKER_IDLE = WORKER_DONE) := by decide
    simp [h, h2]
  · simp [h]

theorem check_worker_workers_get (env : Env) (g : Model) (k j : Nat) :
    (check_worker env g k).workers[j]? =
      if j = k then (g.workers[j]?).map merge_state else g.workers[j]? := by
  unfold check_worker
  cases hw : g.workers[k]? with
  | none =>
    simp only
    by_cases hjk : j = k
    · rw [if_pos hjk, hjk, hw]; rfl
    · rw [if_neg hjk]
  | some w =>
    simp only
    by_cases hd : w.state = WORKER_DONE
    · rw [if_pos hd]
      simp only
      rw [getElem?_modifyAt]
      by_cases hjk : j = k
      · rw [if_pos hjk, if_pos hjk, hjk, hw]
        simp [merge_state, hd]
      · rw [if_neg hjk, if_neg hjk]
    · rw [if_neg hd]
      by_cases hjk : j = k
      · rw [if_pos hjk, hjk, hw]
        simp [merge_state, hd]
      · rw [if_neg hjk]

theorem check_fold_workers_get (env : Env) (l : List Nat) (g : Model) (j : Nat) :
    (l.foldl (check_worker env) g).workers[j]? =
      if j ∈ l then (g.workers[j]?).map merge_state else g.workers[j]? := by
  induction l generalizing g with
  | nil => simp
  | cons k ks ih =>
    simp only [List.foldl_cons]
    rw [ih, check_worker_workers_get]
    by_cases hjk : j = k
    · subst hjk
      simp only [if_true, List.mem_cons, true_or]
      by_cases hjks : j ∈ ks
      · rw [if_pos hjks]
        cases g.workers[j]? with
        | none => rfl
        | some w => simp [merge_state_idem]
      · rw [if_neg hjks]
    · simp only [hjk, if_false, List.mem_cons, false_or]

/-- The loop pass of `check_workers` for a `DONE` worker whose item has no
resident chunk writes no chunk. -/
theorem check_worker_stale (env : Env) (g : Model) (i : Nat) (w : Worker)
    (hw : g.workers[i]? = some w)
    (hstale : find_chunk g.chunks w.item.p w.item.q = none) :
    (check_worker env g i).chunks = g.chunks := by
  rw [check_worker_chunks, hw]
  unfold merged_chunks
  simp only [hstale]
  split <;> rfl

/-- Two models that agree on the chunks and on every worker record except slot
`i`, where the first holds a stale or unfinished item and the second holds a
worker that is not `DONE`, still do so after a loop pass of `check_workers`. -/
theorem check_worker_discard (env : Env) (i k : Nat) (g1 g2 : Model)
    (hc : g1.chunks = g2.chunks)
    (hws : ∀ j, j ≠ i → g1.workers[j]? = g2.workers[j]?)
    (h1 : ∀ w1, g1.workers[i]? = some w1 → w1.state = WORKER_DONE →
      find_chunk g1.chunks w1.item.p w1.item.q = none)
    (h2 : ∀ w2, g2.workers[i]? = some w2 → w2.state ≠ WORKER_DONE) :
    (check_worker env g1 k).chunks = (check_worker env g2 k).chunks ∧
    (∀ j, j ≠ i → (check_worker env g1 k).workers[j]? = (check_worker env g2 k).workers[j]?) ∧
    (∀ w1, (check_worker env g1 k).workers[i]? = some w1 → w1.state = WORKER_DONE →
      find_chunk (check_worker env g1 k).chunks w1.item.p w1.item.q = none) ∧
    (∀ w2, (check_worker env g2 k).workers[i]? = some w2 → w2.state ≠ WORKER_DONE) := by
  have hchunks : (check_worker env g1 k).chunks = (check_worker env g2 k).chunks := by
    rw [check_worker_chunks, check_worker_chunks]
    by_cases hki : k = i
    · subst hki
      have e1 : merged_chunks env g1.chunks (g1.workers[k]?) = g1.chunks := by
        unfold merged_chunks
        cases hw1 : g1.workers[k]? with
        | none => rfl
        | some w1 =>
          simp only
          by_cases hd : w1.state = WORKER_DONE
          · rw [if_pos hd, h1 w1 hw1 hd]
          · rw [if_neg hd]
      have e2 : merged_chunks env g2.chunks (g2.workers[k]?) = g2.chunks := by
        unfold merged_chunks
        cases hw2 : g2.workers[k]? with
        | none => rfl
        | some w2 =>
          simp only
          rw [if_neg (h2 w2 hw2)]
      rw [e1, e2, hc]
    · rw [hws k hki, hc]
  refine ⟨hchunks, ?_, ?_, ?_⟩
  · intro j hj
    rw [check_worker_workers_get, check_worker_workers_get, hws j hj]
  · intro w1 hw1 hd
    rw [check_worker_workers_get] at hw1
    have hco : coords (check_worker env g1 k).chunks = coords g1.chunks :=
      coords_check_worker env g1 k
    rw [find_chunk_congr _ _ hco]
    by_cases hik : i = k
    · rw [if_pos hik] at hw1
      cases hg : g1.workers[i]? with
      | none => rw [hg] at hw1; exact Option.noConfusion hw1
      | some w0 =>
        rw [hg] at hw1
        have hwe : w1 = merge_state w0 := (Option.some.inj hw1).symm
        subst hwe
        unfold merge_state at hd ⊢
        by_cases hd0 : w0.state = WORKER_DONE
        · rw [if_pos hd0] at hd
          have hd2 : WORKER_IDLE = WORKER_DONE := hd
          exact absurd hd2 (by decide)
        · rw [if_neg hd0] at hd
          exact absurd hd hd0
    · rw [if_neg hik] at hw1
      exact h1 w1 hw1 hd
  · intro w2 hw2
    rw [check_worker_workers_get] at hw2
    by_cases hik : i = k
    · rw [if_pos hik] at hw2
      cases hg : g2.workers[i]? with
      | none => rw [hg] at hw2; exact Option.noConfusion hw2
      | some w0 =>
        rw [hg] at hw2
        have hwe : w2 = merge_state w0 := (Option.some.inj hw2).symm
        subst hwe
        unfold merge_state
        rw [if_neg (h2 w0 hg)]
        exact h2 w0 hg
    · rw [if_neg hik] at hw2
      exact h2 w2 hw2

theorem check_fold_discard (env : Env) (i : Nat) (l : List Nat) (g1 g2 : Model)
    (hc : g1.chunks = g2.chunks)
    (hws : ∀ j, j ≠ i → g1.workers[j]? = g2.workers[j]?)
    (h1 : ∀ w1, g1.workers[i]? = some w1 → w1.state = WORKER_DONE →
      find_chunk g1.chunks w1.item.p w1.item.q = none)
    (h2 : ∀ w2, g2.workers[i]? = some w2 → w2.state ≠ WORKER_DONE) :
    (l.foldl (check_worker env) g1).chunks = (l.foldl (check_worker env) g2).chunks := by
  induction l generalizing g1 g2 with
  | nil => exact hc
  | cons k ks ih =>
    simp only [List.foldl_cons]
    obtain ⟨a, b, c, d⟩ := check_worker_discard env i k g1 g2 hc hws h1 h2
    exact ih _ _ a b c d

/-- When every `DONE` worker holds a stale item, a loop pass of `check_workers`
writes no chunk, and the same holds afterwards. -/
theorem check_fold_all_stale (env : Env) (l : List Nat) (g : Model)
    (h : ∀ (j : Nat) (w : Worker), g.workers[j]? = some w → w.state = WORKER_DONE →
      find_chunk g.chunks w.item.p w.item.q = none) :
    (l.foldl (check_worker env) g).chunks = g.chunks := by
  induction l generalizing g with
  | nil => rfl
  | cons k ks ih =>
    simp only [List.foldl_cons]
    have hk : (check_worker env g k).chunks = g.chunks := by
      rw [check_worker_chunks]
      unfold merged_chunks
      cases hw : g.workers[k]? with
      | none => rfl
      | some w =>
        simp only
        by_cases hd : w.state = WORKER_DONE
        · rw [if_pos hd, h k w hw hd]
        · rw [if_neg hd]
    rw [ih, hk]
    intro j w hj hd
    rw [hk]
    rw [check_worker_workers_get] at hj
    by_cases hjk : j = k
    · rw [if_pos hjk] at hj
      cases hg : g.workers[j]? with
      | none => rw [hg] at hj; exact Option.noConfusion hj
      | some w0 =>
        rw [hg] at hj
        have hwe : w = merge_state w0 := (Option.some.inj hj).symm
        subst hwe
        unfold merge_state at hd ⊢
        by_cases hd0 : w0.state = WORKER_DONE
        · rw [if_pos hd0] at hd
          have hd2 : WORKER_IDLE = WORKER_DONE := hd
          exact absurd hd2 (by decide)
        · rw [if_neg hd0] at hd
          exact absurd hd hd0
    · rw [if_neg hjk] at hj
      exact h j w hj hd

/-! ## C9: stale job results -/

/-- C9, counterexample.  Worker `0` is `DONE` with an item for the cell `(7, 7)`,
which is not resident, and worker `1` is `DONE` with an item for the resident
chunk `(1, 0)`: `check_workers` merges the result of worker `1`, so the fields of
a resident chunk change (`faces` from `99` to `5`) although a stale worker is
present. -/
theorem stale_result_beside_fresh_result :
    two_done.workers[0]? =
      some { index := 0, state := WORKER_DONE, item := item_pq 7 7 } ∧
    find_chunk two_done.chunks (item_pq 7 7).p (item_pq 7 7).q = none ∧
    two_done.chunks.map (fun c => (c.p, c.q, c.faces)) = [(1, 0, 99)] ∧
    (check_workers env0 two_done).chunks.map (fun c => (c.p, c.q, c.faces)) = [(1, 0, 5)] ∧
    (check_workers env0 two_done).chunks ≠ two_done.chunks := by
  decide

/-- C9, amended: for a worker in state `DONE` whose item's `(p, q)` is not the coordinate
of any resident chunk, the loop pass of `check_workers` for that worker leaves
every chunk (and the spare slots) unchanged and returns the worker to `IDLE`
with its item untouched; after the whole of `check_workers` the worker is
`IDLE`, the resident coordinates are unchanged, the chunks are exactly what
they would be had the worker been `IDLE` from the start (its result is
discarded), and they are unchanged altogether when no `DONE` worker holds an
item for a resident chunk. -/
theorem stale_result_discarded (env : Env) (g : Model) (i : Nat) (w : Worker)
    (hi : i < WORKERS) (hw : g.workers[i]? = some w) (hdone : w.state = WORKER_DONE)
    (hstale : find_chunk g.chunks w.item.p w.item.q = none) :
    (check_worker env g i).chunks = g.chunks ∧
    (check_worker env g i).stale = g.stale ∧
    (check_worker env g i).workers[i]? = some { w with state := WORKER_IDLE } ∧
    (check_workers env g).workers[i]? = some { w with state := WORKER_IDLE } ∧
    coords (check_workers env g).chunks = coords g.chunks ∧
    (check_workers env g).chunks = (check_workers env (with_idle g i)).chunks ∧
    ((∀ (j : Nat) (w2 : Worker), g.workers[j]? = some w2 → w2.state = WORKER_DONE →
        find_chunk g.chunks w2.item.p w2.item.q = none) →
      (check_workers env g).chunks = g.chunks) := by
  have hms : merge_state w = { w with state := WORKER_IDLE } := by
    unfold merge_state
    rw [if_pos hdone]
  refine ⟨check_worker_stale env g i w hw hstale, ?_, ?_, ?_, coords_check_workers env g, ?_, ?_⟩
  · unfold check_worker
    simp only [hw]
    split <;> rfl
  · rw [check_worker_workers_get, if_pos rfl, hw]
    simp only [Option.map_some']
    rw [hms]
  · unfold check_workers
    rw [check_fold_workers_get, if_pos (List.mem_range.mpr hi), hw]
    simp only [Option.map_some']
    rw [hms]
  · unfold check_workers
    apply check_fold_discard env i
    · rfl
    · intro j hj
      unfold with_idle
      simp only
      rw [getElem?_modifyAt, if_neg hj]
    · intro w1 hw1 _
      rw [hw] at hw1
      rw [← Option.some.inj hw1]
      exact hstale
    · intro w2 hw2
      unfold with_idle at hw2
      simp only at hw2
      rw [getElem?_modifyAt, if_pos rfl, hw] at hw2
      rw [← Option.some.inj hw2]
      exact (by decide : WORKER_IDLE ≠ WORKER_DONE)
  · intro hall
    exact check_fold_all_stale env _ g hall

/-- C9, applied to a table whose worker `0` is `DONE` for the non-resident cell
`(7, 7)`. -/
theorem stale_result_discarded_witness :
    stale_model.workers[0]? =
      some { index := 0, state := WORKER_DONE, item := item_pq 7 7 } ∧
    find_chunk stale_model.chunks (item_pq 7 7).p (item_pq 7 7).q = none ∧
    (check_workers env0 stale_model).chunks = stale_model.chunks ∧
    (check_workers env0 stale_model).workers[0]? =
      some { index := 0, state := WORKER_IDLE, item := item_pq 7 7 } :=
  have h := stale_result_discarded env0 stale_model 0
    { index := 0, state := WORKER_DONE, item := item_pq 7 7 } (by decide) rfl rfl (by decide)
  have hall : ∀ w2 ∈ stale_model.workers, w2.state = WORKER_DONE →
      find_chunk stale_model.chunks w2.item.p w2.item.q = none := by decide
  ⟨rfl, by decide, h.2.2.2.2.2.2 (fun _ w2 hj hd => hall w2 (List.getElem?_mem hj) hd),
    h.2.2.2.1⟩

/-! ## The worker state machine: lemmas -/

theorem ensure_chunks_worker_others (env : Env) (g : Model) (player : Player) (j k : Nat)
    (hk : k ≠ j) : (ensure_chunks_worker env g player j).workers[k]? = g.workers[k]? := by
  cases hw : g.workers[j]? with
  | none =>
    have : ensure_chunks_worker env g player j = g := by
      unfold ensure_chunks_worker
      simp only [hw]
    rw [this]
  | some w =>
    rcases ensure_chunks_worker_cases env g player j w hw with he | ⟨w2, _, hws, _⟩
    · rw [he]
    · rw [hws, List.getElem?_set_ne (fun e => hk e.symm)]

theorem ensure_chunks_worker_self (env : Env) (g : Model) (player : Player) (j : Nat)
    (w : Worker) (hw : g.workers[j]? = some w) :
    (ensure_chunks_worker env g player j).workers[j]? = some w ∨
    ∃ w2, (ensure_chunks_worker env g player j).workers[j]? = some w2 ∧
      w2.state = WORKER_BUSY := by
  rcases ensure_chunks_worker_cases env g player j w hw with he | ⟨w2, _, hws, _, hst, _⟩
  · left; rw [he]; exact hw
  · right
    exact ⟨w2, by rw [hws, List.getElem?_set_self (getElem?_lt _ _ _ hw)], hst⟩

/-- The loop of `ensure_chunks` never writes the record of a worker that is not
`IDLE`. -/
theorem schedule_fold_keep (env : Env) (player : Player) (l : List Nat) (g : Model) (j : Nat)
    (w : Worker) (hw : g.workers[j]? = some w) (hs : w.state ≠ WORKER_IDLE) :
    (l.foldl (ensure_chunks_step env player) g).workers[j]? = some w := by
  induction l generalizing g with
  | nil => exact hw
  | cons i is ih =>
    simp only [List.foldl_cons]
    apply ih
    unfold ensure_chunks_step
    by_cases hij : i = j
    · subst hij
      simp only [hw]
      rw [if_neg hs]
      exact hw
    · cases hwi : g.workers[i]? with
      | none => exact hw
      | some wi =>
        simp only
        split
        · rw [ensure_chunks_worker_others env g player i j (fun e => hij e.symm)]
          exact hw
        · exact hw

/-- The loop of `ensure_chunks` leaves an `IDLE` worker as it is or makes it
`BUSY`. -/
theorem schedule_fold_idle (env : Env) (player : Player) (l : List Nat) (g : Model) (j : Nat)
    (w : Worker) (hw : g.workers[j]? = some w) :
    (l.foldl (ensure_chunks_step env player) g).workers[j]? = some w ∨
    ∃ w2, (l.foldl (ensure_chunks_step env player) g).workers[j]? = some w2 ∧
      w2.state = WORKER_BUSY := by
  induction l generalizing g with
  | nil => exact Or.inl hw
  | cons i is ih =>
    simp only [List.foldl_cons]
    have hstep : (ensure_chunks_step env player g i).workers[j]? = some w ∨
        ∃ w2, (ensure_chunks_step env player g i).workers[j]? = some w2 ∧
          w2.state = WORKER_BUSY := by
      unfold ensure_chunks_step
      by_cases hij : i = j
      · subst hij
        simp only [hw]
        split
        · exact ensure_chunks_worker_self env g player i w hw
        · exact Or.inl hw
      · cases hwi : g.workers[i]? with
        | none => exact Or.inl hw
        | some wi =>
          simp only
          split
          · left
            rw [ensure_chunks_worker_others env g player i j (fun e => hij e.symm)]
            exact hw
          · exact Or.inl hw
    rcases hstep with h | ⟨w2, h, hb⟩
    · exact ih _ h
    · right
      refine ⟨w2, schedule_fold_keep env player is _ j w2 h ?_, hb⟩
      rw [hb]
      decide

theorem delete_chunks_workers (g : Model) : (delete_chunks g).workers = g.workers := rfl

/-! ## The items that the scheduler hands out: lemmas -/

/-- The centre entry of the pointer table built around the chunk in slot `i` is
the map of that chunk itself. -/
theorem neighbor_maps_centre (cs : List Chunk) (chunk : Chunk) (i : Nat) (sel : Chunk → Map) :
    (neighbor_maps cs chunk i sel).getD 4 none = (cs[i]?).map sel := by
  have ho : offsets 1 =
      [(-1, -1), (-1, 0), (-1, 1), (0, -1), (0, 0), (0, 1), (1, -1), (1, 0), (1, 1)] := by
    decide
  unfold neighbor_maps
  rw [ho]
  simp [neighbor]

theorem assign_item_ready (g : Model) (k i : Nat) (load : Int) (w : Worker) (c : Chunk)
    (hw : g.workers[k]? = some w) (hc : g.chunks[i]? = some c) :
    ∃ w2, (assign_item g k i load).workers = g.workers.set k w2 ∧
      w2.state = WORKER_BUSY ∧ item_ready w2.item := by
  unfold assign_item
  simp only [hc]
  rw [modifyAt_eq_set _ _ _ w hw]
  refine ⟨_, rfl, rfl, ?_, ?_⟩
  · simp only
    rw [neighbor_maps_centre, hc]
    exact Option.noConfusion
  · simp only
    rw [neighbor_maps_centre, hc]
    exact Option.noConfusion

/-- The function `ensure_chunks_worker` leaves the record of worker `j` as it is
or hands it an item with both centre pointers non-null. -/
theorem ensure_chunks_worker_ready (env : Env) (g : Model) (player : Player) (j : Nat)
    (w : Worker) (hw : g.workers[j]? = some w) :
    (ensure_chunks_worker env g player j).workers[j]? = some w ∨
    ∃ w2, (ensure_chunks_worker env g player j).workers[j]? = some w2 ∧
      w2.state = WORKER_BUSY ∧ item_ready w2.item := by
  have hlt := getElem?_lt _ _ _ hw
  unfold ensure_chunks_worker
  simp only [hw]
  by_cases hs : (worker_scan env g player w.index).1 = start
  · left; rw [if_pos hs]; exact hw
  · rw [if_neg hs]
    cases hf : find_chunk g.chunks (worker_scan env g player w.index).2.1
        (worker_scan env g player w.index).2.2 with
    | some i =>
      simp only
      obtain ⟨c, hc, -, -⟩ := find_chunk_some _ _ _ _ hf
      obtain ⟨w2, h1, h2, h3⟩ := assign_item_ready g j i 0 w c hw hc
      right
      exact ⟨w2, by rw [h1, List.getElem?_set_self hlt], h2, h3⟩
    | none =>
      simp only
      by_cases hroom : g.chunk_count < MAX_CHUNKS
      · rw [if_pos hroom]
        obtain ⟨c, hc, -, -⟩ := init_chunk_take_slot_get env g
          (worker_scan env g player w.index).2.1 (worker_scan env g player w.index).2.2
        obtain ⟨w2, h1, h2, h3⟩ := assign_item_ready
          { take_slot g with chunks := (init_chunk env (take_slot g).chunks g.chunk_count
              (worker_scan env g player w.index).2.1 (worker_scan env g player w.index).2.2) }
          j g.chunk_count 1 w c hw hc
        right
        refine ⟨w2, ?_, h2, h3⟩
        rw [h1]
        exact List.getElem?_set_self hlt
      · left; rw [if_neg hroom]; exact hw

theorem ensure_chunks_worker_keeps_ready (env : Env) (g : Model) (player : Player) (i : Nat)
    (h : worker_ready g) : worker_ready (ensure_chunks_worker env g player i) := by
  intro j w2 hj hb
  by_cases hji : j = i
  · subst hji
    cases hw : g.workers[j]? with
    | none =>
      have : ensure_chunks_worker env g player j = g := by
        unfold ensure_chunks_worker
        simp only [hw]
      rw [this, hw] at hj
      exact Option.noConfusion hj
    | some w =>
      rcases ensure_chunks_worker_ready env g player j w hw with h1 | ⟨w3, h1, -, h3⟩
      · rw [h1] at hj
        rw [← Option.some.inj hj] at hb ⊢
        exact h j w hw hb
      · rw [h1] at hj
        rw [← Option.some.inj hj]
        exact h3
  · rw [ensure_chunks_worker_others env g player i j hji] at hj
    exact h j w2 hj hb

theorem ensure_chunks_keeps_ready (env : Env) (g : Model) (player : Player)
    (h : worker_ready g) : worker_ready (ensure_chunks env g player) := by
  unfold ensure_chunks schedule_workers
  simp only
  have h1 : worker_ready (check_workers env g) := by
    intro j w hj hb
    unfold check_workers at hj
    rw [check_fold_workers_get] at hj
    split at hj
    · cases hw : g.workers[j]? with
      | none => rw [hw] at hj; exact Option.noConfusion hj
      | some w0 =>
        rw [hw] at hj
        simp only [Option.map_some'] at hj
        have hwe : w = merge_state w0 := (Option.some.inj hj).symm
        subst hwe
        unfold merge_state at hb ⊢
        by_cases hd : w0.state = WORKER_DONE
        · rw [if_pos hd] at hb
          have hb2 : WORKER_IDLE = WORKER_BUSY := hb
          exact absurd hb2 (by decide)
        · rw [if_neg hd] at hb ⊢
          exact h j w0 hw hb
    · exact h j w hj hb
  have h2 : worker_ready (force_chunks env (check_workers env g) player) := by
    intro j w hj hb
    rw [force_chunks_workers] at hj
    exact h1 j w hj hb
  generalize force_chunks env (check_workers env g) player = g2 at h2
  generalize List.range WORKERS = l
  induction l generalizing g2 with
  | nil => exact h2
  | cons i is ih =>
    simp only [List.foldl_cons]
    apply ih
    unfold ensure_chunks_step
    split
    · exact h2
    · split
      · exact ensure_chunks_worker_keeps_ready env g2 player i h2
      · exact h2

theorem worker_run_step_keeps_ready (env : Env) (g g2 : Model) (k : Nat) (h : worker_ready g)
    (hstep : worker_run_step env g k = some g2) : worker_ready g2 := by
  unfold worker_run_step at hstep
  cases hw : g.workers[k]? with
  | none => rw [hw] at hstep; exact Option.noConfusion hstep
  | some w =>
    rw [hw] at hstep
    simp only at hstep
    split at hstep
    · exact Option.noConfusion hstep
    split at hstep
    · exact Option.noConfusion hstep
    split at hstep
    · exact Option.noConfusion hstep
    have hg2 := (Option.some.inj hstep).symm
    subst hg2
    intro j w3 hj hb
    simp only at hj
    by_cases hjk : j = k
    · subst hjk
      rw [List.getElem?_set_self (getElem?_lt _ _ _ hw)] at hj
      rw [← Option.some.inj hj] at hb
      have hb2 : WORKER_DONE = WORKER_BUSY := hb
      exact absurd hb2 (by decide)
    · rw [List.getElem?_set_ne (fun e => hjk e.symm)] at hj
      exact h j w3 hj hb

/-- In every reachable state the item of a `BUSY` worker has both centre
pointers non-null: the scheduler builds them from the target chunk itself. -/
theorem reachable_ready (g : Model) (h : Reachable g) : worker_ready g := by
  induction h with
  | init g h =>
    intro j w hj hb
    have := (h j w hj).2
    rw [this] at hb
    exact absurd hb (by decide)
  | ensure env g player _ ih => exact ensure_chunks_keeps_ready env g player ih
  | run env g g2 k _ hstep ih => exact worker_run_step_keeps_ready env g g2 k ih hstep
  | other g g2 _ hw ih =>
    intro j w hj hb
    rw [hw] at hj
    exact ih j w hj hb

/-! ## C10: the worker state machine -/

/-- C10: for the worker record `w` in slot `j` of the table:
`check_workers` turns `DONE` into `IDLE` without writing the item and leaves
an `IDLE` or `BUSY` record (state and item) as it is; `ensure_chunks_worker`
leaves the record as it is or makes the worker `BUSY` with such an item, and
writes no other worker; the scheduling loop of `ensure_chunks` calls it only for `IDLE`
workers, so the record of a `BUSY` or `DONE` worker (its item included) is not
overwritten, and an `IDLE` worker stays as it is or becomes `BUSY`; a `BUSY`
worker is left alone by the whole of `ensure_chunks`; the worker thread's pass
is blocked unless the worker is `BUSY` and then, the centre pointers of the
item being non-null, ends in `DONE` with the item's target and `load` kept and
no other record or chunk written; with a null `block_maps[1][1]` the pass has
no defined step, but every item that `ensure_chunks_worker` hands out has both
centre pointers non-null, and so has the item of every `BUSY` worker in a
reachable state; `force_chunks` and `delete_chunks` write no worker record. -/
theorem worker_state_machine (env : Env) (g : Model) (player : Player) (j : Nat) (w : Worker)
    (hj : j < WORKERS) (hw : g.workers[j]? = some w) :
    (w.state = WORKER_DONE →
      (check_workers env g).workers[j]? = some { w with state := WORKER_IDLE }) ∧
    (w.state ≠ WORKER_DONE → (check_workers env g).workers[j]? = some w) ∧
    ((ensure_chunks_worker env g player j).workers[j]? = some w ∨
      ∃ w2, (ensure_chunks_worker env g player j).workers[j]? = some w2 ∧
        w2.state = WORKER_BUSY ∧ item_ready w2.item) ∧
    (∀ k, k ≠ j → (ensure_chunks_worker env g player j).workers[k]? = g.workers[k]?) ∧
    (w.state ≠ WORKER_IDLE → (schedule_workers env player g).workers[j]? = some w) ∧
    (w.state = WORKER_IDLE →
      (schedule_workers env player g).workers[j]? = some w ∨
      ∃ w2, (schedule_workers env player g).workers[j]? = some w2 ∧ w2.state = WORKER_BUSY) ∧
    (w.state = WORKER_BUSY → (ensure_chunks env g player).workers[j]? = some w) ∧
    (w.state ≠ WORKER_BUSY → worker_run_step env g j = none) ∧
    (w.state = WORKER_BUSY → w.item.block_maps.getD 4 none ≠ none →
      (w.item.load ≠ 0 → w.item.light_maps.getD 4 none ≠ none) →
      ∃ g2 w2, worker_run_step env g j = some g2 ∧ g2.workers[j]? = some w2 ∧
        w2.state = WORKER_DONE ∧ w2.index = w.index ∧ w2.item.p = w.item.p ∧
        w2.item.q = w.item.q ∧ w2.item.load = w.item.load ∧
        (∀ k, k ≠ j → g2.workers[k]? = g.workers[k]?) ∧ g2.chunks = g.chunks) ∧
    (w.item.block_maps.getD 4 none = none → worker_run_step env g j = none) ∧
    (Reachable g → w.state = WORKER_BUSY → item_ready w.item) ∧
    (force_chunks env g player).workers = g.workers ∧
    (delete_chunks g).workers = g.workers := by
  have hcheck : (check_workers env g).workers[j]? = some (merge_state w) := by
    unfold check_workers
    rw [check_fold_workers_get, if_pos (List.mem_range.mpr hj), hw]
    rfl
  refine ⟨?_, ?_, ensure_chunks_worker_ready env g player j w hw,
    fun k hk => ensure_chunks_worker_others env g player j k hk,
    fun hs => schedule_fold_keep env player _ g j w hw hs,
    fun _ => schedule_fold_idle env player _ g j w hw, ?_, ?_, ?_, ?_,
    fun hr hb => reachable_ready g hr j w hw hb,
    force_chunks_workers env g player, rfl⟩
  · intro hd
    rw [hcheck]
    unfold merge_state
    rw [if_pos hd]
  · intro hd
    rw [hcheck]
    unfold merge_state
    rw [if_neg hd]
  · intro hb
    unfold ensure_chunks
    simp only
    apply schedule_fold_keep env player
    · rw [force_chunks_workers, hcheck]
      unfold merge_state
      rw [if_neg (by rw [hb]; decide)]
    · rw [hb]; decide
  · intro hb
    unfold worker_run_step
    simp only [hw]
    rw [if_pos hb]
  · intro hb hblock hlight
    have hlt := getElem?_lt _ _ _ hw
    unfold worker_run_step
    simp only [hw]
    rw [if_neg (not_not.mpr hb), if_neg hblock, if_neg (fun h => hlight h.1 h.2)]
    refine ⟨_, { w with
        item := compute_chunk env (if w.item.load ≠ 0 then load_chunk env w.item else w.item),
        state := WORKER_DONE }, rfl, ?_, rfl, rfl, ?_, ?_, ?_, ?_, rfl⟩
    · simp only
      exact List.getElem?_set_self hlt
    · simp only [compute_chunk_p]
      split <;> rfl
    · simp only [compute_chunk_q]
      split <;> rfl
    · simp only [compute_chunk_load]
      split <;> rfl
    · intro k hk
      simp only
      exact List.getElem?_set_ne (fun e => hk e.symm)
  · intro hnull
    unfold worker_run_step
    simp only [hw]
    by_cases hb : w.state ≠ WORKER_BUSY
    · rw [if_pos hb]
    · rw [if_neg hb, if_pos hnull]

set_option maxRecDepth 100000 in
set_option maxHeartbeats 4000000 in
/-- C10, applied to worker `0` after the first `ensure_chunks` call on the
start-up table with scan radius `2`: the state is reachable, the worker is
`BUSY` with an item whose centre pointers are non-null, `check_workers` leaves
its record alone, and its thread's pass ends in `DONE`. -/
theorem worker_state_machine_witness :
    Reachable (ensure_chunks env0 small_model zeroPlayer) ∧
    ∃ w : Worker, (ensure_chunks env0 small_model zeroPlayer).workers[0]? = some w ∧
      w.state = WORKER_BUSY ∧ item_ready w.item ∧
      (check_workers env0 (ensure_chunks env0 small_model zeroPlayer)).workers[0]? = some w ∧
      (∃ g2 w2, worker_run_step env0 (ensure_chunks env0 small_model zeroPlayer) 0 = some g2 ∧
        g2.workers[0]? = some w2 ∧ w2.state = WORKER_DONE) := by
  have hr : Reachable (ensure_chunks env0 small_model zeroPlayer) :=
    Reachable.ensure env0 small_model zeroPlayer (Reachable.init small_model init_workers_idle)
  have hstate : ((ensure_chunks env0 small_model zeroPlayer).workers[0]?).map Worker.state =
      some WORKER_BUSY := by decide!
  cases hw : (ensure_chunks env0 small_model zeroPlayer).workers[0]? with
  | none =>
    rw [hw] at hstate
    exact Option.noConfusion hstate
  | some w =>
    rw [hw] at hstate
    have hb : w.state = WORKER_BUSY := Option.some.inj hstate
    have h := worker_state_machine env0 (ensure_chunks env0 small_model zeroPlayer) zeroPlayer 0 w
      (by decide) hw
    have hready := h.2.2.2.2.2.2.2.2.2.2.1 hr hb
    have hnd : w.state ≠ WORKER_DONE := by rw [hb]; decide
    obtain ⟨g2, w2, h1, h2, h3, -⟩ := h.2.2.2.2.2.2.2.2.1 hb hready.1 (fun _ => hready.2)
    exact ⟨hr, w, rfl, hb, hready, h.2.1 hnd, g2, w2, h1, h2, h3⟩

theorem irange_pairwise (lo hi : Int) : (irange lo hi).Pairwise (fun a b => a < b) := by
  unfold irange
  rw [List.pairwise_map]
  exact (List.pairwise_lt_range _).imp (fun h => by omega)

/-- The list `offsets r` enumerates the cells in scan order. -/
theorem offsets_pairwise (r : Int) : (offsets r).Pairwise scan_before := by
  unfold offsets
  rw [List.pairwise_flatMap]
  constructor
  · intro dp _
    rw [List.pairwise_map]
    exact (irange_pairwise (-r) r).imp (fun h => Or.inr ⟨rfl, h⟩)
  · refine (irange_pairwise (-r) r).imp ?_
    intro a b hab x hx y hy
    obtain ⟨_, _, rfl⟩ := List.mem_map.mp hx
    obtain ⟨_, _, rfl⟩ := List.mem_map.mp hy
    exact Or.inl hab

/-! ## A candidate below the sentinel exists in every table within capacity -/

theorem xor_mod_four (x y : Nat) : (x ^^^ y) % 4 = ((x % 4) ^^^ (y % 4)) % 4 := by
  apply Nat.eq_of_testBit_eq
  intro i
  have h4 : (4 : Nat) = 2 ^ 2 := by decide
  rw [h4]
  simp only [Nat.testBit_mod_two_pow, Nat.testBit_xor]
  cases decide (i < 2) <;> simp

/-- Every column of cells holds, within seven consecutive rows, a cell of any
given partition. -/
theorem exists_partition_row (a q : Int) (k : Nat) (hk : k < WORKERS) :
    ∃ dq : Int, 0 ≤ dq ∧ dq ≤ 6 ∧ partition_index a (q + dq) = k := by
  have hk4 : k < 4 := hk
  have hx : a.natAbs % 4 < 4 := Nat.mod_lt _ (by decide)
  have hkey : ∀ x < 4, ∀ k < 4, x ^^^ k < 4 ∧ (x ^^^ (x ^^^ k)) % 4 = k := by decide
  obtain ⟨ht, hxt⟩ := hkey (a.natAbs % 4) hx k hk4
  generalize htd : a.natAbs % 4 ^^^ k = t at ht hxt
  have hgoal : ∀ b : Int, b.natAbs % 4 = t → partition_index a b = k := by
    intro b hb
    unfold partition_index WORKERS
    rw [xor_mod_four, hb]
    exact hxt
  by_cases hq : -3 ≤ q
  · refine ⟨3 + ((t : Int) - (q + 3)) % 4, by omega, by omega, hgoal _ (by omega)⟩
  · refine ⟨(-(t : Int) - q) % 4, by omega, by omega, hgoal _ (by omega)⟩

theorem scan_key_eq_sum_of_dist (env : Env) (g : Model) (player : Player) (d : Int × Int)
    (hd : scan_distance d < 65536) :
    scan_key env g player d =
      key_invisible env g player d * 16777216 + key_priority g player d * 65536 +
        scan_distance d := by
  unfold scan_key scan_score key_invisible key_priority
  exact score_eq_sum _ _ _ (scan_invisible_le _ _ _ _ _) (scan_priority_le _ _ _) hd

theorem scan_key_lt_start (env : Env) (g : Model) (player : Player) (d : Int × Int)
    (hd : scan_distance d < 65536) : scan_key env g player d < start := by
  rw [scan_key_eq_sum_of_dist env g player d hd]
  have h1 := scan_invisible_le env g.ortho (worker_planes env g player)
    (chunked player.state.x + d.1) (chunked player.state.z + d.2)
  have h2 := scan_priority_le g.chunks (chunked player.state.x + d.1)
    (chunked player.state.z + d.2)
  unfold key_invisible key_priority start
  omega

/-- With at most `MAX_CHUNKS` resident chunks and a scan radius of at least
`MAX_CHUNKS`, every partition has a missing cell within distance `MAX_CHUNKS`
of the player's chunk: the `MAX_CHUNKS + 1` columns to the right each hold a
cell of the partition, and they cannot all be resident. -/
theorem exists_near_candidate (g : Model) (player : Player) (k : Nat) (hk : k < WORKERS)
    (hr : (MAX_CHUNKS : Int) ≤ g.create_radius) (hcount : g.chunk_count ≤ MAX_CHUNKS) :
    ∃ d ∈ scan_cands g player k, scan_distance d ≤ MAX_CHUNKS := by
  choose f hf using fun i : Nat =>
    exists_partition_row (chunked player.state.x + (i : Int)) (chunked player.state.z) k hk
  have hnodup : ((List.range (MAX_CHUNKS + 1)).map (fun (i : Nat) =>
      (chunked player.state.x + (i : Int), chunked player.state.z + f i))).Nodup := by
    apply List.Nodup.map_on _ (List.nodup_range _)
    intro x _ y _ hxy
    simp only [Prod.mk.injEq] at hxy
    omega
  have hex : ∃ i, i < MAX_CHUNKS + 1 ∧
      (chunked player.state.x + (i : Int), chunked player.state.z + f i) ∉ coords g.chunks := by
    by_contra hcon
    have hsub : (List.range (MAX_CHUNKS + 1)).map (fun (i : Nat) =>
        (chunked player.state.x + (i : Int), chunked player.state.z + f i)) ⊆
          coords g.chunks := by
      intro c hc
      obtain ⟨i, hi, rfl⟩ := List.mem_map.mp hc
      by_contra hnot
      exact hcon ⟨i, List.mem_range.mp hi, hnot⟩
    have hlen := (List.subperm_of_subset hnodup hsub).length_le
    rw [List.length_map, List.length_range, coords_length] at hlen
    unfold Model.chunk_count at hcount
    omega
  obtain ⟨i, hi, hmiss⟩ := hex
  obtain ⟨h0, h6, hpart⟩ := hf i
  have hM : MAX_CHUNKS = 8192 := rfl
  rw [hM] at hr hi
  refine ⟨((i : Int), f i), ?_, ?_⟩
  · rw [mem_scan_cands]
    refine ⟨?_, ?_, hpart, ?_⟩
    · rw [abs_le]; constructor <;> simp only <;> omega
    · rw [abs_le]; constructor <;> simp only <;> omega
    · intro c hc
      unfold chunk_at target_cell at hc
      rw [(find_chunk_eq_none _ _ _).mpr hmiss] at hc
      exact Option.noConfusion hc
  · unfold scan_distance
    rw [hM]
    simp only
    omega

/-- The three parts of the key of the scan, as the code computes them: the flag
`invisible` is `1` exactly when `chunk_visible(planes, a, b, 0,
MAX_BLOCK_HEIGHT)` returns `0`, that is when some frustum plane has all eight
corners of the box of the cell on its negative side; the flag `priority` is `1`
exactly when the cell holds a resident chunk with a buffer and the dirty flag
set; the distance is `max(|dp|, |dq|)`. -/
theorem scan_key_parts (env : Env) (g : Model) (player : Player) (d : Int × Int) :
    scan_key env g player d =
      (key_invisible env g player d <<< 24) ||| (key_priority g player d <<< 16) |||
        scan_distance d ∧
    (key_invisible env g player d = 0 ∨ key_invisible env g player d = 1) ∧
    (key_invisible env g player d = 1 ↔
      chunk_visible g.ortho (worker_planes env g player) (target_cell player d).1
        (target_cell player d).2 0 env.MAX_BLOCK_HEIGHT = 0) ∧
    (key_invisible env g player d = 1 ↔
      ∃ i : Nat, i < (if g.ortho ≠ 0 then 4 else 6) ∧
        ∀ pt ∈ chunk_points (target_cell player d).1 (target_cell player d).2 0
            env.MAX_BLOCK_HEIGHT,
          plane_distance (worker_planes env g player) i pt < 0) ∧
    (key_priority g player d = 0 ∨ key_priority g player d = 1) ∧
    (key_priority g player d = 1 ↔
      ∃ c, chunk_at g.chunks (target_cell player d).1 (target_cell player d).2 = some c ∧
        c.buffer ≠ 0 ∧ c.dirty ≠ 0) ∧
    (scan_distance d : Int) = max |d.1| |d.2| := by
  have hinv : key_invisible env g player d = 1 ↔
      chunk_visible g.ortho (worker_planes env g player) (target_cell player d).1
        (target_cell player d).2 0 env.MAX_BLOCK_HEIGHT = 0 := by
    unfold key_invisible scan_invisible target_cell
    simp only
    split
    · rename_i h
      simp [h]
    · rename_i h
      simp [h]
  refine ⟨rfl, ?_, hinv, ?_, ?_, ?_, ?_⟩
  · unfold key_invisible scan_invisible
    split
    · exact Or.inr rfl
    · exact Or.inl rfl
  · rw [hinv]
    exact chunk_visible_zero_iff _ _ _ _ _ _
  · unfold key_priority scan_priority
    split
    · split
      · exact Or.inr rfl
      · exact Or.inl rfl
    · exact Or.inl rfl
  · unfold key_priority scan_priority target_cell
    simp only
    cases hc : chunk_at g.chunks (chunked player.state.x + d.1) (chunked player.state.z + d.2) with
    | none => simp
    | some c =>
      simp only [Option.some.injEq, exists_eq_left']
      split
      · rename_i h
        simp [h]
      · rename_i h
        simp only [zero_ne_one, false_iff]
        exact h
  · unfold scan_distance
    rcases le_total d.1.natAbs d.2.natAbs with h | h
    · rw [max_eq_right h, max_eq_right (by rw [Int.abs_eq_natAbs, Int.abs_eq_natAbs]; exact_mod_cast h),
        Int.abs_eq_natAbs]
    · rw [max_eq_left h, max_eq_left (by rw [Int.abs_eq_natAbs, Int.abs_eq_natAbs]; exact_mod_cast h),
        Int.abs_eq_natAbs]

/-! ## C6: the choice of the scheduler -/

/-- C6: for the worker in slot `j` (partition index `w.index`), the candidates
are the cells `(p + dp, q + dq)` with `|dp|, |dq| ≤ create_radius` whose partition
index equals the worker's and whose chunk is missing or dirty, listed in scan
order (`dp` ascending, then `dq` ascending).  When some
candidate's key is below the sentinel `0x0fffffff`, the scan returns a
candidate `m` whose key `(invisible << 24) | (priority << 16) | distance` is
minimal over all candidates and strictly smaller than the key of every
candidate before it in scan order, and, the target being resident or the table
having room, `ensure_chunks_worker` hands exactly that cell to the worker.
Some candidate's key is below the sentinel whenever at least one candidate
exists and the table holds at most `MAX_CHUNKS` chunks or
`create_radius < 65536`.  For `create_radius < 65536` the order of the keys is
the lexicographic order on `(invisible, stale geometry, distance)`.  Of the
parts of the key, `invisible` is `1` exactly when
`chunk_visible(planes, a, b, 0, MAX_BLOCK_HEIGHT)` returns `0` for the cell,
that is when one of the frustum planes has all eight corners of the cell's box
on its negative side, and `0` otherwise; `priority` is `1` exactly when the
cell holds a resident chunk that has a buffer and is dirty, and `0` otherwise;
the distance is `max(|dp|, |dq|)`. -/
theorem scheduler_choice (env : Env) (g : Model) (player : Player) (j : Nat) (w : Worker)
    (hw : g.workers[j]? = some w) :
    (∀ d : Int × Int, d ∈ scan_cands g player w.index ↔
      (|d.1| ≤ g.create_radius ∧ |d.2| ≤ g.create_radius ∧
       partition_index (target_cell player d).1 (target_cell player d).2 = w.index ∧
       ∀ c, chunk_at g.chunks (target_cell player d).1 (target_cell player d).2 = some c →
         c.dirty ≠ 0)) ∧
    (scan_cands g player w.index).Pairwise scan_before ∧
    ((∃ d ∈ scan_cands g player w.index, scan_key env g player d < start) →
      ∃ pre m post, scan_cands g player w.index = pre ++ m :: post ∧
        (∀ d ∈ pre, scan_key env g player m < scan_key env g player d) ∧
        (∀ d ∈ post, scan_key env g player m ≤ scan_key env g player d) ∧
        worker_scan env g player w.index = (scan_key env g player m, target_cell player m) ∧
        (find_chunk g.chunks (target_cell player m).1 (target_cell player m).2 ≠ none ∨
            g.chunk_count < MAX_CHUNKS →
          ∃ w2, (ensure_chunks_worker env g player j).workers[j]? = some w2 ∧
            w2.state = WORKER_BUSY ∧ (w2.item.p, w2.item.q) = target_cell player m)) ∧
    ((g.chunk_count ≤ MAX_CHUNKS ∨ g.create_radius < 65536) →
      scan_cands g player w.index ≠ [] →
      ∃ d ∈ scan_cands g player w.index, scan_key env g player d < start) ∧
    (g.create_radius < 65536 →
      (∀ d ∈ offsets g.create_radius, scan_key env g player d < start) ∧
      (∀ d ∈ offsets g.create_radius, ∀ d2 ∈ offsets g.create_radius,
        (scan_key env g player d < scan_key env g player d2 ↔
          key_invisible env g player d < key_invisible env g player d2 ∨
          (key_invisible env g player d = key_invisible env g player d2 ∧
            (key_priority g player d < key_priority g player d2 ∨
             (key_priority g player d = key_priority g player d2 ∧
               scan_distance d < scan_distance d2)))))) ∧
    (∀ d : Int × Int,
      scan_key env g player d =
        (key_invisible env g player d <<< 24) ||| (key_priority g player d <<< 16) |||
          scan_distance d ∧
      (key_invisible env g player d = 0 ∨ key_invisible env g player d = 1) ∧
      (key_invisible env g player d = 1 ↔
        chunk_visible g.ortho (worker_planes env g player) (target_cell player d).1
          (target_cell player d).2 0 env.MAX_BLOCK_HEIGHT = 0) ∧
      (key_invisible env g player d = 1 ↔
        ∃ i : Nat, i < (if g.ortho ≠ 0 then 4 else 6) ∧
          ∀ pt ∈ chunk_points (target_cell player d).1 (target_cell player d).2 0
              env.MAX_BLOCK_HEIGHT,
            plane_distance (worker_planes env g player) i pt < 0) ∧
      (key_priority g player d = 0 ∨ key_priority g player d = 1) ∧
      (key_priority g player d = 1 ↔
        ∃ c, chunk_at g.chunks (target_cell player d).1 (target_cell player d).2 = some c ∧
          c.buffer ≠ 0 ∧ c.dirty ≠ 0) ∧
      (scan_distance d : Int) = max |d.1| |d.2|) := by
  refine ⟨mem_scan_cands g player w.index, (offsets_pairwise _).filter _, ?_, ?_, ?_,
    fun d => scan_key_parts env g player d⟩
  · rintro ⟨d0, hd0, hkey0⟩
    have hd0' : d0 ∈ offsets g.create_radius ∧
        is_candidate g.chunks w.index (chunked player.state.x) (chunked player.state.z) d0
          = true := List.mem_filter.mp hd0
    rcases scan_fold_spec
        (is_candidate g.chunks w.index (chunked player.state.x) (chunked player.state.z))
        (scan_key env g player) (target_cell player) (offsets g.create_radius) (start, 0, 0)
      with ⟨hall, _⟩ | ⟨pre, m, post, hl, hcm, hlt, hpre, hpost, hres⟩
    · exact absurd hkey0 (Nat.not_lt.mpr (hall d0 hd0'.1 hd0'.2))
    · have hscan : worker_scan env g player w.index =
          (scan_key env g player m, target_cell player m) := by
        rw [worker_scan_eq_fold]
        exact hres
      refine ⟨pre.filter (is_candidate g.chunks w.index (chunked player.state.x)
          (chunked player.state.z)), m,
        post.filter (is_candidate g.chunks w.index (chunked player.state.x)
          (chunked player.state.z)), ?_, ?_, ?_, hscan, ?_⟩
      · unfold scan_cands candidates
        rw [hl, List.filter_append, List.filter_cons, if_pos hcm]
      · intro d hd
        have := List.mem_filter.mp hd
        exact hpre d this.1 this.2
      · intro d hd
        have := List.mem_filter.mp hd
        exact hpost d this.1 this.2
      · intro hroom
        have hs : (worker_scan env g player w.index).1 ≠ start := by
          rw [hscan]
          exact Nat.ne_of_lt hlt
        have hroom2 : find_chunk g.chunks (worker_scan env g player w.index).2.1
            (worker_scan env g player w.index).2.2 ≠ none ∨ g.chunk_count < MAX_CHUNKS := by
          rw [hscan]
          exact hroom
        obtain ⟨w2, h1, h2, h3, h4⟩ := ensure_chunks_worker_busy env g player j w hw hs hroom2
        refine ⟨w2, h1, h2, ?_⟩
        rw [h3, h4, hscan]
  · intro hcap hne
    obtain ⟨d0, hd0⟩ := List.exists_mem_of_ne_nil _ hne
    have hd0' := (mem_scan_cands g player w.index d0).mp hd0
    have hoff : d0 ∈ offsets g.create_radius := (List.mem_filter.mp hd0).1
    by_cases hr : g.create_radius < 65536
    · have hdist := scan_distance_le g.create_radius d0 hoff
      exact ⟨d0, hd0, scan_key_lt_start env g player d0 (by omega)⟩
    · have hcount : g.chunk_count ≤ MAX_CHUNKS := by
        rcases hcap with h | h
        · exact h
        · exact absurd h hr
      have hk : w.index < WORKERS := by
        rw [← hd0'.2.2.1]
        unfold partition_index
        exact Nat.mod_lt _ (by decide)
      have hM : (MAX_CHUNKS : Int) ≤ g.create_radius := by
        have : MAX_CHUNKS = 8192 := rfl
        rw [this]
        push_cast
        omega
      obtain ⟨d, hd, hdist⟩ := exists_near_candidate g player w.index hk hM hcount
      have hM2 : MAX_CHUNKS = 8192 := rfl
      exact ⟨d, hd, scan_key_lt_start env g player d (by omega)⟩
  · intro hr
    constructor
    · intro d hd
      rw [scan_key_eq_sum env g player d hr hd]
      have h1 := scan_invisible_le env g.ortho (worker_planes env g player)
        (chunked player.state.x + d.1) (chunked player.state.z + d.2)
      have h2 := scan_priority_le g.chunks (chunked player.state.x + d.1)
        (chunked player.state.z + d.2)
      have h3 := scan_distance_le g.create_radius d hd
      unfold key_invisible key_priority start
      omega
    · intro d hd d2 hd2
      rw [scan_key_eq_sum env g player d hr hd, scan_key_eq_sum env g player d2 hr hd2]
      have h1 := scan_invisible_le env g.ortho (worker_planes env g player)
        (chunked player.state.x + d.1) (chunked player.state.z + d.2)
      have h2 := scan_priority_le g.chunks (chunked player.state.x + d.1)
        (chunked player.state.z + d.2)
      have h3 := scan_distance_le g.create_radius d hd
      have h1' := scan_invisible_le env g.ortho (worker_planes env g player)
        (chunked player.state.x + d2.1) (chunked player.state.z + d2.2)
      have h2' := scan_priority_le g.chunks (chunked player.state.x + d2.1)
        (chunked player.state.z + d2.2)
      have h3' := scan_distance_le g.create_radius d2 hd2
      unfold key_invisible key_priority
      omega

/-- C6, applied to worker `0` of the start-up table, an empty resident set, radius
`10` and an observer at the origin: the scan finds a target and the worker is
handed that cell. -/
theorem scheduler_choice_witness :
    (model_of []).workers[0]? = some (init_worker 0) ∧
    ∃ pre m post, scan_cands (model_of []) zeroPlayer (init_worker 0).index = pre ++ m :: post ∧
      (∀ d ∈ pre, scan_key env0 (model_of []) zeroPlayer m <
        scan_key env0 (model_of []) zeroPlayer d) ∧
      (∀ d ∈ post, scan_key env0 (model_of []) zeroPlayer m ≤
        scan_key env0 (model_of []) zeroPlayer d) ∧
      worker_scan env0 (model_of []) zeroPlayer (init_worker 0).index =
        (scan_key env0 (model_of []) zeroPlayer m, target_cell zeroPlayer m) ∧
      ∃ w2, (ensure_chunks_worker env0 (model_of []) zeroPlayer 0).workers[0]? = some w2 ∧
        w2.state = WORKER_BUSY ∧ (w2.item.p, w2.item.q) = target_cell zeroPlayer m := by
  have hw : (model_of []).workers[0]? = some (init_worker 0) := rfl
  have hthm := scheduler_choice env0 (model_of []) zeroPlayer 0 (init_worker 0) hw
  have hmem : ((0, 0) : Int × Int) ∈ scan_cands (model_of []) zeroPlayer (init_worker 0).index :=
    (hthm.1 (0, 0)).mpr ⟨by decide, by decide, by decide, fun c hc => by cases hc⟩
  have hkey := hthm.2.2.2.1 (Or.inl (by decide)) (List.ne_nil_of_mem hmem)
  obtain ⟨pre, m, post, h1, h2, h3, h4, h5⟩ := hthm.2.2.1 hkey
  exact ⟨hw, pre, m, post, h1, h2, h3, h4, h5 (Or.inr (by decide))⟩


/-! ## `chunked` on integer coordinates: lemmas -/

theorem roundf_intCast (x : Int) : roundf (x : ℚ) = x := by
  unfold roundf
  simp only [Rat.num_intCast, Rat.den_intCast, Nat.cast_one]
  split <;> omega

theorem chunked_intCast (x : Int) : chunked (x : ℚ) = x / 32 := by
  unfold chunked CHUNK_SIZE
  rw [roundf_intCast]

/-- For an `int` of magnitude at most `2^24` the conversion to `float` is exact
and `chunked` is integer floor division by `32`. -/
theorem chunked_int_small (x : Int) (h : |x| ≤ 2 ^ 24) : chunked (int_to_float x) = x / 32 := by
  rw [int_to_float_small x h, chunked_intCast]

/-! ## C16: the coordinate round trip -/

/-- C16, counterexample.  The `int` argument of `chunked` is converted to `float`:
`524288 * 32 = 2^24` is a binary32 number, but `2^24 + 31` is not and converts to
`2^24 + 32`, so `chunked(524288 * CHUNK_SIZE + 31)` is `524289`, not `524288`. -/
theorem chunked_round_trip_breaks :
    int_to_float (524288 * CHUNK_SIZE) = ((524288 * CHUNK_SIZE : Int) : ℚ) ∧
    chunked (int_to_float (524288 * CHUNK_SIZE)) = 524288 ∧
    int_to_float (524288 * CHUNK_SIZE + 31) = ((524288 * CHUNK_SIZE + 32 : Int) : ℚ) ∧
    chunked (int_to_float (524288 * CHUNK_SIZE + 31)) = 524289 := by
  decide!

/-- C16, amended.  Coordinate round trip: for every integer chunk coordinate `p`
(of either sign) and every `0 <= i < CHUNK_SIZE` such that `p * CHUNK_SIZE + i`
is converted to `float` exactly, which holds at least up to magnitude `2^24`,
`chunked(p * CHUNK_SIZE + i) = p`, in particular `chunked(p * CHUNK_SIZE) = p`
when `p * CHUNK_SIZE` is converted exactly; every integer world coordinate `x`
of magnitude at most `2^24` lies in exactly one chunk `r`, the one with
`x = r * CHUNK_SIZE + j`, `0 <= j < CHUNK_SIZE`, and that chunk is `chunked(x)`. -/
theorem chunked_round_trip (p i : Int) (h0 : 0 ≤ i) (h1 : i < CHUNK_SIZE) :
    (int_to_float (p * CHUNK_SIZE) = ((p * CHUNK_SIZE : Int) : ℚ) →
      chunked (int_to_float (p * CHUNK_SIZE)) = p) ∧
    (int_to_float (p * CHUNK_SIZE + i) = ((p * CHUNK_SIZE + i : Int) : ℚ) →
      chunked (int_to_float (p * CHUNK_SIZE + i)) = p) ∧
    (|p * CHUNK_SIZE + i| ≤ 2 ^ 24 →
      int_to_float (p * CHUNK_SIZE + i) = ((p * CHUNK_SIZE + i : Int) : ℚ) ∧
      chunked (int_to_float (p * CHUNK_SIZE + i)) = p) ∧
    ∀ x : Int, |x| ≤ 2 ^ 24 → ∃! r : Int,
      ∃ j : Int, 0 ≤ j ∧ j < CHUNK_SIZE ∧ x = r * CHUNK_SIZE + j ∧
        chunked (int_to_float x) = r := by
  unfold CHUNK_SIZE at *
  refine ⟨?_, ?_, ?_, ?_⟩
  · intro h
    rw [h, chunked_intCast]; omega
  · intro h
    rw [h, chunked_intCast]; omega
  · intro h
    refine ⟨int_to_float_small _ h, ?_⟩
    rw [chunked_int_small _ h]; omega
  · intro x hx
    refine ⟨x / 32, ⟨x % 32, ?_, ?_, ?_, ?_⟩, ?_⟩
    · omega
    · omega
    · omega
    · exact chunked_int_small x hx
    · rintro r ⟨j, hj0, hj1, hx2, -⟩
      omega

theorem chunked_round_trip_witness :
    (0 : Int) ≤ 31 ∧ (31 : Int) < CHUNK_SIZE ∧ |(-3) * CHUNK_SIZE + 31| ≤ (2 : Int) ^ 24 ∧
    chunked (int_to_float ((-3) * CHUNK_SIZE + 31)) = -3 ∧
    ∀ x : Int, |x| ≤ 2 ^ 24 → ∃! r : Int,
      ∃ j : Int, 0 ≤ j ∧ j < CHUNK_SIZE ∧ x = r * CHUNK_SIZE + j ∧
        chunked (int_to_float x) = r :=
  ⟨by decide, by decide, by decide,
    ((chunked_round_trip (-3) 31 (by decide) (by decide)).2.2.1 (by decide)).2,
    (chunked_round_trip (-3) 31 (by decide) (by decide)).2.2.2⟩

/-! ## `dirty_chunk`, slot by slot: lemmas -/

theorem set_dirty_pq (v : Int) (c : Chunk) : (((set_dirty v c).p, (set_dirty v c).q) = (c.p, c.q)) := rfl

theorem map_set_dirty_twice (o : Option Chunk) :
    (o.map (set_dirty 1)).map (set_dirty 1) = o.map (set_dirty 1) := by
  cases o <;> rfl

/-- The neighbourhood loop of `dirty_chunk`, slot by slot: the slots that
`find_chunk` returns for a listed offset get the flag, every other slot is
left as it is. -/
theorem dirty_fold_get (p q : Int) (l : List (Int × Int)) (cs : List Chunk) (j : Nat) :
    ((∃ d ∈ l, find_chunk cs (p + d.1) (q + d.2) = some j) →
      (l.foldl (fun acc d =>
        match find_chunk acc (p + d.1) (q + d.2) with
        | some k => modifyAt (set_dirty 1) k acc
        | none => acc) cs)[j]? = (cs[j]?).map (set_dirty 1)) ∧
    ((¬ ∃ d ∈ l, find_chunk cs (p + d.1) (q + d.2) = some j) →
      (l.foldl (fun acc d =>
        match find_chunk acc (p + d.1) (q + d.2) with
        | some k => modifyAt (set_dirty 1) k acc
        | none => acc) cs)[j]? = cs[j]?) := by
  induction l generalizing cs with
  | nil => simp
  | cons d l ih =>
    simp only [List.foldl_cons]
    cases hf : find_chunk cs (p + d.1) (q + d.2) with
    | none =>
      simp only
      have hiff : (∃ e ∈ d :: l, find_chunk cs (p + e.1) (q + e.2) = some j) ↔
          ∃ e ∈ l, find_chunk cs (p + e.1) (q + e.2) = some j := by
        constructor
        · rintro ⟨e, he, hej⟩
          rcases List.mem_cons.1 he with rfl | he
          · rw [hf] at hej; cases hej
          · exact ⟨e, he, hej⟩
        · rintro ⟨e, he, hej⟩
          exact ⟨e, List.mem_cons_of_mem _ he, hej⟩
      rw [hiff]
      exact ih cs
    | some k =>
      simp only
      have hco : coords (modifyAt (set_dirty 1) k cs) = coords cs :=
        coords_modifyAt (set_dirty 1) k cs (fun c => rfl)
      have hfc : ∀ a b, find_chunk (modifyAt (set_dirty 1) k cs) a b = find_chunk cs a b :=
        fun a b => find_chunk_congr _ _ hco a b
      have ih2 := ih (modifyAt (set_dirty 1) k cs)
      simp only [hfc] at ih2
      constructor
      · rintro ⟨e, he, hej⟩
        by_cases hl : ∃ e ∈ l, find_chunk cs (p + e.1) (q + e.2) = some j
        · rw [ih2.1 hl, getElem?_modifyAt]
          split
          · exact map_set_dirty_twice _
          · rfl
        · rw [ih2.2 hl, getElem?_modifyAt]
          rcases List.mem_cons.1 he with rfl | he
          · rw [hf] at hej
            have hjk : j = k := (Option.some.inj hej).symm
            rw [if_pos hjk]
          · exact absurd ⟨e, he, hej⟩ hl
      · intro hno
        have hl : ¬ ∃ e ∈ l, find_chunk cs (p + e.1) (q + e.2) = some j := by
          rintro ⟨e, he, hej⟩
          exact hno ⟨e, List.mem_cons_of_mem _ he, hej⟩
        have hjk : j ≠ k := by
          intro hjk
          exact hno ⟨d, List.mem_cons_self _ _, by rw [hf, hjk]⟩
        rw [ih2.2 hl, getElem?_modifyAt, if_neg hjk]

/-- The function `has_lights` reads only the coordinates and the sizes of the
light maps. -/
theorem has_lights_congr (env : Env) (cs cs2 : List Chunk) (i : Nat)
    (h : cs2.map (fun c => (c.p, c.q, c.lights.size)) =
      cs.map (fun c => (c.p, c.q, c.lights.size))) :
    has_lights env cs2 i = has_lights env cs i := by
  have hget : ∀ j : Nat, (cs2[j]?).map (fun (c : Chunk) => (c.p, c.q, c.lights.size)) =
      (cs[j]?).map (fun (c : Chunk) => (c.p, c.q, c.lights.size)) := by
    intro j
    rw [← List.getElem?_map, ← List.getElem?_map, h]
  have hco : coords cs2 = coords cs := by
    have := congrArg (List.map (fun (t : Int × Int × Nat) => (t.1, t.2.1))) h
    simpa [coords, List.map_map, Function.comp_def] using this
  unfold has_lights
  split
  · rfl
  · have hi := hget i
    cases h2 : cs2[i]? with
    | none =>
      rw [h2] at hi
      cases h1 : cs[i]? with
      | none => rfl
      | some c => rw [h1] at hi; cases hi
    | some c2 =>
      rw [h2] at hi
      cases h1 : cs[i]? with
      | none => rw [h1] at hi; cases hi
      | some c =>
        rw [h1] at hi
        simp only [Option.map_some', Option.some.injEq, Prod.mk.injEq] at hi
        simp only
        congr 1
        funext d
        have hn : neighbor cs2 c2 i d = neighbor cs c i d := by
          unfold neighbor
          rw [hi.1, hi.2.1, find_chunk_congr _ _ hco]
        rw [hn]
        cases hk : neighbor cs c i d with
        | none => rfl
        | some k =>
          show (match (cs2[k]?) with
            | none => false
            | some other => decide (other.lights.size ≠ 0)) =
            (match (cs[k]?) with
            | none => false
            | some other => decide (other.lights.size ≠ 0))
          have hk2 := hget k
          cases hc2 : cs2[k]? with
          | none =>
            rw [hc2] at hk2
            cases hc1 : cs[k]? with
            | none => rfl
            | some o => rw [hc1] at hk2; cases hk2
          | some o2 =>
            rw [hc2] at hk2
            cases hc1 : cs[k]? with
            | none => rw [hc1] at hk2; cases hk2
            | some o =>
              rw [hc1] at hk2
              simp only [Option.map_some', Option.some.injEq, Prod.mk.injEq] at hk2
              simp only [hk2.2.2]

theorem has_lights_modifyAt (env : Env) (cs : List Chunk) (i k : Nat) (f : Chunk → Chunk)
    (hf : ∀ c, ((f c).p, (f c).q, (f c).lights.size) = (c.p, c.q, c.lights.size)) :
    has_lights env (modifyAt f k cs) i = has_lights env cs i :=
  has_lights_congr env cs _ i (map_modifyAt _ f k cs hf)

/-- The function `dirty_chunk`, slot by slot. -/
theorem dirty_chunk_get (env : Env) (cs : List Chunk) (i : Nat) (c : Chunk)
    (hc : cs[i]? = some c) (j : Nat) :
    ((j = i ∨ (has_lights env cs i = true ∧
        ∃ d ∈ offsets 1, find_chunk cs (c.p + d.1) (c.q + d.2) = some j)) →
      (dirty_chunk env cs i)[j]? = (cs[j]?).map (set_dirty 1)) ∧
    ((¬ (j = i ∨ (has_lights env cs i = true ∧
        ∃ d ∈ offsets 1, find_chunk cs (c.p + d.1) (c.q + d.2) = some j))) →
      (dirty_chunk env cs i)[j]? = cs[j]?) := by
  have hl : has_lights env (modifyAt (set_dirty 1) i cs) i = has_lights env cs i :=
    has_lights_modifyAt env cs i i (set_dirty 1) (fun c => rfl)
  have hco : coords (modifyAt (set_dirty 1) i cs) = coords cs :=
    coords_modifyAt (set_dirty 1) i cs (fun c => rfl)
  have hfc : ∀ a b, find_chunk (modifyAt (set_dirty 1) i cs) a b = find_chunk cs a b :=
    fun a b => find_chunk_congr _ _ hco a b
  have h1 : (modifyAt (set_dirty 1) i cs)[i]? = some (set_dirty 1 c) := by
    rw [getElem?_modifyAt, if_pos rfl, hc]; rfl
  unfold dirty_chunk
  simp only [hl]
  cases hh : has_lights env cs i with
  | false =>
    simp only [Bool.not_false, if_true]
    constructor
    · rintro (hji | ⟨hcon, _⟩)
      · rw [getElem?_modifyAt, if_pos hji]
      · cases hcon
    · intro hno
      have hji : j ≠ i := fun e => hno (Or.inl e)
      rw [getElem?_modifyAt, if_neg hji]
  | true =>
    simp only [Bool.not_true, h1]
    have hfold := dirty_fold_get c.p c.q (offsets 1) (modifyAt (set_dirty 1) i cs) j
    simp only [hfc] at hfold
    have hpq : (set_dirty 1 c).p = c.p ∧ (set_dirty 1 c).q = c.q := ⟨rfl, rfl⟩
    simp only [hpq.1, hpq.2, Bool.false_eq_true, if_false]
    constructor
    · rintro (hji | ⟨-, hex⟩)
      · by_cases hex : ∃ d ∈ offsets 1, find_chunk cs (c.p + d.1) (c.q + d.2) = some j
        · refine (hfold.1 hex).trans ?_
          rw [getElem?_modifyAt, if_pos hji]
          exact map_set_dirty_twice _
        · refine (hfold.2 hex).trans ?_
          rw [getElem?_modifyAt, if_pos hji]
      · refine (hfold.1 hex).trans ?_
        rw [getElem?_modifyAt]
        split
        · exact map_set_dirty_twice _
        · rfl
    · intro hno
      have hji : j ≠ i := fun e => hno (Or.inl e)
      have hex : ¬ ∃ d ∈ offsets 1, find_chunk cs (c.p + d.1) (c.q + d.2) = some j :=
        fun e => hno (Or.inr ⟨trivial, e⟩)
      refine (hfold.2 hex).trans ?_
      rw [getElem?_modifyAt, if_neg hji]


theorem has_lights_iff (env : Env) (cs : List Chunk) (i : Nat) (c : Chunk)
    (hc : cs[i]? = some c) :
    has_lights env cs i = true ↔
      env.SHOW_LIGHTS = true ∧ ∃ d ∈ offsets 1, ∃ (k : Nat) (o : Chunk),
        neighbor cs c i d = some k ∧ cs[k]? = some o ∧ o.lights.size ≠ 0 := by
  unfold has_lights
  cases hs : env.SHOW_LIGHTS with
  | false => simp
  | true =>
    simp only [Bool.not_true, Bool.false_eq_true, if_false, hc, List.any_eq_true, true_and]
    constructor
    · rintro ⟨d, hd, hx⟩
      refine ⟨d, hd, ?_⟩
      cases hn : neighbor cs c i d with
      | none => rw [hn] at hx; simp at hx
      | some k =>
        rw [hn] at hx
        simp only [Option.some_bind] at hx
        cases hk : cs[k]? with
        | none => rw [hk] at hx; simp at hx
        | some o =>
          rw [hk] at hx
          exact ⟨k, o, rfl, hk, by simpa using hx⟩
    · rintro ⟨d, hd, k, o, hn, hk, ho⟩
      refine ⟨d, hd, ?_⟩
      rw [hn]
      simp only [Option.some_bind, hk]
      simpa using ho

/-! ## C15: dirty propagation -/

/-- C15. Dirty propagation.  For the chunk `c` in slot `i`, `dirty_chunk` sets
the flag of `c`; `has_lights` holds exactly when lighting is enabled and one of
the nine chunks (`c` and the resident chunks `find_chunk` returns for its eight
neighbours) has a non-empty light map; when it holds, every resident chunk of
the `3×3` neighbourhood gets the flag; when it does not, every slot other than
`i` is left as it is; a chunk outside the `3×3` neighbourhood is never changed;
and no call changes anything but dirty flags. -/
theorem dirty_chunk_propagation (env : Env) (cs : List Chunk) (i : Nat) (c : Chunk)
    (hc : cs[i]? = some c) :
    (dirty_chunk env cs i)[i]? = some (set_dirty 1 c) ∧
    (has_lights env cs i = true ↔
      env.SHOW_LIGHTS = true ∧ ∃ d ∈ offsets 1, ∃ (k : Nat) (o : Chunk),
        neighbor cs c i d = some k ∧ cs[k]? = some o ∧ o.lights.size ≠ 0) ∧
    (has_lights env cs i = true → ∀ d ∈ offsets 1, ∀ (j : Nat) (o : Chunk),
      find_chunk cs (c.p + d.1) (c.q + d.2) = some j → cs[j]? = some o →
      (dirty_chunk env cs i)[j]? = some (set_dirty 1 o)) ∧
    (has_lights env cs i = false → ∀ j : Nat, j ≠ i → (dirty_chunk env cs i)[j]? = cs[j]?) ∧
    (∀ (j : Nat) (o : Chunk), cs[j]? = some o → (1 < |o.p - c.p| ∨ 1 < |o.q - c.q|) →
      (dirty_chunk env cs i)[j]? = some o) ∧
    (dirty_chunk env cs i).length = cs.length ∧
    (∀ (j : Nat) (o : Chunk), cs[j]? = some o →
      (dirty_chunk env cs i)[j]? = some o ∨
      (dirty_chunk env cs i)[j]? = some (set_dirty 1 o)) := by
  refine ⟨?_, has_lights_iff env cs i c hc, ?_, ?_, ?_, ?_, ?_⟩
  · rw [(dirty_chunk_get env cs i c hc i).1 (Or.inl rfl), hc]
    rfl
  · intro hl d hd j o hf ho
    rw [(dirty_chunk_get env cs i c hc j).1 (Or.inr ⟨hl, d, hd, hf⟩), ho]
    rfl
  · intro hl j hji
    refine (dirty_chunk_get env cs i c hc j).2 ?_
    rintro (h | ⟨h, -⟩)
    · exact hji h
    · rw [hl] at h
      cases h
  · intro j o ho hfar
    rw [(dirty_chunk_get env cs i c hc j).2 ?_, ho]
    rintro (h | ⟨-, d, hd, hf⟩)
    · subst h
      rw [hc] at ho
      have hoc : c = o := Option.some.inj ho
      subst hoc
      simp at hfar
    · obtain ⟨o2, ho2, hp, hq⟩ := find_chunk_some cs _ _ j hf
      rw [ho] at ho2
      have hoo : o = o2 := Option.some.inj ho2
      subst hoo
      have hd2 := (mem_offsets 1 d).1 hd
      rw [hp, hq] at hfar
      rcases hfar with h | h
      · have : |c.p + d.1 - c.p| ≤ 1 := by
          rw [abs_le]; constructor <;> omega
        omega
      · have : |c.q + d.2 - c.q| ≤ 1 := by
          rw [abs_le]; constructor <;> omega
        omega
  · rw [← coords_length, coords_dirty_chunk, coords_length]
  · intro j o ho
    by_cases h : j = i ∨ (has_lights env cs i = true ∧
        ∃ d ∈ offsets 1, find_chunk cs (c.p + d.1) (c.q + d.2) = some j)
    · right
      rw [(dirty_chunk_get env cs i c hc j).1 h, ho]
      rfl
    · left
      rw [(dirty_chunk_get env cs i c hc j).2 h, ho]

theorem dirty_chunk_propagation_witness :
    lit_row[0]? = some lit_chunk ∧
    (dirty_chunk env0 lit_row 0)[0]? = some (set_dirty 1 lit_chunk) ∧
    has_lights env0 lit_row 0 = true ∧
    (dirty_chunk env0 lit_row 0)[1]? = some (set_dirty 1 (chunk_pq 1 0)) ∧
    (dirty_chunk env0 lit_row 0)[2]? = some (chunk_pq 5 5) :=
  have h := dirty_chunk_propagation env0 lit_row 0 lit_chunk rfl
  ⟨rfl, h.1, by decide,
    h.2.2.1 (by decide) (1, 0) (by decide) 1 (chunk_pq 1 0) (by decide) rfl,
    h.2.2.2.2.1 2 (chunk_pq 5 5) rfl (by decide)⟩

/-! ## The Voxel Map contract: lemmas -/

theorem find_map_put (x y z w : Int) (cells : List (Int × Int × Int × Int)) :
    ∃ c, (map_put x y z w cells).find? (cell_at x y z) = some c ∧ c.2.2.2 = w := by
  induction cells with
  | nil =>
    refine ⟨(x, y, z, w), ?_, rfl⟩
    simp [map_put, cell_at]
  | cons c t ih =>
    unfold map_put
    by_cases hc : cell_at x y z c = true
    · rw [if_pos hc]
      refine ⟨(x, y, z, w), ?_, rfl⟩
      simp [cell_at]
    · rw [if_neg hc]
      obtain ⟨c2, h1, h2⟩ := ih
      refine ⟨c2, ?_, h2⟩
      rw [List.find?_cons_of_neg _ hc]
      exact h1

theorem map_get_map_set (m : Map) (x y z w : Int) :
    map_get (map_set m x y z w).1 x y z = w := by
  unfold map_set
  split
  · assumption
  · obtain ⟨c, h1, h2⟩ := find_map_put x y z w m.cells
    simp only [map_get, h1, h2]

theorem map_set_changed (m : Map) (x y z w : Int) :
    (map_set m x y z w).2 = true ↔ map_get m x y z ≠ w := by
  unfold map_set
  split <;> simp_all

theorem map_set_same (m : Map) (x y z w : Int) (h : map_get m x y z = w) :
    map_set m x y z w = (m, false) := by
  unfold map_set
  rw [if_pos h]

/-! ## Marking chunks dirty: lemmas -/

theorem mark_false (c : Chunk) : mark false c = c := rfl

theorem mark_mark (b b2 : Bool) (c : Chunk) : mark b (mark b2 c) = mark (b || b2) c := by
  cases b <;> cases b2 <;> rfl

theorem put_light_mark (x y z w : Int) (b : Bool) (c : Chunk) :
    put_light x y z w (mark b c) = mark b (put_light x y z w c) := by
  cases b <;> rfl

theorem put_block_mark (x y z w : Int) (b : Bool) (c : Chunk) :
    put_block x y z w (mark b c) = mark b (put_block x y z w c) := by
  cases b <;> rfl

theorem unset_sign_slot_mark (x y z : Int) (b : Bool) (c : Chunk) :
    unset_sign_slot x y z (mark b c) = mark b (unset_sign_slot x y z c) := by
  cases b
  · rfl
  · unfold unset_sign_slot mark
    simp only [if_true, set_dirty]
    split <;> rfl

theorem put_block_same (x y z w : Int) (c : Chunk) (h : map_get c.map x y z = w) :
    put_block x y z w c = c := by
  unfold put_block
  rw [map_set_same _ _ _ _ _ h]

/-- The function `dirty_chunk` changes dirty flags only, and sets the flag of
the chunk it is called for. -/
theorem dirty_chunk_mark (env : Env) (cs : List Chunk) (i j : Nat) (o : Chunk)
    (ho : cs[j]? = some o) :
    ∃ b : Bool, (dirty_chunk env cs i)[j]? = some (mark b o) ∧ (j = i → b = true) := by
  cases hc : cs[i]? with
  | none =>
    refine ⟨false, ?_, ?_⟩
    · have hm : modifyAt (set_dirty 1) i cs = cs := by
        unfold modifyAt
        rw [hc]
      have hl : has_lights env cs i = false := by
        unfold has_lights
        rw [hc]
        split <;> rfl
      unfold dirty_chunk
      simp only [hm, hl, Bool.not_false, if_true]
      exact ho
    · intro hji
      rw [hji, hc] at ho
      cases ho
  | some c =>
    by_cases h : j = i ∨ (has_lights env cs i = true ∧
        ∃ d ∈ offsets 1, find_chunk cs (c.p + d.1) (c.q + d.2) = some j)
    · refine ⟨true, ?_, fun _ => rfl⟩
      rw [(dirty_chunk_get env cs i c hc j).1 h, ho]
      rfl
    · refine ⟨false, ?_, fun hji => absurd (Or.inl hji) h⟩
      rw [(dirty_chunk_get env cs i c hc j).2 h, ho]
      rfl


/-! ## Block edits, slot by slot: lemmas -/

theorem coords_write_block (env : Env) (cs : List Chunk) (p q x y z w d : Int) :
    coords (write_block env cs p q x y z w d) = coords cs := by
  have hm : ∀ i, coords (modifyAt (put_block x y z w) i cs) = coords cs :=
    fun i => coords_modifyAt (put_block x y z w) i cs (fun c => rfl)
  unfold write_block
  split
  · split
    · rfl
    · split
      · split
        · rw [coords_dirty_chunk, hm]
        · exact hm _
      · exact hm _
  · rfl

theorem coords_unset_sign (cs : List Chunk) (x y z : Int) :
    coords (unset_sign cs x y z) = coords cs := by
  unfold unset_sign
  split
  · refine coords_modifyAt (unset_sign_slot x y z) _ cs (fun c => ?_)
    unfold unset_sign_slot
    simp only
    by_cases h : (sign_list_remove_all c.signs x y z).2 ≠ 0
    · rw [if_pos h]
    · rw [if_neg h]
  · rfl

theorem coords_set_light (env : Env) (cs : List Chunk) (p q x y z w : Int) :
    coords (set_light env cs p q x y z w) = coords cs := by
  have hm : ∀ i, coords (modifyAt (put_light x y z w) i cs) = coords cs :=
    fun i => coords_modifyAt (put_light x y z w) i cs (fun c => rfl)
  unfold set_light
  split
  · split
    · rfl
    · split
      · rw [coords_dirty_chunk, hm]
      · exact hm _
  · rfl

theorem coords_set_block_inner (env : Env) (cs : List Chunk) (p q x y z w d : Int) :
    coords (_set_block env cs p q x y z w d) = coords cs := by
  unfold _set_block
  simp only
  split
  · rw [coords_set_light, coords_unset_sign, coords_write_block]
  · exact coords_write_block env cs p q x y z w d

theorem write_block_get (env : Env) (cs : List Chunk) (p q x y z w d : Int) (j : Nat)
    (o : Chunk) (ho : cs[j]? = some o) :
    ∃ b : Bool,
      (write_block env cs p q x y z w d)[j]? =
        some (mark b (if find_chunk cs p q = some j then put_block x y z w o else o)) ∧
      (find_chunk cs p q = some j → d ≠ 0 → (map_set o.map x y z w).2 = true →
        b = true) := by
  unfold write_block
  cases hf : find_chunk cs p q with
  | none =>
    refine ⟨false, ?_, fun h => by cases h⟩
    simp only [reduceCtorEq, if_false]
    exact ho
  | some i =>
    obtain ⟨c, hc, -, -⟩ := find_chunk_some cs p q i hf
    simp only [hc, Option.some.injEq]
    have hslot : (modifyAt (put_block x y z w) i cs)[j]? =
        some (if i = j then put_block x y z w o else o) := by
      rw [getElem?_modifyAt, ho]
      by_cases hji : j = i
      · rw [if_pos hji, if_pos hji.symm]; rfl
      · rw [if_neg hji, if_neg (fun e => hji e.symm)]
    by_cases hch : (map_set c.map x y z w).2 = true
    · rw [if_pos hch]
      by_cases hd : d ≠ 0
      · rw [if_pos hd]
        obtain ⟨b, hb, hbi⟩ := dirty_chunk_mark env _ i j _ hslot
        exact ⟨b, hb, fun hij _ _ => hbi hij.symm⟩
      · rw [if_neg hd]
        exact ⟨false, hslot, fun _ hd2 _ => absurd hd2 hd⟩
    · rw [if_neg hch]
      refine ⟨false, hslot, fun hij _ hch2 => ?_⟩
      subst hij
      rw [hc] at ho
      have hco : c = o := Option.some.inj ho
      subst hco
      exact absurd hch2 hch

theorem unset_sign_get (cs : List Chunk) (x y z : Int) (j : Nat) (o : Chunk)
    (ho : cs[j]? = some o) :
    (unset_sign cs x y z)[j]? =
      some (if find_chunk cs (chunked (int_to_float x)) (chunked (int_to_float z)) = some j
        then unset_sign_slot x y z o else o) := by
  unfold unset_sign
  cases hf : find_chunk cs (chunked (int_to_float x)) (chunked (int_to_float z)) with
  | none =>
    simp only [reduceCtorEq, if_false]
    exact ho
  | some i =>
    simp only [Option.some.injEq]
    rw [getElem?_modifyAt, ho]
    by_cases hji : j = i
    · rw [if_pos hji, if_pos hji.symm]; rfl
    · rw [if_neg hji, if_neg (fun e => hji e.symm)]

theorem set_light_get (env : Env) (cs : List Chunk) (p q x y z w : Int) (j : Nat)
    (o : Chunk) (ho : cs[j]? = some o) :
    ∃ b : Bool,
      (set_light env cs p q x y z w)[j]? =
        some (mark b (if find_chunk cs p q = some j then put_light x y z w o else o)) := by
  unfold set_light
  cases hf : find_chunk cs p q with
  | none =>
    refine ⟨false, ?_⟩
    simp only [reduceCtorEq, if_false]
    exact ho
  | some i =>
    obtain ⟨c, hc, -, -⟩ := find_chunk_some cs p q i hf
    simp only [hc, Option.some.injEq]
    have hslot : (modifyAt (put_light x y z w) i cs)[j]? =
        some (if i = j then put_light x y z w o else o) := by
      rw [getElem?_modifyAt, ho]
      by_cases hji : j = i
      · rw [if_pos hji, if_pos hji.symm]; rfl
      · rw [if_neg hji, if_neg (fun e => hji e.symm)]
    split
    · obtain ⟨b, hb, -⟩ := dirty_chunk_mark env _ i j _ hslot
      exact ⟨b, hb⟩
    · exact ⟨false, hslot⟩

/-- The function `_set_block`, slot by slot: the chunk found at `(p, q)` gets
the edit, and any chunk may get its dirty flag set; the chunk found is marked
when the write changed its map and `dirty` is set. -/
theorem set_block_inner_get (env : Env) (cs : List Chunk) (p q x y z w d : Int) (j : Nat)
    (o : Chunk) (ho : cs[j]? = some o) :
    ∃ b : Bool,
      (_set_block env cs p q x y z w d)[j]? =
        some (mark b (if find_chunk cs p q = some j then block_edit p q x y z w o else o)) ∧
      (find_chunk cs p q = some j → d ≠ 0 → (map_set o.map x y z w).2 = true →
        b = true) := by
  obtain ⟨b1, h1, hb1⟩ := write_block_get env cs p q x y z w d j o ho
  unfold _set_block block_edit
  simp only
  by_cases htail : w = 0 ∧ chunked (int_to_float x) = p ∧ chunked (int_to_float z) = q
  · rw [if_pos htail, if_pos htail]
    have h2 := unset_sign_get (write_block env cs p q x y z w d) x y z j _ h1
    rw [find_chunk_congr _ _ (coords_write_block env cs p q x y z w d), htail.2.1,
      htail.2.2] at h2
    obtain ⟨b3, h3⟩ := set_light_get env _ p q x y z 0 j _ h2
    rw [find_chunk_congr _ _ ((coords_unset_sign _ x y z).trans
      (coords_write_block env cs p q x y z w d))] at h3
    refine ⟨b3 || b1, ?_, fun hf hd hch => by rw [hb1 hf hd hch]; simp⟩
    rw [h3]
    by_cases hf : find_chunk cs p q = some j
    · simp only [if_pos hf, unset_sign_slot_mark, put_light_mark, mark_mark]
    · simp only [if_neg hf, mark_mark]
  · rw [if_neg htail, if_neg htail]
    exact ⟨b1, h1, hb1⟩

/-! ## The loop of `set_block`: lemmas -/

theorem foldl_filter_map {α β γ : Type} (f : γ → β → γ) (P : α → Bool) (g : α → β)
    (l : List α) (init : γ) :
    l.foldl (fun acc d => if P d then f acc (g d) else acc) init =
      ((l.filter P).map g).foldl f init := by
  induction l generalizing init with
  | nil => rfl
  | cons a t ih =>
    simp only [List.foldl_cons, List.filter_cons]
    cases hP : P a
    · simp only [Bool.false_eq_true, if_false]
      exact ih init
    · simp only [if_true, List.map_cons, List.foldl_cons]
      exact ih _

/-- The loop of `set_block` is the sequence of calls of `_set_block` for the
shadow targets. -/
theorem set_block_eq_fold (env : Env) (cs : List Chunk) (x y z w : Int) :
    set_block env cs x y z w =
      (shadow_targets x z).foldl (fun acc t => _set_block env acc t.1 t.2 x y z (-w) 1)
        (_set_block env cs (chunked (int_to_float x)) (chunked (int_to_float z)) x y z w 1) := by
  unfold set_block shadow_targets
  rw [← foldl_filter_map]
  rfl

theorem block_edit_mark (p q x y z w : Int) (b : Bool) (c : Chunk) :
    block_edit p q x y z w (mark b c) = mark b (block_edit p q x y z w c) := by
  unfold block_edit
  split
  · rw [put_block_mark, unset_sign_slot_mark, put_light_mark]
  · rw [put_block_mark]

theorem mark_map (b : Bool) (c : Chunk) : (mark b c).map = c.map := by
  cases b <;> rfl

theorem coords_shadow_fold (env : Env) (x y z w : Int) (ts : List (Int × Int))
    (cs : List Chunk) :
    coords (ts.foldl (fun acc t => _set_block env acc t.1 t.2 x y z w 1) cs) = coords cs := by
  induction ts generalizing cs with
  | nil => rfl
  | cons t ts ih =>
    simp only [List.foldl_cons]
    rw [ih, coords_set_block_inner]

/-- A slot that none of the calls finds keeps everything but, possibly, its
dirty flag. -/
theorem shadow_fold_other (env : Env) (x y z w : Int) (ts : List (Int × Int))
    (cs : List Chunk) (j : Nat) (o : Chunk) (ho : cs[j]? = some o)
    (hno : ∀ t ∈ ts, find_chunk cs t.1 t.2 ≠ some j) :
    ∃ b : Bool,
      (ts.foldl (fun acc t => _set_block env acc t.1 t.2 x y z w 1) cs)[j]? =
        some (mark b o) := by
  induction ts generalizing cs o with
  | nil => exact ⟨false, ho⟩
  | cons t ts ih =>
    simp only [List.foldl_cons]
    obtain ⟨b1, h1, -⟩ := set_block_inner_get env cs t.1 t.2 x y z w 1 j o ho
    rw [if_neg (hno t (List.mem_cons_self _ _))] at h1
    have hno2 : ∀ t2 ∈ ts, find_chunk (_set_block env cs t.1 t.2 x y z w 1) t2.1 t2.2 ≠
        some j := by
      intro t2 ht2
      rw [find_chunk_congr _ _ (coords_set_block_inner env cs t.1 t.2 x y z w 1)]
      exact hno t2 (List.mem_cons_of_mem _ ht2)
    obtain ⟨b, hb⟩ := ih _ _ h1 hno2
    exact ⟨b || b1, by rw [hb, mark_mark]⟩

/-- The slot that one of the calls finds gets the edit of that call, and is
marked dirty when the write changed its map. -/
theorem shadow_fold_target (env : Env) (x y z w : Int) (ts : List (Int × Int))
    (cs : List Chunk) (j : Nat) (o : Chunk) (ho : cs[j]? = some o) (hnd : ts.Nodup)
    (t : Int × Int) (ht : t ∈ ts) (hf : find_chunk cs t.1 t.2 = some j) :
    ∃ b : Bool,
      (ts.foldl (fun acc t => _set_block env acc t.1 t.2 x y z w 1) cs)[j]? =
        some (mark b (block_edit t.1 t.2 x y z w o)) ∧
      ((map_set o.map x y z w).2 = true → b = true) := by
  have hpq : o.p = t.1 ∧ o.q = t.2 := by
    obtain ⟨c, hc, h1, h2⟩ := find_chunk_some cs _ _ j hf
    rw [ho] at hc
    have hoc : o = c := Option.some.inj hc
    subst hoc
    exact ⟨h1, h2⟩
  have huniq : ∀ (cs2 : List Chunk) (t2 : Int × Int), coords cs2 = coords cs →
      find_chunk cs2 t2.1 t2.2 = some j → t2 = t := by
    intro cs2 t2 hco hf2
    rw [find_chunk_congr _ _ hco] at hf2
    obtain ⟨c, hc, h1, h2⟩ := find_chunk_some cs _ _ j hf2
    rw [ho] at hc
    have hoc : o = c := Option.some.inj hc
    subst hoc
    exact Prod.ext (by rw [← h1, hpq.1]) (by rw [← h2, hpq.2])
  induction ts generalizing cs o with
  | nil => cases ht
  | cons t0 ts ih =>
    simp only [List.foldl_cons]
    have hnd2 := List.nodup_cons.1 hnd
    obtain ⟨b1, h1, hb1⟩ := set_block_inner_get env cs t0.1 t0.2 x y z w 1 j o ho
    have hco1 := coords_set_block_inner env cs t0.1 t0.2 x y z w 1
    rcases List.mem_cons.1 ht with rfl | htin
    · rw [if_pos hf] at h1
      have hno : ∀ t2 ∈ ts, find_chunk (_set_block env cs t.1 t.2 x y z w 1) t2.1 t2.2 ≠
          some j := by
        intro t2 ht2 hf2
        have := huniq _ t2 hco1 hf2
        subst this
        exact hnd2.1 ht2
      obtain ⟨b, hb⟩ := shadow_fold_other env x y z w ts _ j _ h1 hno
      refine ⟨b || b1, by rw [hb, mark_mark], fun hch => ?_⟩
      rw [hb1 hf (by decide) hch]
      simp
    · have hne : find_chunk cs t0.1 t0.2 ≠ some j := by
        intro hf0
        have := huniq cs t0 rfl hf0
        subst this
        exact hnd2.1 htin
      rw [if_neg hne] at h1
      have hf1 : find_chunk (_set_block env cs t0.1 t0.2 x y z w 1) t.1 t.2 = some j := by
        rw [find_chunk_congr _ _ hco1]
        exact hf
      obtain ⟨b, hb, hbc⟩ := ih _ (mark b1 o) h1 hnd2.2 htin hf1
        (by cases b1 <;> exact hpq)
        (fun cs2 t2 hco hf2 => huniq cs2 t2 (hco.trans hco1) hf2)
      refine ⟨b || b1, ?_, fun hch => ?_⟩
      · rw [hb, block_edit_mark, mark_mark]
      · rw [mark_map] at hbc
        rw [hbc hch]
        simp


/-! ## The shadow targets of `set_block`: lemmas -/

theorem chunked_add_eq (x d : Int) (hx : |x| < 2 ^ 24) (hd : |d| ≤ 1) :
    chunked (int_to_float (x + d)) = chunked (int_to_float x) ↔ (x + d) / 32 = x / 32 := by
  have h1 := abs_lt.1 hx
  have h2 := abs_le.1 hd
  rw [chunked_int_small (x + d) (abs_le.2 ⟨by omega, by omega⟩),
    chunked_int_small x (abs_le.2 ⟨by omega, by omega⟩)]

/-- The loop of `set_block` never reaches the call for the centre. -/
theorem shadow_offset_ne (x z : Int) (d : Int × Int) (h : shadow_offset x z d = true) :
    d ≠ (0, 0) := by
  intro hd
  unfold shadow_offset at h
  rw [if_pos ⟨by rw [hd], by rw [hd]⟩] at h
  exact Bool.noConfusion h

/-- The offsets for which the loop of `set_block` reaches the call, for
coordinates of magnitude below `2^24`: not the centre, and a step along an axis
only across the boundary the cell lies on. -/
theorem shadow_offset_iff (x z : Int) (hx : |x| < 2 ^ 24) (hz : |z| < 2 ^ 24) (d : Int × Int)
    (hd : d ∈ offsets 1) :
    shadow_offset x z d = true ↔
      d ≠ (0, 0) ∧ (d.1 = -1 → x % 32 = 0) ∧ (d.1 = 1 → x % 32 = 31) ∧
      (d.2 = -1 → z % 32 = 0) ∧ (d.2 = 1 → z % 32 = 31) := by
  obtain ⟨d1, d2⟩ := d
  have hm := (mem_offsets 1 (d1, d2)).1 hd
  simp only at hm
  have e1 := chunked_add_eq x d1 hx (abs_le.2 ⟨by omega, by omega⟩)
  have e2 := chunked_add_eq z d2 hz (abs_le.2 ⟨by omega, by omega⟩)
  unfold shadow_offset
  simp only [e1, e2, Prod.mk.injEq, ne_eq]
  split
  · simp_all
  · split
    · simp only [Bool.false_eq_true, false_iff]
      omega
    · split
      · simp only [Bool.false_eq_true, false_iff]
        omega
      · simp only [true_iff]
        omega

theorem offsets_one_nodup : (offsets 1).Nodup := by
  rw [offsets_one_eq]
  decide

theorem shadow_targets_nodup (x z : Int) : (shadow_targets x z).Nodup := by
  unfold shadow_targets
  refine List.Nodup.map ?_ (offsets_one_nodup.filter _)
  intro a b hab
  simp only [Prod.mk.injEq] at hab
  exact Prod.ext (by omega) (by omega)

theorem mem_shadow_targets (x z : Int) (t : Int × Int) :
    t ∈ shadow_targets x z ↔
      ∃ d ∈ offsets 1, shadow_offset x z d = true ∧
        t = (chunked (int_to_float x) + d.1, chunked (int_to_float z) + d.2) := by
  unfold shadow_targets
  simp only [List.mem_map, List.mem_filter]
  constructor
  · rintro ⟨d, ⟨hd, hs⟩, rfl⟩
    exact ⟨d, hd, hs, rfl⟩
  · rintro ⟨d, hd, hs, rfl⟩
    exact ⟨d, ⟨hd, hs⟩, rfl⟩

theorem shadow_targets_length (x z : Int) (hx : |x| < 2 ^ 24) (hz : |z| < 2 ^ 24) :
    (shadow_targets x z).length ≤ 3 := by
  unfold shadow_targets
  rw [List.length_map]
  have hsub : (offsets 1).filter (shadow_offset x z) ⊆
      [((if x % 32 = 0 then -1 else if x % 32 = 31 then 1 else 0 : Int), (0 : Int)),
       ((0 : Int), (if z % 32 = 0 then -1 else if z % 32 = 31 then 1 else 0 : Int)),
       ((if x % 32 = 0 then -1 else if x % 32 = 31 then 1 else 0 : Int),
        (if z % 32 = 0 then -1 else if z % 32 = 31 then 1 else 0 : Int))] := by
    intro d hd
    obtain ⟨hd1, hd2⟩ := List.mem_filter.1 hd
    have h := (shadow_offset_iff x z hx hz d hd1).1 hd2
    have hm := (mem_offsets 1 d).1 hd1
    obtain ⟨d1, d2⟩ := d
    simp only [Prod.mk.injEq, ne_eq, not_and] at h hm
    simp only [List.mem_cons, Prod.mk.injEq, List.mem_singleton, List.not_mem_nil, or_false]
    split_ifs <;> omega
  have := (List.subperm_of_subset (offsets_one_nodup.filter _) hsub).length_le
  simpa using this

/-- Every chunk that receives a shadow write is one of the eight chunks around
the owner, whatever the coordinates. -/
theorem shadow_targets_adjacent (x z : Int) (t : Int × Int) (ht : t ∈ shadow_targets x z) :
    t ≠ (chunked (int_to_float x), chunked (int_to_float z)) ∧
    |t.1 - chunked (int_to_float x)| ≤ 1 ∧ |t.2 - chunked (int_to_float z)| ≤ 1 := by
  obtain ⟨d, hd, hs, rfl⟩ := (mem_shadow_targets x z t).1 ht
  have h := shadow_offset_ne x z d hs
  have hm := (mem_offsets 1 d).1 hd
  obtain ⟨d1, d2⟩ := d
  simp only [Prod.mk.injEq, ne_eq, not_and] at h hm ⊢
  refine ⟨fun h1 h2 => ?_, ?_, ?_⟩
  · have : d1 = 0 := by omega
    have : d2 = 0 := by omega
    omega
  · rw [abs_le]; constructor <;> omega
  · rw [abs_le]; constructor <;> omega

theorem shadow_targets_interior (x z : Int) (hx : |x| < 2 ^ 24) (hz : |z| < 2 ^ 24)
    (hx0 : x % 32 ≠ 0) (hx1 : x % 32 ≠ 31)
    (hz0 : z % 32 ≠ 0) (hz1 : z % 32 ≠ 31) : shadow_targets x z = [] := by
  rw [List.eq_nil_iff_forall_not_mem]
  intro t ht
  obtain ⟨d, hd, hs, rfl⟩ := (mem_shadow_targets x z t).1 ht
  have h := (shadow_offset_iff x z hx hz d hd).1 hs
  have hm := (mem_offsets 1 d).1 hd
  obtain ⟨d1, d2⟩ := d
  simp only [Prod.mk.injEq, ne_eq, not_and] at h hm
  omega

theorem shadow_targets_boundary (x z : Int) (hx : |x| < 2 ^ 24) (hz : |z| < 2 ^ 24) :
    (x % 32 = 0 → (chunked (int_to_float x) - 1, chunked (int_to_float z)) ∈ shadow_targets x z) ∧
    (x % 32 = 31 → (chunked (int_to_float x) + 1, chunked (int_to_float z)) ∈ shadow_targets x z) ∧
    (z % 32 = 0 → (chunked (int_to_float x), chunked (int_to_float z) - 1) ∈ shadow_targets x z) ∧
    (z % 32 = 31 → (chunked (int_to_float x), chunked (int_to_float z) + 1) ∈ shadow_targets x z) := by
  refine ⟨fun h => ?_, fun h => ?_, fun h => ?_, fun h => ?_⟩
  · refine (mem_shadow_targets x z _).2 ⟨(-1, 0), by decide, ?_, by simp; rfl⟩
    rw [shadow_offset_iff x z hx hz _ (by decide)]
    simp [h]
  · refine (mem_shadow_targets x z _).2 ⟨(1, 0), by decide, ?_, by simp⟩
    rw [shadow_offset_iff x z hx hz _ (by decide)]
    simp [h]
  · refine (mem_shadow_targets x z _).2 ⟨(0, -1), by decide, ?_, by simp; rfl⟩
    rw [shadow_offset_iff x z hx hz _ (by decide)]
    simp [h]
  · refine (mem_shadow_targets x z _).2 ⟨(0, 1), by decide, ?_, by simp⟩
    rw [shadow_offset_iff x z hx hz _ (by decide)]
    simp [h]

theorem ilog2_one : ilog2 1 = 0 := by decide

theorem float_exp_int (y : Int) (e : Nat) (h1 : 2 ^ (23 + e) ≤ |y|) (h2 : |y| < 2 ^ (24 + e)) :
    float_exp (y : ℚ) = (e : Int) := by
  have hy0 : 1 ≤ y.natAbs := by
    have : (0 : Int) < 2 ^ (23 + e) := by positivity
    have h3 : 0 < |y| := lt_of_lt_of_le this h1
    have := abs_pos.1 h3
    omega
  obtain ⟨ha, hb⟩ := ilog2_spec y.natAbs hy0
  have habs : |y| = (y.natAbs : Int) := Int.abs_eq_natAbs y
  have h1n : 2 ^ (23 + e) ≤ y.natAbs := by
    rw [habs] at h1
    exact_mod_cast h1
  have h2n : y.natAbs < 2 ^ (24 + e) := by
    rw [habs] at h2
    exact_mod_cast h2
  have hk : ilog2 y.natAbs = 23 + e := by
    have hlt1 : ilog2 y.natAbs < 24 + e :=
      (Nat.pow_lt_pow_iff_right (by norm_num : 1 < 2)).1 (lt_of_le_of_lt ha h2n)
    have hlt2 : 23 + e < ilog2 y.natAbs + 1 :=
      (Nat.pow_lt_pow_iff_right (by norm_num : 1 < 2)).1 (lt_of_le_of_lt h1n hb)
    omega
  unfold float_exp
  simp only [Rat.num_intCast, Rat.den_intCast, ilog2_one, Nat.cast_zero, sub_zero]
  rw [hk]
  have hle : pow2 ((23 + e : Nat) : Int) ≤ |(y : ℚ)| := by
    rw [pow2_eq]
    have : ((2 : ℚ) ^ ((23 + e : Nat) : Int)) = (((2 : Int) ^ (23 + e) : Int) : ℚ) := by
      rw [zpow_natCast]
      push_cast
      rfl
    rw [this, ← Int.cast_abs]
    exact_mod_cast h1
  rw [if_pos hle]
  push_cast
  have : (23 : Int) + e - 23 = e := by ring
  rw [this]
  exact max_eq_left (by omega)

theorem round_even_err (t : ℚ) : |(round_even t : ℚ) - t| ≤ 1 / 2 := by
  have h1 := Int.floor_le t
  have h2 := Int.lt_floor_add_one t
  unfold round_even
  rw [abs_le]
  split_ifs with ha hb hc
  · constructor <;> linarith
  · push_cast
    constructor <;> linarith
  · constructor <;> linarith
  · push_cast
    constructor <;> linarith

/-- The conversion of an `int` in the binade of exponent `e` to `float`: a
multiple of `2 ^ e` at distance at most `2 ^ e / 2`. -/
theorem f32_int_binade (y : Int) (e : Nat) (h1 : 2 ^ (23 + e) ≤ |y|)
    (h2 : |y| < 2 ^ (24 + e)) :
    ∃ t : Int, int_to_float y = ((t * 2 ^ e : Int) : ℚ) ∧
      2 * (t * 2 ^ e - y) ≤ 2 ^ e ∧ 2 * (y - t * 2 ^ e) ≤ 2 ^ e := by
  have he := float_exp_int y e h1 h2
  have hp : pow2 (float_exp (y : ℚ)) = (2 : ℚ) ^ e := by
    rw [he, pow2_eq, zpow_natCast]
  have hpos : (0 : ℚ) < 2 ^ e := by positivity
  refine ⟨round_even ((y : ℚ) / 2 ^ e), ?_, ?_, ?_⟩
  · unfold int_to_float
    rw [f32_eq_round]
    unfold f32_round
    rw [hp]
    push_cast
    rfl
  · have herr := (abs_le.1 (round_even_err ((y : ℚ) / 2 ^ e))).2
    have h3 : (round_even ((y : ℚ) / 2 ^ e) : ℚ) * 2 ^ e - y ≤ 2 ^ e / 2 := by
      have : (y : ℚ) = (y : ℚ) / 2 ^ e * 2 ^ e := by field_simp
      nlinarith
    have h4 : ((2 * (round_even ((y : ℚ) / 2 ^ e) * 2 ^ e - y) : Int) : ℚ) ≤
        (((2 : Int) ^ e : Int) : ℚ) := by
      push_cast
      linarith
    exact_mod_cast h4
  · have herr := (abs_le.1 (round_even_err ((y : ℚ) / 2 ^ e))).1
    have h3 : (y : ℚ) - (round_even ((y : ℚ) / 2 ^ e) : ℚ) * 2 ^ e ≤ 2 ^ e / 2 := by
      have : (y : ℚ) = (y : ℚ) / 2 ^ e * 2 ^ e := by field_simp
      nlinarith
    have h4 : ((2 * (y - round_even ((y : ℚ) / 2 ^ e) * 2 ^ e) : Int) : ℚ) ≤
        (((2 : Int) ^ e : Int) : ℚ) := by
      push_cast
      linarith
    exact_mod_cast h4

theorem chunked_binade (y : Int) (e : Nat) (h1 : 2 ^ (23 + e) ≤ |y|)
    (h2 : |y| < 2 ^ (24 + e)) :
    ∃ v : Int, chunked (int_to_float y) = v / 32 ∧ v % 2 ^ e = 0 ∧
      2 * (v - y) ≤ 2 ^ e ∧ 2 * (y - v) ≤ 2 ^ e := by
  obtain ⟨t, ht, ha, hb⟩ := f32_int_binade y e h1 h2
  refine ⟨t * 2 ^ e, ?_, Int.mul_emod_left t (2 ^ e), ha, hb⟩
  rw [ht, chunked_intCast]

theorem chunked_binade_lit (y : Int) (e : Nat) (lo hi s : Int) (hlo : lo = 2 ^ (23 + e))
    (hhi : hi = 2 ^ (24 + e)) (hs : s = 2 ^ e)
    (h : (lo ≤ y ∧ y < hi) ∨ (-hi < y ∧ y ≤ -lo)) :
    ∃ v : Int, chunked (int_to_float y) = v / 32 ∧ v % s = 0 ∧
      2 * (v - y) ≤ s ∧ 2 * (y - v) ≤ s := by
  subst hlo hhi hs
  have hpos : (0 : Int) < 2 ^ (23 + e) := by positivity
  apply chunked_binade y e
  · rcases h with h | h
    · exact le_trans h.1 (le_abs_self y)
    · exact le_trans (by linarith [h.2]) (neg_le_abs y)
  · rw [abs_lt]
    rcases h with h | h
    · exact ⟨by linarith [h.1], h.2⟩
    · exact ⟨h.1, by linarith [h.2]⟩

theorem chunk_side_bounds : ∀ x ∈ side_bounds,
    chunked (int_to_float (x + -1)) = chunked (int_to_float x) ∨
    chunked (int_to_float (x + 1)) = chunked (int_to_float x) := by
  decide!

/-- Of the two neighbours `x - 1` and `x + 1` of an `int` coordinate, at most
one is taken for a cell of another chunk by the test `chunked(x + dx) == p`. -/
theorem chunk_side (x : Int) (hl : -2147483647 < x) (hu : x < 2147483647) :
    chunked (int_to_float (x + -1)) = chunked (int_to_float x) ∨
    chunked (int_to_float (x + 1)) = chunked (int_to_float x) := by
  have hz : (-16777216 < x ∧ x < 16777216) ∨
      x ∈ side_bounds ∨
      (16777216 < x ∧ x + 1 < 33554432) ∨
      (-33554432 < x + -1 ∧ x < -16777216) ∨
      (33554432 < x ∧ x + 1 < 67108864) ∨
      (-67108864 < x + -1 ∧ x < -33554432) ∨
      (67108864 < x ∧ x + 1 < 134217728) ∨
      (-134217728 < x + -1 ∧ x < -67108864) ∨
      (134217728 < x ∧ x + 1 < 268435456) ∨
      (-268435456 < x + -1 ∧ x < -134217728) ∨
      (268435456 < x ∧ x + 1 < 536870912) ∨
      (-536870912 < x + -1 ∧ x < -268435456) ∨
      (536870912 < x ∧ x + 1 < 1073741824) ∨
      (-1073741824 < x + -1 ∧ x < -536870912) ∨
      (1073741824 < x ∧ x + 1 < 2147483648) ∨
      (-2147483648 < x + -1 ∧ x < -1073741824) := by
    unfold side_bounds
    simp only [List.mem_cons, List.mem_singleton, List.not_mem_nil, or_false]
    omega
  rcases hz with h | h | h | h | h | h | h | h | h | h | h | h | h | h | h | h
  · rw [chunked_int_small (x + -1) (abs_le.2 ⟨by norm_num; omega, by norm_num; omega⟩),
      chunked_int_small x (abs_le.2 ⟨by norm_num; omega, by norm_num; omega⟩),
      chunked_int_small (x + 1) (abs_le.2 ⟨by norm_num; omega, by norm_num; omega⟩)]
    omega
  · exact chunk_side_bounds x h
  · obtain ⟨va, hca, ha⟩ := chunked_binade_lit (x + -1) 1 16777216 33554432 2
      (by norm_num) (by norm_num) (by norm_num) (Or.inl ⟨by omega, by omega⟩)
    obtain ⟨vb, hcb, hb⟩ := chunked_binade_lit x 1 16777216 33554432 2
      (by norm_num) (by norm_num) (by norm_num) (Or.inl ⟨by omega, by omega⟩)
    obtain ⟨vc, hcc, hc⟩ := chunked_binade_lit (x + 1) 1 16777216 33554432 2
      (by norm_num) (by norm_num) (by norm_num) (Or.inl ⟨by omega, by omega⟩)
    rw [hca, hcb, hcc]
    omega
  · obtain ⟨va, hca, ha⟩ := chunked_binade_lit (x + -1) 1 16777216 33554432 2
      (by norm_num) (by norm_num) (by norm_num) (Or.inr ⟨by omega, by omega⟩)
    obtain ⟨vb, hcb, hb⟩ := chunked_binade_lit x 1 16777216 33554432 2
      (by norm_num) (by norm_num) (by norm_num) (Or.inr ⟨by omega, by omega⟩)
    obtain ⟨vc, hcc, hc⟩ := chunked_binade_lit (x + 1) 1 16777216 33554432 2
      (by norm_num) (by norm_num) (by norm_num) (Or.inr ⟨by omega, by omega⟩)
    rw [hca, hcb, hcc]
    omega
  · obtain ⟨va, hca, ha⟩ := chunked_binade_lit (x + -1) 2 33554432 67108864 4
      (by norm_num) (by norm_num) (by norm_num) (Or.inl ⟨by omega, by omega⟩)
    obtain ⟨vb, hcb, hb⟩ := chunked_binade_lit x 2 33554432 67108864 4
      (by norm_num) (by norm_num) (by norm_num) (Or.inl ⟨by omega, by omega⟩)
    obtain ⟨vc, hcc, hc⟩ := chunked_binade_lit (x + 1) 2 33554432 67108864 4
      (by norm_num) (by norm_num) (by norm_num) (Or.inl ⟨by omega, by omega⟩)
    rw [hca, hcb, hcc]
    omega
  · obtain ⟨va, hca, ha⟩ := chunked_binade_lit (x + -1) 2 33554432 67108864 4
      (by norm_num) (by norm_num) (by norm_num) (Or.inr ⟨by omega, by omega⟩)
    obtain ⟨vb, hcb, hb⟩ := chunked_binade_lit x 2 33554432 67108864 4
      (by norm_num) (by norm_num) (by norm_num) (Or.inr ⟨by omega, by omega⟩)
    obtain ⟨vc, hcc, hc⟩ := chunked_binade_lit (x + 1) 2 33554432 67108864 4
      (by norm_num) (by norm_num) (by norm_num) (Or.inr ⟨by omega, by omega⟩)
    rw [hca, hcb, hcc]
    omega
  · obtain ⟨va, hca, ha⟩ := chunked_binade_lit (x + -1) 3 67108864 134217728 8
      (by norm_num) (by norm_num) (by norm_num) (Or.inl ⟨by omega, by omega⟩)
    obtain ⟨vb, hcb, hb⟩ := chunked_binade_lit x 3 67108864 134217728 8
      (by norm_num) (by norm_num) (by norm_num) (Or.inl ⟨by omega, by omega⟩)
    obtain ⟨vc, hcc, hc⟩ := chunked_binade_lit (x + 1) 3 67108864 134217728 8
      (by norm_num) (by norm_num) (by norm_num) (Or.inl ⟨by omega, by omega⟩)
    rw [hca, hcb, hcc]
    omega
  · obtain ⟨va, hca, ha⟩ := chunked_binade_lit (x + -1) 3 67108864 134217728 8
      (by norm_num) (by norm_num) (by norm_num) (Or.inr ⟨by omega, by omega⟩)
    obtain ⟨vb, hcb, hb⟩ := chunked_binade_lit x 3 67108864 134217728 8
      (by norm_num) (by norm_num) (by norm_num) (Or.inr ⟨by omega, by omega⟩)
    obtain ⟨vc, hcc, hc⟩ := chunked_binade_lit (x + 1) 3 67108864 134217728 8
      (by norm_num) (by norm_num) (by norm_num) (Or.inr ⟨by omega, by omega⟩)
    rw [hca, hcb, hcc]
    omega
  · obtain ⟨va, hca, ha⟩ := chunked_binade_lit (x + -1) 4 134217728 268435456 16
      (by norm_num) (by norm_num) (by norm_num) (Or.inl ⟨by omega, by omega⟩)
    obtain ⟨vb, hcb, hb⟩ := chunked_binade_lit x 4 134217728 268435456 16
      (by norm_num) (by norm_num) (by norm_num) (Or.inl ⟨by omega, by omega⟩)
    obtain ⟨vc, hcc, hc⟩ := chunked_binade_lit (x + 1) 4 134217728 268435456 16
      (by norm_num) (by norm_num) (by norm_num) (Or.inl ⟨by omega, by omega⟩)
    rw [hca, hcb, hcc]
    omega
  · obtain ⟨va, hca, ha⟩ := chunked_binade_lit (x + -1) 4 134217728 268435456 16
      (by norm_num) (by norm_num) (by norm_num) (Or.inr ⟨by omega, by omega⟩)
    obtain ⟨vb, hcb, hb⟩ := chunked_binade_lit x 4 134217728 268435456 16
      (by norm_num) (by norm_num) (by norm_num) (Or.inr ⟨by omega, by omega⟩)
    obtain ⟨vc, hcc, hc⟩ := chunked_binade_lit (x + 1) 4 134217728 268435456 16
      (by norm_num) (by norm_num) (by norm_num) (Or.inr ⟨by omega, by omega⟩)
    rw [hca, hcb, hcc]
    omega
  · obtain ⟨va, hca, ha⟩ := chunked_binade_lit (x + -1) 5 268435456 536870912 32
      (by norm_num) (by norm_num) (by norm_num) (Or.inl ⟨by omega, by omega⟩)
    obtain ⟨vb, hcb, hb⟩ := chunked_binade_lit x 5 268435456 536870912 32
      (by norm_num) (by norm_num) (by norm_num) (Or.inl ⟨by omega, by omega⟩)
    obtain ⟨vc, hcc, hc⟩ := chunked_binade_lit (x + 1) 5 268435456 536870912 32
      (by norm_num) (by norm_num) (by norm_num) (Or.inl ⟨by omega, by omega⟩)
    rw [hca, hcb, hcc]
    omega
  · obtain ⟨va, hca, ha⟩ := chunked_binade_lit (x + -1) 5 268435456 536870912 32
      (by norm_num) (by norm_num) (by norm_num) (Or.inr ⟨by omega, by omega⟩)
    obtain ⟨vb, hcb, hb⟩ := chunked_binade_lit x 5 268435456 536870912 32
      (by norm_num) (by norm_num) (by norm_num) (Or.inr ⟨by omega, by omega⟩)
    obtain ⟨vc, hcc, hc⟩ := chunked_binade_lit (x + 1) 5 268435456 536870912 32
      (by norm_num) (by norm_num) (by norm_num) (Or.inr ⟨by omega, by omega⟩)
    rw [hca, hcb, hcc]
    omega
  · obtain ⟨va, hca, ha⟩ := chunked_binade_lit (x + -1) 6 536870912 1073741824 64
      (by norm_num) (by norm_num) (by norm_num) (Or.inl ⟨by omega, by omega⟩)
    obtain ⟨vb, hcb, hb⟩ := chunked_binade_lit x 6 536870912 1073741824 64
      (by norm_num) (by norm_num) (by norm_num) (Or.inl ⟨by omega, by omega⟩)
    obtain ⟨vc, hcc, hc⟩ := chunked_binade_lit (x + 1) 6 536870912 1073741824 64
      (by norm_num) (by norm_num) (by norm_num) (Or.inl ⟨by omega, by omega⟩)
    rw [hca, hcb, hcc]
    omega
  · obtain ⟨va, hca, ha⟩ := chunked_binade_lit (x + -1) 6 536870912 1073741824 64
      (by norm_num) (by norm_num) (by norm_num) (Or.inr ⟨by omega, by omega⟩)
    obtain ⟨vb, hcb, hb⟩ := chunked_binade_lit x 6 536870912 1073741824 64
      (by norm_num) (by norm_num) (by norm_num) (Or.inr ⟨by omega, by omega⟩)
    obtain ⟨vc, hcc, hc⟩ := chunked_binade_lit (x + 1) 6 536870912 1073741824 64
      (by norm_num) (by norm_num) (by norm_num) (Or.inr ⟨by omega, by omega⟩)
    rw [hca, hcb, hcc]
    omega
  · obtain ⟨va, hca, ha⟩ := chunked_binade_lit (x + -1) 7 1073741824 2147483648 128
      (by norm_num) (by norm_num) (by norm_num) (Or.inl ⟨by omega, by omega⟩)
    obtain ⟨vb, hcb, hb⟩ := chunked_binade_lit x 7 1073741824 2147483648 128
      (by norm_num) (by norm_num) (by norm_num) (Or.inl ⟨by omega, by omega⟩)
    obtain ⟨vc, hcc, hc⟩ := chunked_binade_lit (x + 1) 7 1073741824 2147483648 128
      (by norm_num) (by norm_num) (by norm_num) (Or.inl ⟨by omega, by omega⟩)
    rw [hca, hcb, hcc]
    omega
  · obtain ⟨va, hca, ha⟩ := chunked_binade_lit (x + -1) 7 1073741824 2147483648 128
      (by norm_num) (by norm_num) (by norm_num) (Or.inr ⟨by omega, by omega⟩)
    obtain ⟨vb, hcb, hb⟩ := chunked_binade_lit x 7 1073741824 2147483648 128
      (by norm_num) (by norm_num) (by norm_num) (Or.inr ⟨by omega, by omega⟩)
    obtain ⟨vc, hcc, hc⟩ := chunked_binade_lit (x + 1) 7 1073741824 2147483648 128
      (by norm_num) (by norm_num) (by norm_num) (Or.inr ⟨by omega, by omega⟩)
    rw [hca, hcb, hcc]
    omega

theorem shadow_offset_side (x z : Int) (ex ez : Int)
    (hx : chunked (int_to_float (x + ex)) = chunked (int_to_float x))
    (hz : chunked (int_to_float (z + ez)) = chunked (int_to_float z))
    (hex : ex ≠ 0) (hez : ez ≠ 0) (d : Int × Int) (h : shadow_offset x z d = true) :
    d ≠ (0, 0) ∧ d.1 ≠ ex ∧ d.2 ≠ ez := by
  refine ⟨shadow_offset_ne x z d h, ?_, ?_⟩
  · intro h1
    unfold shadow_offset at h
    split at h
    · exact Bool.noConfusion h
    · rw [if_pos ⟨by rw [h1]; exact hex, by rw [h1]; exact hx⟩] at h
      exact Bool.noConfusion h
  · intro h2
    unfold shadow_offset at h
    split at h
    · exact Bool.noConfusion h
    · split at h
      · exact Bool.noConfusion h
      · rw [if_pos ⟨by rw [h2]; exact hez, by rw [h2]; exact hz⟩] at h
        exact Bool.noConfusion h

/-- For `int` coordinates whose neighbours `x - 1`, `x + 1`, `z - 1`, `z + 1` are
`int` values, the loop of `set_block` makes at most three shadow calls. -/
theorem shadow_targets_length_int (x z : Int) (hxl : -2147483647 < x) (hxu : x < 2147483647)
    (hzl : -2147483647 < z) (hzu : z < 2147483647) :
    (shadow_targets x z).length ≤ 3 := by
  have key : ∀ ex ez : Int, (ex = -1 ∨ ex = 1) → (ez = -1 ∨ ez = 1) →
      chunked (int_to_float (x + ex)) = chunked (int_to_float x) →
      chunked (int_to_float (z + ez)) = chunked (int_to_float z) →
      (shadow_targets x z).length ≤ 3 := by
    intro ex ez hex hez hx hz
    unfold shadow_targets
    rw [List.length_map, ← List.countP_eq_length_filter]
    refine le_trans (List.countP_mono_left (q := fun d => decide (d ≠ (0, 0) ∧ d.1 ≠ ex ∧ d.2 ≠ ez))
      (fun d _ h => decide_eq_true (shadow_offset_side x z ex ez hx hz
        (by rcases hex with h | h <;> rw [h] <;> decide)
        (by rcases hez with h | h <;> rw [h] <;> decide) d h))) ?_
    rcases hex with h | h <;> rcases hez with h2 | h2 <;> subst h <;> subst h2 <;> decide
  rcases chunk_side x hxl hxu with hx | hx <;> rcases chunk_side z hzl hzu with hz | hz
  · exact key (-1) (-1) (Or.inl rfl) (Or.inl rfl) hx hz
  · exact key (-1) 1 (Or.inl rfl) (Or.inr rfl) hx hz
  · exact key 1 (-1) (Or.inr rfl) (Or.inl rfl) hx hz
  · exact key 1 1 (Or.inr rfl) (Or.inr rfl) hx hz

theorem boundary_step_cases (x : Int) :
    boundary_step x = -1 ∨ boundary_step x = 0 ∨ boundary_step x = 1 := by
  unfold boundary_step
  split_ifs <;> simp

/-- For coordinates of magnitude below `2^24` the shadow targets are the chunks
at the offsets that step only across the boundaries the cell lies on. -/
theorem shadow_targets_eq (x z : Int) (hx : |x| < 2 ^ 24) (hz : |z| < 2 ^ 24) :
    shadow_targets x z =
      shadow_list (chunked (int_to_float x)) (chunked (int_to_float z))
        (boundary_step x) (boundary_step z) := by
  unfold shadow_targets shadow_list
  congr 1
  apply List.filter_congr
  intro d hd
  have hm := (mem_offsets 1 d).1 hd
  have h := shadow_offset_iff x z hx hz d hd
  obtain ⟨d1, d2⟩ := d
  simp only [Prod.mk.injEq, ne_eq, not_and] at h hm
  rw [Bool.eq_iff_iff, h, decide_eq_true_iff]
  simp only [Prod.mk.injEq, ne_eq, not_and]
  unfold boundary_step CHUNK_SIZE
  split_ifs <;> omega

/-! ## The function `set_block`, slot by slot: lemmas -/

theorem block_edit_of_ne_zero (p q x y z w : Int) (hw : w ≠ 0) (c : Chunk) :
    block_edit p q x y z w c = put_block x y z w c := by
  unfold block_edit
  rw [if_neg (fun h => hw h.1)]

theorem block_edit_of_target (x y z w : Int) (t : Int × Int) (ht : t ∈ shadow_targets x z)
    (c : Chunk) : block_edit t.1 t.2 x y z w c = put_block x y z w c := by
  unfold block_edit
  have h := (shadow_targets_adjacent x z t ht).1
  rw [if_neg (fun hc => h (Prod.ext hc.2.1.symm hc.2.2.symm))]

theorem slot_pq (cs : List Chunk) (a b : Int) (j : Nat) (o : Chunk) (ho : cs[j]? = some o)
    (hf : find_chunk cs a b = some j) : o.p = a ∧ o.q = b := by
  obtain ⟨c, hc, h1, h2⟩ := find_chunk_some cs _ _ j hf
  rw [ho] at hc
  have hoc : o = c := Option.some.inj hc
  subst hoc
  exact ⟨h1, h2⟩

theorem target_ne_owner (cs : List Chunk) (x z : Int) (t : Int × Int)
    (ht : t ∈ shadow_targets x z) (j : Nat) (o : Chunk) (ho : cs[j]? = some o)
    (hf : find_chunk cs t.1 t.2 = some j) :
    find_chunk cs (chunked (int_to_float x)) (chunked (int_to_float z)) ≠ some j := by
  intro hf2
  have h1 := slot_pq cs _ _ j o ho hf
  have h2 := slot_pq cs _ _ j o ho hf2
  exact (shadow_targets_adjacent x z t ht).1 (Prod.ext (by rw [← h1.1, h2.1]) (by rw [← h1.2, h2.2]))

/-- The owning chunk after `set_block`. -/
theorem set_block_owner_get (env : Env) (cs : List Chunk) (x y z w : Int) (i : Nat) (c : Chunk)
    (hf : find_chunk cs (chunked (int_to_float x)) (chunked (int_to_float z)) = some i)
    (hc : cs[i]? = some c) :
    ∃ b : Bool,
      (set_block env cs x y z w)[i]? =
        some (mark b (block_edit (chunked (int_to_float x)) (chunked (int_to_float z)) x y z w c)) ∧
      ((map_set c.map x y z w).2 = true → b = true) := by
  rw [set_block_eq_fold]
  obtain ⟨b1, h1, hb1⟩ :=
    set_block_inner_get env cs (chunked (int_to_float x)) (chunked (int_to_float z)) x y z w 1 i c hc
  rw [if_pos hf] at h1
  have hco := coords_set_block_inner env cs (chunked (int_to_float x)) (chunked (int_to_float z)) x y z w 1
  have hno : ∀ t ∈ shadow_targets x z,
      find_chunk (_set_block env cs (chunked (int_to_float x)) (chunked (int_to_float z)) x y z w 1) t.1 t.2 ≠
        some i := by
    intro t ht hft
    rw [find_chunk_congr _ _ hco] at hft
    exact target_ne_owner cs x z t ht i c hc hft hf
  obtain ⟨b, hb⟩ := shadow_fold_other env x y z (-w) (shadow_targets x z) _ i _ h1 hno
  refine ⟨b || b1, by rw [hb, mark_mark], fun hch => ?_⟩
  rw [hb1 hf (by decide) hch]
  simp

/-- A chunk that receives a shadow write, after `set_block`. -/
theorem set_block_target_get (env : Env) (cs : List Chunk) (x y z w : Int) (t : Int × Int)
    (ht : t ∈ shadow_targets x z) (j : Nat) (o : Chunk)
    (hf : find_chunk cs t.1 t.2 = some j) (ho : cs[j]? = some o) :
    ∃ b : Bool,
      (set_block env cs x y z w)[j]? = some (mark b (put_block x y z (-w) o)) ∧
      ((map_set o.map x y z (-w)).2 = true → b = true) := by
  rw [set_block_eq_fold]
  obtain ⟨b1, h1, -⟩ :=
    set_block_inner_get env cs (chunked (int_to_float x)) (chunked (int_to_float z)) x y z w 1 j o ho
  rw [if_neg (target_ne_owner cs x z t ht j o ho hf)] at h1
  have hco := coords_set_block_inner env cs (chunked (int_to_float x)) (chunked (int_to_float z)) x y z w 1
  have hf1 : find_chunk (_set_block env cs (chunked (int_to_float x)) (chunked (int_to_float z)) x y z w 1)
      t.1 t.2 = some j := by
    rw [find_chunk_congr _ _ hco]
    exact hf
  obtain ⟨b, hb, hbc⟩ := shadow_fold_target env x y z (-w) (shadow_targets x z) _ j _ h1
    (shadow_targets_nodup x z) t ht hf1
  refine ⟨b || b1, ?_, fun hch => ?_⟩
  · rw [hb, block_edit_of_target x y z (-w) t ht, put_block_mark, mark_mark]
  · rw [mark_map] at hbc
    rw [hbc hch]
    simp

/-- A chunk that is neither the owner nor a shadow target, after `set_block`. -/
theorem set_block_other_get (env : Env) (cs : List Chunk) (x y z w : Int) (j : Nat) (o : Chunk)
    (ho : cs[j]? = some o)
    (hown : find_chunk cs (chunked (int_to_float x)) (chunked (int_to_float z)) ≠ some j)
    (hno : ∀ t ∈ shadow_targets x z, find_chunk cs t.1 t.2 ≠ some j) :
    ∃ b : Bool, (set_block env cs x y z w)[j]? = some (mark b o) := by
  rw [set_block_eq_fold]
  obtain ⟨b1, h1, -⟩ :=
    set_block_inner_get env cs (chunked (int_to_float x)) (chunked (int_to_float z)) x y z w 1 j o ho
  rw [if_neg hown] at h1
  have hco := coords_set_block_inner env cs (chunked (int_to_float x)) (chunked (int_to_float z)) x y z w 1
  have hno2 : ∀ t ∈ shadow_targets x z,
      find_chunk (_set_block env cs (chunked (int_to_float x)) (chunked (int_to_float z)) x y z w 1) t.1 t.2 ≠
        some j := by
    intro t ht
    rw [find_chunk_congr _ _ hco]
    exact hno t ht
  obtain ⟨b, hb⟩ := shadow_fold_other env x y z (-w) (shadow_targets x z) _ j _ h1 hno2
  exact ⟨b || b1, by rw [hb, mark_mark]⟩

theorem mark_true_dirty (b : Bool) (hb : b = true) (c : Chunk) : (mark b c).dirty = 1 := by
  subst hb
  rfl

theorem mark_signs_lights (b : Bool) (c : Chunk) :
    (mark b c).signs = c.signs ∧ (mark b c).lights = c.lights := by
  cases b <;> exact ⟨rfl, rfl⟩

theorem modifyAt_fix {α : Type} (f : α → α) (i : Nat) (l : List α) (a : α)
    (h : l[i]? = some a) (hf : f a = a) : modifyAt f i l = l := by
  rw [modifyAt_eq_set f i l a h, hf]
  apply List.ext_getElem?
  intro k
  rw [List.getElem?_set]
  split
  · rename_i hik
    subst hik
    rw [h]
    simp [getElem?_lt l i a h]
  · rfl


theorem put_light_fields (x y z w : Int) (c : Chunk) :
    (put_light x y z w c).signs = c.signs ∧
    (put_light x y z w c).lights = (map_set c.lights x y z w).1 ∧
    (put_light x y z w c).map = c.map := ⟨rfl, rfl, rfl⟩

theorem put_block_fields (x y z w : Int) (c : Chunk) :
    (put_block x y z w c).signs = c.signs ∧ (put_block x y z w c).lights = c.lights ∧
    (put_block x y z w c).map = (map_set c.map x y z w).1 := ⟨rfl, rfl, rfl⟩

theorem unset_sign_slot_fields (x y z : Int) (c : Chunk) :
    (unset_sign_slot x y z c).signs = (sign_list_remove_all c.signs x y z).1 ∧
    (unset_sign_slot x y z c).lights = c.lights ∧
    (unset_sign_slot x y z c).map = c.map := by
  unfold unset_sign_slot
  simp only
  by_cases h : (sign_list_remove_all c.signs x y z).2 ≠ 0
  · rw [if_pos h]
    exact ⟨rfl, rfl, rfl⟩
  · rw [if_neg h]
    exact ⟨rfl, rfl, rfl⟩

theorem not_mem_remove_all (signs : SignList) (x y z : Int) (s : Sign)
    (hs : s ∈ (sign_list_remove_all signs x y z).1) : ¬ (s.x = x ∧ s.y = y ∧ s.z = z) := by
  unfold sign_list_remove_all at hs
  have h := (List.mem_filter.1 hs).2
  intro hxyz
  simp [hxyz.1, hxyz.2.1, hxyz.2.2] at h

/-! ## C11: `_set_block` marks the chunk dirty exactly on change -/

/-- C11. Block mutation marks dirty exactly on change.  For a resident target
chunk (slot `i`, found by `find_chunk` at `(p, q)`) and `w != 0`, after
`_set_block(p, q, x, y, z, w, 1)` the chunk's map reads `w` at `(x, y, z)` and
the chunk is dirty when `map_set` reported a change; the write reports a change
exactly when the map did not read `w` before; and when the map already reads
`w` the whole chunk array is left as it was. -/
theorem set_block_inner_dirty_on_change (env : Env) (cs : List Chunk) (p q x y z w : Int)
    (i : Nat) (c : Chunk) (hw : w ≠ 0) (hf : find_chunk cs p q = some i) (hc : cs[i]? = some c) :
    (∃ c2 : Chunk, (_set_block env cs p q x y z w 1)[i]? = some c2 ∧
      map_get c2.map x y z = w ∧ ((map_set c.map x y z w).2 = true → c2.dirty = 1)) ∧
    ((map_set c.map x y z w).2 = true ↔ map_get c.map x y z ≠ w) ∧
    (map_get c.map x y z = w → _set_block env cs p q x y z w 1 = cs) := by
  refine ⟨?_, map_set_changed c.map x y z w, ?_⟩
  · obtain ⟨b, hb, hbc⟩ := set_block_inner_get env cs p q x y z w 1 i c hc
    rw [if_pos hf, block_edit_of_ne_zero p q x y z w hw] at hb
    refine ⟨_, hb, ?_, fun hch => mark_true_dirty b (hbc hf (by decide) hch) _⟩
    rw [mark_map, (put_block_fields x y z w c).2.2]
    exact map_get_map_set c.map x y z w
  · intro hsame
    unfold _set_block write_block
    simp only [hf, hc]
    rw [if_neg (fun h => hw h.1), map_set_same _ _ _ _ _ hsame]
    simp only [Bool.false_eq_true, if_false]
    exact modifyAt_fix _ i cs c hc (put_block_same x y z w c hsame)

theorem set_block_inner_dirty_on_change_witness :
    (5 : Int) ≠ 0 ∧ find_chunk four_chunks 0 0 = some 0 ∧
    four_chunks[0]? = some (chunk_pq 0 0) ∧
    (∃ c2 : Chunk, (_set_block env0 four_chunks 0 0 0 0 0 5 1)[0]? = some c2 ∧
      map_get c2.map 0 0 0 = 5 ∧
      ((map_set (chunk_pq 0 0).map 0 0 0 5).2 = true → c2.dirty = 1)) :=
  ⟨by decide, by decide, rfl,
    (set_block_inner_dirty_on_change env0 four_chunks 0 0 0 0 0 5 0 (chunk_pq 0 0)
      (by decide) (by decide) rfl).1⟩

/-! ## C12: the shadow writes of `set_block` -/

/-- C12, counterexample.  For the corner cell `(0, 0, 0)` of chunk `(0, 0)` the
loop of `set_block` reaches `_set_block` for the three chunks `(-1, -1)`,
`(-1, 0)` and `(0, -1)`: with the four chunks resident, `set_block(0, 0, 0, 5)`
leaves `5` in the owner and `-5` in three other chunks.  And the cell
`x = 16777246`, on the last but one column of chunk `524288`, is not on a
boundary, yet the loop tests `chunked(x + 1)` on the `float` conversion of
`16777247`, which is `16777248`, and makes a shadow write into chunk `524289`. -/
theorem set_block_corner_three_shadows :
    shadow_targets 0 0 = [(-1, -1), (-1, 0), (0, -1)] ∧
    (set_block env0 four_chunks 0 0 0 5).map (fun c => (c.p, c.q, map_get c.map 0 0 0)) =
      [(0, 0, 5), (-1, 0, -5), (0, -1, -5), (-1, -1, -5)] ∧
    (16777246 : Int) = CHUNK_SIZE * 524288 + 30 ∧
    chunked (int_to_float 16777246) = 524288 ∧
    shadow_targets 16777246 5 = [(524289, 0)] := by
  decide!

/-- C12, amended.  The function `set_block(x, y, z, w)` calls `_set_block` for
the owning chunk `(chunked(x), chunked(z))` with `w` and then, in loop order, for
each shadow target with `-w`; every shadow target is one of the eight adjacent
chunks.  After the call a resident owner reads `w` at the cell, a resident
shadow target reads `-w`, and the map of every other chunk is as before.  There
are at most three shadow targets for all `int` coordinates whose neighbours
`x - 1`, `x + 1`, `z - 1`, `z + 1` are `int` values.  For coordinates of
magnitude below `2^24`, where the `float` conversion of `chunked`'s argument
is exact, there are none when the cell is neither on the first nor on the last
row or column of its chunk, exactly one (the chunk across that boundary) when
it is on one boundary row or column only, and exactly three for a corner cell,
the two chunks across the two boundaries and the diagonal one. -/
theorem set_block_shadow_writes (env : Env) (cs : List Chunk) (x y z w : Int) :
    set_block env cs x y z w =
      (shadow_targets x z).foldl (fun acc t => _set_block env acc t.1 t.2 x y z (-w) 1)
        (_set_block env cs (chunked (int_to_float x)) (chunked (int_to_float z)) x y z w 1) ∧
    (∀ t ∈ shadow_targets x z, t ≠ (chunked (int_to_float x), chunked (int_to_float z)) ∧
      |t.1 - chunked (int_to_float x)| ≤ 1 ∧ |t.2 - chunked (int_to_float z)| ≤ 1) ∧
    (∀ (i : Nat) (c : Chunk),
      find_chunk cs (chunked (int_to_float x)) (chunked (int_to_float z)) = some i →
      cs[i]? = some c →
      ∃ c2 : Chunk, (set_block env cs x y z w)[i]? = some c2 ∧ map_get c2.map x y z = w) ∧
    (∀ t ∈ shadow_targets x z, ∀ (j : Nat) (o : Chunk),
      find_chunk cs t.1 t.2 = some j → cs[j]? = some o →
      ∃ o2 : Chunk, (set_block env cs x y z w)[j]? = some o2 ∧ map_get o2.map x y z = -w) ∧
    (∀ (j : Nat) (o : Chunk), cs[j]? = some o →
      find_chunk cs (chunked (int_to_float x)) (chunked (int_to_float z)) ≠ some j →
      (∀ t ∈ shadow_targets x z, find_chunk cs t.1 t.2 ≠ some j) →
      ∃ o2 : Chunk, (set_block env cs x y z w)[j]? = some o2 ∧ o2.map = o.map) ∧
    (-2147483647 < x → x < 2147483647 → -2147483647 < z → z < 2147483647 →
      (shadow_targets x z).length ≤ 3) ∧
    (|x| < 2 ^ 24 → |z| < 2 ^ 24 →
      (shadow_targets x z).length ≤ 3 ∧
      (boundary_step x = 0 → boundary_step z = 0 → shadow_targets x z = []) ∧
      (boundary_step x ≠ 0 → boundary_step z = 0 →
        shadow_targets x z =
          [(chunked (int_to_float x) + boundary_step x, chunked (int_to_float z))]) ∧
      (boundary_step x = 0 → boundary_step z ≠ 0 →
        shadow_targets x z =
          [(chunked (int_to_float x), chunked (int_to_float z) + boundary_step z)]) ∧
      (boundary_step x ≠ 0 → boundary_step z ≠ 0 →
        (shadow_targets x z).length = 3 ∧
        (chunked (int_to_float x) + boundary_step x, chunked (int_to_float z))
          ∈ shadow_targets x z ∧
        (chunked (int_to_float x), chunked (int_to_float z) + boundary_step z)
          ∈ shadow_targets x z ∧
        (chunked (int_to_float x) + boundary_step x,
          chunked (int_to_float z) + boundary_step z) ∈ shadow_targets x z)) := by
  refine ⟨set_block_eq_fold env cs x y z w, shadow_targets_adjacent x z, ?_, ?_, ?_,
    shadow_targets_length_int x z, ?_⟩
  · intro i c hf hc
    obtain ⟨b, hb, -⟩ := set_block_owner_get env cs x y z w i c hf hc
    refine ⟨_, hb, ?_⟩
    rw [mark_map]
    unfold block_edit
    split
    · rw [(put_light_fields _ _ _ _ _).2.2, (unset_sign_slot_fields _ _ _ _).2.2,
        (put_block_fields _ _ _ _ _).2.2]
      exact map_get_map_set c.map x y z w
    · rw [(put_block_fields _ _ _ _ _).2.2]
      exact map_get_map_set c.map x y z w
  · intro t ht j o hf ho
    obtain ⟨b, hb, -⟩ := set_block_target_get env cs x y z w t ht j o hf ho
    refine ⟨_, hb, ?_⟩
    rw [mark_map, (put_block_fields _ _ _ _ _).2.2]
    exact map_get_map_set o.map x y z (-w)
  · intro j o ho hown hno
    obtain ⟨b, hb⟩ := set_block_other_get env cs x y z w j o ho hown hno
    exact ⟨_, hb, mark_map b o⟩
  · intro hx hz
    have heq := shadow_targets_eq x z hx hz
    refine ⟨shadow_targets_length x z hx hz, ?_, ?_, ?_, ?_⟩
    · intro h1 h2
      rw [heq, h1, h2]
      rfl
    · intro h1 h2
      rw [heq, h2]
      rcases boundary_step_cases x with h | h | h
      · rw [h]; simp [shadow_list, offsets_one_eq]
      · exact absurd h h1
      · rw [h]; simp [shadow_list, offsets_one_eq]
    · intro h1 h2
      rw [heq, h1]
      rcases boundary_step_cases z with h | h | h
      · rw [h]; simp [shadow_list, offsets_one_eq]
      · exact absurd h h2
      · rw [h]; simp [shadow_list, offsets_one_eq]
    · intro h1 h2
      rw [heq]
      rcases boundary_step_cases x with h | h | h <;>
        rcases boundary_step_cases z with h' | h' | h' <;>
        first
        | exact absurd h h1
        | exact absurd h' h2
        | (rw [h, h']
           refine ⟨rfl, ?_, ?_, ?_⟩ <;> simp [shadow_list, offsets_one_eq])

theorem set_block_shadow_writes_witness :
    find_chunk four_chunks (chunked (int_to_float 0)) (chunked (int_to_float 0)) = some 0 ∧
    four_chunks[0]? = some (chunk_pq 0 0) ∧
    |(0 : Int)| < 2 ^ 24 ∧ boundary_step 0 ≠ 0 ∧
    (shadow_targets 0 0).length ≤ 3 ∧
    (shadow_targets 0 0).length = 3 ∧
    (∃ c2 : Chunk, (set_block env0 four_chunks 0 0 0 5)[0]? = some c2 ∧
      map_get c2.map 0 0 0 = 5) :=
  have h := set_block_shadow_writes env0 four_chunks 0 0 0 5
  ⟨by decide!, rfl, by decide, by decide,
    h.2.2.2.2.2.1 (by decide) (by decide) (by decide) (by decide),
    ((h.2.2.2.2.2.2 (by decide) (by decide)).2.2.2.2 (by decide) (by decide)).1,
    h.2.2.1 0 (chunk_pq 0 0) (by decide!) rfl⟩

/-! ## C13: an edit on a chunk boundary -/

/-- C13, counterexample.  The cell `(16777248, 5, 5)` lies on the first column of
chunk `524289` (`16777248 = 32 * 524289`), and that chunk and its neighbour
`(524288, 0)` are resident.  The loop of `set_block` tests
`chunked(x - 1) == p` on the `float` conversion of `16777247`, which is
`16777248`, so it takes the cell across the boundary for a cell of the same
chunk and makes no shadow write: after `set_block(16777248, 5, 5, 7)` the
neighbour is not dirty and reads `0` at the cell. -/
theorem boundary_edit_beyond_float_range :
    (16777248 : Int) = CHUNK_SIZE * 524289 ∧
    find_chunk far_row (chunked (int_to_float 16777248)) (chunked (int_to_float 5)) = some 0 ∧
    find_chunk far_row (chunked (int_to_float 16777248) - 1) (chunked (int_to_float 5)) =
      some 1 ∧
    shadow_targets 16777248 5 = [] ∧
    (set_block env0 far_row 16777248 5 5 7).map
        (fun c => (c.p, c.q, c.dirty, map_get c.map 16777248 5 5)) =
      [(524289, 0, 1, 7), (524288, 0, 0, 0)] := by
  decide!

/-- C13, amended.  Boundary edit scenario.  With the owning chunk resident and
`w != 0`: when the owner's map does not read `w` at the cell, after
`set_block(x, y, z, w)` the owner is dirty and reads `w`; every resident chunk
that receives a shadow write and does not read `-w` at the cell is dirty
afterwards and reads `-w`; and for coordinates of magnitude below `2^24`, where
the `float` conversion of `chunked`'s argument is exact, the adjacent chunk
across the boundary that a cell on the first (last) row or column of its chunk
lies on is one of the chunks that receive a shadow write. -/
theorem boundary_edit_marks_neighbours (env : Env) (cs : List Chunk) (x y z w : Int)
    (i : Nat) (c : Chunk) (hw : w ≠ 0)
    (hf : find_chunk cs (chunked (int_to_float x)) (chunked (int_to_float z)) = some i)
    (hc : cs[i]? = some c) :
    (map_get c.map x y z ≠ w →
      ∃ c2 : Chunk, (set_block env cs x y z w)[i]? = some c2 ∧ c2.dirty = 1 ∧
        map_get c2.map x y z = w) ∧
    (∀ t ∈ shadow_targets x z, ∀ (j : Nat) (o : Chunk),
      find_chunk cs t.1 t.2 = some j → cs[j]? = some o → map_get o.map x y z ≠ -w →
      ∃ o2 : Chunk, (set_block env cs x y z w)[j]? = some o2 ∧ o2.dirty = 1 ∧
        map_get o2.map x y z = -w) ∧
    (|x| < 2 ^ 24 → |z| < 2 ^ 24 →
      (x = CHUNK_SIZE * chunked (int_to_float x) →
        (chunked (int_to_float x) - 1, chunked (int_to_float z)) ∈ shadow_targets x z) ∧
      (x = CHUNK_SIZE * chunked (int_to_float x) + (CHUNK_SIZE - 1) →
        (chunked (int_to_float x) + 1, chunked (int_to_float z)) ∈ shadow_targets x z) ∧
      (z = CHUNK_SIZE * chunked (int_to_float z) →
        (chunked (int_to_float x), chunked (int_to_float z) - 1) ∈ shadow_targets x z) ∧
      (z = CHUNK_SIZE * chunked (int_to_float z) + (CHUNK_SIZE - 1) →
        (chunked (int_to_float x), chunked (int_to_float z) + 1) ∈ shadow_targets x z)) := by
  refine ⟨?_, ?_, ?_⟩
  · intro hch
    obtain ⟨b, hb, hbc⟩ := set_block_owner_get env cs x y z w i c hf hc
    rw [block_edit_of_ne_zero _ _ x y z w hw] at hb
    refine ⟨_, hb, mark_true_dirty b (hbc ((map_set_changed _ _ _ _ _).2 hch)) _, ?_⟩
    rw [mark_map, (put_block_fields _ _ _ _ _).2.2]
    exact map_get_map_set c.map x y z w
  · intro t ht j o hfj ho hch
    obtain ⟨b, hb, hbc⟩ := set_block_target_get env cs x y z w t ht j o hfj ho
    refine ⟨_, hb, mark_true_dirty b (hbc ((map_set_changed _ _ _ _ _).2 hch)) _, ?_⟩
    rw [mark_map, (put_block_fields _ _ _ _ _).2.2]
    exact map_get_map_set o.map x y z (-w)
  · intro hxb hzb
    have hb := shadow_targets_boundary x z hxb hzb
    have hx := chunked_int_small x (le_of_lt hxb)
    have hz := chunked_int_small z (le_of_lt hzb)
    refine ⟨?_, ?_, ?_, ?_⟩
    · intro h
      refine hb.1 ?_
      unfold CHUNK_SIZE at h
      omega
    · intro h
      refine hb.2.1 ?_
      unfold CHUNK_SIZE at h
      omega
    · intro h
      refine hb.2.2.1 ?_
      unfold CHUNK_SIZE at h
      omega
    · intro h
      refine hb.2.2.2 ?_
      unfold CHUNK_SIZE at h
      omega

theorem boundary_edit_marks_neighbours_witness :
    (5 : Int) ≠ 0 ∧
    find_chunk four_chunks (chunked (int_to_float 0)) (chunked (int_to_float 0)) = some 0 ∧
    four_chunks[0]? = some (chunk_pq 0 0) ∧
    (∃ c2 : Chunk, (set_block env0 four_chunks 0 0 0 5)[0]? = some c2 ∧ c2.dirty = 1 ∧
      map_get c2.map 0 0 0 = 5) ∧
    (∃ o2 : Chunk, (set_block env0 four_chunks 0 0 0 5)[1]? = some o2 ∧ o2.dirty = 1 ∧
      map_get o2.map 0 0 0 = -5) ∧
    (chunked (int_to_float 0) - 1, chunked (int_to_float 0)) ∈ shadow_targets 0 0 :=
  have h := boundary_edit_marks_neighbours env0 four_chunks 0 0 0 5 0 (chunk_pq 0 0)
    (by decide) (by decide!) rfl
  ⟨by decide, by decide!, rfl, h.1 (by decide),
    h.2.1 (-1, 0) (by decide!) 1 (chunk_pq (-1) 0) (by decide) rfl (by decide),
    (h.2.2 (by decide) (by decide)).1 (by decide!)⟩

/-! ## C14: removing a block clears its attachments -/

/-- C14. Block removal clears attachments.  With the owning chunk resident (slot
`i`), after `set_block(x, y, z, 0)` the owner's sign list holds no sign at
`(x, y, z)` and its light map reads `0` there; every other slot, the chunks that
receive the shadow write among them, keeps its sign list and its light map. -/
theorem block_removal_clears_attachments (env : Env) (cs : List Chunk) (x y z : Int)
    (i : Nat) (c : Chunk)
    (hf : find_chunk cs (chunked (int_to_float x)) (chunked (int_to_float z)) = some i)
    (hc : cs[i]? = some c) :
    (∃ c2 : Chunk, (set_block env cs x y z 0)[i]? = some c2 ∧
      (∀ s ∈ c2.signs, ¬ (s.x = x ∧ s.y = y ∧ s.z = z)) ∧ map_get c2.lights x y z = 0) ∧
    (∀ (j : Nat) (o : Chunk), cs[j]? = some o → j ≠ i →
      ∃ o2 : Chunk, (set_block env cs x y z 0)[j]? = some o2 ∧
        o2.signs = o.signs ∧ o2.lights = o.lights) := by
  constructor
  · obtain ⟨b, hb, -⟩ := set_block_owner_get env cs x y z 0 i c hf hc
    unfold block_edit at hb
    rw [if_pos ⟨rfl, rfl, rfl⟩] at hb
    refine ⟨_, hb, ?_, ?_⟩
    · intro s hs
      rw [(mark_signs_lights b _).1, (put_light_fields _ _ _ _ _).1,
        (unset_sign_slot_fields _ _ _ _).1] at hs
      exact not_mem_remove_all _ x y z s hs
    · rw [(mark_signs_lights b _).2, (put_light_fields _ _ _ _ _).2.1]
      exact map_get_map_set _ x y z 0
  · intro j o ho hji
    have hown : find_chunk cs (chunked (int_to_float x)) (chunked (int_to_float z)) ≠ some j := by
      rw [hf]
      intro h
      exact hji (Option.some.inj h).symm
    by_cases hex : ∃ t ∈ shadow_targets x z, find_chunk cs t.1 t.2 = some j
    · obtain ⟨t, ht, hft⟩ := hex
      obtain ⟨b, hb, -⟩ := set_block_target_get env cs x y z 0 t ht j o hft ho
      refine ⟨_, hb, ?_, ?_⟩
      · rw [(mark_signs_lights b _).1]; rfl
      · rw [(mark_signs_lights b _).2]; rfl
    · have hno : ∀ t ∈ shadow_targets x z, find_chunk cs t.1 t.2 ≠ some j :=
        fun t ht hft => hex ⟨t, ht, hft⟩
      obtain ⟨b, hb⟩ := set_block_other_get env cs x y z 0 j o ho hown hno
      exact ⟨_, hb, (mark_signs_lights b o).1, (mark_signs_lights b o).2⟩

theorem block_removal_clears_attachments_witness :
    find_chunk decorated_row (chunked (int_to_float 0)) (chunked (int_to_float 0)) = some 0 ∧
    decorated_row[0]? = some decorated_chunk ∧
    (∃ c2 : Chunk, (set_block env0 decorated_row 0 0 0 0)[0]? = some c2 ∧
      (∀ s ∈ c2.signs, ¬ (s.x = 0 ∧ s.y = 0 ∧ s.z = 0)) ∧ map_get c2.lights 0 0 0 = 0) :=
  ⟨by decide!, rfl,
    (block_removal_clears_attachments env0 decorated_row 0 0 0 0 decorated_chunk
      (by decide!) rfl).1⟩

/-! ## The count pass of `compute_chunk`: lemmas -/

theorem count_cell_faces (env : Env) (opaq : Grid) (ox oz : Int) (st : CountState) (c : Cell) :
    (count_cell env opaq ox oz st c).faces = st.faces + cell_faces env opaq ox oz c := by
  unfold count_cell cell_faces
  split
  · simp
  · simp only
    split
    · simp
    · split <;> rfl

theorem count_fold_faces (env : Env) (opaq : Grid) (ox oz : Int) (cells : List Cell)
    (st : CountState) :
    (cells.foldl (count_cell env opaq ox oz) st).faces =
      st.faces + (cells.map (cell_faces env opaq ox oz)).sum := by
  induction cells generalizing st with
  | nil => simp
  | cons c t ih =>
    simp only [List.foldl_cons, List.map_cons, List.sum_cons]
    rw [ih, count_cell_faces]
    ring

/-- The face count of `compute_chunk` is the sum of the contributions of the
cells of the centre block map. -/
theorem compute_chunk_faces (env : Env) (item : WorkerItem) :
    (compute_chunk env item).faces =
      ((centre_cells item.block_maps).map
        (cell_faces env (item_opacity env item) (grid_origin item.p) (grid_origin item.q))).sum := by
  have h := count_fold_faces env (item_opacity env item) (grid_origin item.p)
    (grid_origin item.q) (centre_cells item.block_maps)
    { miny := env.MAX_BLOCK_HEIGHT, maxy := 0, faces := 0 }
  simp only [zero_add] at h
  exact h

theorem cell_total_enclosed (opaq : Grid) (ox oz : Int) (c : Cell)
    (h : enclosed opaq (c.1 - ox) (c.2.1 - (-1)) (c.2.2.1 - oz)) :
    cell_total opaq ox oz c = 0 := by
  unfold enclosed axis_neighbours at h
  unfold cell_total face_flags
  generalize c.2.1 - (-1) = gy at h ⊢
  generalize c.1 - ox = gx at h ⊢
  generalize c.2.2.1 - oz = gz at h ⊢
  simp only [List.mem_cons, List.mem_singleton, List.not_mem_nil, or_false, forall_eq_or_imp,
    forall_eq] at h
  obtain ⟨h1, h2, h3, h4, h5, h6⟩ := h
  simp [cbool, h1, h2, h3, h4, h5, h6]

theorem cell_total_exposed (opaq : Grid) (ox oz : Int) (c : Cell)
    (h : exposed opaq (c.1 - ox) (c.2.1 - (-1)) (c.2.2.1 - oz)) :
    cell_total opaq ox oz c = if c.2.1 > 0 then 6 else 5 := by
  unfold exposed axis_neighbours at h
  unfold cell_total face_flags
  generalize c.2.1 - (-1) = gy at h ⊢
  generalize c.1 - ox = gx at h ⊢
  generalize c.2.2.1 - oz = gz at h ⊢
  simp only [List.mem_cons, List.mem_singleton, List.not_mem_nil, or_false, forall_eq_or_imp,
    forall_eq] at h
  obtain ⟨h1, h2, h3, h4, h5, h6⟩ := h
  by_cases hy : c.2.1 > 0
  · simp [cbool, h1, h2, h3, h4, h5, h6, hy]
  · simp [cbool, h1, h2, h3, h4, h5, h6, hy]

theorem cell_total_range (opaq : Grid) (ox oz : Int) (c : Cell) :
    0 ≤ cell_total opaq ox oz c ∧ cell_total opaq ox oz c ≤ 6 := by
  unfold cell_total face_flags cbool
  simp only [List.sum_cons, List.sum_nil]
  constructor
  · split_ifs <;> omega
  · split_ifs <;> omega


theorem cell_total_eq_zero_iff (opaq : Grid) (ox oz : Int) (c : Cell) :
    cell_total opaq ox oz c = 0 ↔
      ∀ f ∈ face_flags opaq (c.1 - ox) (c.2.1 - (-1)) (c.2.2.1 - oz) c.2.1, f = 0 := by
  unfold cell_total face_flags cbool
  simp only [List.sum_cons, List.sum_nil, List.mem_cons, List.mem_singleton,
    List.not_mem_nil, or_false, forall_eq_or_imp, forall_eq]
  constructor
  · intro h
    split_ifs at h ⊢ <;> omega
  · intro h
    split_ifs at h ⊢ <;> omega

theorem cell_total_pos_of_open (opaq : Grid) (ox oz : Int) (c : Cell) (hy : 0 < c.2.1)
    (h : ¬ enclosed opaq (c.1 - ox) (c.2.1 - (-1)) (c.2.2.1 - oz)) :
    cell_total opaq ox oz c ≠ 0 := by
  intro h0
  apply h
  unfold cell_total face_flags at h0
  unfold enclosed axis_neighbours
  generalize c.2.1 - (-1) = gy at h0 ⊢
  generalize c.1 - ox = gx at h0 ⊢
  generalize c.2.2.1 - oz = gz at h0 ⊢
  simp only [List.mem_cons, List.mem_singleton, List.not_mem_nil, or_false, forall_eq_or_imp,
    forall_eq]
  simp only [cbool, List.sum_cons, List.sum_nil, gt_iff_lt, hy, decide_True, Bool.and_true,
    decide_eq_true_eq] at h0
  refine ⟨?_, ?_, ?_, ?_, ?_, ?_⟩ <;> intro hz <;> rw [hz] at h0 <;>
    simp only [if_true] at h0 <;> split_ifs at h0 <;> omega

/-! ## C17: an enclosed cell -/

/-- C17. In `compute_chunk`, a cell of the centre block map with positive block
type whose six axis neighbours are all opaque in the grid contributes nothing,
plant or not: its contribution to the face count is `0`, the count pass leaves
`miny`, `maxy` and `faces` as they are, and the geometry pass writes nothing and
leaves `offset` as it is.  (The face count of `compute_chunk` is the sum of the
contributions of the cells.) -/
theorem enclosed_cell_contributes_nothing (env : Env) (item : WorkerItem) (c : Cell)
    (_hc : c ∈ centre_cells item.block_maps) (hw : 0 < c.2.2.2)
    (henc : enclosed (item_opacity env item) (c.1 - grid_origin item.p) (c.2.1 - (-1))
      (c.2.2.1 - grid_origin item.q)) :
    cell_faces env (item_opacity env item) (grid_origin item.p) (grid_origin item.q) c = 0 ∧
    (∀ st : CountState,
      count_cell env (item_opacity env item) (grid_origin item.p) (grid_origin item.q) st c =
        st) ∧
    (∀ (light highest : Grid) (st : GeomState),
      geom_cell env (item_opacity env item) light highest (grid_origin item.p)
        (grid_origin item.q) st c = st) ∧
    (compute_chunk env item).faces =
      ((centre_cells item.block_maps).map
        (cell_faces env (item_opacity env item) (grid_origin item.p) (grid_origin item.q))).sum := by
  have ht := cell_total_enclosed _ _ _ c henc
  have hw2 : ¬ c.2.2.2 ≤ 0 := by omega
  refine ⟨?_, ?_, ?_, compute_chunk_faces env item⟩
  · unfold cell_faces
    rw [if_neg hw2, if_pos ht]
  · intro st
    unfold count_cell
    rw [if_neg hw2]
    simp only [ht, if_true]
  · intro light highest st
    unfold geom_cell
    simp only [ht, if_neg hw2, if_true]

theorem enclosed_cell_contributes_nothing_witness :
    ((1, 5, 1, 1) : Cell) ∈ centre_cells (item_of (enclosed_cells 1)).block_maps ∧
    enclosed (item_opacity env0 (item_of (enclosed_cells 1))) (1 - grid_origin 0) (5 - (-1))
      (1 - grid_origin 0) ∧
    cell_faces env0 (item_opacity env0 (item_of (enclosed_cells 1))) (grid_origin 0)
      (grid_origin 0) (1, 5, 1, 1) = 0 :=
  ⟨by decide, by decide,
    (enclosed_cell_contributes_nothing env0 (item_of (enclosed_cells 1)) (1, 5, 1, 1)
      (by decide) (by decide) (by decide)).1⟩

/-! ## C18: an exposed cube -/

/-- C18, counterexample.  A single cube at height `y = 0` with no neighbour at
all: every axis neighbour is non-opaque and the block is not a plant, yet
`compute_chunk` counts `5` faces, because the flag `f4` of the bottom face also
requires `ey > 0`. -/
theorem exposed_cube_on_floor_has_five_faces :
    ((0, 0, 0, 1) : Cell) ∈ centre_cells (item_of [(0, 0, 0, 1)]).block_maps ∧
    env0.is_plant 1 = false ∧
    exposed (item_opacity env0 (item_of [(0, 0, 0, 1)])) (0 - grid_origin 0) (0 - (-1))
      (0 - grid_origin 0) ∧
    (compute_chunk env0 (item_of [(0, 0, 0, 1)])).faces = 5 := by
  decide

/-- C18, amended.  In `compute_chunk`, a non-plant cell of the centre block map
with positive block type whose six axis neighbours are all non-opaque
contributes exactly `6` faces when its height `y` is positive and exactly `5`
(all but the bottom face) when `y <= 0`; the count pass adds that number to
`faces` and extends `miny`, `maxy` to the cell's height. -/
theorem exposed_cube_faces (env : Env) (item : WorkerItem) (c : Cell)
    (_hc : c ∈ centre_cells item.block_maps) (hw : 0 < c.2.2.2)
    (hp : env.is_plant c.2.2.2 = false)
    (hexp : exposed (item_opacity env item) (c.1 - grid_origin item.p) (c.2.1 - (-1))
      (c.2.2.1 - grid_origin item.q)) :
    cell_faces env (item_opacity env item) (grid_origin item.p) (grid_origin item.q) c =
      (if c.2.1 > 0 then 6 else 5) ∧
    (∀ st : CountState,
      count_cell env (item_opacity env item) (grid_origin item.p) (grid_origin item.q) st c =
        { miny := min st.miny c.2.1, maxy := max st.maxy c.2.1,
          faces := st.faces + (if c.2.1 > 0 then 6 else 5) }) ∧
    (compute_chunk env item).faces =
      ((centre_cells item.block_maps).map
        (cell_faces env (item_opacity env item) (grid_origin item.p) (grid_origin item.q))).sum := by
  have ht := cell_total_exposed _ _ _ c hexp
  have hw2 : ¬ c.2.2.2 ≤ 0 := by omega
  have hne : cell_total (item_opacity env item) (grid_origin item.p) (grid_origin item.q) c ≠ 0 := by
    rw [ht]
    split <;> decide
  refine ⟨?_, ?_, compute_chunk_faces env item⟩
  · unfold cell_faces
    rw [if_neg hw2, if_neg hne, hp, ht]
    simp
  · intro st
    unfold count_cell
    rw [if_neg hw2]
    simp only
    rw [if_neg hne, hp, ht]
    simp

theorem exposed_cube_faces_witness :
    ((0, 5, 0, 1) : Cell) ∈ centre_cells (item_of [(0, 5, 0, 1)]).block_maps ∧
    env0.is_plant 1 = false ∧
    exposed (item_opacity env0 (item_of [(0, 5, 0, 1)])) (0 - grid_origin 0) (5 - (-1))
      (0 - grid_origin 0) ∧
    cell_faces env0 (item_opacity env0 (item_of [(0, 5, 0, 1)])) (grid_origin 0)
      (grid_origin 0) (0, 5, 0, 1) = (if (5 : Int) > 0 then 6 else 5) :=
  ⟨by decide, rfl, by decide,
    (exposed_cube_faces env0 (item_of [(0, 5, 0, 1)]) (0, 5, 0, 1)
      (by decide) (by decide) rfl (by decide)).1⟩

/-! ## C19: a plant cell -/

/-- C19, counterexample.  A plant at `(1, 5, 1)` with an opaque block at each of
its six axis neighbours: `compute_chunk` skips the plant at `total == 0`, before
the test `is_plant`, so the plant contributes `0` faces and the face count `36`
is that of the six cubes alone. -/
theorem enclosed_plant_has_no_faces :
    env_plant.is_plant 17 = true ∧
    ((1, 5, 1, 17) : Cell) ∈ centre_cells (item_of (enclosed_cells 17)).block_maps ∧
    enclosed (item_opacity env_plant (item_of (enclosed_cells 17))) (1 - grid_origin 0)
      (5 - (-1)) (1 - grid_origin 0) ∧
    cell_faces env_plant (item_opacity env_plant (item_of (enclosed_cells 17))) (grid_origin 0)
      (grid_origin 0) (1, 5, 1, 17) = 0 ∧
    (compute_chunk env_plant (item_of (enclosed_cells 17))).faces = 36 := by
  decide

/-- C19, amended.  In `compute_chunk`, a plant cell of the centre block map with
positive block type contributes exactly `4` faces when at least one of its six
face flags is set, and `0` faces when none is (`total == 0`); with all six
neighbours opaque none is set, and for a cell above height `0` with a
non-opaque neighbour one is.  In the first case the count pass adds `4` to
`faces` and the geometry pass advances `offset` by `4 * 60`. -/
theorem plant_cell_faces (env : Env) (item : WorkerItem) (c : Cell)
    (_hc : c ∈ centre_cells item.block_maps) (hw : 0 < c.2.2.2)
    (hp : env.is_plant c.2.2.2 = true) :
    cell_faces env (item_opacity env item) (grid_origin item.p) (grid_origin item.q) c =
      (if cell_total (item_opacity env item) (grid_origin item.p) (grid_origin item.q) c = 0
        then 0 else 4) ∧
    (cell_total (item_opacity env item) (grid_origin item.p) (grid_origin item.q) c = 0 ↔
      ∀ f ∈ face_flags (item_opacity env item) (c.1 - grid_origin item.p) (c.2.1 - (-1))
        (c.2.2.1 - grid_origin item.q) c.2.1, f = 0) ∧
    (enclosed (item_opacity env item) (c.1 - grid_origin item.p) (c.2.1 - (-1))
        (c.2.2.1 - grid_origin item.q) →
      cell_faces env (item_opacity env item) (grid_origin item.p) (grid_origin item.q) c = 0) ∧
    (0 < c.2.1 →
      ¬ enclosed (item_opacity env item) (c.1 - grid_origin item.p) (c.2.1 - (-1))
        (c.2.2.1 - grid_origin item.q) →
      cell_faces env (item_opacity env item) (grid_origin item.p) (grid_origin item.q) c = 4) ∧
    (cell_total (item_opacity env item) (grid_origin item.p) (grid_origin item.q) c ≠ 0 →
      (∀ st : CountState,
        (count_cell env (item_opacity env item) (grid_origin item.p) (grid_origin item.q)
          st c).faces = st.faces + 4) ∧
      (∀ (light highest : Grid) (st : GeomState),
        (geom_cell env (item_opacity env item) light highest (grid_origin item.p)
          (grid_origin item.q) st c).offset = st.offset + 4 * 60)) ∧
    (compute_chunk env item).faces =
      ((centre_cells item.block_maps).map
        (cell_faces env (item_opacity env item) (grid_origin item.p) (grid_origin item.q))).sum := by
  have hw2 : ¬ c.2.2.2 ≤ 0 := by omega
  have hcf : cell_faces env (item_opacity env item) (grid_origin item.p) (grid_origin item.q) c =
      (if cell_total (item_opacity env item) (grid_origin item.p) (grid_origin item.q) c = 0
        then 0 else 4) := by
    unfold cell_faces
    rw [if_neg hw2, hp]
    simp
  refine ⟨hcf, cell_total_eq_zero_iff _ _ _ c, ?_, ?_, ?_, compute_chunk_faces env item⟩
  · intro henc
    rw [hcf, if_pos (cell_total_enclosed _ _ _ c henc)]
  · intro hy hopen
    rw [hcf, if_neg (cell_total_pos_of_open _ _ _ c hy hopen)]
  · intro hne
    constructor
    · intro st
      rw [count_cell_faces, hcf, if_neg hne]
    · intro light highest st
      unfold geom_cell
      simp only [if_neg hw2, if_neg hne, hp, if_true]

theorem plant_cell_faces_witness :
    ((1, 5, 1, 17) : Cell) ∈ centre_cells (item_of [(1, 5, 1, 17)]).block_maps ∧
    env_plant.is_plant 17 = true ∧
    cell_faces env_plant (item_opacity env_plant (item_of [(1, 5, 1, 17)])) (grid_origin 0)
      (grid_origin 0) (1, 5, 1, 17) = 4 :=
  ⟨by decide, rfl,
    (plant_cell_faces env_plant (item_of [(1, 5, 1, 17)]) (1, 5, 1, 17)
      (by decide) (by decide) rfl).2.2.2.1 (by decide) (by decide)⟩

/-! ## Null pointers and empty maps in `compute_chunk`: lemmas -/

theorem populate_map_eq (env : Env) (ox oz : Int) (st : Grid × Grid) (om : Option Map) :
    populate_map env ox oz st om = (cells_of om).foldl (populate_cell env ox oz) st := by
  cases om <;> rfl

theorem flood_map_eq (env : Env) (opaq : Grid) (ox oz : Int) (light : Grid) (om : Option Map) :
    flood_map env opaq ox oz light om =
      (cells_of om).foldl (fun l c =>
        light_fill opaq (Y_SIZE env) (fill_fuel c.2.2.2) l
          (c.1 - ox) (c.2.1 - (-1)) (c.2.2.1 - oz) c.2.2.2 1) light := by
  cases om <;> rfl

theorem populate_eq (env : Env) (ox oz : Int) (t : List (Option Map)) :
    populate env ox oz t =
      ((table9 t).map cells_of).foldl
        (fun st cells => cells.foldl (populate_cell env ox oz) st) (grid_zero, grid_zero) := by
  unfold populate
  rw [List.foldl_map]
  congr 1
  funext st om
  exact populate_map_eq env ox oz st om

theorem has_light_flag_eq (env : Env) (t : List (Option Map)) :
    has_light_flag env t =
      (env.SHOW_LIGHTS && ((table9 t).map cells_of).any (fun cells => decide (cells.length ≠ 0))) := by
  unfold has_light_flag
  congr 1
  generalize table9 t = l
  induction l with
  | nil => rfl
  | cons om l ih =>
    simp only [List.any_cons, List.map_cons, ih]
    cases om <;> rfl

theorem flood_eq (env : Env) (opaq : Grid) (ox oz : Int) (t : List (Option Map)) :
    flood env opaq ox oz t =
      if (env.SHOW_LIGHTS &&
          ((table9 t).map cells_of).any (fun cells => decide (cells.length ≠ 0))) = true then
        ((table9 t).map cells_of).foldl (fun light cells =>
          cells.foldl (fun l c =>
            light_fill opaq (Y_SIZE env) (fill_fuel c.2.2.2) l
              (c.1 - ox) (c.2.1 - (-1)) (c.2.2.1 - oz) c.2.2.2 1) light) grid_zero
      else grid_zero := by
  unfold flood
  rw [has_light_flag_eq, List.foldl_map]
  congr 2
  funext light om
  exact flood_map_eq env opaq ox oz light om

theorem centre_cells_eq (t : List (Option Map)) :
    centre_cells t = ((table9 t).map cells_of).getD 4 [] := by
  unfold centre_cells table9
  simp only [List.map_map]
  have h : (List.map (cells_of ∘ fun (k : Nat) => t.getD k none) (List.range 9)).getD 4 [] =
      cells_of (t.getD 4 none) := by
    simp [List.range_succ]
  rw [h]
  cases t.getD 4 none <;> rfl

/-- The outputs of `compute_chunk` depend on the two pointer tables only through
the entries the loops visit. -/
theorem compute_chunk_congr (env : Env) (item1 item2 : WorkerItem)
    (hp : item1.p = item2.p) (hq : item1.q = item2.q)
    (hb : (table9 item1.block_maps).map cells_of = (table9 item2.block_maps).map cells_of)
    (hl : (table9 item1.light_maps).map cells_of = (table9 item2.light_maps).map cells_of) :
    (compute_chunk env item1).faces = (compute_chunk env item2).faces ∧
    (compute_chunk env item1).miny = (compute_chunk env item2).miny ∧
    (compute_chunk env item1).maxy = (compute_chunk env item2).maxy ∧
    (compute_chunk env item1).data = (compute_chunk env item2).data := by
  have h1 : ∀ ox oz, populate env ox oz item1.block_maps = populate env ox oz item2.block_maps := by
    intro ox oz
    rw [populate_eq, populate_eq, hb]
  have h2 : ∀ opaq ox oz, flood env opaq ox oz item1.light_maps =
      flood env opaq ox oz item2.light_maps := by
    intro opaq ox oz
    rw [flood_eq, flood_eq, hl]
  have h3 : centre_cells item1.block_maps = centre_cells item2.block_maps := by
    rw [centre_cells_eq, centre_cells_eq, hb]
  unfold compute_chunk
  simp only [hp, hq, h1, h2, h3, and_self]

theorem table9_set (t : List (Option Map)) (k : Nat) (e : Map) (he : e.cells = []) :
    (table9 (t.set k none)).map cells_of = (table9 (t.set k (some e))).map cells_of := by
  unfold table9
  simp only [List.map_map]
  apply List.map_congr_left
  intro i _
  simp only [Function.comp, List.getD_eq_getElem?_getD, List.getElem?_set]
  by_cases hki : k = i
  · simp only [if_pos hki]
    by_cases hlt : k < t.length
    · simp only [if_pos hlt, Option.getD_some, cells_of, he]
    · simp only [if_neg hlt]
  · simp only [if_neg hki]

/-! ## C20: missing neighbour data -/

/-- C20. Missing neighbour data.  For every item and every position `k` of the
`3×3` tables, `compute_chunk` with a null block-map pointer and a null light-map
pointer at `k` returns the same face count, `miny`, `maxy` and geometry as
`compute_chunk` with an empty block map and an empty light map at `k`.  (The
centre position `k = 4` is left out because the C code dereferences the centre
block map without a null test.) -/
theorem missing_neighbour_as_empty (env : Env) (item : WorkerItem) (k : Nat) (e1 e2 : Map)
    (_hk : k ≠ 4) (h1 : e1.cells = []) (h2 : e2.cells = []) :
    (compute_chunk env { item with block_maps := item.block_maps.set k none,
                                   light_maps := item.light_maps.set k none }).faces =
      (compute_chunk env { item with block_maps := item.block_maps.set k (some e1),
                                     light_maps := item.light_maps.set k (some e2) }).faces ∧
    (compute_chunk env { item with block_maps := item.block_maps.set k none,
                                   light_maps := item.light_maps.set k none }).miny =
      (compute_chunk env { item with block_maps := item.block_maps.set k (some e1),
                                     light_maps := item.light_maps.set k (some e2) }).miny ∧
    (compute_chunk env { item with block_maps := item.block_maps.set k none,
                                   light_maps := item.light_maps.set k none }).maxy =
      (compute_chunk env { item with block_maps := item.block_maps.set k (some e1),
                                     light_maps := item.light_maps.set k (some e2) }).maxy ∧
    (compute_chunk env { item with block_maps := item.block_maps.set k none,
                                   light_maps := item.light_maps.set k none }).data =
      (compute_chunk env { item with block_maps := item.block_maps.set k (some e1),
                                     light_maps := item.light_maps.set k (some e2) }).data :=
  compute_chunk_congr env _ _ rfl rfl (table9_set item.block_maps k e1 h1)
    (table9_set item.light_maps k e2 h2)

theorem missing_neighbour_as_empty_witness :
    (1 : Nat) ≠ 4 ∧ zeroMap.cells = [] ∧
    (compute_chunk env0 { border_item with block_maps := border_item.block_maps.set 1 none,
                                           light_maps := border_item.light_maps.set 1 none }).faces =
      (compute_chunk env0 { border_item with
        block_maps := border_item.block_maps.set 1 (some zeroMap),
        light_maps := border_item.light_maps.set 1 (some zeroMap) }).faces :=
  ⟨by decide, rfl,
    (missing_neighbour_as_empty env0 border_item 1 zeroMap zeroMap (by decide) rfl rfl).1⟩

/-! ## The counter of `light_fill` is never exhausted: lemmas -/

/-- A call of `light_fill` with `w < -16` returns at one of its first two
tests. -/
theorem light_fill_low (opaq : Grid) (ysize : Int) (n : Nat) (light : Grid)
    (x y z w force : Int) (hw : w < -16) :
    light_fill opaq ysize n light x y z w force = light := by
  cases n with
  | zero => rfl
  | succ n =>
    unfold light_fill
    by_cases h1 : x + w < XZ_LO ∨ z + w < XZ_LO
    · rw [if_pos h1]
    · rw [if_neg h1]
      have h2 : x - w > XZ_HI ∨ z - w > XZ_HI := by
        unfold XZ_LO CHUNK_SIZE at h1
        unfold XZ_HI CHUNK_SIZE
        omega
      rw [if_pos h2]

/-- Any two counters of at least `w + 18` give the same result: the recursion of
`light_fill` ends before the counter of `fill_fuel` runs out. -/
theorem light_fill_fuel (opaq : Grid) (ysize : Int) (n m : Nat) (light : Grid)
    (x y z w force : Int) (hn : fill_fuel w ≤ n) (hm : fill_fuel w ≤ m) :
    light_fill opaq ysize n light x y z w force =
      light_fill opaq ysize m light x y z w force := by
  induction n generalizing m light x y z w force with
  | zero =>
    have hw : w < -16 := by
      unfold fill_fuel at hn
      omega
    rw [light_fill_low _ _ _ _ _ _ _ _ _ hw, light_fill_low _ _ _ _ _ _ _ _ _ hw]
  | succ n ih =>
    cases m with
    | zero =>
      have hw : w < -16 := by
        unfold fill_fuel at hm
        omega
      rw [light_fill_low _ _ _ _ _ _ _ _ _ hw, light_fill_low _ _ _ _ _ _ _ _ _ hw]
    | succ m =>
      have hn2 : fill_fuel (w - 1) ≤ n := by
        unfold fill_fuel at hn ⊢
        omega
      have hm2 : fill_fuel (w - 1) ≤ m := by
        unfold fill_fuel at hm ⊢
        omega
      unfold light_fill
      simp only [ih m _ _ _ _ _ _ hn2 hm2]

/-! ## C23: chunk visibility -/

/-- C23, counterexample.  The first plane is `0.1f * x - (0.1f * 96)` with the
coefficients in binary32.  For chunk `(2, 0)` the exact value of the plane
expression, the signed distance, is negative at all eight corners of the box,
but at the corners with `x = 96` the `float` product `0.1f * 96` is the
constant itself, the computed `d` is `0`, and `chunk_visible` returns `1`. -/
theorem chunk_visible_rounding :
    chunk_visible 0 planes_tenth 2 0 0 0 = 1 ∧
    plane_distance planes_tenth 0 (96, 0, -1) = 0 ∧
    ∀ pt ∈ chunk_points 2 0 0 0,
      planes_tenth 0 0 * (pt.1 : ℚ) + planes_tenth 0 1 * (pt.2.1 : ℚ) +
        planes_tenth 0 2 * (pt.2.2 : ℚ) + planes_tenth 0 3 < 0 := by
  decide!

/-- C23, amended.  Visibility.  The function `chunk_visible` returns `0` exactly when one of
the first `n` planes (`n = 4` with `g->ortho` set, `6` otherwise) has all eight
corners of the chunk's box at negative signed distance, and `1` otherwise.  The
signed distance is the variable `d` of the function, the plane expression
evaluated in `float` arithmetic with every product and sum rounded to binary32;
the corners are those of the box from `32p - 1` to `32p + 32` in `x`, from
`32q - 1` to `32q + 32` in `z` and from `miny` to `maxy` in `y`; and for every
plane the test `in == 0` comes out the same with the `break` of the inner loop
as without it. -/
theorem chunk_visible_iff (ortho : Int) (planes : Nat → Nat → ℚ) (p q miny maxy : Int) :
    (chunk_visible ortho planes p q miny maxy = 0 ↔
      ∃ i : Nat, i < (if ortho ≠ 0 then 4 else 6) ∧
        ∀ pt ∈ chunk_points p q miny maxy, plane_distance planes i pt < 0) ∧
    (chunk_visible ortho planes p q miny maxy ≠ 0 →
      chunk_visible ortho planes p q miny maxy = 1) ∧
    (∀ (i : Nat) (pt : Int × Int × Int),
      plane_distance planes i pt =
        f32 (f32 (f32 (f32 (planes i 0 * f32 (pt.1 : ℚ)) + f32 (planes i 1 * f32 (pt.2.1 : ℚ))) +
          f32 (planes i 2 * f32 (pt.2.2 : ℚ))) + planes i 3)) ∧
    chunk_points p q miny maxy =
      [(32 * p - 1, miny, 32 * q - 1), (32 * p + 32, miny, 32 * q - 1),
       (32 * p - 1, miny, 32 * q + 32), (32 * p + 32, miny, 32 * q + 32),
       (32 * p - 1, maxy, 32 * q - 1), (32 * p + 32, maxy, 32 * q - 1),
       (32 * p - 1, maxy, 32 * q + 32), (32 * p + 32, maxy, 32 * q + 32)] ∧
    (∀ i : Nat,
      (plane_count planes i (chunk_points p q miny maxy) 0 0).1 = 0 ↔
      (plane_count_all planes i (chunk_points p q miny maxy) 0 0).1 = 0) := by
  refine ⟨chunk_visible_zero_iff ortho planes p q miny maxy, ?_, fun i pt => rfl, ?_, ?_⟩
  · intro h
    rcases chunk_visible_values ortho planes p q miny maxy with h0 | h1
    · exact absurd h0 h
    · exact h1
  · unfold chunk_points CHUNK_SIZE
    simp only [List.cons.injEq, Prod.mk.injEq, and_true, true_and]
    omega
  · intro i
    rw [plane_count_in_zero, plane_count_all_in_zero]

theorem chunk_visible_iff_witness :
    chunk_visible 0 planes_below 0 0 0 0 = 0 ∧
    ∃ i : Nat, i < (if (0 : Int) ≠ 0 then 4 else 6) ∧
      ∀ pt ∈ chunk_points 0 0 0 0, plane_distance planes_below i pt < 0 :=
  ⟨by decide!, (chunk_visible_iff 0 planes_below 0 0 0 0).1.1 (by decide!)⟩

/-! ## The two passes of `compute_chunk`: lemmas -/

theorem compute_chunk_data (env : Env) (item : WorkerItem) :
    (compute_chunk env item).data =
      assemble (compute_chunk env item).faces (item_geometry env item).writes := rfl

theorem cell_faces_nonneg (env : Env) (opaq : Grid) (ox oz : Int) (c : Cell) :
    0 ≤ cell_faces env opaq ox oz c := by
  have h := cell_total_range opaq ox oz c
  unfold cell_faces
  split_ifs <;> omega

theorem geom_cell_offset (env : Env) (opaq light highest : Grid) (ox oz : Int) (st : GeomState)
    (c : Cell) :
    (geom_cell env opaq light highest ox oz st c).offset =
      st.offset + 60 * cell_faces env opaq ox oz c := by
  unfold geom_cell cell_faces
  simp only
  split
  · simp
  · split
    · simp
    · split
      · simp only; ring
      · simp only; ring

theorem geom_fold_offset (env : Env) (opaq light highest : Grid) (ox oz : Int)
    (cells : List Cell) (st : GeomState) :
    (cells.foldl (geom_cell env opaq light highest ox oz) st).offset =
      st.offset + 60 * (cells.map (cell_faces env opaq ox oz)).sum := by
  induction cells generalizing st with
  | nil => simp
  | cons c t ih =>
    simp only [List.foldl_cons, List.map_cons, List.sum_cons]
    rw [ih, geom_cell_offset]
    ring

theorem cell_geometry_length (env : Env) (opaq light highest : Grid) (ox oz : Int) (c : Cell)
    (hcube : ∀ ao li flags x y z n w,
      (env.make_cube ao li flags x y z n w).length = (60 * flags.sum).toNat)
    (hplant : ∀ ao li x y z n w r, (env.make_plant ao li x y z n w r).length = 240)
    (hw : ¬ c.2.2.2 ≤ 0) (ht : cell_total opaq ox oz c ≠ 0) :
    ((cell_geometry env opaq light highest ox oz c).length : Int) =
      60 * cell_faces env opaq ox oz c := by
  have hr := cell_total_range opaq ox oz c
  unfold cell_geometry cell_faces
  simp only
  rw [if_neg hw, if_neg ht]
  split
  · rw [hplant]
    rfl
  · rw [hcube]
    have : (face_flags opaq (c.1 - ox) (c.2.1 - -1) (c.2.2.1 - oz) c.2.1).sum =
        cell_total opaq ox oz c := rfl
    rw [this]
    omega

/-- The invariant of the geometry pass: `offset` is `60` times the faces of the
cells seen, and the blocks written so far lie side by side below `offset`. -/
theorem geom_fold_inv (env : Env) (opaq light highest : Grid) (ox oz : Int)
    (hcube : ∀ ao li flags x y z n w,
      (env.make_cube ao li flags x y z n w).length = (60 * flags.sum).toNat)
    (hplant : ∀ ao li x y z n w r, (env.make_plant ao li x y z n w r).length = 240)
    (cells : List Cell) (st : GeomState)
    (h1 : ∀ w ∈ st.writes, 0 ≤ w.1 ∧ w.1 + (w.2.length : Int) ≤ st.offset)
    (h2 : ((st.writes.map (fun w => (w.2.length : Int))).sum) = st.offset)
    (h3 : st.writes.Pairwise (fun a b => a.1 + (a.2.length : Int) ≤ b.1)) :
    (∀ w ∈ (cells.foldl (geom_cell env opaq light highest ox oz) st).writes,
      0 ≤ w.1 ∧ w.1 + (w.2.length : Int) ≤
        (cells.foldl (geom_cell env opaq light highest ox oz) st).offset) ∧
    (((cells.foldl (geom_cell env opaq light highest ox oz) st).writes.map
      (fun w => (w.2.length : Int))).sum) =
        (cells.foldl (geom_cell env opaq light highest ox oz) st).offset ∧
    (cells.foldl (geom_cell env opaq light highest ox oz) st).writes.Pairwise
      (fun a b => a.1 + (a.2.length : Int) ≤ b.1) := by
  induction cells generalizing st with
  | nil => exact ⟨h1, h2, h3⟩
  | cons c t ih =>
    simp only [List.foldl_cons]
    have h0 : 0 ≤ st.offset := by
      rw [← h2]
      apply List.sum_nonneg
      intro a ha
      obtain ⟨w, _, rfl⟩ := List.mem_map.1 ha
      exact Int.natCast_nonneg _
    by_cases hw : c.2.2.2 ≤ 0
    · have hst : geom_cell env opaq light highest ox oz st c = st := by
        unfold geom_cell
        simp only [if_pos hw]
      rw [hst]
      exact ih st h1 h2 h3
    · by_cases ht : cell_total opaq ox oz c = 0
      · have hst : geom_cell env opaq light highest ox oz st c = st := by
          unfold geom_cell
          simp only [if_neg hw, ht, if_true]
        rw [hst]
        exact ih st h1 h2 h3
      · have hlen := cell_geometry_length env opaq light highest ox oz c hcube hplant hw ht
        have hoff := geom_cell_offset env opaq light highest ox oz st c
        have hwr : (geom_cell env opaq light highest ox oz st c).writes =
            st.writes ++ [(st.offset, cell_geometry env opaq light highest ox oz c)] := by
          unfold geom_cell
          simp only [if_neg hw, if_neg ht]
        have hnn := cell_faces_nonneg env opaq ox oz c
        apply ih
        · intro w hmem
          rw [hwr] at hmem
          rw [hoff]
          rcases List.mem_append.1 hmem with hm | hm
          · have := h1 w hm
            constructor <;> omega
          · rw [List.mem_singleton] at hm
            subst hm
            simp only
            constructor <;> omega
        · rw [hwr, hoff, List.map_append, List.sum_append, h2]
          simp only [List.map_cons, List.map_nil, List.sum_cons, List.sum_nil, add_zero]
          rw [hlen]
        · rw [hwr, List.pairwise_append]
          refine ⟨h3, List.pairwise_singleton _ _, ?_⟩
          intro a ha b hb
          rw [List.mem_singleton] at hb
          subst hb
          exact (h1 a ha).2

theorem length_write_at (buf : List ℚ) (offset : Int) (block : List ℚ) (h0 : 0 ≤ offset)
    (h1 : offset + (block.length : Int) ≤ (buf.length : Int)) :
    (write_at buf offset block).length = buf.length := by
  unfold write_at
  simp only [List.length_append, List.length_take, List.length_drop]
  omega

theorem length_assemble_fold (writes : List (Int × List ℚ)) (buf : List ℚ)
    (h : ∀ w ∈ writes, 0 ≤ w.1 ∧ w.1 + (w.2.length : Int) ≤ (buf.length : Int)) :
    (writes.foldl (fun b w => write_at b w.1 w.2) buf).length = buf.length := by
  induction writes generalizing buf with
  | nil => rfl
  | cons w t ih =>
    simp only [List.foldl_cons]
    have hw := h w (List.mem_cons_self _ _)
    have hl := length_write_at buf w.1 w.2 hw.1 hw.2
    rw [ih, hl]
    intro w2 hw2
    rw [hl]
    exact h w2 (List.mem_cons_of_mem _ hw2)


/-! ## C30: the two passes of `compute_chunk` agree -/

/-- C30. The two passes of `compute_chunk` agree.  For every item the geometry
pass ends with `offset = 60 * faces`, where `faces` is the count of the first
pass (the sum of the contributions of the cells), so the faces emitted are the
faces counted.  When `make_cube` writes `60` floats per set face flag and
`make_plant` writes `4 * 60` floats, every block the geometry pass writes lies
inside the `60 * faces` floats of `malloc_faces(10, faces)`, the blocks lie side
by side in the order written, together they are exactly `60 * faces` floats,
and the returned buffer has that length. -/
theorem passes_agree (env : Env) (item : WorkerItem) :
    (item_geometry env item).offset = 60 * (compute_chunk env item).faces ∧
    0 ≤ (compute_chunk env item).faces ∧
    (compute_chunk env item).data =
      assemble (compute_chunk env item).faces (item_geometry env item).writes ∧
    ((∀ ao li flags x y z n w,
        (env.make_cube ao li flags x y z n w).length = (60 * flags.sum).toNat) →
      (∀ ao li x y z n w r, (env.make_plant ao li x y z n w r).length = 240) →
      (∀ w ∈ (item_geometry env item).writes,
        0 ≤ w.1 ∧ w.1 + (w.2.length : Int) ≤ 60 * (compute_chunk env item).faces) ∧
      ((item_geometry env item).writes.map (fun w => (w.2.length : Int))).sum =
        60 * (compute_chunk env item).faces ∧
      (item_geometry env item).writes.Pairwise (fun a b => a.1 + (a.2.length : Int) ≤ b.1) ∧
      ((compute_chunk env item).data.length : Int) = 60 * (compute_chunk env item).faces) := by
  have hoff : (item_geometry env item).offset = 60 * (compute_chunk env item).faces := by
    rw [compute_chunk_faces]
    unfold item_geometry
    rw [geom_fold_offset]
    simp
  have hnn : 0 ≤ (compute_chunk env item).faces := by
    rw [compute_chunk_faces]
    apply List.sum_nonneg
    intro a ha
    obtain ⟨c, _, rfl⟩ := List.mem_map.1 ha
    exact cell_faces_nonneg _ _ _ _ c
  refine ⟨hoff, hnn, rfl, ?_⟩
  intro hcube hplant
  have hinv := geom_fold_inv env (item_opacity env item) (item_light env item)
    (item_highest env item) (grid_origin item.p) (grid_origin item.q) hcube hplant
    (centre_cells item.block_maps) { offset := 0, writes := [] }
    (by simp) (by simp) (by simp)
  have hinv2 : (∀ w ∈ (item_geometry env item).writes,
        0 ≤ w.1 ∧ w.1 + (w.2.length : Int) ≤ (item_geometry env item).offset) ∧
      ((item_geometry env item).writes.map (fun w => (w.2.length : Int))).sum =
        (item_geometry env item).offset ∧
      (item_geometry env item).writes.Pairwise
        (fun a b => a.1 + (a.2.length : Int) ≤ b.1) := hinv
  rw [hoff] at hinv2
  refine ⟨hinv2.1, hinv2.2.1, hinv2.2.2, ?_⟩
  rw [compute_chunk_data]
  unfold assemble
  rw [length_assemble_fold]
  · rw [List.length_replicate]
    omega
  · intro w hw
    rw [List.length_replicate]
    have := hinv2.1 w hw
    constructor <;> omega

theorem passes_agree_witness :
    (∀ ao li flags x y z n w,
      (env_cube.make_cube ao li flags x y z n w).length = (60 * flags.sum).toNat) ∧
    (∀ ao li x y z n w r, (env_cube.make_plant ao li x y z n w r).length = 240) ∧
    ((compute_chunk env_cube (item_of (enclosed_cells 17))).data.length : Int) =
      60 * (compute_chunk env_cube (item_of (enclosed_cells 17))).faces :=
  ⟨fun _ _ _ _ _ _ _ _ => List.length_replicate _ _,
    fun _ _ _ _ _ _ _ _ => List.length_replicate _ _,
    ((passes_agree env_cube (item_of (enclosed_cells 17))).2.2.2
      (fun _ _ _ _ _ _ _ _ => List.length_replicate _ _)
      (fun _ _ _ _ _ _ _ _ => List.length_replicate _ _)).2.2.2⟩

/-! ## The writes of `light_fill`: lemmas -/

theorem grid_set_ne (g : Grid) (i v j : Int) (h : j ≠ i) : grid_set g i v j = g j := by
  unfold grid_set
  rw [if_neg h]

theorem grid_set_self (g : Grid) (i v : Int) : grid_set g i v i = v := by
  unfold grid_set
  rw [if_pos rfl]

/-- An opaque element is written by `light_fill` only as the origin of a forced
call. -/
theorem light_fill_frame (opaq : Grid) (ysize : Int) (n : Nat) (light : Grid)
    (x y z w force : Int) (i : Int) (ho : opaq i ≠ 0) (hi : force ≠ 0 → i ≠ XYZ x y z) :
    light_fill opaq ysize n light x y z w force i = light i := by
  induction n generalizing light x y z w force with
  | zero => rfl
  | succ n ih =>
    unfold light_fill
    split
    · rfl
    · split
      · rfl
      · split
        · rfl
        · split
          · rfl
          · split
            · rfl
            · rename_i hf
              have hne : i ≠ XYZ x y z := by
                by_cases hforce : force = 0
                · intro he
                  apply hf
                  refine ⟨hforce, ?_⟩
                  rw [← he]
                  exact ho
                · exact hi hforce
              have h0 : ∀ a b c : Int, (0 : Int) ≠ 0 → i ≠ XYZ a b c :=
                fun _ _ _ h => absurd rfl h
              simp only
              rw [ih _ _ _ _ _ _ (h0 _ _ _), ih _ _ _ _ _ _ (h0 _ _ _),
                ih _ _ _ _ _ _ (h0 _ _ _), ih _ _ _ _ _ _ (h0 _ _ _),
                ih _ _ _ _ _ _ (h0 _ _ _), ih _ _ _ _ _ _ (h0 _ _ _)]
              exact grid_set_ne light _ _ i hne

theorem XYZ_inj (x y z x2 y2 z2 : Int) (hx : 0 ≤ x ∧ x < XZ_SIZE) (hz : 0 ≤ z ∧ z < XZ_SIZE)
    (hx2 : 0 ≤ x2 ∧ x2 < XZ_SIZE) (hz2 : 0 ≤ z2 ∧ z2 < XZ_SIZE)
    (h : XYZ x y z = XYZ x2 y2 z2) : x = x2 ∧ y = y2 ∧ z = z2 := by
  unfold XYZ XZ_SIZE CHUNK_SIZE at *
  omega

/-! ## C21: light never enters opaque cells -/

/-- C21. Light never enters opaque cells.  For every opacity grid, light grid,
position `(x, y, z)`, intensity `w` and recursion depth, after
`light_fill(opaque, light, x, y, z, w, 1)` every array element that is opaque and
is not the element `XYZ(x, y, z)` of the origin holds the value it held before;
in coordinates, with the origin in the `x`/`z` range of the padded grid, so does
every opaque cell of the grid other than the cell `(x, y, z)`. -/
theorem opaque_cells_keep_light (opaq : Grid) (ysize : Int) (n : Nat) (light : Grid)
    (x y z w : Int) :
    (∀ i : Int, opaq i ≠ 0 → i ≠ XYZ x y z →
      light_fill opaq ysize n light x y z w 1 i = light i) ∧
    ((0 ≤ x ∧ x < XZ_SIZE) → (0 ≤ z ∧ z < XZ_SIZE) →
      ∀ cx cy cz : Int, (0 ≤ cx ∧ cx < XZ_SIZE) → (0 ≤ cz ∧ cz < XZ_SIZE) →
        (cx, cy, cz) ≠ (x, y, z) → opaq (XYZ cx cy cz) ≠ 0 →
        light_fill opaq ysize n light x y z w 1 (XYZ cx cy cz) = light (XYZ cx cy cz)) := by
  constructor
  · intro i ho hi
    exact light_fill_frame opaq ysize n light x y z w 1 i ho (fun _ => hi)
  · intro hx hz cx cy cz hcx hcz hne ho
    refine light_fill_frame opaq ysize n light x y z w 1 _ ho (fun _ he => hne ?_)
    obtain ⟨h1, h2, h3⟩ := XYZ_inj cx cy cz x y z hcx hcz hx hz he
    rw [h1, h2, h3]

theorem opaque_cells_keep_light_witness :
    wall_grid (XYZ 40 5 41) ≠ 0 ∧ XYZ 40 5 41 ≠ XYZ 40 5 40 ∧
    light_fill wall_grid 258 (fill_fuel 15) grid_zero 40 5 40 15 1 (XYZ 40 5 41) =
      grid_zero (XYZ 40 5 41) :=
  ⟨by decide, by decide,
    (opaque_cells_keep_light wall_grid 258 (fill_fuel 15) grid_zero 40 5 40 15).1
      (XYZ 40 5 41) (by decide) (by decide)⟩


/-! ## The array accesses of `light_fill` and of the opacity pass: lemmas -/

theorem light_fill_log_fst (opaq : Grid) (ysize : Int) (n : Nat)
    (st : Grid × List (Int × Int × Int)) (x y z w force : Int) :
    (light_fill_log opaq ysize n st x y z w force).1 =
      light_fill opaq ysize n st.1 x y z w force := by
  induction n generalizing st x y z w force with
  | zero => rfl
  | succ n ih =>
    unfold light_fill_log light_fill
    split
    · rfl
    · split
      · rfl
      · split
        · rfl
        · split
          · rfl
          · split
            · rfl
            · simp only [ih]

theorem light_fill_log_in_grid (opaq : Grid) (ysize : Int) (n : Nat)
    (st : Grid × List (Int × Int × Int)) (x y z w force : Int) (hw : w ≤ 15)
    (hst : ∀ c ∈ st.2, in_grid ysize c) :
    ∀ c ∈ (light_fill_log opaq ysize n st x y z w force).2, in_grid ysize c := by
  induction n generalizing st x y z w force with
  | zero => exact hst
  | succ n ih =>
    unfold light_fill_log
    split
    · exact hst
    · rename_i h1
      split
      · exact hst
      · rename_i h2
        split
        · exact hst
        · rename_i h3
          have hin : in_grid ysize (x, y, z) := by
            unfold in_grid XZ_SIZE CHUNK_SIZE
            unfold XZ_LO CHUNK_SIZE at h1
            unfold XZ_HI CHUNK_SIZE at h2
            simp only
            omega
          have hst2 : ∀ c ∈ st.2 ++ [(x, y, z)], in_grid ysize c := by
            intro c hc
            rcases List.mem_append.1 hc with h | h
            · exact hst c h
            · rw [List.mem_singleton] at h
              rw [h]
              exact hin
          split
          · exact hst2
          · split
            · exact hst2
            · simp only
              have hw1 : w - 1 ≤ 15 := by omega
              refine ih _ _ _ _ _ _ hw1 ?_
              refine ih _ _ _ _ _ _ hw1 ?_
              refine ih _ _ _ _ _ _ hw1 ?_
              refine ih _ _ _ _ _ _ hw1 ?_
              refine ih _ _ _ _ _ _ hw1 ?_
              refine ih _ _ _ _ _ _ hw1 ?_
              exact hst2

theorem populate_cell_out (env : Env) (ox oz : Int) (st : Grid × Grid) (c : Cell)
    (h : ¬ in_grid (Y_SIZE env) (c.1 - ox, c.2.1 - (-1), c.2.2.1 - oz)) :
    populate_cell env ox oz st c = st := by
  unfold populate_cell
  simp only
  unfold in_grid at h
  simp only at h
  split
  · rfl
  · split
    · rfl
    · exfalso
      apply h
      omega

theorem populate_cell_writes (env : Env) (ox oz : Int) (st : Grid × Grid) (c : Cell) :
    (∀ i : Int, (populate_cell env ox oz st c).1 i ≠ st.1 i →
      in_grid (Y_SIZE env) (c.1 - ox, c.2.1 - (-1), c.2.2.1 - oz) ∧
      i = XYZ (c.1 - ox) (c.2.1 - (-1)) (c.2.2.1 - oz)) ∧
    (∀ j : Int, (populate_cell env ox oz st c).2 j ≠ st.2 j →
      in_grid (Y_SIZE env) (c.1 - ox, c.2.1 - (-1), c.2.2.1 - oz) ∧
      j = XZ (c.1 - ox) (c.2.2.1 - oz)) := by
  by_cases hin : in_grid (Y_SIZE env) (c.1 - ox, c.2.1 - (-1), c.2.2.1 - oz)
  · have h1 : ¬ (c.1 - ox < 0 ∨ c.2.1 - (-1) < 0 ∨ c.2.2.1 - oz < 0) := by
      unfold in_grid at hin
      simp only at hin
      omega
    have h2 : ¬ (c.1 - ox ≥ XZ_SIZE ∨ c.2.1 - (-1) ≥ Y_SIZE env ∨ c.2.2.1 - oz ≥ XZ_SIZE) := by
      unfold in_grid at hin
      simp only at hin
      omega
    unfold populate_cell
    simp only [if_neg h1, if_neg h2]
    constructor
    · intro i hi
      refine ⟨hin, ?_⟩
      by_contra hne
      exact hi (grid_set_ne _ _ _ i hne)
    · intro j hj
      refine ⟨hin, ?_⟩
      by_contra hne
      apply hj
      by_cases ht : env.is_transparent c.2.2.2 = true
      · simp only [ht, if_true, ne_eq, not_true_eq_false, if_false]
      · simp only [ht, if_false, ne_eq, one_ne_zero, not_false_eq_true, if_true]
        exact grid_set_ne _ _ _ j hne
  · rw [populate_cell_out env ox oz st c hin]
    exact ⟨fun i hi => absurd rfl hi, fun j hj => absurd rfl hj⟩

/-- What the opacity pass leaves outside the padded grid: nothing. -/
theorem populate_in_grid (env : Env) (ox oz : Int) (t : List (Option Map)) :
    (∀ i : Int, (populate env ox oz t).1 i ≠ 0 →
      ∃ c : Int × Int × Int, in_grid (Y_SIZE env) c ∧ i = XYZ c.1 c.2.1 c.2.2) ∧
    (∀ j : Int, (populate env ox oz t).2 j ≠ 0 →
      ∃ c : Int × Int × Int, in_grid (Y_SIZE env) c ∧ j = XZ c.1 c.2.2) := by
  have hcell : ∀ (cells : List Cell) (st : Grid × Grid),
      ((∀ i : Int, st.1 i ≠ 0 →
        ∃ c : Int × Int × Int, in_grid (Y_SIZE env) c ∧ i = XYZ c.1 c.2.1 c.2.2) ∧
       (∀ j : Int, st.2 j ≠ 0 →
        ∃ c : Int × Int × Int, in_grid (Y_SIZE env) c ∧ j = XZ c.1 c.2.2)) →
      ((∀ i : Int, (cells.foldl (populate_cell env ox oz) st).1 i ≠ 0 →
        ∃ c : Int × Int × Int, in_grid (Y_SIZE env) c ∧ i = XYZ c.1 c.2.1 c.2.2) ∧
       (∀ j : Int, (cells.foldl (populate_cell env ox oz) st).2 j ≠ 0 →
        ∃ c : Int × Int × Int, in_grid (Y_SIZE env) c ∧ j = XZ c.1 c.2.2)) := by
    intro cells
    induction cells with
    | nil => exact fun st h => h
    | cons c t ih =>
      intro st h
      simp only [List.foldl_cons]
      apply ih
      have hw := populate_cell_writes env ox oz st c
      constructor
      · intro i hi
        by_cases he : (populate_cell env ox oz st c).1 i = st.1 i
        · exact h.1 i (by rw [← he]; exact hi)
        · exact ⟨_, (hw.1 i he).1, (hw.1 i he).2⟩
      · intro j hj
        by_cases he : (populate_cell env ox oz st c).2 j = st.2 j
        · exact h.2 j (by rw [← he]; exact hj)
        · exact ⟨_, (hw.2 j he).1, (hw.2 j he).2⟩
  have hmaps : ∀ (l : List (List Cell)) (st : Grid × Grid),
      ((∀ i : Int, st.1 i ≠ 0 →
        ∃ c : Int × Int × Int, in_grid (Y_SIZE env) c ∧ i = XYZ c.1 c.2.1 c.2.2) ∧
       (∀ j : Int, st.2 j ≠ 0 →
        ∃ c : Int × Int × Int, in_grid (Y_SIZE env) c ∧ j = XZ c.1 c.2.2)) →
      ((∀ i : Int, (l.foldl (fun st cells => cells.foldl (populate_cell env ox oz) st) st).1 i ≠ 0 →
        ∃ c : Int × Int × Int, in_grid (Y_SIZE env) c ∧ i = XYZ c.1 c.2.1 c.2.2) ∧
       (∀ j : Int, (l.foldl (fun st cells => cells.foldl (populate_cell env ox oz) st) st).2 j ≠ 0 →
        ∃ c : Int × Int × Int, in_grid (Y_SIZE env) c ∧ j = XZ c.1 c.2.2)) := by
    intro l
    induction l with
    | nil => exact fun st h => h
    | cons cells t ih =>
      intro st h
      simp only [List.foldl_cons]
      exact ih _ (hcell cells st h)
  rw [populate_eq]
  exact hmaps _ _ ⟨fun i hi => absurd rfl hi, fun j hj => absurd rfl hj⟩

/-! ## C22: no access outside the padded grid -/

/-- C22. Out-of-range samples never index outside the padded grid.  For every
position `(x, y, z)`, every intensity `w <= 15` and every recursion depth, each
position whose element `light_fill` reads or writes lies in the padded grid
(`0 <= x, z < XZ_SIZE`, `0 <= y < Y_SIZE`); the instrumented function computes
the same array as `light_fill`.  The opacity pass of `compute_chunk` leaves a
map entry outside the grid without effect, writes for an entry inside only the
elements `opaque[XYZ(x, y, z)]` and `highest[XZ(x, z)]` of that entry, and so
leaves both arrays zero outside the grid. -/
theorem accesses_in_grid (env : Env) (opaq : Grid) (n : Nat) (light : Grid)
    (x y z w force : Int) (hw : w ≤ 15) :
    (∀ c ∈ (light_fill_log opaq (Y_SIZE env) n (light, []) x y z w force).2,
      in_grid (Y_SIZE env) c) ∧
    (light_fill_log opaq (Y_SIZE env) n (light, []) x y z w force).1 =
      light_fill opaq (Y_SIZE env) n light x y z w force ∧
    (∀ (ox oz : Int) (st : Grid × Grid) (c : Cell),
      ¬ in_grid (Y_SIZE env) (c.1 - ox, c.2.1 - (-1), c.2.2.1 - oz) →
      populate_cell env ox oz st c = st) ∧
    (∀ (ox oz : Int) (st : Grid × Grid) (c : Cell),
      (∀ i : Int, (populate_cell env ox oz st c).1 i ≠ st.1 i →
        in_grid (Y_SIZE env) (c.1 - ox, c.2.1 - (-1), c.2.2.1 - oz) ∧
        i = XYZ (c.1 - ox) (c.2.1 - (-1)) (c.2.2.1 - oz)) ∧
      (∀ j : Int, (populate_cell env ox oz st c).2 j ≠ st.2 j →
        in_grid (Y_SIZE env) (c.1 - ox, c.2.1 - (-1), c.2.2.1 - oz) ∧
        j = XZ (c.1 - ox) (c.2.2.1 - oz))) ∧
    (∀ (ox oz : Int) (t : List (Option Map)),
      (∀ i : Int, (populate env ox oz t).1 i ≠ 0 →
        ∃ c : Int × Int × Int, in_grid (Y_SIZE env) c ∧ i = XYZ c.1 c.2.1 c.2.2) ∧
      (∀ j : Int, (populate env ox oz t).2 j ≠ 0 →
        ∃ c : Int × Int × Int, in_grid (Y_SIZE env) c ∧ j = XZ c.1 c.2.2)) :=
  ⟨light_fill_log_in_grid opaq (Y_SIZE env) n (light, []) x y z w force hw
      (fun _ h => absurd h (List.not_mem_nil _)),
    light_fill_log_fst opaq (Y_SIZE env) n (light, []) x y z w force,
    fun ox oz st c h => populate_cell_out env ox oz st c h,
    fun ox oz st c => populate_cell_writes env ox oz st c,
    fun ox oz t => populate_in_grid env ox oz t⟩

theorem accesses_in_grid_witness :
    (2 : Int) ≤ 15 ∧
    (light_fill_log wall_grid (Y_SIZE env0) (fill_fuel 2) (grid_zero, []) 20 5 40 2 1).2 = [] ∧
    (light_fill_log wall_grid (Y_SIZE env0) (fill_fuel 2) (grid_zero, []) 40 5 40 2 1).2.length
      = 37 ∧
    ∀ c ∈ (light_fill_log wall_grid (Y_SIZE env0) (fill_fuel 2) (grid_zero, []) 40 5 40 2 1).2,
      in_grid (Y_SIZE env0) c :=
  ⟨by decide, by decide, by decide,
    (accesses_in_grid env0 wall_grid (fill_fuel 2) grid_zero 40 5 40 2 1 (by decide)).1⟩

/-! ## `collide`: lemmas -/

theorem roundf_sub_pad (n : Int) : roundf ((n : ℚ) - 1 / 4) = n := by
  rw [roundf_eq_floor]
  split
  · rw [Int.floor_eq_iff]
    constructor <;> linarith
  · rw [neg_eq_iff_eq_neg, Int.floor_eq_iff]
    push_cast
    constructor <;> linarith

theorem roundf_add_pad (n : Int) : roundf ((n : ℚ) + 1 / 4) = n := by
  rw [roundf_eq_floor]
  split
  · rw [Int.floor_eq_iff]
    constructor <;> linarith
  · rw [neg_eq_iff_eq_neg, Int.floor_eq_iff]
    push_cast
    constructor <;> linarith

theorem clamp_if_pos (c : Prop) [Decidable c] (f : CollideState → CollideState)
    (st : CollideState) (h : c) : clamp_if c f st = f st := by
  unfold clamp_if
  rw [if_pos h]

theorem clamp_if_neg (c : Prop) [Decidable c] (f : CollideState → CollideState)
    (st : CollideState) (h : ¬ c) : clamp_if c f st = st := by
  unfold clamp_if
  rw [if_neg h]

/-- One pass of the loop of `collide`, field by field. -/
theorem collide_step_fields (env : Env) (map : Map) (nx ny nz : Int) (px py pz : ℚ)
    (st : CollideState) (dy : Int) :
    (collide_step env map nx ny nz px py pz st dy).x =
      (if px < -(1 / 4) ∧ env.is_obstacle (map_get map (nx - 1) (ny - dy) nz) = true
        then fsub (int_to_float nx) (1 / 4)
       else if px > 1 / 4 ∧ env.is_obstacle (map_get map (nx + 1) (ny - dy) nz) = true
        then fadd (int_to_float nx) (1 / 4) else st.x) ∧
    (collide_step env map nx ny nz px py pz st dy).y =
      (if py < -(1 / 4) ∧ env.is_obstacle (map_get map nx (ny - dy - 1) nz) = true
        then fsub (int_to_float ny) (1 / 4)
       else if py > 1 / 4 ∧ env.is_obstacle (map_get map nx (ny - dy + 1) nz) = true
        then fadd (int_to_float ny) (1 / 4) else st.y) ∧
    (collide_step env map nx ny nz px py pz st dy).z =
      (if pz < -(1 / 4) ∧ env.is_obstacle (map_get map nx (ny - dy) (nz - 1)) = true
        then fsub (int_to_float nz) (1 / 4)
       else if pz > 1 / 4 ∧ env.is_obstacle (map_get map nx (ny - dy) (nz + 1)) = true
        then fadd (int_to_float nz) (1 / 4) else st.z) ∧
    (collide_step env map nx ny nz px py pz st dy).result =
      (if (py < -(1 / 4) ∧ env.is_obstacle (map_get map nx (ny - dy - 1) nz) = true) ∨
          (py > 1 / 4 ∧ env.is_obstacle (map_get map nx (ny - dy + 1) nz) = true)
        then 1 else st.result) := by
  unfold collide_step
  by_cases h1 : px < -(1 / 4) ∧ env.is_obstacle (map_get map (nx - 1) (ny - dy) nz) = true <;>
  by_cases h2 : px > 1 / 4 ∧ env.is_obstacle (map_get map (nx + 1) (ny - dy) nz) = true <;>
  by_cases h3 : py < -(1 / 4) ∧ env.is_obstacle (map_get map nx (ny - dy - 1) nz) = true <;>
  by_cases h4 : py > 1 / 4 ∧ env.is_obstacle (map_get map nx (ny - dy + 1) nz) = true <;>
  by_cases h5 : pz < -(1 / 4) ∧ env.is_obstacle (map_get map nx (ny - dy) (nz - 1)) = true <;>
  by_cases h6 : pz > 1 / 4 ∧ env.is_obstacle (map_get map nx (ny - dy) (nz + 1)) = true <;>
  first
  | (exfalso; linarith [h1.1, h2.1])
  | (exfalso; linarith [h3.1, h4.1])
  | (exfalso; linarith [h5.1, h6.1])
  | simp only [clamp_if, h1, h2, h3, h4, h5, h6, if_true, if_false, or_true, true_or, or_self,
      and_self]


theorem ite_or_merge {α : Type} (P E : Prop) [Decidable P] [Decidable E] [Decidable (P ∨ E)]
    (a s : α) : (if E then a else if P then a else s) = if P ∨ E then a else s := by
  by_cases hE : E <;> by_cases hP : P <;> simp [hE, hP]

theorem collide_fold_fields (env : Env) (map : Map) (nx ny nz : Int) (px py pz : ℚ)
    (l : List Int) (st : CollideState) :
    (l.foldl (collide_step env map nx ny nz px py pz) st).x =
      (if px < -(1 / 4) ∧ ∃ dy ∈ l, env.is_obstacle (map_get map (nx - 1) (ny - dy) nz) = true
        then fsub (int_to_float nx) (1 / 4)
       else if px > 1 / 4 ∧ ∃ dy ∈ l, env.is_obstacle (map_get map (nx + 1) (ny - dy) nz) = true
        then fadd (int_to_float nx) (1 / 4) else st.x) ∧
    (l.foldl (collide_step env map nx ny nz px py pz) st).y =
      (if py < -(1 / 4) ∧ ∃ dy ∈ l, env.is_obstacle (map_get map nx (ny - dy - 1) nz) = true
        then fsub (int_to_float ny) (1 / 4)
       else if py > 1 / 4 ∧ ∃ dy ∈ l, env.is_obstacle (map_get map nx (ny - dy + 1) nz) = true
        then fadd (int_to_float ny) (1 / 4) else st.y) ∧
    (l.foldl (collide_step env map nx ny nz px py pz) st).z =
      (if pz < -(1 / 4) ∧ ∃ dy ∈ l, env.is_obstacle (map_get map nx (ny - dy) (nz - 1)) = true
        then fsub (int_to_float nz) (1 / 4)
       else if pz > 1 / 4 ∧ ∃ dy ∈ l, env.is_obstacle (map_get map nx (ny - dy) (nz + 1)) = true
        then fadd (int_to_float nz) (1 / 4) else st.z) ∧
    (l.foldl (collide_step env map nx ny nz px py pz) st).result =
      (if (py < -(1 / 4) ∧
            ∃ dy ∈ l, env.is_obstacle (map_get map nx (ny - dy - 1) nz) = true) ∨
          (py > 1 / 4 ∧ ∃ dy ∈ l, env.is_obstacle (map_get map nx (ny - dy + 1) nz) = true)
        then 1 else st.result) := by
  induction l generalizing st with
  | nil => simp
  | cons d t ih =>
    simp only [List.foldl_cons]
    obtain ⟨hx, hy, hz, hr⟩ := ih (collide_step env map nx ny nz px py pz st d)
    obtain ⟨sx, sy, sz, sr⟩ := collide_step_fields env map nx ny nz px py pz st d
    rw [hx, hy, hz, hr, sx, sy, sz, sr]
    simp only [List.mem_cons, exists_eq_or_imp]
    refine ⟨?_, ?_, ?_, ?_⟩
    · by_cases hA : px < -(1 / 4) <;> by_cases hB : px > 1 / 4 <;>
        first
        | (exfalso; linarith)
        | (simp only [hA, hB, true_and, false_and, if_false]
           exact ite_or_merge _ _ _ _)
        | simp only [hA, hB, true_and, false_and, if_false]
    · by_cases hA : py < -(1 / 4) <;> by_cases hB : py > 1 / 4 <;>
        first
        | (exfalso; linarith)
        | (simp only [hA, hB, true_and, false_and, if_false]
           exact ite_or_merge _ _ _ _)
        | simp only [hA, hB, true_and, false_and, if_false]
    · by_cases hA : pz < -(1 / 4) <;> by_cases hB : pz > 1 / 4 <;>
        first
        | (exfalso; linarith)
        | (simp only [hA, hB, true_and, false_and, if_false]
           exact ite_or_merge _ _ _ _)
        | simp only [hA, hB, true_and, false_and, if_false]
    · by_cases hA : py < -(1 / 4) <;> by_cases hB : py > 1 / 4 <;>
        first
        | (exfalso; linarith)
        | (simp only [hA, hB, true_and, false_and, if_false, or_false, false_or]
           exact ite_or_merge _ _ _ _)
        | simp only [hA, hB, true_and, false_and, if_false, or_false, false_or]

theorem exists_irange_iff (env : Env) (map : Map) (height : Int) (cx cy cz : Int) :
    (∃ dy ∈ irange 0 (height - 1), env.is_obstacle (map_get map cx (cy - dy) cz) = true) ↔
      blocked env map height cx cy cz := Iff.rfl

theorem blocked_iff (env : Env) (map : Map) (height : Int) (cx cy cz : Int) :
    blocked env map height cx cy cz ↔
      ∃ dy : Int, 0 ≤ dy ∧ dy < height ∧
        env.is_obstacle (map_get map cx (cy - dy) cz) = true := by
  unfold blocked
  constructor
  · rintro ⟨dy, hm, ho⟩
    rw [mem_irange] at hm
    exact ⟨dy, hm.1, by omega, ho⟩
  · rintro ⟨dy, h0, h1, ho⟩
    exact ⟨dy, (mem_irange 0 (height - 1) dy).2 ⟨h0, by omega⟩, ho⟩

theorem roundf_abs_sub (x : ℚ) : |x - (roundf x : ℚ)| ≤ 1 / 2 := by
  rw [roundf_eq_floor]
  split
  · have h1 := Int.floor_le (x + 1 / 2)
    have h2 := Int.lt_floor_add_one (x + 1 / 2)
    rw [abs_le]
    constructor <;> linarith
  · have h1 := Int.floor_le (-x + 1 / 2)
    have h2 := Int.lt_floor_add_one (-x + 1 / 2)
    rw [abs_le]
    push_cast
    constructor <;> linarith

theorem roundf_small (x : ℚ) (h : |x| < 1 / 2) : roundf x = 0 := by
  have h1 := abs_lt.1 h
  rw [roundf_eq_floor]
  split
  · rw [Int.floor_eq_iff]
    constructor <;> push_cast <;> linarith
  · rw [neg_eq_zero, Int.floor_eq_iff]
    constructor <;> push_cast <;> linarith

/-- The difference of a binary32 number and its rounding to an integer is a
binary32 number. -/
theorem is_float_sub_roundf (x : ℚ) (hx : is_float x) : is_float (x - (roundf x : ℚ)) := by
  obtain ⟨m, k, hm, hk, rfl⟩ := hx
  by_cases hk0 : 0 ≤ k
  · -- an integer
    obtain ⟨n, rfl⟩ := Int.eq_ofNat_of_zero_le hk0
    have hint : (m : ℚ) * (2 : ℚ) ^ (n : Int) = ((m * 2 ^ n : Int) : ℚ) := by
      push_cast
      rw [zpow_natCast]
    rw [hint, roundf_intCast, sub_self]
    exact ⟨0, 0, by norm_num, by norm_num, by simp⟩
  · have hkneg : k < 0 := not_le.1 hk0
    by_cases hbig : k < -25
    · -- |x| < 1/2
      have hmabs : |(m : ℚ)| ≤ 2 ^ 24 := by exact_mod_cast hm
      have hpow : (2 : ℚ) ^ k ≤ (2 : ℚ) ^ (-26 : Int) :=
        zpow_le_zpow_right₀ (by norm_num) (by omega)
      have hx : |(m : ℚ) * (2 : ℚ) ^ k| < 1 / 2 := by
        rw [abs_mul, abs_of_pos (a := (2 : ℚ) ^ k) (by positivity)]
        calc |(m : ℚ)| * (2 : ℚ) ^ k ≤ 2 ^ 24 * (2 : ℚ) ^ (-26 : Int) :=
              mul_le_mul hmabs hpow (by positivity) (by positivity)
          _ < 1 / 2 := by norm_num
      rw [roundf_small _ hx]
      exact ⟨m, k, hm, hk, by simp⟩
    · -- the difference is a multiple of 2^k of magnitude at most 1/2
      have hK : (2 : ℚ) ^ k * (2 : ℚ) ^ (-k) = 1 := by
        rw [← zpow_add₀ (by norm_num)]
        simp
      have hpk : (2 : ℚ) ^ (-k) = ((2 ^ (-k).toNat : Int) : ℚ) := by
        push_cast
        rw [← zpow_natCast, Int.toNat_of_nonneg (by omega)]
      refine ⟨m - roundf ((m : ℚ) * (2 : ℚ) ^ k) * 2 ^ (-k).toNat, k, ?_, hk, ?_⟩
      · have habs := roundf_abs_sub ((m : ℚ) * (2 : ℚ) ^ k)
        have heq : ((m - roundf ((m : ℚ) * (2 : ℚ) ^ k) * 2 ^ (-k).toNat : Int) : ℚ) =
            ((m : ℚ) * (2 : ℚ) ^ k - (roundf ((m : ℚ) * (2 : ℚ) ^ k) : ℚ)) * (2 : ℚ) ^ (-k) := by
          push_cast
          rw [← zpow_natCast, Int.toNat_of_nonneg (by omega)]
          rw [sub_mul, mul_assoc, hK, mul_one]
        have hle : |((m - roundf ((m : ℚ) * (2 : ℚ) ^ k) * 2 ^ (-k).toNat : Int) : ℚ)| ≤
            2 ^ 24 := by
          rw [heq, abs_mul, abs_of_pos (a := (2 : ℚ) ^ (-k)) (by positivity)]
          have hp : (2 : ℚ) ^ (-k) ≤ (2 : ℚ) ^ (25 : Int) :=
            zpow_le_zpow_right₀ (by norm_num) (by omega)
          calc |(m : ℚ) * (2 : ℚ) ^ k - (roundf ((m : ℚ) * (2 : ℚ) ^ k) : ℚ)| * (2 : ℚ) ^ (-k)
              ≤ 1 / 2 * (2 : ℚ) ^ (25 : Int) :=
                mul_le_mul habs hp (by positivity) (by norm_num)
            _ = 2 ^ 24 := by norm_num
        exact_mod_cast hle
      · push_cast
        rw [← zpow_natCast, Int.toNat_of_nonneg (by omega)]
        rw [sub_mul, mul_assoc, mul_comm ((2 : ℚ) ^ (-k)), hK, mul_one]

theorem f32_of_is_float (x : ℚ) (hx : is_float x) : f32 x = x := by
  obtain ⟨m, k, hm, hk, rfl⟩ := hx
  exact f32_exact m k hm hk

/-- The offset `px = *x - nx` of `collide` is exact for a binary32 position whose
voxel coordinate is at most `2^24` in magnitude. -/
theorem offset_exact (x : ℚ) (hx : is_float x) (hb : |roundf x| ≤ 2 ^ 24) :
    fsub x (int_to_float (roundf x)) = x - (roundf x : ℚ) := by
  unfold fsub
  rw [int_to_float_small _ hb]
  exact f32_of_is_float _ (is_float_sub_roundf x hx)

/-- The stores `nx - pad` and `nx + pad` of `collide` are exact for voxel
coordinates below `2^22` in magnitude. -/
theorem clamp_exact (n : Int) (h : |n| < 2 ^ 22) :
    fsub (int_to_float n) (1 / 4) = (n : ℚ) - 1 / 4 ∧
    fadd (int_to_float n) (1 / 4) = (n : ℚ) + 1 / 4 := by
  have hb := abs_lt.1 h
  have hn : |n| ≤ 2 ^ 24 := abs_le.2 ⟨by omega, by omega⟩
  unfold fsub fadd
  rw [int_to_float_small n hn]
  constructor
  · have := f32_exact (4 * n - 1) (-2) (abs_le.2 ⟨by omega, by omega⟩) (by norm_num)
    have he : (((4 * n - 1 : Int)) : ℚ) * (2 : ℚ) ^ (-2 : Int) = (n : ℚ) - 1 / 4 := by
      push_cast
      norm_num
      ring
    rw [he] at this
    exact this
  · have := f32_exact (4 * n + 1) (-2) (abs_le.2 ⟨by omega, by omega⟩) (by norm_num)
    have he : (((4 * n + 1 : Int)) : ℚ) * (2 : ℚ) ^ (-2 : Int) = (n : ℚ) + 1 / 4 := by
      push_cast
      norm_num
      ring
    rw [he] at this
    exact this


/-- The function `collide` with the chunk of the position resident: the fields
of the result, in `float` arithmetic. -/
theorem collide_resident_float (env : Env) (cs : List Chunk) (height : Int) (x y z : ℚ) (i : Nat)
    (chunk : Chunk) (hf : find_chunk cs (chunked x) (chunked z) = some i)
    (hc : cs[i]? = some chunk) :
    (collide env cs height x y z).x =
      (if fsub x (int_to_float (roundf x)) < -(1 / 4) ∧ blocked env chunk.map height (roundf x - 1) (roundf y)
          (roundf z) then fsub (int_to_float (roundf x)) (1 / 4)
       else if fsub x (int_to_float (roundf x)) > 1 / 4 ∧ blocked env chunk.map height (roundf x + 1) (roundf y)
          (roundf z) then fadd (int_to_float (roundf x)) (1 / 4) else x) ∧
    (collide env cs height x y z).y =
      (if fsub y (int_to_float (roundf y)) < -(1 / 4) ∧ blocked env chunk.map height (roundf x) (roundf y - 1)
          (roundf z) then fsub (int_to_float (roundf y)) (1 / 4)
       else if fsub y (int_to_float (roundf y)) > 1 / 4 ∧ blocked env chunk.map height (roundf x) (roundf y + 1)
          (roundf z) then fadd (int_to_float (roundf y)) (1 / 4) else y) ∧
    (collide env cs height x y z).z =
      (if fsub z (int_to_float (roundf z)) < -(1 / 4) ∧ blocked env chunk.map height (roundf x) (roundf y)
          (roundf z - 1) then fsub (int_to_float (roundf z)) (1 / 4)
       else if fsub z (int_to_float (roundf z)) > 1 / 4 ∧ blocked env chunk.map height (roundf x) (roundf y)
          (roundf z + 1) then fadd (int_to_float (roundf z)) (1 / 4) else z) ∧
    (collide env cs height x y z).result =
      (if (fsub y (int_to_float (roundf y)) < -(1 / 4) ∧ blocked env chunk.map height (roundf x) (roundf y - 1)
            (roundf z)) ∨
          (fsub y (int_to_float (roundf y)) > 1 / 4 ∧ blocked env chunk.map height (roundf x) (roundf y + 1)
            (roundf z))
        then 1 else 0) := by
  have hfold := collide_fold_fields env chunk.map (roundf x) (roundf y) (roundf z)
    (fsub x (int_to_float (roundf x))) (fsub y (int_to_float (roundf y)))
    (fsub z (int_to_float (roundf z))) (irange 0 (height - 1))
    { result := 0, x := x, y := y, z := z }
  have hcol : collide env cs height x y z =
      (irange 0 (height - 1)).foldl
        (collide_step env chunk.map (roundf x) (roundf y) (roundf z)
          (fsub x (int_to_float (roundf x))) (fsub y (int_to_float (roundf y)))
          (fsub z (int_to_float (roundf z))))
        { result := 0, x := x, y := y, z := z } := by
    unfold collide
    rw [hf]
    simp only [Option.some_bind, hc]
  have e3 := exists_irange_iff env chunk.map height (roundf x) (roundf y - 1) (roundf z)
  have e4 := exists_irange_iff env chunk.map height (roundf x) (roundf y + 1) (roundf z)
  have e3b : (∃ dy ∈ irange 0 (height - 1),
      env.is_obstacle (map_get chunk.map (roundf x) (roundf y - dy - 1) (roundf z)) = true) ↔
      blocked env chunk.map height (roundf x) (roundf y - 1) (roundf z) := by
    rw [← e3]
    constructor
    · rintro ⟨dy, h1, h2⟩
      exact ⟨dy, h1, by rw [show roundf y - 1 - dy = roundf y - dy - 1 by ring]; exact h2⟩
    · rintro ⟨dy, h1, h2⟩
      exact ⟨dy, h1, by rw [show roundf y - dy - 1 = roundf y - 1 - dy by ring]; exact h2⟩
  have e4b : (∃ dy ∈ irange 0 (height - 1),
      env.is_obstacle (map_get chunk.map (roundf x) (roundf y - dy + 1) (roundf z)) = true) ↔
      blocked env chunk.map height (roundf x) (roundf y + 1) (roundf z) := by
    rw [← e4]
    constructor
    · rintro ⟨dy, h1, h2⟩
      exact ⟨dy, h1, by rw [show roundf y + 1 - dy = roundf y - dy + 1 by ring]; exact h2⟩
    · rintro ⟨dy, h1, h2⟩
      exact ⟨dy, h1, by rw [show roundf y - dy + 1 = roundf y + 1 - dy by ring]; exact h2⟩
  rw [hcol]
  obtain ⟨hx, hy, hz, hr⟩ := hfold
  rw [hx, hy, hz, hr]
  refine ⟨rfl, ?_, rfl, ?_⟩
  · simp only [e3b, e4b]
  · simp only [e3b, e4b]

/-- The function `collide` with the chunk of the position resident, for a
binary32 position whose voxel coordinates are below `2^22` in magnitude: the
differences `*x - nx` and the stores `nx - pad`, `nx + pad` are exact. -/
theorem collide_resident (env : Env) (cs : List Chunk) (height : Int) (x y z : ℚ) (i : Nat)
    (chunk : Chunk) (hf : find_chunk cs (chunked x) (chunked z) = some i)
    (hc : cs[i]? = some chunk)
    (hx : is_float x) (hy : is_float y) (hz : is_float z)
    (hbx : |roundf x| < 2 ^ 22) (hby : |roundf y| < 2 ^ 22) (hbz : |roundf z| < 2 ^ 22) :
    (collide env cs height x y z).x =
      (if x - roundf x < -(1 / 4) ∧ blocked env chunk.map height (roundf x - 1) (roundf y)
          (roundf z) then (roundf x : ℚ) - 1 / 4
       else if x - roundf x > 1 / 4 ∧ blocked env chunk.map height (roundf x + 1) (roundf y)
          (roundf z) then (roundf x : ℚ) + 1 / 4 else x) ∧
    (collide env cs height x y z).y =
      (if y - roundf y < -(1 / 4) ∧ blocked env chunk.map height (roundf x) (roundf y - 1)
          (roundf z) then (roundf y : ℚ) - 1 / 4
       else if y - roundf y > 1 / 4 ∧ blocked env chunk.map height (roundf x) (roundf y + 1)
          (roundf z) then (roundf y : ℚ) + 1 / 4 else y) ∧
    (collide env cs height x y z).z =
      (if z - roundf z < -(1 / 4) ∧ blocked env chunk.map height (roundf x) (roundf y)
          (roundf z - 1) then (roundf z : ℚ) - 1 / 4
       else if z - roundf z > 1 / 4 ∧ blocked env chunk.map height (roundf x) (roundf y)
          (roundf z + 1) then (roundf z : ℚ) + 1 / 4 else z) ∧
    (collide env cs height x y z).result =
      (if (y - roundf y < -(1 / 4) ∧ blocked env chunk.map height (roundf x) (roundf y - 1)
            (roundf z)) ∨
          (y - roundf y > 1 / 4 ∧ blocked env chunk.map height (roundf x) (roundf y + 1)
            (roundf z))
        then 1 else 0) := by
  have h := collide_resident_float env cs height x y z i chunk hf hc
  have b24 : ∀ n : Int, |n| < 2 ^ 22 → |n| ≤ 2 ^ 24 := by
    intro n hn
    have := abs_lt.1 hn
    exact abs_le.2 ⟨by omega, by omega⟩
  rw [offset_exact x hx (b24 _ hbx), offset_exact y hy (b24 _ hby),
    offset_exact z hz (b24 _ hbz), (clamp_exact _ hbx).1, (clamp_exact _ hbx).2,
    (clamp_exact _ hby).1, (clamp_exact _ hby).2, (clamp_exact _ hbz).1,
    (clamp_exact _ hbz).2] at h
  exact h

/-! ## C27: the collision clamp -/

/-- C27, counterexample.  The position `x = 4194304.5` rounds to the voxel
`n = 4194305`, its offset is `-0.5`, and the cell `n - 1` is an obstacle.  The
store `*x = nx - pad` rounds `4194304.75`, which is no binary32 number, to
`4194305`: `collide` leaves `x = n`, not `n - 0.25`. -/
theorem collide_beyond_float_range :
    find_chunk far_wall (chunked (8388609 / 2 : ℚ)) (chunked (0 : ℚ)) = some 0 ∧
    roundf (8388609 / 2 : ℚ) = 4194305 ∧
    (8388609 / 2 : ℚ) - (roundf (8388609 / 2 : ℚ) : ℚ) < -(1 / 4) ∧
    blocked env0 { zeroMap with cells := [(4194304, 0, 0, 1)] } 2
      (roundf (8388609 / 2 : ℚ) - 1) (roundf (0 : ℚ)) (roundf (0 : ℚ)) ∧
    (collide env0 far_wall 2 (8388609 / 2) 0 0).x = 4194305 := by
  decide!

/-- C27, amended.  Collision clamp, for a position whose coordinates are
binary32 numbers with voxel coordinates below `2^22` in magnitude, where
`n - 0.25` and `n + 0.25` are binary32 numbers.  With the chunk of the position
resident and `n = (roundf x, roundf y, roundf z)`, `collide` sets a coordinate
to `n - 0.25` when the offset on that axis is below `-0.25` and for some `dy` in
`0 .. height - 1` the neighbour cell on the lower side at height `ny - dy` is an
obstacle, to `n + 0.25` when the offset is above `0.25` and such a cell on the
upper side is an obstacle, and leaves it as it is otherwise; it returns `1`
exactly when the `y` coordinate was clamped, and `0` otherwise; the position it
leaves rounds to the voxel `n` of the input.  With the chunk not resident it
returns `0` and leaves the position, whatever the coordinates. -/
theorem collide_clamp (env : Env) (cs : List Chunk) (height : Int) (x y z : ℚ) :
    (is_float x → is_float y → is_float z →
      |roundf x| < 2 ^ 22 → |roundf y| < 2 ^ 22 → |roundf z| < 2 ^ 22 →
      (∀ (i : Nat) (chunk : Chunk), find_chunk cs (chunked x) (chunked z) = some i →
        cs[i]? = some chunk →
        ((x - roundf x < -(1 / 4) ∧
            blocked env chunk.map height (roundf x - 1) (roundf y) (roundf z) →
          (collide env cs height x y z).x = (roundf x : ℚ) - 1 / 4) ∧
         (x - roundf x > 1 / 4 ∧
            blocked env chunk.map height (roundf x + 1) (roundf y) (roundf z) →
          (collide env cs height x y z).x = (roundf x : ℚ) + 1 / 4) ∧
         (¬ (x - roundf x < -(1 / 4) ∧
            blocked env chunk.map height (roundf x - 1) (roundf y) (roundf z)) →
          ¬ (x - roundf x > 1 / 4 ∧
            blocked env chunk.map height (roundf x + 1) (roundf y) (roundf z)) →
          (collide env cs height x y z).x = x)) ∧
        ((y - roundf y < -(1 / 4) ∧
            blocked env chunk.map height (roundf x) (roundf y - 1) (roundf z) →
          (collide env cs height x y z).y = (roundf y : ℚ) - 1 / 4) ∧
         (y - roundf y > 1 / 4 ∧
            blocked env chunk.map height (roundf x) (roundf y + 1) (roundf z) →
          (collide env cs height x y z).y = (roundf y : ℚ) + 1 / 4) ∧
         (¬ (y - roundf y < -(1 / 4) ∧
            blocked env chunk.map height (roundf x) (roundf y - 1) (roundf z)) →
          ¬ (y - roundf y > 1 / 4 ∧
            blocked env chunk.map height (roundf x) (roundf y + 1) (roundf z)) →
          (collide env cs height x y z).y = y)) ∧
        ((z - roundf z < -(1 / 4) ∧
            blocked env chunk.map height (roundf x) (roundf y) (roundf z - 1) →
          (collide env cs height x y z).z = (roundf z : ℚ) - 1 / 4) ∧
         (z - roundf z > 1 / 4 ∧
            blocked env chunk.map height (roundf x) (roundf y) (roundf z + 1) →
          (collide env cs height x y z).z = (roundf z : ℚ) + 1 / 4) ∧
         (¬ (z - roundf z < -(1 / 4) ∧
            blocked env chunk.map height (roundf x) (roundf y) (roundf z - 1)) →
          ¬ (z - roundf z > 1 / 4 ∧
            blocked env chunk.map height (roundf x) (roundf y) (roundf z + 1)) →
          (collide env cs height x y z).z = z)) ∧
        ((collide env cs height x y z).result = 1 ↔
          (y - roundf y < -(1 / 4) ∧
            blocked env chunk.map height (roundf x) (roundf y - 1) (roundf z)) ∨
          (y - roundf y > 1 / 4 ∧
            blocked env chunk.map height (roundf x) (roundf y + 1) (roundf z))) ∧
        ((collide env cs height x y z).result ≠ 1 → (collide env cs height x y z).result = 0)) ∧
      (roundf (collide env cs height x y z).x = roundf x ∧
       roundf (collide env cs height x y z).y = roundf y ∧
       roundf (collide env cs height x y z).z = roundf z)) ∧
    (find_chunk cs (chunked x) (chunked z) = none →
      collide env cs height x y z = { result := 0, x := x, y := y, z := z }) ∧
    (∀ (map : Map) (cx cy cz : Int),
      blocked env map height cx cy cz ↔
        ∃ dy : Int, 0 ≤ dy ∧ dy < height ∧
          env.is_obstacle (map_get map cx (cy - dy) cz) = true) := by
  have hnone : find_chunk cs (chunked x) (chunked z) = none →
      collide env cs height x y z = { result := 0, x := x, y := y, z := z } := by
    intro hn
    unfold collide
    rw [hn]
    rfl
  refine ⟨fun hx hy hz hbx hby hbz => ⟨?_, ?_⟩, hnone,
    fun map cx cy cz => blocked_iff env map height cx cy cz⟩
  · intro i chunk hf hc
    obtain ⟨hx, hy, hz, hr⟩ := collide_resident env cs height x y z i chunk hf hc hx hy hz hbx hby hbz
    refine ⟨⟨?_, ?_, ?_⟩, ⟨?_, ?_, ?_⟩, ⟨?_, ?_, ?_⟩, ?_, ?_⟩
    · intro h; rw [hx, if_pos h]
    · intro h
      have hn : ¬ (x - roundf x < -(1 / 4) ∧ blocked env chunk.map height (roundf x - 1)
          (roundf y) (roundf z)) := fun hc => by linarith [h.1, hc.1]
      rw [hx, if_neg hn, if_pos h]
    · intro h1 h2; rw [hx, if_neg h1, if_neg h2]
    · intro h; rw [hy, if_pos h]
    · intro h
      have hn : ¬ (y - roundf y < -(1 / 4) ∧ blocked env chunk.map height (roundf x)
          (roundf y - 1) (roundf z)) := fun hc => by linarith [h.1, hc.1]
      rw [hy, if_neg hn, if_pos h]
    · intro h1 h2; rw [hy, if_neg h1, if_neg h2]
    · intro h; rw [hz, if_pos h]
    · intro h
      have hn : ¬ (z - roundf z < -(1 / 4) ∧ blocked env chunk.map height (roundf x)
          (roundf y) (roundf z - 1)) := fun hc => by linarith [h.1, hc.1]
      rw [hz, if_neg hn, if_pos h]
    · intro h1 h2; rw [hz, if_neg h1, if_neg h2]
    · rw [hr]
      constructor
      · intro h
        by_contra hn
        rw [if_neg hn] at h
        exact absurd h (by decide)
      · intro h
        rw [if_pos h]
    · rw [hr]
      split
      · intro h; exact absurd rfl h
      · intro _; rfl
  · cases hf : find_chunk cs (chunked x) (chunked z) with
    | none =>
      rw [hnone hf]
      exact ⟨rfl, rfl, rfl⟩
    | some i =>
      obtain ⟨chunk, hc, -, -⟩ := find_chunk_some cs _ _ i hf
      obtain ⟨hx, hy, hz, -⟩ := collide_resident env cs height x y z i chunk hf hc hx hy hz hbx hby hbz
      rw [hx, hy, hz]
      refine ⟨?_, ?_, ?_⟩
      · split_ifs
        · exact roundf_sub_pad _
        · exact roundf_add_pad _
        · rfl
      · split_ifs
        · exact roundf_sub_pad _
        · exact roundf_add_pad _
        · rfl
      · split_ifs
        · exact roundf_sub_pad _
        · exact roundf_add_pad _
        · rfl

theorem collide_clamp_witness :
    is_float (-3 / 8 : ℚ) ∧ is_float (0 : ℚ) ∧
    |roundf (-3 / 8 : ℚ)| < 2 ^ 22 ∧ |roundf (0 : ℚ)| < 2 ^ 22 ∧
    find_chunk west_wall (chunked (-3 / 8 : ℚ)) (chunked (0 : ℚ)) = some 0 ∧
    ((-3 / 8 : ℚ) - roundf (-3 / 8 : ℚ) < -(1 / 4) ∧
      blocked env0 { zeroMap with cells := [(-1, 0, 0, 1)] } 2 (roundf (-3 / 8 : ℚ) - 1)
        (roundf (0 : ℚ)) (roundf (0 : ℚ))) ∧
    (collide env0 west_wall 2 (-3 / 8) 0 0).x = (roundf (-3 / 8 : ℚ) : ℚ) - 1 / 4 :=
  have hx : is_float (-3 / 8 : ℚ) := ⟨-3, -3, by decide, by decide, by norm_num⟩
  have h0 : is_float (0 : ℚ) := ⟨0, 0, by decide, by decide, by norm_num⟩
  have hbx : |roundf (-3 / 8 : ℚ)| < 2 ^ 22 := by decide!
  have hb0 : |roundf (0 : ℚ)| < 2 ^ 22 := by decide!
  have hf : find_chunk west_wall (chunked (-3 / 8 : ℚ)) (chunked (0 : ℚ)) = some 0 := by
    decide!
  have hb : (-3 / 8 : ℚ) - roundf (-3 / 8 : ℚ) < -(1 / 4) ∧
      blocked env0 { zeroMap with cells := [(-1, 0, 0, 1)] } 2 (roundf (-3 / 8 : ℚ) - 1)
        (roundf (0 : ℚ)) (roundf (0 : ℚ)) :=
    ⟨by decide!, by decide!⟩
  ⟨hx, h0, hbx, hb0, hf, hb,
    (((collide_clamp env0 west_wall 2 (-3 / 8) 0 0).1 hx h0 h0 hbx hb0 hb0).1
      0 _ hf rfl).1.1 hb⟩

/-! ## The loop of `_hit_test`: lemmas -/

/-- A pass whose cell holds no positive value goes on to the next position with
that cell as `(px, py, pz)`, whether or not the cell was looked up. -/
theorem hit_loop_miss (map : Map) (previous : Int) (vx vy vz : ℚ) (n : Nat) (x y z : ℚ)
    (p h : Int × Int × Int) (hm : map_get map (roundf x) (roundf y) (roundf z) ≤ 0) :
    hit_loop map previous vx vy vz (n + 1) x y z p h =
      hit_loop map previous vx vy vz n (x + vx / 32) (y + vy / 32) (z + vz / 32)
        (roundf x, roundf y, roundf z) h := by
  conv_lhs => rw [hit_loop]
  simp only
  by_cases hne : roundf x ≠ p.1 ∨ roundf y ≠ p.2.1 ∨ roundf z ≠ p.2.2
  · rw [if_pos hne, if_neg (by omega)]
  · rw [if_neg hne]
    have hp : p = (roundf x, roundf y, roundf z) := by
      obtain ⟨p1, p2, p3⟩ := p
      simp only [ne_eq, not_or, not_not] at hne
      simp only [Prod.mk.injEq]
      exact ⟨hne.1.symm, hne.2.1.symm, hne.2.2.symm⟩
    rw [← hp]

/-- After `k + 1` passes without a positive value the loop stands at the
position of pass `k + 1` with the cell of pass `k` as `(px, py, pz)`. -/
theorem hit_loop_run (map : Map) (previous : Int) (vx vy vz : ℚ) (k n : Nat) (x y z : ℚ)
    (p h : Int × Int × Int)
    (hm : ∀ i : Nat, i < k + 1 →
      map_get map (ray_cell x y z vx vy vz i).1 (ray_cell x y z vx vy vz i).2.1
        (ray_cell x y z vx vy vz i).2.2 ≤ 0) :
    hit_loop map previous vx vy vz (k + 1 + n) x y z p h =
      hit_loop map previous vx vy vz n (x + ((k + 1 : Nat) : ℚ) * (vx / 32))
        (y + ((k + 1 : Nat) : ℚ) * (vy / 32)) (z + ((k + 1 : Nat) : ℚ) * (vz / 32))
        (ray_cell x y z vx vy vz k) h := by
  induction k generalizing x y z p with
  | zero =>
    have h0 := hm 0 (by omega)
    simp only [ray_cell, Nat.cast_zero, zero_mul, add_zero] at h0
    have he : 0 + 1 + n = n + 1 := by omega
    rw [he, hit_loop_miss map previous vx vy vz n x y z p h h0]
    simp [ray_cell]
  | succ k ih =>
    have h0 := hm 0 (by omega)
    simp only [ray_cell, Nat.cast_zero, zero_mul, add_zero] at h0
    have he : k + 1 + 1 + n = (k + 1 + n) + 1 := by omega
    rw [he, hit_loop_miss map previous vx vy vz (k + 1 + n) x y z p h h0]
    have hshift : ∀ i : Nat, ray_cell (x + vx / 32) (y + vy / 32) (z + vz / 32) vx vy vz i =
        ray_cell x y z vx vy vz (i + 1) := by
      intro i
      unfold ray_cell
      push_cast
      simp only [Prod.mk.injEq]
      refine ⟨?_, ?_, ?_⟩ <;> congr 1 <;> ring
    rw [ih (x + vx / 32) (y + vy / 32) (z + vz / 32) _
      (fun i hi => by rw [hshift]; exact hm (i + 1) (by omega))]
    rw [hshift]
    push_cast
    congr 1 <;> ring

theorem map_get_single (w x y z : Int) :
    map_get (single_block w) x y z = if x = 0 ∧ y = 0 ∧ z = 0 then w else 0 := by
  unfold map_get single_block zeroMap
  simp only [List.find?_cons, List.find?_nil, cell_at]
  by_cases hx : x = 0 <;> by_cases hy : y = 0 <;> by_cases hz : z = 0 <;>
    simp [hx, hy, hz, eq_comm]


theorem ray_down_samples :
    ∀ i : Nat, i < 145 → roundf ((5 : ℚ) + (i : ℚ) * ((-1) / 32)) ≠ 0 := by
  decide!

theorem ray_down_hit (w : Int) (hw : 0 < w) (previous : Int) (h0 : Int × Int × Int) :
    _hit_test (single_block w) 8 previous 0 5 0 0 (-1) 0 h0 =
      (w, if previous ≠ 0 then (0, 1, 0) else (0, 0, 0)) := by
  unfold _hit_test
  have hs : hit_steps 8 = 144 + 1 + 111 := by decide
  have hm : ∀ i : Nat, i < 144 + 1 →
      map_get (single_block w) (ray_cell 0 5 0 0 (-1) 0 i).1 (ray_cell 0 5 0 0 (-1) 0 i).2.1
        (ray_cell 0 5 0 0 (-1) 0 i).2.2 ≤ 0 := by
    intro i hi
    rw [map_get_single, if_neg]
    intro hc
    exact ray_down_samples i hi hc.2.1
  rw [hs, hit_loop_run (single_block w) previous 0 (-1) 0 144 111 0 5 0 (0, 0, 0) h0 hm]
  have hx : roundf ((0 : ℚ) + ((144 + 1 : Nat) : ℚ) * (0 / 32)) = 0 := by decide!
  have hy : roundf ((5 : ℚ) + ((144 + 1 : Nat) : ℚ) * ((-1) / 32)) = 0 := by decide!
  have hp : ray_cell 0 5 0 0 (-1) 0 144 = (0, 1, 0) := by decide!
  rw [hit_loop]
  simp only [hx, hy, hp, map_get_single]
  simp [hw]
  split_ifs <;> rfl

/-! ## A ray that points nearly straight down: lemmas -/

theorem roundf_floor_of_gt (y : ℚ) (h : -(1 / 2) < y) : roundf y = ⌊y + 1 / 2⌋ := by
  rw [roundf_eq_floor]
  split
  · rfl
  · rename_i hneg
    have h0 : ⌊-y + 1 / 2⌋ = 0 := by
      rw [Int.floor_eq_iff]
      constructor <;> push_cast <;> linarith
    have h1 : ⌊y + 1 / 2⌋ = 0 := by
      rw [Int.floor_eq_iff]
      constructor <;> push_cast <;> linarith
    rw [h0, h1]
    rfl

/-- The loop of `_hit_test` on the single block at `(0, 0, 0)`, for a ray that
stays in the column `x = z = 0` and descends by at most `1/32` per pass: from a
position above the block, with `(px, py, pz)` the cell of the position or the
one above it, and with passes enough to reach the block, the loop returns the
block with the cell `(0, 1, 0)` as the previous one. -/
theorem hit_loop_descend (w : Int) (hw : 0 < w) (previous : Int) (vx vy vz : ℚ)
    (hvy1 : -1 ≤ vy) (hvy2 : vy < 0) (n : Nat) (x y z : ℚ) (p h : Int × Int × Int)
    (hx : |x| + (n : ℚ) * |vx / 32| < 1 / 2) (hz : |z| + (n : ℚ) * |vz / 32| < 1 / 2)
    (hy : -(1 / 2) < y) (hp1 : p.1 = 0) (hp3 : p.2.2 = 0) (hp2 : 1 ≤ p.2.1)
    (hpy : p.2.1 = roundf y ∨ p.2.1 = roundf y + 1)
    (hn : 1 ≤ n) (hfuel : y + ((n : ℚ) - 1) * (vy / 32) < 1 / 2) :
    hit_loop (single_block w) previous vx vy vz n x y z p h =
      (w, if previous ≠ 0 then (0, 1, 0) else (0, 0, 0)) := by
  induction n generalizing x y z p with
  | zero => omega
  | succ n ih =>
    have hxs : |x| < 1 / 2 := by
      have : (0 : ℚ) ≤ ((n + 1 : Nat) : ℚ) * |vx / 32| := by positivity
      linarith
    have hzs : |z| < 1 / 2 := by
      have : (0 : ℚ) ≤ ((n + 1 : Nat) : ℚ) * |vz / 32| := by positivity
      linarith
    have hrx : roundf x = 0 := roundf_small x hxs
    have hrz : roundf z = 0 := roundf_small z hzs
    have hry := roundf_floor_of_gt y hy
    have hry0 : 0 ≤ roundf y := by
      rw [hry]
      exact Int.floor_nonneg.2 (by linarith)
    by_cases hhit : roundf y = 0
    · -- the block is reached
      have hp21 : p.2.1 = 1 := by omega
      rw [hit_loop]
      simp only [hrx, hrz, hhit, map_get_single]
      have hne : (0 : Int) ≠ p.1 ∨ (0 : Int) ≠ p.2.1 ∨ (0 : Int) ≠ p.2.2 := by
        right; left; omega
      rw [if_pos hne]
      simp only [and_self, if_true]
      rw [if_pos hw]
      obtain ⟨p1, p2, p3⟩ := p
      simp only at hp1 hp3 hp21
      subst hp1 hp3 hp21
      split_ifs <;> rfl
    · -- a cell above the block
      have hpos : 1 ≤ roundf y := by omega
      have hmiss : map_get (single_block w) (roundf x) (roundf y) (roundf z) ≤ 0 := by
        rw [map_get_single, if_neg (fun hc => hhit hc.2.1)]
      rw [hit_loop_miss (single_block w) previous vx vy vz n x y z p h hmiss]
      have hy12 : 1 / 2 ≤ y := by
        have h1 : (1 : Int) ≤ ⌊y + 1 / 2⌋ := by rw [← hry]; exact hpos
        have := Int.le_floor.1 h1
        push_cast at this
        linarith
      have hstep : -(1 / 32) ≤ vy / 32 := by linarith
      have hstep2 : vy / 32 < 0 := by linarith
      have hy' : -(1 / 2) < y + vy / 32 := by linarith
      have hry' := roundf_floor_of_gt (y + vy / 32) hy'
      have hfl1 : ⌊y + vy / 32 + 1 / 2⌋ ≤ ⌊y + 1 / 2⌋ := Int.floor_le_floor (by linarith)
      have hfl2 : ⌊y + 1 / 2⌋ - 1 ≤ ⌊y + vy / 32 + 1 / 2⌋ := by
        have h1 : ⌊y + 1 / 2 - 1⌋ ≤ ⌊y + vy / 32 + 1 / 2⌋ :=
          Int.floor_le_floor (by linarith)
        rw [Int.floor_sub_one] at h1
        exact h1
      have hn1 : 1 ≤ n := by
        by_contra hcon
        have hn0 : n = 0 := by omega
        subst hn0
        simp only [Nat.cast_one, zero_add, sub_self, zero_mul, add_zero] at hfuel
        linarith
      refine ih (x + vx / 32) (y + vy / 32) (z + vz / 32) (roundf x, roundf y, roundf z)
        ?_ ?_ hy' hrx hrz hpos ?_ hn1 ?_
      · have habs := abs_add x (vx / 32)
        push_cast at hx
        linarith
      · have habs := abs_add z (vz / 32)
        push_cast at hz
        linarith
      · simp only
        rw [hry', hry]
        omega
      · push_cast at hfuel
        linarith

/-- The function `_hit_test` on the single block at `(0, 0, 0)` from `(0, 5, 0)`,
for every direction within `1/32` of the vertical in `x` and `z` and with `vy`
from `-1` to `-15/16`. -/
theorem ray_near_down_hit (w : Int) (hw : 0 < w) (previous : Int) (vx vy vz : ℚ)
    (hvx : |vx| ≤ 1 / 32) (hvz : |vz| ≤ 1 / 32) (hvy1 : -1 ≤ vy) (hvy2 : vy ≤ -(15 / 16))
    (h0 : Int × Int × Int) :
    _hit_test (single_block w) 8 previous 0 5 0 vx vy vz h0 =
      (w, if previous ≠ 0 then (0, 1, 0) else (0, 0, 0)) := by
  unfold _hit_test
  have hs : hit_steps 8 = 255 + 1 := by decide
  have hr0 : roundf (0 : ℚ) = 0 := by decide
  have hr5 : roundf (5 : ℚ) = 5 := by decide
  have hmiss : map_get (single_block w) (roundf (0 : ℚ)) (roundf (5 : ℚ)) (roundf (0 : ℚ)) ≤ 0 := by
    rw [map_get_single, hr5, if_neg (fun hc => absurd hc.2.1 (by decide))]
  rw [hs, hit_loop_miss (single_block w) previous vx vy vz 255 0 5 0 (0, 0, 0) h0 hmiss]
  have hax : |vx / 32| ≤ 1 / 1024 := by
    rw [abs_div]
    norm_num
    linarith
  have haz : |vz / 32| ≤ 1 / 1024 := by
    rw [abs_div]
    norm_num
    linarith
  have hy' : -(1 / 2) < (5 : ℚ) + vy / 32 := by linarith
  refine hit_loop_descend w hw previous vx vy vz hvy1 (by linarith) 255 _ _ _ _ h0
    ?_ ?_ hy' hr0 hr0 ?_ ?_ (by norm_num) ?_
  · rw [zero_add]
    push_cast
    linarith
  · rw [zero_add]
    push_cast
    linarith
  · rw [hr5]; norm_num
  · have h45 : ⌊(5 : ℚ) + vy / 32 + 1 / 2⌋ = 4 ∨ ⌊(5 : ℚ) + vy / 32 + 1 / 2⌋ = 5 := by
      have h1 : (4 : Int) ≤ ⌊(5 : ℚ) + vy / 32 + 1 / 2⌋ := Int.le_floor.2 (by push_cast; linarith)
      have h2 : ⌊(5 : ℚ) + vy / 32 + 1 / 2⌋ < 6 := Int.floor_lt.2 (by push_cast; linarith)
      omega
    have hry' := roundf_floor_of_gt _ hy'
    show roundf (5 : ℚ) = roundf ((5 : ℚ) + vy / 32) ∨
      roundf (5 : ℚ) = roundf ((5 : ℚ) + vy / 32) + 1
    rw [hr5, hry']
    omega
  · push_cast
    linarith

/-! ## C24: the ray cast scenario -/

/-- C24. Ray-cast scenario.  With a block map that holds the single block `w > 0`
at `(0, 0, 0)`, the ray from `(0, 5, 0)` with direction `(0, -1, 0)` (step `1/32`,
maximum distance `8`) makes `_hit_test` return `w` with the cell `(0, 0, 0)` in
non-previous mode and with the cell `(0, 1, 0)` in previous mode, and so does
every direction within `1/32` of the vertical in `x` and `z` whose `vy` lies
from `-1` to `-15/16`.  With the one resident chunk `(0, 0)` holding that map,
`hit_test` returns the same for every heading and pitch whose sight vector lies
in that range: looking straight down, where `cosf` of the pitch is close to
zero but, for a `float` pitch, never zero. -/
theorem ray_down_scenario (w : Int) (hw : 0 < w) :
    (∀ h0 : Int × Int × Int,
      _hit_test (single_block w) 8 0 0 5 0 0 (-1) 0 h0 = (w, (0, 0, 0))) ∧
    (∀ h0 : Int × Int × Int,
      _hit_test (single_block w) 8 1 0 5 0 0 (-1) 0 h0 = (w, (0, 1, 0))) ∧
    (∀ (vx vy vz : ℚ) (h0 : Int × Int × Int),
      |vx| ≤ 1 / 32 → |vz| ≤ 1 / 32 → -1 ≤ vy → vy ≤ -(15 / 16) →
      _hit_test (single_block w) 8 0 0 5 0 vx vy vz h0 = (w, (0, 0, 0)) ∧
      _hit_test (single_block w) 8 1 0 5 0 vx vy vz h0 = (w, (0, 1, 0))) ∧
    (∀ (env : Env) (rx ry : ℚ) (b0 : Int × Int × Int),
      |(get_sight_vector env rx ry).1| ≤ 1 / 32 →
      |(get_sight_vector env rx ry).2.2| ≤ 1 / 32 →
      -1 ≤ (get_sight_vector env rx ry).2.1 →
      (get_sight_vector env rx ry).2.1 ≤ -(15 / 16) →
      hit_test env (one_block w) 0 0 5 0 rx ry b0 = (w, (0, 0, 0)) ∧
      hit_test env (one_block w) 1 0 5 0 rx ry b0 = (w, (0, 1, 0))) := by
  refine ⟨fun h0 => ?_, fun h0 => ?_, fun vx vy vz h0 h1 h2 h3 h4 => ⟨?_, ?_⟩,
    fun env rx ry b0 h1 h2 h3 h4 => ?_⟩
  · rw [ray_down_hit w hw]
    rfl
  · rw [ray_down_hit w hw]
    rfl
  · rw [ray_near_down_hit w hw 0 vx vy vz h1 h2 h3 h4]
    rfl
  · rw [ray_near_down_hit w hw 1 vx vy vz h1 h2 h3 h4]
    rfl
  · have hd : ¬ chunk_distance { chunk_pq 0 0 with map := single_block w }
        (chunked (0 : ℚ)) (chunked (0 : ℚ)) > 1 := by
      have h1 : chunk_distance { chunk_pq 0 0 with map := single_block w }
          (chunked (0 : ℚ)) (chunked (0 : ℚ)) =
          chunk_distance (chunk_pq 0 0) (chunked (0 : ℚ)) (chunked (0 : ℚ)) := rfl
      have h2 : chunk_distance (chunk_pq 0 0) (chunked (0 : ℚ)) (chunked (0 : ℚ)) = 0 := by
        decide
      omega
    constructor
    · unfold hit_test one_block
      simp only [List.foldl_cons, List.foldl_nil]
      unfold hit_test_step
      rw [if_neg hd]
      simp only [ray_near_down_hit w hw 0 _ _ _ h1 h2 h3 h4]
      simp [hw]
    · unfold hit_test one_block
      simp only [List.foldl_cons, List.foldl_nil]
      unfold hit_test_step
      rw [if_neg hd]
      simp only [ray_near_down_hit w hw 1 _ _ _ h1 h2 h3 h4]
      simp [hw]

theorem ray_down_scenario_witness :
    (0 : Int) < 3 ∧
    get_sight_vector env_steep 0 0 = (1 / 281474976710656, -1, 1 / 16777216) ∧
    _hit_test (single_block 3) 8 0 0 5 0 0 (-1) 0 (0, 0, 0) = (3, (0, 0, 0)) ∧
    hit_test env_steep (one_block 3) 1 0 5 0 0 0 (0, 0, 0) = (3, (0, 1, 0)) :=
  have h := ray_down_scenario 3 (by decide)
  ⟨by decide, by decide!, h.1 (0, 0, 0),
    (h.2.2.2 env_steep 0 0 (0, 0, 0) (by decide!) (by decide!) (by decide!) (by decide!)).2⟩

/-! ## C25: the cell a ray cast returns -/

/-- C25, at the failing inputs.  The loop of `_hit_test` starts with
`(px, py, pz) = (0, 0, 0)` although no cell has been sampled.  In previous mode a
ray that starts inside the solid cell `(5, 5, 5)` hits at its first sample and
returns the cell `(0, 0, 0)`, which it never passed through; in non-previous
mode a ray that starts in the solid cell `(0, 0, 0)` skips that cell, because it
equals `(px, py, pz)`, and returns the later cell `(0, 1, 0)` with its value `2`,
not the first sampled cell with a positive value. -/
theorem hit_test_first_sample_slip :
    _hit_test solid_origin 8 1 5 5 5 0 (-1) 0 (9, 9, 9) = (1, (0, 0, 0)) ∧
    ray_cell 5 5 5 0 (-1) 0 0 = (5, 5, 5) ∧
    _hit_test two_stacked 8 0 0 0 0 0 1 0 (9, 9, 9) = (2, (0, 1, 0)) ∧
    ray_cell 0 0 0 0 1 0 0 = (0, 0, 0) ∧ map_get two_stacked 0 0 0 = 1 := by
  decide!

/-! ## C26: the nearest hit -/

/-- C26, at the failing input.  The variable `best` of `hit_test` is `0` both
before the first hit and after a hit at distance `0`.  From the origin
`(30, 5, 0)` with sight vector `(1, 0, 0)` in previous mode the chunk `(0, 0)`
yields the hit cell `(30, 5, 0)` at distance `0` and the chunk `(1, 0)` the hit
cell `(32, 5, 0)` at distance `2`; with the chunks in that order `hit_test`
returns the farther hit, and with the chunks in the other order the nearer
one. -/
theorem hit_test_zero_distance_slip :
    get_sight_vector env_east 0 0 = (1, 0, 0) ∧
    _hit_test west_chunk.map 8 1 30 5 0 1 0 0 (9, 9, 9) = (1, (30, 5, 0)) ∧
    _hit_test east_chunk.map 8 1 30 5 0 1 0 0 (9, 9, 9) = (2, (32, 5, 0)) ∧
    hit_test env_east [west_chunk, east_chunk] 1 30 5 0 0 0 (9, 9, 9) = (2, (32, 5, 0)) ∧
    hit_test env_east [east_chunk, west_chunk] 1 30 5 0 0 0 (9, 9, 9) = (1, (30, 5, 0)) := by
  decide!

/-! ## The flood fill: monotonicity and bounds -/

theorem int8_small (v : Int) (h0 : -128 ≤ v) (h1 : v ≤ 127) : int8 v = v := by
  unfold int8
  omega

/-- A call of `light_fill` with `u <= 15` on an array with values in `0 .. 15`
decreases no element and keeps the values in `0 .. 15`, whatever the
recursion depth. -/
theorem fill_mono_bound (opaq : Grid) (ysize : Int) (n : Nat) (g : Grid)
    (x y z u force : Int) (hu : u ≤ 15) (h0 : ∀ i : Int, 0 ≤ g i) (h15 : ∀ i : Int, g i ≤ 15) :
    (∀ i : Int, g i ≤ light_fill opaq ysize n g x y z u force i) ∧
    (∀ i : Int, light_fill opaq ysize n g x y z u force i ≤ 15) := by
  induction n generalizing g x y z u force with
  | zero => exact ⟨fun i => le_refl _, h15⟩
  | succ n ih =>
    rw [light_fill]
    split
    · exact ⟨fun i => le_refl _, h15⟩
    · split
      · exact ⟨fun i => le_refl _, h15⟩
      · split
        · exact ⟨fun i => le_refl _, h15⟩
        · split
          · exact ⟨fun i => le_refl _, h15⟩
          · split
            · exact ⟨fun i => le_refl _, h15⟩
            · rename_i h4 _
              have hlt : g (XYZ x y z) < u := by omega
              have hu0 : 0 < u := lt_of_le_of_lt (h0 _) hlt
              have h8 : int8 u = u := int8_small u (by omega) (by omega)
              have hm0 : ∀ i : Int, g i ≤ grid_set g (XYZ x y z) (int8 u) i := by
                intro i
                by_cases hi : i = XYZ x y z
                · rw [hi, grid_set_self, h8]
                  omega
                · rw [grid_set_ne _ _ _ _ hi]
              have hb0 : ∀ i : Int, grid_set g (XYZ x y z) (int8 u) i ≤ 15 := by
                intro i
                by_cases hi : i = XYZ x y z
                · rw [hi, grid_set_self, h8]
                  exact hu
                · rw [grid_set_ne _ _ _ _ hi]
                  exact h15 i
              have hu1 : u - 1 ≤ 15 := by omega
              simp only
              have r1 := ih (grid_set g (XYZ x y z) (int8 u)) (x - 1) y z (u - 1) 0 hu1
                (fun i => le_trans (h0 i) (hm0 i)) hb0
              have r2 := ih _ (x + 1) y z (u - 1) 0 hu1
                (fun i => le_trans (le_trans (h0 i) (hm0 i)) (r1.1 i)) r1.2
              have r3 := ih _ x (y - 1) z (u - 1) 0 hu1
                (fun i => le_trans (le_trans (le_trans (h0 i) (hm0 i)) (r1.1 i)) (r2.1 i)) r2.2
              have r4 := ih _ x (y + 1) z (u - 1) 0 hu1
                (fun i => le_trans (le_trans (le_trans (le_trans (h0 i) (hm0 i)) (r1.1 i))
                  (r2.1 i)) (r3.1 i)) r3.2
              have r5 := ih _ x y (z - 1) (u - 1) 0 hu1
                (fun i => le_trans (le_trans (le_trans (le_trans (le_trans (h0 i) (hm0 i))
                  (r1.1 i)) (r2.1 i)) (r3.1 i)) (r4.1 i)) r4.2
              have r6 := ih _ x y (z + 1) (u - 1) 0 hu1
                (fun i => le_trans (le_trans (le_trans (le_trans (le_trans (le_trans (h0 i)
                  (hm0 i)) (r1.1 i)) (r2.1 i)) (r3.1 i)) (r4.1 i)) (r5.1 i)) r5.2
              exact ⟨fun i => le_trans (le_trans (le_trans (le_trans (le_trans (le_trans
                (hm0 i) (r1.1 i)) (r2.1 i)) (r3.1 i)) (r4.1 i)) (r5.1 i)) (r6.1 i), r6.2⟩


/-! ## The flood fill: the light of a changed cell is passed on -/

theorem light_step_refl (opaq : Grid) (ysize : Int) (g : Grid) : light_step opaq ysize g g :=
  ⟨fun _ => le_refl _, fun _ _ h => absurd rfl h⟩

theorem closed_at_mono (opaq : Grid) (ysize : Int) (g g2 : Grid) (a : Int × Int × Int)
    (hc : closed_at opaq ysize g a) (ha : at_cell g2 a = at_cell g a)
    (hm : ∀ i : Int, g i ≤ g2 i) : closed_at opaq ysize g2 a := by
  intro n hn ho hp
  rw [ha] at hp ⊢
  exact le_trans (hc n hn ho hp) (hm _)

theorem light_step_trans (opaq : Grid) (ysize : Int) (g g2 g3 : Grid)
    (h1 : light_step opaq ysize g g2) (h2 : light_step opaq ysize g2 g3) :
    light_step opaq ysize g g3 := by
  refine ⟨fun i => le_trans (h1.1 i) (h2.1 i), fun a ha hne => ?_⟩
  by_cases h : at_cell g3 a = at_cell g2 a
  · refine closed_at_mono opaq ysize g2 g3 a (h1.2 a ha ?_) h h2.1
    rw [← h]
    exact hne
  · exact h2.2 a ha h

theorem mem_axis_neighbours (x y z : Int) (n : Int × Int × Int) :
    n ∈ axis_neighbours x y z ↔
      n = (x - 1, y, z) ∨ n = (x + 1, y, z) ∨ n = (x, y + 1, z) ∨ n = (x, y - 1, z) ∨
      n = (x, y, z - 1) ∨ n = (x, y, z + 1) := by
  unfold axis_neighbours
  simp only [List.mem_cons, List.mem_singleton, List.not_mem_nil, or_false]

/-- The effect of a call of `light_fill` with enough recursion depth and
`u <= 15` on an array with values in `0 .. 15`: the array changes by a
`light_step`, and the element of the call's own cell ends at `u` or more when
the call passes its range tests and is forced or its cell is not opaque. -/
theorem fill_post (opaq : Grid) (ysize : Int) (n : Nat) (g : Grid) (x y z u force : Int)
    (hfuel : fill_fuel u ≤ n) (hu : u ≤ 15) (h0 : ∀ i : Int, 0 ≤ g i)
    (h15 : ∀ i : Int, g i ≤ 15) :
    light_step opaq ysize g (light_fill opaq ysize n g x y z u force) ∧
    (not_pruned x z u → (0 ≤ y ∧ y < ysize) → (force ≠ 0 ∨ opaq (XYZ x y z) = 0) →
      u ≤ light_fill opaq ysize n g x y z u force (XYZ x y z)) := by
  induction n generalizing g x y z u force with
  | zero =>
    refine ⟨light_step_refl opaq ysize g, fun hp _ _ => ?_⟩
    exfalso
    unfold fill_fuel at hfuel
    unfold not_pruned XZ_LO XZ_HI CHUNK_SIZE at hp
    omega
  | succ n ih =>
    rw [light_fill]
    by_cases h1 : x + u < XZ_LO ∨ z + u < XZ_LO
    · rw [if_pos h1]
      exact ⟨light_step_refl opaq ysize g, fun hp _ _ => absurd h1 hp.1⟩
    rw [if_neg h1]
    by_cases h2 : x - u > XZ_HI ∨ z - u > XZ_HI
    · rw [if_pos h2]
      exact ⟨light_step_refl opaq ysize g, fun hp _ _ => absurd h2 hp.2⟩
    rw [if_neg h2]
    by_cases h3 : y < 0 ∨ y ≥ ysize
    · rw [if_pos h3]
      exact ⟨light_step_refl opaq ysize g, fun _ hy _ => by omega⟩
    rw [if_neg h3]
    by_cases h4 : g (XYZ x y z) ≥ u
    · rw [if_pos h4]
      exact ⟨light_step_refl opaq ysize g, fun _ _ _ => h4⟩
    rw [if_neg h4]
    by_cases h5 : force = 0 ∧ opaq (XYZ x y z) ≠ 0
    · rw [if_pos h5]
      refine ⟨light_step_refl opaq ysize g, fun _ _ hf => ?_⟩
      rcases hf with hf | hf
      · exact absurd h5.1 hf
      · exact absurd hf h5.2
    rw [if_neg h5]
    simp only
    have hlt : g (XYZ x y z) < u := by omega
    have hu0 : 0 < u := lt_of_le_of_lt (h0 _) hlt
    have h8 : int8 u = u := int8_small u (by omega) (by omega)
    have hu1 : u - 1 ≤ 15 := by omega
    have hf1 : fill_fuel (u - 1) ≤ n := by
      unfold fill_fuel at hfuel ⊢
      omega
    have hcxz : in_xz (x, y, z) := by
      unfold in_xz XZ_SIZE CHUNK_SIZE
      unfold XZ_LO CHUNK_SIZE at h1
      unfold XZ_HI CHUNK_SIZE at h2
      simp only
      omega
    rw [h8]
    generalize hg0 : grid_set g (XYZ x y z) u = g0
    have hm0 : ∀ i : Int, g i ≤ g0 i := by
      intro i
      rw [← hg0]
      by_cases hi : i = XYZ x y z
      · rw [hi, grid_set_self]
        omega
      · rw [grid_set_ne _ _ _ _ hi]
    have hb0 : ∀ i : Int, g0 i ≤ 15 := by
      intro i
      rw [← hg0]
      by_cases hi : i = XYZ x y z
      · rw [hi, grid_set_self]
        exact hu
      · rw [grid_set_ne _ _ _ _ hi]
        exact h15 i
    have hn0 : ∀ i : Int, 0 ≤ g0 i := fun i => le_trans (h0 i) (hm0 i)
    have hself : g0 (XYZ x y z) = u := by
      rw [← hg0, grid_set_self]
    have b1 := fill_mono_bound opaq ysize n g0 (x - 1) y z (u - 1) 0 hu1 hn0 hb0
    have r1 := ih g0 (x - 1) y z (u - 1) 0 hf1 hu1 hn0 hb0
    generalize hg1 : light_fill opaq ysize n g0 (x - 1) y z (u - 1) 0 = g1 at b1 r1 ⊢
    have hn1 : ∀ i : Int, 0 ≤ g1 i := fun i => le_trans (hn0 i) (b1.1 i)
    have b2 := fill_mono_bound opaq ysize n g1 (x + 1) y z (u - 1) 0 hu1 hn1 b1.2
    have r2 := ih g1 (x + 1) y z (u - 1) 0 hf1 hu1 hn1 b1.2
    generalize hg2 : light_fill opaq ysize n g1 (x + 1) y z (u - 1) 0 = g2 at b2 r2 ⊢
    have hn2 : ∀ i : Int, 0 ≤ g2 i := fun i => le_trans (hn1 i) (b2.1 i)
    have b3 := fill_mono_bound opaq ysize n g2 x (y - 1) z (u - 1) 0 hu1 hn2 b2.2
    have r3 := ih g2 x (y - 1) z (u - 1) 0 hf1 hu1 hn2 b2.2
    generalize hg3 : light_fill opaq ysize n g2 x (y - 1) z (u - 1) 0 = g3 at b3 r3 ⊢
    have hn3 : ∀ i : Int, 0 ≤ g3 i := fun i => le_trans (hn2 i) (b3.1 i)
    have b4 := fill_mono_bound opaq ysize n g3 x (y + 1) z (u - 1) 0 hu1 hn3 b3.2
    have r4 := ih g3 x (y + 1) z (u - 1) 0 hf1 hu1 hn3 b3.2
    generalize hg4 : light_fill opaq ysize n g3 x (y + 1) z (u - 1) 0 = g4 at b4 r4 ⊢
    have hn4 : ∀ i : Int, 0 ≤ g4 i := fun i => le_trans (hn3 i) (b4.1 i)
    have b5 := fill_mono_bound opaq ysize n g4 x y (z - 1) (u - 1) 0 hu1 hn4 b4.2
    have r5 := ih g4 x y (z - 1) (u - 1) 0 hf1 hu1 hn4 b4.2
    generalize hg5 : light_fill opaq ysize n g4 x y (z - 1) (u - 1) 0 = g5 at b5 r5 ⊢
    have hn5 : ∀ i : Int, 0 ≤ g5 i := fun i => le_trans (hn4 i) (b5.1 i)
    have b6 := fill_mono_bound opaq ysize n g5 x y (z + 1) (u - 1) 0 hu1 hn5 b5.2
    have r6 := ih g5 x y (z + 1) (u - 1) 0 hf1 hu1 hn5 b5.2
    generalize hg6 : light_fill opaq ysize n g5 x y (z + 1) (u - 1) 0 = g6 at b6 r6 ⊢
    have m16 : ∀ i : Int, g1 i ≤ g6 i := fun i =>
      le_trans (le_trans (le_trans (le_trans (b2.1 i) (b3.1 i)) (b4.1 i)) (b5.1 i)) (b6.1 i)
    have m26 : ∀ i : Int, g2 i ≤ g6 i := fun i =>
      le_trans (le_trans (le_trans (b3.1 i) (b4.1 i)) (b5.1 i)) (b6.1 i)
    have m36 : ∀ i : Int, g3 i ≤ g6 i := fun i =>
      le_trans (le_trans (b4.1 i) (b5.1 i)) (b6.1 i)
    have m46 : ∀ i : Int, g4 i ≤ g6 i := fun i => le_trans (b5.1 i) (b6.1 i)
    have m06 : ∀ i : Int, g0 i ≤ g6 i := fun i => le_trans (b1.1 i) (m16 i)
    have s06 : light_step opaq ysize g0 g6 :=
      light_step_trans _ _ _ _ _ (light_step_trans _ _ _ _ _ (light_step_trans _ _ _ _ _
        (light_step_trans _ _ _ _ _ (light_step_trans _ _ _ _ _ r1.1 r2.1) r3.1) r4.1) r5.1)
        r6.1
    have hself6 : u ≤ g6 (XYZ x y z) := by
      rw [← hself]
      exact m06 _
    refine ⟨⟨fun i => le_trans (hm0 i) (m06 i), fun a ha hne => ?_⟩, fun _ _ _ => hself6⟩
    by_cases hchg : at_cell g6 a = at_cell g0 a
    · have hidx : XYZ a.1 a.2.1 a.2.2 = XYZ x y z := by
        by_contra hi
        apply hne
        rw [hchg]
        unfold at_cell
        rw [← hg0, grid_set_ne _ _ _ _ hi]
      have ha2 : a = (x, y, z) := by
        obtain ⟨e1, e2, e3⟩ := XYZ_inj a.1 a.2.1 a.2.2 x y z ha.1 ha.2 hcxz.1 hcxz.2 hidx
        exact Prod.ext e1 (Prod.ext e2 e3)
      have hval : at_cell g6 a = u := by
        rw [hchg]
        unfold at_cell
        rw [hidx, hself]
      intro nb hnb ho hp
      rw [hval] at hp ⊢
      rw [ha2] at hnb
      simp only at hnb
      have hor : opaq (XYZ nb.1 nb.2.1 nb.2.2) = 0 := ho.2
      have hyr : 0 ≤ nb.2.1 ∧ nb.2.1 < ysize := ho.1
      rcases (mem_axis_neighbours x y z nb).1 hnb with e | e | e | e | e | e
      · subst e
        exact le_trans (r1.2 hp hyr (Or.inr hor)) (m16 _)
      · subst e
        exact le_trans (r2.2 hp hyr (Or.inr hor)) (m26 _)
      · subst e
        exact le_trans (r4.2 hp hyr (Or.inr hor)) (m46 _)
      · subst e
        exact le_trans (r3.2 hp hyr (Or.inr hor)) (m36 _)
      · subst e
        exact le_trans (r5.2 hp hyr (Or.inr hor)) (b6.1 _)
      · subst e
        exact r6.2 hp hyr (Or.inr hor)
    · exact s06.2 a ha hchg


/-! ## The flood fill: every lit cell has a path of the right length -/

/-- A call of `light_fill` made for a cell that a path reaches keeps the
invariant that every lit cell has a path of length `w0 - light`. -/
theorem fill_sound (opaq : Grid) (ysize : Int) (o : Int × Int × Int) (w0 : Int) (n : Nat)
    (g : Grid) (x y z u force : Int) (hu : u ≤ 15) (h0 : ∀ i : Int, 0 ≤ g i)
    (h15 : ∀ i : Int, g i ≤ 15)
    (hS : ∀ a : Int × Int × Int, in_xz a → at_cell g a ≠ 0 →
      ∃ k : Nat, LightPath opaq ysize o a k ∧ (k : Int) = w0 - at_cell g a)
    (hpre1 : force ≠ 0 → (x, y, z) = o ∧ u = w0)
    (hpre0 : force = 0 → ∃ (c : Int × Int × Int) (k : Nat), LightPath opaq ysize o c k ∧
      (x, y, z) ∈ axis_neighbours c.1 c.2.1 c.2.2 ∧ (k : Int) + 1 = w0 - u) :
    ∀ a : Int × Int × Int, in_xz a → at_cell (light_fill opaq ysize n g x y z u force) a ≠ 0 →
      ∃ k : Nat, LightPath opaq ysize o a k ∧
        (k : Int) = w0 - at_cell (light_fill opaq ysize n g x y z u force) a := by
  induction n generalizing g x y z u force with
  | zero => exact hS
  | succ n ih =>
    rw [light_fill]
    by_cases h1 : x + u < XZ_LO ∨ z + u < XZ_LO
    · rw [if_pos h1]; exact hS
    rw [if_neg h1]
    by_cases h2 : x - u > XZ_HI ∨ z - u > XZ_HI
    · rw [if_pos h2]; exact hS
    rw [if_neg h2]
    by_cases h3 : y < 0 ∨ y ≥ ysize
    · rw [if_pos h3]; exact hS
    rw [if_neg h3]
    by_cases h4 : g (XYZ x y z) ≥ u
    · rw [if_pos h4]; exact hS
    rw [if_neg h4]
    by_cases h5 : force = 0 ∧ opaq (XYZ x y z) ≠ 0
    · rw [if_pos h5]; exact hS
    rw [if_neg h5]
    simp only
    have hlt : g (XYZ x y z) < u := by omega
    have hu0 : 0 < u := lt_of_le_of_lt (h0 _) hlt
    have h8 : int8 u = u := int8_small u (by omega) (by omega)
    have hu1 : u - 1 ≤ 15 := by omega
    have hcxz : in_xz (x, y, z) := by
      unfold in_xz XZ_SIZE CHUNK_SIZE
      unfold XZ_LO CHUNK_SIZE at h1
      unfold XZ_HI CHUNK_SIZE at h2
      simp only
      omega
    have hpath : ∃ k : Nat, LightPath opaq ysize o (x, y, z) k ∧ (k : Int) = w0 - u := by
      by_cases hf : force = 0
      · obtain ⟨c, k, hk, hadj, hlen⟩ := hpre0 hf
        have hop : open_cell opaq ysize (x, y, z) := by
          refine ⟨by simp only; omega, ?_⟩
          by_contra hne
          exact h5 ⟨hf, hne⟩
        exact ⟨k + 1, LightPath.step c (x, y, z) k hk hadj hop, by push_cast; omega⟩
      · obtain ⟨ho, hw⟩ := hpre1 hf
        rw [ho, hw]
        exact ⟨0, LightPath.origin, by simp⟩
    obtain ⟨kc, hkc, hlen⟩ := hpath
    rw [h8]
    generalize hg0 : grid_set g (XYZ x y z) u = g0
    have hm0 : ∀ i : Int, g i ≤ g0 i := by
      intro i
      rw [← hg0]
      by_cases hi : i = XYZ x y z
      · rw [hi, grid_set_self]
        omega
      · rw [grid_set_ne _ _ _ _ hi]
    have hb0 : ∀ i : Int, g0 i ≤ 15 := by
      intro i
      rw [← hg0]
      by_cases hi : i = XYZ x y z
      · rw [hi, grid_set_self]
        exact hu
      · rw [grid_set_ne _ _ _ _ hi]
        exact h15 i
    have hn0 : ∀ i : Int, 0 ≤ g0 i := fun i => le_trans (h0 i) (hm0 i)
    have hS0 : ∀ a : Int × Int × Int, in_xz a → at_cell g0 a ≠ 0 →
        ∃ k : Nat, LightPath opaq ysize o a k ∧ (k : Int) = w0 - at_cell g0 a := by
      intro a ha hne
      by_cases hidx : XYZ a.1 a.2.1 a.2.2 = XYZ x y z
      · have ha2 : a = (x, y, z) := by
          obtain ⟨e1, e2, e3⟩ := XYZ_inj a.1 a.2.1 a.2.2 x y z ha.1 ha.2 hcxz.1 hcxz.2 hidx
          exact Prod.ext e1 (Prod.ext e2 e3)
        have hval : at_cell g0 a = u := by
          unfold at_cell
          rw [hidx, ← hg0, grid_set_self]
        rw [hval, ha2]
        exact ⟨kc, hkc, hlen⟩
      · have hval : at_cell g0 a = at_cell g a := by
          unfold at_cell
          rw [← hg0, grid_set_ne _ _ _ _ hidx]
        rw [hval] at hne ⊢
        exact hS a ha hne
    have hnot : ∀ h : (0 : Int) ≠ 0, ∀ c : Int × Int × Int, c = o ∧ u - 1 = w0 :=
      fun h _ => absurd rfl h
    have hnb : ∀ nb : Int × Int × Int, nb ∈ axis_neighbours x y z →
        (0 : Int) = 0 → ∃ (c : Int × Int × Int) (k : Nat), LightPath opaq ysize o c k ∧
          nb ∈ axis_neighbours c.1 c.2.1 c.2.2 ∧ (k : Int) + 1 = w0 - (u - 1) :=
      fun nb hmem _ => ⟨(x, y, z), kc, hkc, hmem, by omega⟩
    have b1 := fill_mono_bound opaq ysize n g0 (x - 1) y z (u - 1) 0 hu1 hn0 hb0
    have r1 := ih g0 (x - 1) y z (u - 1) 0 hu1 hn0 hb0 hS0 (fun h => hnot h _)
      (hnb _ (by simp [axis_neighbours]))
    generalize hg1 : light_fill opaq ysize n g0 (x - 1) y z (u - 1) 0 = g1 at b1 r1 ⊢
    have hn1 : ∀ i : Int, 0 ≤ g1 i := fun i => le_trans (hn0 i) (b1.1 i)
    have b2 := fill_mono_bound opaq ysize n g1 (x + 1) y z (u - 1) 0 hu1 hn1 b1.2
    have r2 := ih g1 (x + 1) y z (u - 1) 0 hu1 hn1 b1.2 r1 (fun h => hnot h _)
      (hnb _ (by simp [axis_neighbours]))
    generalize hg2 : light_fill opaq ysize n g1 (x + 1) y z (u - 1) 0 = g2 at b2 r2 ⊢
    have hn2 : ∀ i : Int, 0 ≤ g2 i := fun i => le_trans (hn1 i) (b2.1 i)
    have b3 := fill_mono_bound opaq ysize n g2 x (y - 1) z (u - 1) 0 hu1 hn2 b2.2
    have r3 := ih g2 x (y - 1) z (u - 1) 0 hu1 hn2 b2.2 r2 (fun h => hnot h _)
      (hnb _ (by simp [axis_neighbours]))
    generalize hg3 : light_fill opaq ysize n g2 x (y - 1) z (u - 1) 0 = g3 at b3 r3 ⊢
    have hn3 : ∀ i : Int, 0 ≤ g3 i := fun i => le_trans (hn2 i) (b3.1 i)
    have b4 := fill_mono_bound opaq ysize n g3 x (y + 1) z (u - 1) 0 hu1 hn3 b3.2
    have r4 := ih g3 x (y + 1) z (u - 1) 0 hu1 hn3 b3.2 r3 (fun h => hnot h _)
      (hnb _ (by simp [axis_neighbours]))
    generalize hg4 : light_fill opaq ysize n g3 x (y + 1) z (u - 1) 0 = g4 at b4 r4 ⊢
    have hn4 : ∀ i : Int, 0 ≤ g4 i := fun i => le_trans (hn3 i) (b4.1 i)
    have b5 := fill_mono_bound opaq ysize n g4 x y (z - 1) (u - 1) 0 hu1 hn4 b4.2
    have r5 := ih g4 x y (z - 1) (u - 1) 0 hu1 hn4 b4.2 r4 (fun h => hnot h _)
      (hnb _ (by simp [axis_neighbours]))
    generalize hg5 : light_fill opaq ysize n g4 x y (z - 1) (u - 1) 0 = g5 at b5 r5 ⊢
    have hn5 : ∀ i : Int, 0 ≤ g5 i := fun i => le_trans (hn4 i) (b5.1 i)
    exact ih g5 x y (z + 1) (u - 1) 0 hu1 hn5 b5.2 r5 (fun h => hnot h _)
      (hnb _ (by simp [axis_neighbours]))


/-! ## The flood fill: every path delivers its light -/

theorem not_pruned_mono (x z u u2 : Int) (hu : u ≤ u2) (h : not_pruned x z u) :
    not_pruned x z u2 := by
  unfold not_pruned at *
  omega

theorem path_lower (opaq : Grid) (ysize : Int) (o : Int × Int × Int) (w : Int) (g : Grid)
    (hw : w ≤ 15) (hstep : light_step opaq ysize grid_zero g)
    (horigin : not_pruned o.1 o.2.2 w → w ≤ at_cell g o) :
    ∀ (c : Int × Int × Int) (k : Nat), LightPath opaq ysize o c k → 1 ≤ w - (k : Int) →
      not_pruned c.1 c.2.2 (w - (k : Int)) → w - (k : Int) ≤ at_cell g c := by
  intro c k hpath
  induction hpath with
  | origin =>
    intro _ hp
    simp only [Nat.cast_zero, sub_zero] at hp ⊢
    exact horigin hp
  | step c nb k _ hadj hopen ih =>
    intro h1 hp
    push_cast at h1 hp ⊢
    have hadj2 := (mem_axis_neighbours c.1 c.2.1 c.2.2 nb).1 hadj
    have hpc : not_pruned c.1 c.2.2 (w - (k : Int)) := by
      unfold not_pruned XZ_LO XZ_HI CHUNK_SIZE at hp ⊢
      rcases hadj2 with e | e | e | e | e | e <;> rw [e] at hp <;> simp only at hp <;> omega
    have hc := ih (by omega) hpc
    have hcxz : in_xz c := by
      unfold not_pruned XZ_LO XZ_HI CHUNK_SIZE at hpc
      unfold in_xz XZ_SIZE CHUNK_SIZE
      omega
    have hne : at_cell g c ≠ at_cell grid_zero c := by
      have hz : at_cell grid_zero c = 0 := rfl
      rw [hz]
      omega
    have hcl := hstep.2 c hcxz hne nb hadj hopen
      (not_pruned_mono nb.1 nb.2.2 (w - ((k : Int) + 1)) _ (by omega) hp)
    omega

/-! ## C28: the flood fill computes shortest-path light -/

/-- C28. Flood fill computes shortest-path light.  On a zero-initialised light
array, after `light_fill(opaque, light, x0, y0, z0, w, 1)` with `1 <= w <= 15`
and the origin inside the padded grid: no element is negative; a cell of the
grid's `x`/`z` range with positive light `v` is reached by a 6-connected path of
exactly `w - v` steps whose cells after the origin are non-opaque and inside the
`y` range; and a cell with `XZ_LO - 1 <= x, z <= XZ_HI + 1` that such a path of
`k` steps reaches holds at least `w - k`.  So the light of such a cell is
`max(0, w - d)`, `d` the length of the shortest such path; and on every array
with values in `0 .. 15` the call decreases no element. -/
theorem flood_fill_shortest_path (opaq : Grid) (ysize : Int) (x0 y0 z0 w : Int)
    (_hw1 : 1 ≤ w) (hw2 : w ≤ 15) (_hx : 0 ≤ x0 ∧ x0 < XZ_SIZE) (hy : 0 ≤ y0 ∧ y0 < ysize)
    (_hz : 0 ≤ z0 ∧ z0 < XZ_SIZE) :
    (∀ i : Int, 0 ≤ light_fill opaq ysize (fill_fuel w) grid_zero x0 y0 z0 w 1 i) ∧
    (∀ c : Int × Int × Int, in_xz c →
      0 < at_cell (light_fill opaq ysize (fill_fuel w) grid_zero x0 y0 z0 w 1) c →
      ∃ k : Nat, LightPath opaq ysize (x0, y0, z0) c k ∧
        (k : Int) = w - at_cell (light_fill opaq ysize (fill_fuel w) grid_zero x0 y0 z0 w 1) c) ∧
    (∀ (c : Int × Int × Int) (k : Nat),
      (XZ_LO - 1 ≤ c.1 ∧ c.1 ≤ XZ_HI + 1) → (XZ_LO - 1 ≤ c.2.2 ∧ c.2.2 ≤ XZ_HI + 1) →
      LightPath opaq ysize (x0, y0, z0) c k →
      w - (k : Int) ≤ at_cell (light_fill opaq ysize (fill_fuel w) grid_zero x0 y0 z0 w 1) c) ∧
    (∀ (n : Nat) (g : Grid) (force : Int), (∀ i : Int, 0 ≤ g i ∧ g i ≤ 15) →
      ∀ i : Int, g i ≤ light_fill opaq ysize n g x0 y0 z0 w force i) := by
  have hz0 : ∀ i : Int, 0 ≤ grid_zero i := fun _ => le_refl _
  have hz15 : ∀ i : Int, grid_zero i ≤ 15 := fun _ => by unfold grid_zero; omega
  have hmb := fill_mono_bound opaq ysize (fill_fuel w) grid_zero x0 y0 z0 w 1 hw2 hz0 hz15
  have hpost := fill_post opaq ysize (fill_fuel w) grid_zero x0 y0 z0 w 1 (le_refl _) hw2
    hz0 hz15
  have hnn : ∀ i : Int, 0 ≤ light_fill opaq ysize (fill_fuel w) grid_zero x0 y0 z0 w 1 i :=
    fun i => le_trans (hz0 i) (hmb.1 i)
  refine ⟨hnn, ?_, ?_, fun n g force hg =>
    (fill_mono_bound opaq ysize n g x0 y0 z0 w force hw2 (fun i => (hg i).1)
      (fun i => (hg i).2)).1⟩
  · intro c hc hpos
    exact fill_sound opaq ysize (x0, y0, z0) w (fill_fuel w) grid_zero x0 y0 z0 w 1 hw2 hz0
      hz15 (fun a _ hne => absurd rfl hne) (fun _ => ⟨rfl, rfl⟩)
      (fun h => absurd h (by decide)) c hc (by omega)
  · intro c k hcx hcz hpath
    by_cases hk : 1 ≤ w - (k : Int)
    · refine path_lower opaq ysize (x0, y0, z0) w _ hw2 hpost.1
        (fun hp => hpost.2 hp hy (Or.inl (by decide))) c k hpath hk ?_
      unfold not_pruned XZ_LO XZ_HI CHUNK_SIZE
      unfold XZ_LO XZ_HI CHUNK_SIZE at hcx hcz
      omega
    · exact le_trans (by omega) (hnn _)

theorem flood_fill_shortest_path_witness :
    (1 : Int) ≤ 2 ∧ (2 : Int) ≤ 15 ∧ (0 ≤ (40 : Int) ∧ (40 : Int) < XZ_SIZE) ∧
    (0 ≤ (5 : Int) ∧ (5 : Int) < 258) ∧
    (2 : Int) - ((0 : Nat) : Int) ≤
      at_cell (light_fill wall_grid 258 (fill_fuel 2) grid_zero 40 5 40 2 1) (40, 5, 40) :=
  ⟨by decide, by decide, by decide, by decide,
    (flood_fill_shortest_path wall_grid 258 40 5 40 2 (by decide) (by decide) (by decide)
      (by decide) (by decide)).2.2.1 (40, 5, 40) 0 (by decide) (by decide) LightPath.origin⟩

/-! ## The light term of `occlusion` -/

theorem occlusion_light_eq (lights : List Int) (l4 : List Nat) :
    occlusion_light lights l4 =
      if lights.getD 13 0 = 15 then 10 else light_average lights l4 := by
  unfold occlusion_light light_average
  by_cases h : lights.getD 13 0 = 15
  · simp only [h, decide_True, if_true]
    norm_num
  · simp only [h, decide_False, Bool.false_eq_true, if_false]

theorem offsets3_centre (f : Int × Int × Int → Int) :
    (offsets3.map f).getD 13 0 = f (0, 0, 0) := by
  rfl

theorem cell_occlusion_light (opaq light highest : Grid) (x y z : Int) :
    (cell_occlusion opaq light highest x y z).2 =
      if light (XYZ x y z) = 15 then List.replicate 6 (List.replicate 4 10)
      else average_table light x y z := by
  unfold cell_occlusion occlusion average_table
  simp only [occlusion_light_eq, offsets3_centre, add_zero]
  split
  · rfl
  · rfl

theorem getD_bounds (l : List Int) (h : ∀ v ∈ l, 0 ≤ v ∧ v ≤ 15) (k : Nat) :
    0 ≤ l.getD k 0 ∧ l.getD k 0 ≤ 15 := by
  rw [List.getD_eq_getElem?_getD]
  cases hk : l[k]? with
  | none => simp
  | some v => exact h v (List.getElem?_mem hk)

theorem sum_bounds (l : List Int) (h : ∀ v ∈ l, 0 ≤ v ∧ v ≤ 15) :
    0 ≤ l.sum ∧ l.sum ≤ 15 * (l.length : Int) := by
  induction l with
  | nil => simp
  | cons a l ih =>
    have ha := h a (List.mem_cons_self a l)
    have hl := ih (fun v hv => h v (List.mem_cons_of_mem a hv))
    simp only [List.sum_cons, List.length_cons, Nat.cast_add, Nat.cast_one]
    omega

theorem light_average_bounds (lights : List Int) (l4 : List Nat)
    (h : ∀ v ∈ lights, 0 ≤ v ∧ v ≤ 15) (hl : l4.length = 4) :
    0 ≤ light_average lights l4 ∧ light_average lights l4 ≤ 1 := by
  unfold light_average
  have hs := sum_bounds (l4.map (fun k => lights.getD k 0)) (by
    intro v hv
    obtain ⟨k, _, rfl⟩ := List.mem_map.1 hv
    exact getD_bounds lights h k)
  rw [List.length_map, hl] at hs
  have h0 : (0 : ℚ) ≤ ((l4.map (fun k => lights.getD k 0)).sum : Int) := by exact_mod_cast hs.1
  have h1 : (((l4.map (fun k => lights.getD k 0)).sum : Int) : ℚ) ≤ 60 := by exact_mod_cast hs.2
  constructor
  · positivity
  · rw [div_div, div_le_one (by norm_num)]
    linarith

theorem lookup4_length : ∀ i < 6, ∀ j < 4, ((lookup4.getD i []).getD j []).length = 4 := by
  decide

theorem average_table_bounds (light : Grid) (x y z : Int)
    (h : ∀ i : Int, 0 ≤ light i ∧ light i ≤ 15) :
    ∀ row ∈ average_table light x y z, ∀ v ∈ row, 0 ≤ v ∧ v ≤ 1 := by
  intro row hrow v hv
  unfold average_table at hrow
  obtain ⟨i, hi, rfl⟩ := List.mem_map.1 hrow
  obtain ⟨j, hj, rfl⟩ := List.mem_map.1 hv
  refine light_average_bounds _ _ ?_ (lookup4_length i (List.mem_range.1 hi) j (List.mem_range.1 hj))
  intro w hw
  obtain ⟨d, _, rfl⟩ := List.mem_map.1 hw
  exact h _

/-! ## The flood-fill loops over the emitters -/

theorem foldl_flatten_eq {α β : Type} (f : β → α → β) (L : List (List α)) (g : β) :
    L.foldl (fun b l => l.foldl f b) g = L.flatten.foldl f g := by
  induction L generalizing g with
  | nil => rfl
  | cons l L ih => simp only [List.foldl_cons, List.flatten_cons, List.foldl_append, ih]

theorem flood_emitters (env : Env) (opaq : Grid) (ox oz : Int) (t : List (Option Map)) :
    flood env opaq ox oz t =
      if has_light_flag env t = true then
        (emitters t).foldl (fun l c =>
          light_fill opaq (Y_SIZE env) (fill_fuel c.2.2.2) l
            (c.1 - ox) (c.2.1 - (-1)) (c.2.2.1 - oz) c.2.2.2 1) grid_zero
      else grid_zero := by
  rw [flood_eq, has_light_flag_eq, foldl_flatten_eq]
  rfl

theorem has_light_of_emitter (env : Env) (t : List (Option Map)) (e : Cell)
    (hs : env.SHOW_LIGHTS = true) (he : e ∈ emitters t) : has_light_flag env t = true := by
  rw [has_light_flag_eq, hs, Bool.true_and, List.any_eq_true]
  unfold emitters at he
  obtain ⟨cells, hc, hec⟩ := List.mem_flatten.1 he
  refine ⟨cells, hc, ?_⟩
  rw [decide_eq_true_eq]
  intro h0
  rw [List.length_eq_zero] at h0
  rw [h0] at hec
  exact absurd hec (List.not_mem_nil e)

theorem fold_bounds (opaq : Grid) (ysize ox oz : Int) (cells : List Cell) (g : Grid)
    (hle : ∀ c ∈ cells, c.2.2.2 ≤ 15) (h0 : ∀ i : Int, 0 ≤ g i) (h15 : ∀ i : Int, g i ≤ 15) :
    (∀ i : Int, g i ≤ cells.foldl (fun l c =>
      light_fill opaq ysize (fill_fuel c.2.2.2) l
        (c.1 - ox) (c.2.1 - (-1)) (c.2.2.1 - oz) c.2.2.2 1) g i) ∧
    (∀ i : Int, cells.foldl (fun l c =>
      light_fill opaq ysize (fill_fuel c.2.2.2) l
        (c.1 - ox) (c.2.1 - (-1)) (c.2.2.1 - oz) c.2.2.2 1) g i ≤ 15) := by
  induction cells generalizing g with
  | nil => exact ⟨fun i => le_refl _, h15⟩
  | cons a rest ih =>
    have hs := fill_mono_bound opaq ysize (fill_fuel a.2.2.2) g (a.1 - ox) (a.2.1 - (-1))
      (a.2.2.1 - oz) a.2.2.2 1 (hle a (List.mem_cons_self a rest)) h0 h15
    have hr := ih _ (fun c hc => hle c (List.mem_cons_of_mem a hc))
      (fun i => le_trans (h0 i) (hs.1 i)) hs.2
    simp only [List.foldl_cons]
    exact ⟨fun i => le_trans (hs.1 i) (hr.1 i), hr.2⟩

theorem fold_reach (opaq : Grid) (ysize ox oz : Int) (cells : List Cell) (g : Grid)
    (hle : ∀ c ∈ cells, c.2.2.2 ≤ 15) (h0 : ∀ i : Int, 0 ≤ g i) (h15 : ∀ i : Int, g i ≤ 15)
    (e : Cell) (he : e ∈ cells) (hw : e.2.2.2 = 15)
    (hp : not_pruned (e.1 - ox) (e.2.2.1 - oz) 15)
    (hy : 0 ≤ e.2.1 - (-1) ∧ e.2.1 - (-1) < ysize) :
    cells.foldl (fun l c =>
      light_fill opaq ysize (fill_fuel c.2.2.2) l
        (c.1 - ox) (c.2.1 - (-1)) (c.2.2.1 - oz) c.2.2.2 1) g
      (XYZ (e.1 - ox) (e.2.1 - (-1)) (e.2.2.1 - oz)) = 15 := by
  induction cells generalizing g with
  | nil => exact absurd he (List.not_mem_nil e)
  | cons a rest ih =>
    have hs := fill_mono_bound opaq ysize (fill_fuel a.2.2.2) g (a.1 - ox) (a.2.1 - (-1))
      (a.2.2.1 - oz) a.2.2.2 1 (hle a (List.mem_cons_self a rest)) h0 h15
    have hrest : ∀ c ∈ rest, c.2.2.2 ≤ 15 := fun c hc => hle c (List.mem_cons_of_mem a hc)
    simp only [List.foldl_cons]
    rcases List.mem_cons.1 he with hea | her
    · subst hea
      have hr := fold_bounds opaq ysize ox oz rest _ hrest
        (fun i => le_trans (h0 i) (hs.1 i)) hs.2
      have hpost := (fill_post opaq ysize (fill_fuel e.2.2.2) g (e.1 - ox) (e.2.1 - (-1))
        (e.2.2.1 - oz) e.2.2.2 1 (le_refl _) (hle e (List.mem_cons_self e rest)) h0 h15).2
        (by rw [hw]; exact hp) hy (Or.inl (by decide))
      have hpost2 : 15 ≤ light_fill opaq ysize (fill_fuel e.2.2.2) g (e.1 - ox) (e.2.1 - (-1))
          (e.2.2.1 - oz) e.2.2.2 1 (XYZ (e.1 - ox) (e.2.1 - (-1)) (e.2.2.1 - oz)) :=
        le_trans (le_of_eq hw.symm) hpost
      exact le_antisymm (hr.2 _) (le_trans hpost2 (hr.1 _))
    · exact ih _ hrest (fun i => le_trans (h0 i) (hs.1 i)) hs.2 her

/-- A call of `light_fill` with `u <= 15` on an array with values in `0 .. 15`
leaves the element of the cell `(px, py, pz)` at `14` or less when it was so
before, unless the call starts at that cell with `u = 15`. -/
theorem fill_cap (opaq : Grid) (ysize px py pz : Int)
    (hpx : 0 ≤ px ∧ px < XZ_SIZE) (hpz : 0 ≤ pz ∧ pz < XZ_SIZE) (n : Nat) (g : Grid)
    (x y z u force : Int) (hu : u ≤ 15)
    (hQ : (∀ i : Int, 0 ≤ g i ∧ g i ≤ 15) ∧ g (XYZ px py pz) ≤ 14)
    (hne : u ≤ 14 ∨ (x, y, z) ≠ (px, py, pz)) :
    (∀ i : Int, 0 ≤ light_fill opaq ysize n g x y z u force i ∧
      light_fill opaq ysize n g x y z u force i ≤ 15) ∧
    light_fill opaq ysize n g x y z u force (XYZ px py pz) ≤ 14 := by
  induction n generalizing g x y z u force with
  | zero => exact hQ
  | succ n ih =>
    rw [light_fill]
    split
    · exact hQ
    · rename_i h1
      split
      · exact hQ
      · rename_i h2
        split
        · exact hQ
        · split
          · exact hQ
          · split
            · exact hQ
            · rename_i h4 _
              have hlt : g (XYZ x y z) < u := by omega
              have hu0 : 0 < u := lt_of_le_of_lt (hQ.1 _).1 hlt
              have h8 : int8 u = u := int8_small u (by omega) (by omega)
              have hxr : 0 ≤ x ∧ x < XZ_SIZE := by
                unfold XZ_LO CHUNK_SIZE at h1
                unfold XZ_HI CHUNK_SIZE at h2
                unfold XZ_SIZE CHUNK_SIZE
                omega
              have hzr : 0 ≤ z ∧ z < XZ_SIZE := by
                unfold XZ_LO CHUNK_SIZE at h1
                unfold XZ_HI CHUNK_SIZE at h2
                unfold XZ_SIZE CHUNK_SIZE
                omega
              have hl0 : (∀ i : Int, 0 ≤ grid_set g (XYZ x y z) (int8 u) i ∧
                  grid_set g (XYZ x y z) (int8 u) i ≤ 15) ∧
                  grid_set g (XYZ x y z) (int8 u) (XYZ px py pz) ≤ 14 := by
                refine ⟨fun i => ?_, ?_⟩
                · by_cases hi : i = XYZ x y z
                  · rw [hi, grid_set_self, h8]
                    omega
                  · rw [grid_set_ne _ _ _ _ hi]
                    exact hQ.1 i
                · by_cases hi : XYZ px py pz = XYZ x y z
                  · rw [hi, grid_set_self, h8]
                    rcases hne with h14 | hd
                    · exact h14
                    · exfalso
                      have := XYZ_inj px py pz x y z hpx hpz hxr hzr hi
                      apply hd
                      rw [this.1, this.2.1, this.2.2]
                  · rw [grid_set_ne _ _ _ _ hi]
                    exact hQ.2
              have hu1 : u - 1 ≤ 15 := by omega
              have hu14 : u - 1 ≤ 14 := by omega
              simp only
              exact ih _ x y (z + 1) (u - 1) 0 hu1
                (ih _ x y (z - 1) (u - 1) 0 hu1
                  (ih _ x (y + 1) z (u - 1) 0 hu1
                    (ih _ x (y - 1) z (u - 1) 0 hu1
                      (ih _ (x + 1) y z (u - 1) 0 hu1
                        (ih _ (x - 1) y z (u - 1) 0 hu1 hl0 (Or.inl hu14))
                        (Or.inl hu14)) (Or.inl hu14)) (Or.inl hu14)) (Or.inl hu14)) (Or.inl hu14)

theorem fold_cap (opaq : Grid) (ysize ox oz px py pz : Int)
    (hpx : 0 ≤ px ∧ px < XZ_SIZE) (hpz : 0 ≤ pz ∧ pz < XZ_SIZE) (cells : List Cell) (g : Grid)
    (hle : ∀ c ∈ cells, c.2.2.2 ≤ 15)
    (hno : ∀ c ∈ cells, c.2.2.2 = 15 →
      (c.1 - ox, c.2.1 - (-1), c.2.2.1 - oz) ≠ (px, py, pz))
    (hQ : (∀ i : Int, 0 ≤ g i ∧ g i ≤ 15) ∧ g (XYZ px py pz) ≤ 14) :
    cells.foldl (fun l c =>
      light_fill opaq ysize (fill_fuel c.2.2.2) l
        (c.1 - ox) (c.2.1 - (-1)) (c.2.2.1 - oz) c.2.2.2 1) g (XYZ px py pz) ≤ 14 := by
  induction cells generalizing g with
  | nil => exact hQ.2
  | cons a rest ih =>
    simp only [List.foldl_cons]
    refine ih _ (fun c hc => hle c (List.mem_cons_of_mem a hc))
      (fun c hc => hno c (List.mem_cons_of_mem a hc)) ?_
    have ha := hle a (List.mem_cons_self a rest)
    refine fill_cap opaq ysize px py pz hpx hpz _ g _ _ _ _ 1 ha hQ ?_
    by_cases h15 : a.2.2.2 = 15
    · exact Or.inr (hno a (List.mem_cons_self a rest) h15)
    · exact Or.inl (by omega)

theorem item_light_bounds (env : Env) (item : WorkerItem)
    (hle : ∀ e ∈ emitters item.light_maps, e.2.2.2 ≤ 15) (i : Int) :
    0 ≤ item_light env item i ∧ item_light env item i ≤ 15 := by
  unfold item_light
  rw [flood_emitters]
  split
  · have h := fold_bounds (item_opacity env item) (Y_SIZE env) (grid_origin item.p)
      (grid_origin item.q) (emitters item.light_maps) grid_zero hle (fun _ => le_refl _)
      (fun _ => by unfold grid_zero; decide)
    exact ⟨le_trans (le_refl _) (h.1 i), h.2 i⟩
  · unfold grid_zero
    decide

/-! ## C29: the emitter override -/

/-- C29, the counterexample.  The item holds a cube at `(0, 5, 0)` that is also
an emitter of stored intensity `3` in the centre light map.  The cube
contributes six faces, the propagated light at its cell is `3`, and all `24`
per-corner light values are the average `1 / 15`, not the override value. -/
theorem dim_emitter_not_overridden :
    (0, 5, 0, 3) ∈ emitters (emitter_item 3).light_maps ∧
    cell_faces env0 (item_opacity env0 (emitter_item 3)) (grid_origin 0) (grid_origin 0)
      (0, 5, 0, 1) = 6 ∧
    cell_light env0 (emitter_item 3) (0, 5, 0, 1) = 3 ∧
    cell_light_table env0 (emitter_item 3) (0, 5, 0, 1) =
      List.replicate 6 (List.replicate 4 (1 / 15)) ∧
    cell_light_table env0 (emitter_item 3) (0, 5, 0, 1) ≠
      List.replicate 6 (List.replicate 4 10) := by
  decide!

/-- C29, amended.  For a map entry `c` whose grid cell lies in the range
`XZ_LO .. XZ_HI` of the centre chunk and in the `y` range of the grid, and
light maps whose stored intensities are at most `15`: the table `light[6][4]`
holds the override value `10` in all `24` places when the propagated light at
the cell itself is `15`, and the averages of the four touching cells
otherwise; every average lies in `[0, 1]`; with lighting enabled an emitter of
stored intensity `15` at the cell makes the propagated light `15`; and when no
emitter of stored intensity `15` sits at the cell (the cell is no emitter, or
one of stored intensity `1 .. 14`) the propagated light is at most `14`, so
that the table holds the averages. -/
theorem emitter_override (env : Env) (item : WorkerItem) (c : Cell)
    (hle : ∀ e ∈ emitters item.light_maps, e.2.2.2 ≤ 15)
    (hx : XZ_LO ≤ c.1 - grid_origin item.p ∧ c.1 - grid_origin item.p ≤ XZ_HI)
    (hy : 0 ≤ c.2.1 - (-1) ∧ c.2.1 - (-1) < Y_SIZE env)
    (hz : XZ_LO ≤ c.2.2.1 - grid_origin item.q ∧ c.2.2.1 - grid_origin item.q ≤ XZ_HI) :
    (cell_light env item c = 15 →
      cell_light_table env item c = List.replicate 6 (List.replicate 4 10)) ∧
    (cell_light env item c ≠ 15 →
      cell_light_table env item c = cell_average_table env item c) ∧
    (∀ row ∈ cell_average_table env item c, ∀ v ∈ row, 0 ≤ v ∧ v ≤ 1) ∧
    (env.SHOW_LIGHTS = true → (c.1, c.2.1, c.2.2.1, 15) ∈ emitters item.light_maps →
      cell_light env item c = 15 ∧
      cell_light_table env item c = List.replicate 6 (List.replicate 4 10)) ∧
    ((∀ e ∈ emitters item.light_maps, e.2.2.2 = 15 →
        (e.1, e.2.1, e.2.2.1) ≠ (c.1, c.2.1, c.2.2.1)) →
      cell_light env item c ≤ 14 ∧
      cell_light_table env item c = cell_average_table env item c) := by
  have htab : cell_light_table env item c =
      if cell_light env item c = 15 then List.replicate 6 (List.replicate 4 10)
      else cell_average_table env item c := by
    unfold cell_light_table cell_light cell_average_table
    exact cell_occlusion_light _ _ _ _ _ _
  have hyes : cell_light env item c = 15 →
      cell_light_table env item c = List.replicate 6 (List.replicate 4 10) := by
    intro h
    rw [htab, if_pos h]
  have hnot : cell_light env item c ≠ 15 →
      cell_light_table env item c = cell_average_table env item c := by
    intro h
    rw [htab, if_neg h]
  refine ⟨hyes, hnot, ?_, ?_, ?_⟩
  · unfold cell_average_table
    exact average_table_bounds _ _ _ _ (item_light_bounds env item hle)
  · intro hs he
    have h15 : cell_light env item c = 15 := by
      unfold cell_light item_light
      rw [flood_emitters, if_pos (has_light_of_emitter env _ _ hs he)]
      refine fold_reach (item_opacity env item) (Y_SIZE env) (grid_origin item.p)
        (grid_origin item.q) (emitters item.light_maps) grid_zero hle (fun _ => le_refl _)
        (fun _ => by unfold grid_zero; decide) (c.1, c.2.1, c.2.2.1, 15) he rfl ?_ hy
      unfold not_pruned
      unfold XZ_LO XZ_HI CHUNK_SIZE at *
      simp only
      omega
    exact ⟨h15, hyes h15⟩
  · intro hno
    have h14 : cell_light env item c ≤ 14 := by
      unfold cell_light item_light
      rw [flood_emitters]
      split
      · refine fold_cap (item_opacity env item) (Y_SIZE env) (grid_origin item.p)
          (grid_origin item.q) _ _ _ ?_ ?_ (emitters item.light_maps) grid_zero hle ?_ ?_
        · unfold XZ_LO XZ_HI CHUNK_SIZE at hx
          unfold XZ_SIZE CHUNK_SIZE
          omega
        · unfold XZ_LO XZ_HI CHUNK_SIZE at hz
          unfold XZ_SIZE CHUNK_SIZE
          omega
        · intro e he hw heq
          apply hno e he hw
          simp only [Prod.mk.injEq] at heq ⊢
          omega
        · exact ⟨fun _ => by unfold grid_zero; decide, by unfold grid_zero; decide⟩
      · unfold grid_zero
        decide
    exact ⟨h14, hnot (by omega)⟩

theorem emitter_override_witness :
    (∀ e ∈ emitters (emitter_item 15).light_maps, e.2.2.2 ≤ 15) ∧
    env0.SHOW_LIGHTS = true ∧
    ((0 : Int), (5 : Int), (0 : Int), (15 : Int)) ∈ emitters (emitter_item 15).light_maps ∧
    cell_light env0 (emitter_item 15) (0, 5, 0, 1) = 15 ∧
    cell_light_table env0 (emitter_item 15) (0, 5, 0, 1) =
      List.replicate 6 (List.replicate 4 10) :=
  ⟨by decide, rfl, by decide,
    (emitter_override env0 (emitter_item 15) (0, 5, 0, 1) (by decide) (by decide) (by decide)
      (by decide)).2.2.2.1 rfl (by decide)⟩

end Craft
